import Mathlib

/-!
# ArgParseConvert: parameter registry and argument scanner

A shallow embedding of `ParameterMap` (include/parameter_map.h, src/parameter_map.cc) and of the
parameter descriptors (include/parameter.h, src/parameter.cc), followed by theorems about
registration and about `ParameterMap::parse`.

Conventions of the embedding.
* `std::string` is `String`; one `Char` stands for one C++ `char`.
* `std::vector<T>` is `List T`; `v.at(i)` is the lookup `v[i]?`, and `none` raises `out_of_range`.
* `std::unordered_map<std::string, size_t>` and `std::map<int, size_t>` are association lists;
  the latter is kept sorted by key, so that iteration is iteration of the list.
* `std::unordered_set<size_t>` is a duplicate-free list in insertion order.  The C++ standard
  leaves the iteration order of an unordered set open; no theorem below depends on it.
* A member function that mutates `*this` and may throw returns an `Outcome`: the state of the
  object together with either the returned value or the exception that left the function.
* `int` is `Int`; the conversion of an `int` to `size_t` in a mixed comparison is `to_size_t`.
* `operator_call` is the registration as it is written: the range of its duplicate check is a
  reference to a destroyed temporary, and what the check reads is an argument of the model.
  `registerAll` generates the registries over which the scan is specified, those with unique
  names: in it every duplicate check sees the names of its parameter
  (`operator_call_documented`).
-/

namespace ArgParseConvert

/-! ## Exceptions and outcomes -/

/-- The exception types of include/exceptions.h, together with the two faults that the code can
run into: `out_of_range` (thrown by `vector::at`) and `undefined_behavior` (an unchecked
`operator[]` outside the bounds of a vector, the overflow of a signed addition, a faulting
read through a reference to a destroyed object). -/
inductive Exception where
  | DuplicateParameterName
  | InvalidFlagConversion
  | InvalidFormattingParameters
  | MismatchedParameterType
  | NoFlagWithName
  | UnfilledParameter
  | UnkownFlagOrKeyword
  | UnknownParameterName
  | UnexpectedCase
  | out_of_range
  | undefined_behavior
  deriving DecidableEq, Repr

/-- Result of running a member function on an object of type `σ`: the object afterwards, and the
value returned or the exception thrown. -/
inductive Outcome (σ : Type) (α : Type) where
  | returned (state : σ) (value : α)
  | thrown (state : σ) (e : Exception)
  deriving DecidableEq, Repr

/-- The object as the call left it. -/
def Outcome.state {σ α : Type} : Outcome σ α → σ
  | .returned s _ => s
  | .thrown s _ => s

/-- The returned value, if the call returned. -/
def Outcome.value? {σ α : Type} : Outcome σ α → Option α
  | .returned _ v => some v
  | .thrown _ _ => none

/-- The exception, if the call threw. -/
def Outcome.exception? {σ α : Type} : Outcome σ α → Option Exception
  | .returned _ _ => none
  | .thrown _ e => some e

/-! ## Containers -/

/-- Lookup in a map kept as an association list: the value of the first entry with key `k`. -/
def map_find {κ : Type} [DecidableEq κ] : List (κ × Nat) → κ → Option Nat
  | [], _ => none
  | (k', v) :: rest, k => if k' = k then some v else map_find rest k

/-- Member `count(k)` of a map: 1 if the key is present and 0 otherwise, as a boolean. -/
def map_count {κ : Type} [DecidableEq κ] (m : List (κ × Nat)) (k : κ) : Bool :=
  (map_find m k).isSome

/-- Member `insert` of `std::unordered_map<std::string, size_t>`: a key that is present keeps its
old value. -/
def unordered_map_insert (m : List (String × Nat)) (k : String) (v : Nat) : List (String × Nat) :=
  if map_count m k then m else m ++ [(k, v)]

/-- Member `insert` of `std::map<int, size_t>`: the entries stay sorted by key, and a key that is
present keeps its old value. -/
def map_insert : List (Int × Nat) → Int → Nat → List (Int × Nat)
  | [], k, v => [(k, v)]
  | (k', v') :: rest, k, v =>
    if k < k' then (k, v) :: (k', v') :: rest
    else if k = k' then (k', v') :: rest
    else (k', v') :: map_insert rest k v

/-- Member `insert` of `std::unordered_set<size_t>`. -/
def unordered_set_insert (s : List Nat) (x : Nat) : List Nat :=
  if x ∈ s then s else s ++ [x]

/-- Member `count` of `std::unordered_set<size_t>`, as a boolean. -/
def unordered_set_count (s : List Nat) (x : Nat) : Bool :=
  decide (x ∈ s)

/-- Member `find` of `std::unordered_set<size_t>`: `none` is the iterator `end()`. -/
def unordered_set_find (s : List Nat) (x : Nat) : Option Nat :=
  if x ∈ s then some x else none

/-- Conversion of an `int` to the 64-bit `size_t` in a comparison of mixed signedness. -/
def to_size_t (i : Int) : Nat :=
  (i % 2 ^ 64).toNat

/-! ## Parameter descriptors (include/parameter.h, src/parameter.cc) -/

/-- The three parameter categories. -/
inductive ParameterCategory where
  | kPositionalParameter
  | kKeywordParameter
  | kFlag
  deriving DecidableEq, Repr

/-- Class `ParameterConfiguration` with the default member initialisers of the header; a
value-initialised `position_` is 0. -/
structure ParameterConfiguration where
  names_ : List String
  category_ : ParameterCategory
  default_arguments_ : List String := []
  position_ : Int := 0
  min_num_arguments_ : Int := 0
  max_num_arguments_ : Int := 1
  description_ : String := ""
  argument_placeholder_ : String := "<ARG>"
  deriving DecidableEq, Repr

/-- Factory `ParameterConfiguration::Create(names, category)`. -/
def ParameterConfiguration.Create (names : List String) (category : ParameterCategory) :
    ParameterConfiguration :=
  { names_ := names, category_ := category }

/-- Factory `ParameterConfiguration::Create(names, category, position)`. -/
def ParameterConfiguration.CreateAt (names : List String) (category : ParameterCategory)
    (position : Int) : ParameterConfiguration :=
  { ParameterConfiguration.Create names category with position_ := position }

/-- A converted value.  The result type of a conversion function is arbitrary in the C++ code;
here the values of all result types live in one carrier. -/
inductive Value where
  | bool (b : Bool)
  | int (i : Int)
  | str (s : String)
  deriving DecidableEq, Repr

/-- A `std::any` holding a `std::function<T(const std::string&)>`: `type_id` stands for the type
`T` it was stored with, `fn` is the function. -/
structure AnyConverter where
  type_id : Nat
  fn : String → Value

/-- Class `Parameter<ParameterType>`: a configuration and a converter. -/
structure Parameter where
  configuration_ : ParameterConfiguration
  converter_ : AnyConverter

/-- Accessor `Parameter::configuration()`. -/
def Parameter.configuration (p : Parameter) : ParameterConfiguration := p.configuration_

/-- Accessor `Parameter::converter()`. -/
def Parameter.converter (p : Parameter) : AnyConverter := p.converter_

/-- Factory `Parameter<T>::Positional(names, position, converter)`. -/
def Parameter.Positional (names : List String) (position : Int) (converter : AnyConverter) :
    Parameter :=
  { configuration_ :=
      ParameterConfiguration.CreateAt names ParameterCategory.kPositionalParameter position,
    converter_ := converter }

/-- Factory `Parameter<T>::Keyword(names, converter)`. -/
def Parameter.Keyword (names : List String) (converter : AnyConverter) : Parameter :=
  { configuration_ := ParameterConfiguration.Create names ParameterCategory.kKeywordParameter,
    converter_ := converter }

/-- Factory `Parameter<T>::Flag(names)`; the converter of a flag is the library's
`FlagConverter`, passed in here. -/
def Parameter.Flag (names : List String) (flag_converter : AnyConverter) : Parameter :=
  { configuration_ := ParameterConfiguration.Create names ParameterCategory.kFlag,
    converter_ := flag_converter }

/-- Factory `Parameter<T>::Flag(char c)`: the flag named `-c`. -/
def Parameter.FlagChar (c : Char) (flag_converter : AnyConverter) : Parameter :=
  Parameter.Flag [String.mk ['-', c]] flag_converter

/-- Refiner `Parameter::AddDefault`. -/
def Parameter.AddDefault (p : Parameter) (argument : String) : Parameter :=
  { p with configuration_ :=
      { p.configuration_ with
        default_arguments_ := p.configuration_.default_arguments_ ++ [argument] } }

/-- Refiner `Parameter::SetDefault`. -/
def Parameter.SetDefault (p : Parameter) (default_arguments : List String) : Parameter :=
  { p with configuration_ := { p.configuration_ with default_arguments_ := default_arguments } }

/-- Refiner `Parameter::MinArgs`. -/
def Parameter.MinArgs (p : Parameter) (min : Int) : Parameter :=
  let c := { p.configuration_ with min_num_arguments_ := min }
  if c.max_num_arguments_ > 0 ∧ c.max_num_arguments_ < min then
    { p with configuration_ := { c with max_num_arguments_ := min } }
  else
    { p with configuration_ := c }

/-- Refiner `Parameter::MaxArgs`. -/
def Parameter.MaxArgs (p : Parameter) (max : Int) : Parameter :=
  { p with configuration_ := { p.configuration_ with max_num_arguments_ := max } }

/-- Refiner `Parameter::Description`. -/
def Parameter.Description (p : Parameter) (description : String) : Parameter :=
  { p with configuration_ := { p.configuration_ with description_ := description } }

/-- Refiner `Parameter::ArgPlaceholder`. -/
def Parameter.ArgPlaceholder (p : Parameter) (placeholder : String) : Parameter :=
  { p with configuration_ := { p.configuration_ with argument_placeholder_ := placeholder } }

/-! ## The registry (include/parameter_map.h) -/

/-- Data members of class `HelpStringFormat` (include/help_string_format.h). -/
structure HelpStringFormat where
  width_ : Int
  parameter_indentation_ : Int
  description_indentation_ : Int
  header_ : String
  footer_ : String
  deriving DecidableEq, Repr

/-- Mutator `HelpStringFormat::header(value)`. -/
def HelpStringFormat.header (f : HelpStringFormat) (value : String) : HelpStringFormat :=
  { f with header_ := value }

/-- Mutator `HelpStringFormat::footer(value)`. -/
def HelpStringFormat.footer (f : HelpStringFormat) (value : String) : HelpStringFormat :=
  { f with footer_ := value }

/-- Private member `HelpStringFormat::TestParameters(w, name_indent, descr_indent)`; it reads no
data member.  The three arguments are `int`.  After the first test all three are non-negative;
the sums `name_indent + 1` and `descr_indent + 1` are computed in `int`, so at the largest `int`
the addition overflows, which is undefined.  The right operand of `||` is evaluated only when
the left one is false. -/
def HelpStringFormat.TestParameters (w name_indent descr_indent : Int) : Except Exception Unit :=
  if w < 0 ∨ name_indent < 0 ∨ descr_indent < 0 then .error .InvalidFormattingParameters
  else if name_indent + 1 ≥ 2 ^ 31 then .error .undefined_behavior
  else if name_indent + 1 ≥ w then .error .InvalidFormattingParameters
  else if descr_indent + 1 ≥ 2 ^ 31 then .error .undefined_behavior
  else if descr_indent + 1 ≥ w then .error .InvalidFormattingParameters
  else .ok ()

/-- Mutator `HelpStringFormat::Set(w, name_indent, descr_indent)`: the test comes first, a throw
leaves the object as it is. -/
def HelpStringFormat.Set (f : HelpStringFormat) (w name_indent descr_indent : Int) :
    Outcome HelpStringFormat Unit :=
  match HelpStringFormat.TestParameters w name_indent descr_indent with
  | .error e => .thrown f e
  | .ok _ =>
    .returned
      { f with
        width_ := w, parameter_indentation_ := name_indent,
        description_indentation_ := descr_indent } ()

/-- Struct `InvalidArguments`. -/
structure InvalidArguments where
  additional_arguments : List String := []
  unfilled_parameters : List String := []
  deriving DecidableEq, Repr

/-- Data members of class `ParameterMap`. -/
structure ParameterMap where
  name_to_id_ : List (String × Nat)
  parameter_configurations_ : List ParameterConfiguration
  converters_ : List AnyConverter
  arguments_ : List (List String)
  positional_parameters_ : List (Int × Nat)
  keyword_parameters_ : List Nat
  flags_ : List Nat
  help_string_format_ : HelpStringFormat

/-- Constructor `ParameterMap(HelpStringFormat format)`: every container starts empty. -/
def ParameterMap.init (format : HelpStringFormat) : ParameterMap :=
  { name_to_id_ := [], parameter_configurations_ := [], converters_ := [], arguments_ := [],
    positional_parameters_ := [], keyword_parameters_ := [], flags_ := [],
    help_string_format_ := format }

/-- Mutator `ParameterMap::SetHelpStringHeader(header)`. -/
def ParameterMap.SetHelpStringHeader (m : ParameterMap) (header : String) : ParameterMap :=
  { m with help_string_format_ := m.help_string_format_.header header }

/-- Mutator `ParameterMap::SetHelpStringFooter(footer)`; the body is
`help_string_format_.header(footer);`. -/
def ParameterMap.SetHelpStringFooter (m : ParameterMap) (footer : String) : ParameterMap :=
  { m with help_string_format_ := m.help_string_format_.header footer }

/-- Private member `GetId`. -/
def ParameterMap.GetId (m : ParameterMap) (name : String) : Except Exception Nat :=
  match map_find m.name_to_id_ name with
  | some id => .ok id
  | none => .error .UnknownParameterName

/-- Private member `AddParameterToCategory`.  The `default:` case of the switch, which throws
`UnexpectedCase`, is for values outside the enumeration and has no counterpart here. -/
def ParameterMap.AddParameterToCategory (m : ParameterMap) (id : Nat)
    (category : ParameterCategory) (position : Int) : ParameterMap :=
  match category with
  | .kPositionalParameter =>
    { m with positional_parameters_ := map_insert m.positional_parameters_ position id }
  | .kKeywordParameter =>
    { m with keyword_parameters_ := unordered_set_insert m.keyword_parameters_ id }
  | .kFlag => { m with flags_ := unordered_set_insert m.flags_ id }

/-- Registration, `ParameterMap::operator()(Parameter<ParameterType> parameter)`.

The first loop is `for (const std::string& name : parameter.configuration().names())`.
`configuration()` returns the configuration by value and `names()` returns a reference into
it, so the range of the loop is a reference into a temporary object that is destroyed before
the first iteration: what the loop reads is undefined.  The argument `range` stands for the
outcome of that read: `none` when it faults, `some seen` when the loop runs over the strings
`seen`, which need not be the names of the parameter.  The loop throws on the first string
it sees that is already present, before anything is modified.

The second loop calls `configuration().names()` anew at every access and uses the result
within the same expression, so it reads the names themselves: every name is inserted with
the new identifier (`insert` keeps an entry that is already present), then the configuration
and the converter are appended and the identifier is filed under its category. -/
def ParameterMap.operator_call (m : ParameterMap) (parameter : Parameter)
    (range : Option (List String)) : Outcome ParameterMap Unit :=
  let id := m.parameter_configurations_.length
  match range with
  | none => .thrown m .undefined_behavior
  | some seen =>
    if seen.any (fun name => map_count m.name_to_id_ name) then
      .thrown m .DuplicateParameterName
    else
      let m1 := { m with
        name_to_id_ :=
          parameter.configuration.names_.foldl (fun acc name => unordered_map_insert acc name id)
            m.name_to_id_ }
      let m2 := { m1 with
        parameter_configurations_ := m1.parameter_configurations_ ++ [parameter.configuration] }
      let m3 := { m2 with converters_ := m2.converters_ ++ [parameter.converter] }
      .returned
        (m3.AddParameterToCategory id parameter.configuration.category_
          parameter.configuration.position_) ()

/-- Registration as the documentation of `operator()` describes it ("Throws exception of type
`exceptions::DuplicateParameterName` if a parameter of the same name was already
registered"): `operator_call` with the range of the first loop intact, so that the loop sees
the names of the parameter, all of them. -/
def ParameterMap.operator_call_documented (m : ParameterMap) (parameter : Parameter) :
    Outcome ParameterMap Unit :=
  m.operator_call parameter (some parameter.configuration.names_)

/-- A sequence of registration attempts in which every duplicate check sees the names of its
parameter (`operator_call_documented`), each applied to the registry the previous one left.
These are the registries with unique names, over which the scan is specified. -/
def ParameterMap.registerAll (m : ParameterMap) (ps : List Parameter) : ParameterMap :=
  ps.foldl (fun acc p => (acc.operator_call_documented p).state) m

/-- The attempts of such a sequence of registrations that returned, in order. -/
def ParameterMap.accepted (m : ParameterMap) : List Parameter → List Parameter
  | [] => []
  | p :: ps =>
    match m.operator_call_documented p with
    | .returned m' _ => p :: ParameterMap.accepted m' ps
    | .thrown m' _ => ParameterMap.accepted m' ps

/-- Private member `AddArgument`: appends, then reports whether the maximum is reached. -/
def ParameterMap.AddArgument (m : ParameterMap) (id : Nat) (argument : String) :
    Outcome ParameterMap Bool :=
  match m.arguments_[id]? with
  | none => .thrown m .out_of_range
  | some args =>
    let m' := { m with arguments_ := m.arguments_.set id (args ++ [argument]) }
    match m.parameter_configurations_[id]? with
    | none => .thrown m' .out_of_range
    | some cfg =>
      .returned m'
        (decide (cfg.max_num_arguments_ > 0)
          && decide ((args ++ [argument]).length = to_size_t cfg.max_num_arguments_))

/-- Private member `SetFlag`. -/
def ParameterMap.SetFlag (m : ParameterMap) (id : Nat) : Outcome ParameterMap Unit :=
  match m.arguments_[id]? with
  | none => .thrown m .out_of_range
  | some args => .returned { m with arguments_ := m.arguments_.set id (args ++ ["true"]) } ()

/-- Private member `SetDefaultArgumentsIfNeeded`. -/
def ParameterMap.SetDefaultArgumentsIfNeeded (m : ParameterMap) (id : Nat) :
    Outcome ParameterMap Unit :=
  match m.arguments_[id]? with
  | none => .thrown m .out_of_range
  | some args =>
    if args.length = 0 then
      match m.parameter_configurations_[id]? with
      | none => .thrown m .out_of_range
      | some cfg =>
        if cfg.default_arguments_.length > 0 then
          .returned { m with arguments_ := m.arguments_.set id cfg.default_arguments_ } ()
        else .returned m ()
    else .returned m ()

/-- Private member `IsUnfilled`: the `int` minimum is converted to `size_t` for the comparison. -/
def ParameterMap.IsUnfilled (m : ParameterMap) (id : Nat) : Except Exception Bool :=
  match m.arguments_[id]?, m.parameter_configurations_[id]? with
  | some args, some cfg => .ok (decide (args.length < to_size_t cfg.min_num_arguments_))
  | _, _ => .error .out_of_range

/-! ## The scanner (src/parameter_map.cc) -/

/-- The object and the local variables of `ParameterMap::parse` that live across iterations of
its first loop.  `current_positional_it` is an index into `positional_parameters_`, its length
standing for `end()`; `current_keyword_it` is `none` for `keyword_parameters_.end()`. -/
structure ParseState where
  self : ParameterMap
  invalid_arguments : InvalidArguments
  current_positional_it : Nat
  current_keyword_it : Option Nat

/-- The inner loop of the third branch: one step per character after the leading `-`. -/
def parseFlagList (m : ParameterMap) : List Char → Outcome ParameterMap Unit
  | [] => .returned m ()
  | c :: cs =>
    match map_find m.name_to_id_ (String.mk ['-', c]) with
    | some id =>
      match m.SetFlag id with
      | .returned m' _ => parseFlagList m' cs
      | .thrown m' e => .thrown m' e
    | none => .thrown m .UnkownFlagOrKeyword

/-- First branch of the loop body: `argument` is a keyword of the keyword parameter `id`. -/
def parseKeyword (s : ParseState) (id : Nat) : Outcome ParseState Unit :=
  let s1 := { s with current_keyword_it := unordered_set_find s.self.keyword_parameters_ id }
  match s.self.positional_parameters_[s.current_positional_it]? with
  | none => .returned s1 ()
  | some (_, pid) =>
    match s.self.arguments_[pid]? with
    | none => .thrown s1 .out_of_range
    | some args =>
      if args.length > 0 then
        .returned { s1 with current_positional_it := s.current_positional_it + 1 } ()
      else .returned s1 ()

/-- Second branch of the loop body: `argument` is a name of the flag `id`. -/
def parseFlag (s : ParseState) (id : Nat) : Outcome ParseState Unit :=
  let s1 := { s with current_keyword_it := none }
  match s.self.SetFlag id with
  | .returned m' _ => .returned { s1 with self := m' } ()
  | .thrown m' e => .thrown { s1 with self := m' } e

/-- Third branch of the loop body: `argument[0] == '-'`. -/
def parseDash (s : ParseState) (argument : String) : Outcome ParseState Unit :=
  let s1 := { s with current_keyword_it := none }
  match parseFlagList s.self (argument.data.drop 1) with
  | .returned m' _ => .returned { s1 with self := m' } ()
  | .thrown m' e => .thrown { s1 with self := m' } e

/-- Last branch of the loop body: `argument` is a plain value. -/
def parseValue (s : ParseState) (argument : String) : Outcome ParseState Unit :=
  match s.current_keyword_it with
  | some id =>
    match s.self.AddArgument id argument with
    | .returned m' true => .returned { s with self := m', current_keyword_it := none } ()
    | .returned m' false => .returned { s with self := m' } ()
    | .thrown m' e => .thrown { s with self := m' } e
  | none =>
    match s.self.positional_parameters_[s.current_positional_it]? with
    | some (_, id) =>
      match s.self.AddArgument id argument with
      | .returned m' true =>
        .returned { s with self := m', current_positional_it := s.current_positional_it + 1 } ()
      | .returned m' false => .returned { s with self := m' } ()
      | .thrown m' e => .thrown { s with self := m' } e
    | none =>
      .returned { s with invalid_arguments :=
        { s.invalid_arguments with
          additional_arguments := s.invalid_arguments.additional_arguments ++ [argument] } } ()

/-- Body of the first loop of `parse` for one `argument`.  The two tests
`name_to_id_.count(argument) && S.count(GetId(argument))` look the name up once here: when the
name is absent the conjunction is false before `GetId` is called. -/
def parseArgument (s : ParseState) (argument : String) : Outcome ParseState Unit :=
  match map_find s.self.name_to_id_ argument with
  | some id =>
    if unordered_set_count s.self.keyword_parameters_ id then parseKeyword s id
    else if unordered_set_count s.self.flags_ id then parseFlag s id
    else if argument.data.head? = some '-' then parseDash s argument
    else parseValue s argument
  | none =>
    if argument.data.head? = some '-' then parseDash s argument
    else parseValue s argument

/-- The first loop of `parse` over the arguments that are left. -/
def parseLoop (s : ParseState) : List String → Outcome ParseState Unit
  | [] => .returned s ()
  | argument :: rest =>
    match parseArgument s argument with
    | .returned s' _ => parseLoop s' rest
    | .thrown s' e => .thrown s' e

/-- The body shared by the second and third loop of `parse`, run over a list of identifiers:
substitute the defaults, then report the primary name `names()[0]` of an unfilled parameter. -/
def parseReport (m : ParameterMap) (inv : InvalidArguments) :
    List Nat → Outcome ParameterMap InvalidArguments
  | [] => .returned m inv
  | id :: ids =>
    match m.SetDefaultArgumentsIfNeeded id with
    | .thrown m' e => .thrown m' e
    | .returned m' _ =>
      match m'.IsUnfilled id with
      | .error e => .thrown m' e
      | .ok false => parseReport m' inv ids
      | .ok true =>
        match m'.parameter_configurations_[id]? with
        | none => .thrown m' .out_of_range
        | some cfg =>
          match cfg.names_[0]? with
          | none => .thrown m' .undefined_behavior
          | some parameter_name =>
            parseReport m'
              { inv with unfilled_parameters := inv.unfilled_parameters ++ [parameter_name] } ids

/-- The state in which the first loop of `parse` starts: `arguments_` is cleared and resized to
one empty list per registered parameter, the positional iterator is `begin()` and the keyword
iterator is `end()`. -/
def parseStart (m : ParameterMap) : ParseState :=
  { self := { m with arguments_ := List.replicate m.parameter_configurations_.length [] },
    invalid_arguments := {},
    current_positional_it := 0,
    current_keyword_it := none }

/-- Member `ParameterMap::parse(argc, argv)`, with `argv` the list of all `argc` arguments; the
first loop starts at index 1. -/
def ParameterMap.parse (m : ParameterMap) (argv : List String) :
    Outcome ParameterMap InvalidArguments :=
  match parseLoop (parseStart m) (argv.drop 1) with
  | .thrown s e => .thrown s.self e
  | .returned s _ =>
    match parseReport s.self s.invalid_arguments (s.self.positional_parameters_.map Prod.snd) with
    | .thrown m' e => .thrown m' e
    | .returned m' inv => parseReport m' inv m'.keyword_parameters_


/-! ## Typed retrieval (include/parameter_map.h) -/

/-- The cast `std::any_cast<std::function<T(const std::string&)>>` of a stored converter: it
succeeds exactly when `T` is the type the converter was stored with; `none` stands for
`std::bad_any_cast`. -/
def any_cast (c : AnyConverter) (T : Nat) : Option (String → Value) :=
  if c.type_id = T then some c.fn else none

/-- Member `ParameterMap::convert<ParameterType>(name)`, with `T` standing for `ParameterType`.
The function is `const`: it returns a value or throws, and leaves the object as it is. -/
def ParameterMap.convert (m : ParameterMap) (T : Nat) (name : String) :
    Except Exception Value :=
  match m.GetId name with
  | .error e => .error e
  | .ok id =>
    if unordered_set_count m.flags_ id then .error .InvalidFlagConversion
    else
      match m.converters_[id]? with
      | none => .error .out_of_range
      | some c =>
        match any_cast c T with
        | none => .error .MismatchedParameterType
        | some converter =>
          match m.arguments_[id]? with
          | none => .error .out_of_range
          | some args =>
            if args.length ≤ 0 then .error .UnfilledParameter
            else
              match args[0]? with
              | some argument => .ok (converter argument)
              | none => .error .undefined_behavior

/-- Member `ParameterMap::convert_all<ParameterType>(name)`. -/
def ParameterMap.convert_all (m : ParameterMap) (T : Nat) (name : String) :
    Except Exception (List Value) :=
  match m.GetId name with
  | .error e => .error e
  | .ok id =>
    if unordered_set_count m.flags_ id then .error .InvalidFlagConversion
    else
      match m.converters_[id]? with
      | none => .error .out_of_range
      | some c =>
        match any_cast c T with
        | none => .error .MismatchedParameterType
        | some converter =>
          match m.arguments_[id]? with
          | none => .error .out_of_range
          | some args => .ok (args.map converter)

/-- Member `ParameterMap::IsSet(const std::string& name)`. -/
def ParameterMap.IsSet (m : ParameterMap) (name : String) : Except Exception Bool :=
  match m.GetId name with
  | .error e => .error e
  | .ok id =>
    match m.parameter_configurations_[id]? with
    | none => .error .out_of_range
    | some cfg =>
      if cfg.category_ ≠ ParameterCategory.kFlag then .error .NoFlagWithName
      else
        match m.arguments_[id]? with
        | none => .error .out_of_range
        | some args => .ok (decide (args.length > 0))

/-- Member `ParameterMap::IsSet(char c)`: the name is `-c`. -/
def ParameterMap.IsSetChar (m : ParameterMap) (c : Char) : Except Exception Bool :=
  m.IsSet (String.mk ['-', c])

/-- Member `ParameterMap::HasArgument(name)`: `GetId` may throw, the access to `arguments_`
is guarded by the test against its size. -/
def ParameterMap.HasArgument (m : ParameterMap) (name : String) : Except Exception Bool :=
  match m.GetId name with
  | .error e => .error e
  | .ok id =>
    if id < m.arguments_.length then
      match m.arguments_[id]? with
      | none => .error .out_of_range
      | some args => .ok (decide (args.length > 0))
    else .ok false

/-! ## Well-formed registries -/

/-- The descriptor registered under identifier `id`, if there is one. -/
def ParameterMap.descriptor? (m : ParameterMap) (id : Nat) : Option ParameterConfiguration :=
  m.parameter_configurations_[id]?

/-- The invariant that registration maintains: the name map sends exactly the names of
descriptor `id` to `id`; there is one converter per descriptor; the keyword set and the flag set
hold exactly the identifiers of their category; the positional index is strictly sorted by
position, each of its entries is a positional descriptor filed under its own position, every
position of a positional descriptor is taken by an entry, and that entry is the descriptor
registered first with this position. -/
structure WellFormed (m : ParameterMap) : Prop where
  names : ∀ name id, map_find m.name_to_id_ name = some id ↔
    ∃ cfg, m.descriptor? id = some cfg ∧ name ∈ cfg.names_
  converters : m.converters_.length = m.parameter_configurations_.length
  keywords : ∀ id, id ∈ m.keyword_parameters_ ↔
    ∃ cfg, m.descriptor? id = some cfg ∧ cfg.category_ = ParameterCategory.kKeywordParameter
  flags : ∀ id, id ∈ m.flags_ ↔
    ∃ cfg, m.descriptor? id = some cfg ∧ cfg.category_ = ParameterCategory.kFlag
  positionals : ∀ pos id, (pos, id) ∈ m.positional_parameters_ →
    ∃ cfg, m.descriptor? id = some cfg ∧
      cfg.category_ = ParameterCategory.kPositionalParameter ∧ cfg.position_ = pos
  positions_sorted : (m.positional_parameters_.map Prod.fst).Pairwise (· < ·)
  positions_taken : ∀ id cfg, m.descriptor? id = some cfg →
    cfg.category_ = ParameterCategory.kPositionalParameter →
    ∃ id', (cfg.position_, id') ∈ m.positional_parameters_
  positions_first : ∀ id id' cfg, (cfg.position_, id) ∈ m.positional_parameters_ →
    m.descriptor? id' = some cfg →
    cfg.category_ = ParameterCategory.kPositionalParameter → id ≤ id'

/-! ## Vocabulary for statements about the scanner -/

/-- The token `t` is a name of a registered keyword parameter. -/
def IsKeywordName (m : ParameterMap) (t : String) : Prop :=
  ∃ cfg ∈ m.parameter_configurations_,
    cfg.category_ = ParameterCategory.kKeywordParameter ∧ t ∈ cfg.names_

/-- The token `t` is a name of a registered flag. -/
def IsFlagName (m : ParameterMap) (t : String) : Prop :=
  ∃ cfg ∈ m.parameter_configurations_, cfg.category_ = ParameterCategory.kFlag ∧ t ∈ cfg.names_

/-- The token `t` is a name of some registered parameter, of whatever category. -/
def IsRegisteredName (m : ParameterMap) (t : String) : Prop :=
  ∃ cfg ∈ m.parameter_configurations_, t ∈ cfg.names_

/-- The token `t` begins with the character `-`. -/
def BeginsWithDash (t : String) : Prop :=
  t.data.head? = some '-'

/-- A plain value: neither a keyword name nor a flag name, and not beginning with `-`. -/
def IsPlain (m : ParameterMap) (t : String) : Prop :=
  ¬ IsKeywordName m t ∧ ¬ IsFlagName m t ∧ ¬ BeginsWithDash t

instance (m : ParameterMap) (t : String) : Decidable (IsKeywordName m t) := by
  unfold IsKeywordName; infer_instance

instance (m : ParameterMap) (t : String) : Decidable (IsFlagName m t) := by
  unfold IsFlagName; infer_instance

instance (m : ParameterMap) (t : String) : Decidable (IsRegisteredName m t) := by
  unfold IsRegisteredName; infer_instance

instance (t : String) : Decidable (BeginsWithDash t) := by
  unfold BeginsWithDash; infer_instance

instance (m : ParameterMap) (t : String) : Decidable (IsPlain m t) := by
  unfold IsPlain; infer_instance

/-- The collected list of parameter `id`; empty when there is none. -/
def ParameterMap.collected (m : ParameterMap) (id : Nat) : List String :=
  (m.arguments_[id]?).getD []

/-- Registry `m'` is registry `m` with possibly different collected arguments. -/
def SameRegistry (m m' : ParameterMap) : Prop :=
  m'.name_to_id_ = m.name_to_id_ ∧
  m'.parameter_configurations_ = m.parameter_configurations_ ∧
  m'.converters_ = m.converters_ ∧
  m'.positional_parameters_ = m.positional_parameters_ ∧
  m'.keyword_parameters_ = m.keyword_parameters_ ∧
  m'.flags_ = m.flags_ ∧
  m'.help_string_format_ = m.help_string_format_

/-- What holds of the state of the first loop of `parse` on registry `m` at every iteration: the
registry is `m` up to the collected arguments, there is one collected list per descriptor, and
an open keyword is a registered keyword. -/
structure ScanInv (m : ParameterMap) (s : ParseState) : Prop where
  same : SameRegistry m s.self
  size : s.self.arguments_.length = m.parameter_configurations_.length
  keyword : ∀ k, s.current_keyword_it = some k → k ∈ m.keyword_parameters_

/-- The token `-c` is a name of the parameter with identifier `id`. -/
def namesParameter (m : ParameterMap) (id : Nat) (c : Char) : Bool :=
  match m.descriptor? id with
  | some cfg => decide (String.mk ['-', c] ∈ cfg.names_)
  | none => false

/-- The value `AddArgument` returns when the list of a parameter configured by `cfg` has become
`l`: the maximum is bounded and the size is equal to it. -/
def reached_maximum (cfg : ParameterConfiguration) (l : List String) : Bool :=
  decide (cfg.max_num_arguments_ > 0) && decide (l.length = to_size_t cfg.max_num_arguments_)

/-- What holds of the state of the scan on registry `m` after the plain tokens `seen`, as long as
no keyword or flag has occurred: no keyword is open; the lists of the positional parameters,
taken in the order of the positional index and followed by `additional_arguments`, make up
`seen`; the positionals after the cursor are empty, those before it hold their maximum, the one
under it is below its maximum; and nothing is in `additional_arguments` while a positional is
under the cursor. -/
structure FillInv (m : ParameterMap) (s : ParseState) (seen : List String) : Prop where
  closed : s.current_keyword_it = none
  seen_eq : (m.positional_parameters_.map (fun e => s.self.collected e.2)).flatten ++
    s.invalid_arguments.additional_arguments = seen
  later_empty : ∀ j e, s.current_positional_it < j → m.positional_parameters_[j]? = some e →
    s.self.collected e.2 = []
  current_short : ∀ e cfg, m.positional_parameters_[s.current_positional_it]? = some e →
    m.descriptor? e.2 = some cfg →
    ((s.self.collected e.2).length : Int) < cfg.max_num_arguments_
  earlier_full : ∀ j e cfg, j < s.current_positional_it →
    m.positional_parameters_[j]? = some e → m.descriptor? e.2 = some cfg →
    ((s.self.collected e.2).length : Int) = cfg.max_num_arguments_
  no_additional : s.current_positional_it < m.positional_parameters_.length →
    s.invalid_arguments.additional_arguments = []

/-- No two positional descriptors of the registry have the same position. -/
def DistinctPositions (m : ParameterMap) : Prop :=
  m.parameter_configurations_.Pairwise (fun a b =>
    a.category_ = ParameterCategory.kPositionalParameter →
    b.category_ = ParameterCategory.kPositionalParameter → a.position_ ≠ b.position_)

instance (m : ParameterMap) : Decidable (DistinctPositions m) := by
  unfold DistinctPositions; infer_instance

/-- The longest run of plain tokens at the head of `ts`. -/
def plain_run (m : ParameterMap) (ts : List String) : List String :=
  ts.takeWhile (fun t => decide (IsPlain m t))

/-- The part of a run of values that a parameter configured by `cfg` takes: its first `max`
tokens when the maximum is above 0, all of it otherwise. -/
def keyword_share (cfg : ParameterConfiguration) (run : List String) : List String :=
  if 0 < cfg.max_num_arguments_ then run.take cfg.max_num_arguments_.toNat else run

/-- The token `t` is a name of a registered positional parameter. -/
def IsPositionalName (m : ParameterMap) (t : String) : Prop :=
  ∃ cfg ∈ m.parameter_configurations_,
    cfg.category_ = ParameterCategory.kPositionalParameter ∧ t ∈ cfg.names_

instance (m : ParameterMap) (t : String) : Decidable (IsPositionalName m t) := by
  unfold IsPositionalName; infer_instance

/-- The token `t` sets the flag configured by `cfg`: it is one of its names, or it is read as a
list of flags (it begins with `-` and is no keyword or flag name itself) and has after its first
character a character `c` such that `-c` is one of the names. -/
def SetsFlag (m : ParameterMap) (cfg : ParameterConfiguration) (t : String) : Prop :=
  t ∈ cfg.names_ ∨
    (BeginsWithDash t ∧ ¬ IsKeywordName m t ∧ ¬ IsFlagName m t ∧
      ∃ c ∈ t.data.drop 1, String.mk ['-', c] ∈ cfg.names_)

instance (m : ParameterMap) (cfg : ParameterConfiguration) (t : String) :
    Decidable (SetsFlag m cfg t) := by
  unfold SetsFlag; infer_instance

/-- Two states of the scan on registry `m` that differ at most in the list of the flag `id`,
which is non-empty in both: the iterators, the `InvalidArguments` and the lists of all other
parameters are the same. -/
structure FlagTwin (m : ParameterMap) (id : Nat) (s s' : ParseState) : Prop where
  left : ScanInv m s
  right : ScanInv m s'
  positional : s'.current_positional_it = s.current_positional_it
  keyword : s'.current_keyword_it = s.current_keyword_it
  invalid : s'.invalid_arguments = s.invalid_arguments
  others : ∀ j, j ≠ id → s'.self.collected j = s.self.collected j
  set_left : s.self.collected id ≠ []
  set_right : s'.self.collected id ≠ []

/-- The name `n` has the form `-c`: two characters, the first of them `-`. -/
def HasFlagForm (n : String) : Prop :=
  n.data.length = 2 ∧ n.data.head? = some '-'

instance (n : String) : Decidable (HasFlagForm n) := by
  unfold HasFlagForm; infer_instance

/-- How often the token `t` sets parameter `id` when it is read as a list of flags: the number
of characters `c` after its first such that `-c` is a name of `id`, if `t` begins with `-` and
is no keyword or flag name itself, and 0 otherwise. -/
def bundle_hits (m : ParameterMap) (id : Nat) (t : String) : Nat :=
  if BeginsWithDash t ∧ ¬ IsKeywordName m t ∧ ¬ IsFlagName m t then
    ((t.data.drop 1).filter (namesParameter m id)).length
  else 0

/-- The sum of the lengths of the collected lists in `mf` of all positional and keyword
parameters of the registry `m`. -/
def collected_count (m mf : ParameterMap) : Nat :=
  ((List.range m.parameter_configurations_.length).map (fun id =>
    match m.descriptor? id with
    | some cfg =>
      if cfg.category_ = ParameterCategory.kFlag then 0 else (mf.collected id).length
    | none => 0)).sum

/-- The name under which the reports of `parse` list parameter `id` as unfilled, given the
registry `mf` that `parse` leaves: the first name of its descriptor if its collected list is
shorter than the minimum (converted to `size_t`), and nothing otherwise. -/
def unfilled_name (mf : ParameterMap) (id : Nat) : Option String :=
  match mf.parameter_configurations_[id]? with
  | some cfg =>
    if (mf.collected id).length < to_size_t cfg.min_num_arguments_ then cfg.names_[0]? else none
  | none => none

/-! ## Sample registries, used to instantiate the theorems below -/

/-- A help format as the tests would set it up. -/
def sample_format : HelpStringFormat :=
  { width_ := 80, parameter_indentation_ := 4, description_indentation_ := 8,
    header_ := "", footer_ := "" }

/-- A converter that keeps the token. -/
def sample_converter : AnyConverter := { type_id := 1, fn := fun s => Value.str s }

/-- The converter of flags. -/
def sample_flag_converter : AnyConverter :=
  { type_id := 0, fn := fun s => Value.bool (decide (s = "true")) }

/-- Registration attempts: a flag, a positional with two names, a keyword whose name is taken
(rejected), a keyword with two names. -/
def sample_attempts : List Parameter :=
  [Parameter.FlagChar 'a' sample_flag_converter,
   Parameter.Positional ["BAZ", "baz"] 2 sample_converter,
   Parameter.Keyword ["--foo", "-a"] sample_converter,
   Parameter.Keyword ["--bar", "-b"] sample_converter]

/-- Later attempts: a flag whose second name is taken (rejected), and a fresh flag. -/
def sample_later_attempts : List Parameter :=
  [Parameter.Flag ["-z", "--bar"] sample_flag_converter,
   Parameter.FlagChar 'c' sample_flag_converter]

/-- A registry with one keyword parameter `--k` (maximum 1, the default of the header). -/
def sample_keyword_registry : ParameterMap :=
  (ParameterMap.init sample_format).registerAll [Parameter.Keyword ["--k"] sample_converter]

/-- A registry with the flag `-a` and a keyword parameter named `-k`. -/
def sample_dash_registry : ParameterMap :=
  (ParameterMap.init sample_format).registerAll
    [Parameter.FlagChar 'a' sample_flag_converter, Parameter.Keyword ["-k"] sample_converter]

/-- A registry with a positional parameter named `-p` (maximum 2) and a keyword `--k`. -/
def sample_forfeit_registry : ParameterMap :=
  (ParameterMap.init sample_format).registerAll
    [(Parameter.Positional ["-p"] 0 sample_converter).MaxArgs 2,
     Parameter.Keyword ["--k"] sample_converter]

/-- A registry with the flags `-a` and `-b`. -/
def sample_flag_registry : ParameterMap :=
  (ParameterMap.init sample_format).registerAll
    [Parameter.FlagChar 'a' sample_flag_converter, Parameter.FlagChar 'b' sample_flag_converter]

/-- A registry with the keyword `--bar` (two values), the flag `-a`, the positional parameters
`BAZ` at position 5 (one value) and `QUX` at position 2 (two values), and the keyword `--foo`
without a bound (maximum 0). -/
def sample_scan_attempts : List Parameter :=
  [((Parameter.Keyword ["--bar", "-b"] sample_converter).MinArgs 2).MaxArgs 2,
   Parameter.FlagChar 'a' sample_flag_converter,
   Parameter.Positional ["BAZ"] 5 sample_converter,
   (Parameter.Positional ["QUX"] 2 sample_converter).MaxArgs 2,
   (Parameter.Keyword ["--foo"] sample_converter).MaxArgs 0]

/-- The registry of `sample_scan_attempts`. -/
def sample_scan_registry : ParameterMap :=
  (ParameterMap.init sample_format).registerAll sample_scan_attempts

/-- The registry of the first scenario of the tests: the positional parameters `FOO` at
position 1, `BAR` at position 0 and `BAZ` at position 2, one value each. -/
def sample_positional_attempts : List Parameter :=
  [Parameter.Positional ["FOO"] 1 sample_converter,
   Parameter.Positional ["BAR"] 0 sample_converter,
   Parameter.Positional ["BAZ"] 2 sample_converter]

/-- A registry with the keyword `--k` of minimum `-1` and the positional parameter `P` of
minimum 1. -/
def sample_negative_minimum_registry : ParameterMap :=
  (ParameterMap.init sample_format).registerAll
    [(Parameter.Keyword ["--k"] sample_converter).MinArgs (-1),
     (Parameter.Positional ["P"] 0 sample_converter).MinArgs 1]

/-- Three parameters that each require one value: the keyword `--k` and the positional
parameters `B` at position 5 and `A` at position 2. -/
def sample_required_attempts : List Parameter :=
  [(Parameter.Keyword ["--k"] sample_converter).MinArgs 1,
   (Parameter.Positional ["B"] 5 sample_converter).MinArgs 1,
   (Parameter.Positional ["A"] 2 sample_converter).MinArgs 1]

/-- A flag configured with a default list and a minimum of 1. -/
def sample_default_flag : Parameter :=
  ((Parameter.Flag ["-v", "--verbose"] sample_flag_converter).SetDefault ["true"]).MinArgs 1

/-- The keyword `--k` with the default list `d`. -/
def sample_default_keyword : Parameter :=
  (Parameter.Keyword ["--k"] sample_converter).SetDefault ["d"]

/-- The flag `sample_default_flag` and the keyword `sample_default_keyword`. -/
def sample_default_attempts : List Parameter :=
  [sample_default_flag, sample_default_keyword]

/-- A registry with two positional parameters at position 0: `A`, and `B` with the default list
`d` and minimum 1. -/
def sample_duplicate_position_registry : ParameterMap :=
  (ParameterMap.init sample_format).registerAll
    [Parameter.Positional ["A"] 0 sample_converter,
     ((Parameter.Positional ["B"] 0 sample_converter).SetDefault ["d"]).MinArgs 1]

/-- A help format with header `usage` and footer `bye`. -/
def sample_titled_format : HelpStringFormat :=
  { width_ := 80, parameter_indentation_ := 4, description_indentation_ := 8,
    header_ := "usage", footer_ := "bye" }

/-- A registry with the positional parameter `P` (position 0, maximum 2) and the flag `-a`. -/
def sample_flag_break_registry : ParameterMap :=
  (ParameterMap.init sample_format).registerAll
    [(Parameter.Positional ["P"] 0 sample_converter).MaxArgs 2,
     Parameter.FlagChar 'a' sample_flag_converter]

/-- The positional parameter `P` at position 0 without a bound (maximum 0), the positional
parameter `Q` at position 1, the flag `-a` and the keyword `--k` (maximum 1). -/
def sample_unbounded_attempts : List Parameter :=
  [(Parameter.Positional ["P"] 0 sample_converter).MaxArgs 0,
   Parameter.Positional ["Q"] 1 sample_converter,
   Parameter.FlagChar 'a' sample_flag_converter,
   Parameter.Keyword ["--k"] sample_converter]

/-- A registry with one positional parameter that has no name and minimum 1. -/
def sample_nameless_registry : ParameterMap :=
  (ParameterMap.init sample_format).registerAll
    [(Parameter.Positional [] 0 sample_converter).MinArgs 1]

/-- A registry with one positional parameter that has the two names `FOO` and `BAR`. -/
def sample_alias_registry : ParameterMap :=
  (ParameterMap.init sample_format).registerAll
    [Parameter.Positional ["FOO", "BAR"] 0 sample_converter]

/-- A registry with the flag `-a` alone. -/
def sample_flag_a_registry : ParameterMap :=
  (ParameterMap.init sample_format).registerAll [Parameter.FlagChar 'a' sample_flag_converter]

/-- The registry that `operator()` leaves when the keyword `-a` is registered after the flag
`-a` and the first loop, reading its destroyed range, does not see the name `-a`. -/
def sample_taken_name_registry : ParameterMap :=
  (sample_flag_a_registry.operator_call (Parameter.Keyword ["-a"] sample_converter)
    (some [])).state

/-- A registry with two positional parameters at position 0: `A`, and one named `-q`. -/
def sample_dash_duplicate_registry : ParameterMap :=
  (ParameterMap.init sample_format).registerAll
    [Parameter.Positional ["A"] 0 sample_converter,
     Parameter.Positional ["-q"] 0 sample_converter]
/-! ## Containers: basic facts -/

theorem map_find_append {κ : Type} [DecidableEq κ] (a b : List (κ × Nat)) (k : κ) :
    map_find (a ++ b) k = (map_find a k).or (map_find b k) := by
  induction a with
  | nil => simp [map_find]
  | cons x a ih =>
    obtain ⟨k', v⟩ := x
    by_cases h : k' = k
    · simp [map_find, h]
    · simp [map_find, h, ih]

theorem map_find_insert (m : List (String × Nat)) (k : String) (v : Nat) (k0 : String) :
    map_find (unordered_map_insert m k v) k0 =
      (map_find m k0).or (if k = k0 then some v else none) := by
  unfold unordered_map_insert map_count
  by_cases hk : (map_find m k).isSome = true
  · rw [if_pos hk]
    cases h0 : map_find m k0 with
    | some w => simp
    | none =>
      by_cases e : k = k0
      · subst e; simp [h0] at hk
      · simp [e]
  · rw [if_neg hk, map_find_append]
    simp [map_find]

theorem map_find_foldl_insert (names : List String) (m : List (String × Nat)) (v : Nat)
    (k0 : String) :
    map_find (names.foldl (fun acc name => unordered_map_insert acc name v) m) k0 =
      (map_find m k0).or (if k0 ∈ names then some v else none) := by
  induction names generalizing m with
  | nil => simp
  | cons n names ih =>
    rw [List.foldl_cons, ih, map_find_insert]
    cases h0 : map_find m k0 with
    | some w => simp
    | none =>
      by_cases e : n = k0
      · simp [e]
      · have e' : ¬ k0 = n := fun h => e h.symm
        simp [e, e']

theorem mem_map_insert (m : List (Int × Nat)) (k : Int) (v : Nat) (e : Int × Nat)
    (hs : (m.map Prod.fst).Pairwise (· < ·)) :
    e ∈ map_insert m k v ↔ e ∈ m ∨ (e = (k, v) ∧ k ∉ m.map Prod.fst) := by
  induction m with
  | nil => simp [map_insert]
  | cons x m ih =>
    obtain ⟨k', v'⟩ := x
    rw [List.map_cons, List.pairwise_cons] at hs
    unfold map_insert
    by_cases h1 : k < k'
    · rw [if_pos h1]
      have hk : k ∉ List.map Prod.fst ((k', v') :: m) := by
        intro hmem
        rw [List.map_cons, List.mem_cons] at hmem
        rcases hmem with h | h
        · simp at h; omega
        · have := hs.1 k h
          simp at this; omega
      simp only [List.mem_cons]
      constructor
      · rintro (h | h)
        · exact Or.inr ⟨h, by simpa using hk⟩
        · exact Or.inl h
      · rintro (h | ⟨h, _⟩)
        · exact Or.inr h
        · exact Or.inl h
    · rw [if_neg h1]
      by_cases h2 : k = k'
      · rw [if_pos h2]
        simp [h2]
      · rw [if_neg h2]
        simp only [List.mem_cons, ih hs.2, List.map_cons]
        constructor
        · rintro (h | h | ⟨h, h'⟩)
          · exact Or.inl (Or.inl h)
          · exact Or.inl (Or.inr h)
          · exact Or.inr ⟨h, fun hh => hh.elim h2 h'⟩
        · rintro (h | ⟨h, h'⟩)
          · rcases h with h | h
            · exact Or.inl h
            · exact Or.inr (Or.inl h)
          · exact Or.inr (Or.inr ⟨h, fun hh => h' (Or.inr hh)⟩)

theorem map_insert_sorted (m : List (Int × Nat)) (k : Int) (v : Nat)
    (hs : (m.map Prod.fst).Pairwise (· < ·)) :
    ((map_insert m k v).map Prod.fst).Pairwise (· < ·) := by
  induction m with
  | nil => simp [map_insert]
  | cons x m ih =>
    obtain ⟨k', v'⟩ := x
    have hs' := hs
    rw [List.map_cons, List.pairwise_cons] at hs
    unfold map_insert
    by_cases h1 : k < k'
    · rw [if_pos h1, List.map_cons, List.pairwise_cons]
      refine ⟨?_, hs'⟩
      intro a ha
      rw [List.map_cons, List.mem_cons] at ha
      rcases ha with h | h
      · simpa [h] using h1
      · have := hs.1 a h
        simp at this; omega
    · rw [if_neg h1]
      by_cases h2 : k = k'
      · rw [if_pos h2]; exact hs'
      · rw [if_neg h2, List.map_cons, List.pairwise_cons]
        refine ⟨?_, ih hs.2⟩
        intro a ha
        rw [List.mem_map] at ha
        obtain ⟨e, he, rfl⟩ := ha
        rw [mem_map_insert m k v e hs.2] at he
        rcases he with h | ⟨h, _⟩
        · exact hs.1 _ (List.mem_map_of_mem _ h)
        · subst h; simp; omega

theorem mem_unordered_set_insert (s : List Nat) (x y : Nat) :
    y ∈ unordered_set_insert s x ↔ y ∈ s ∨ y = x := by
  unfold unordered_set_insert
  by_cases h : x ∈ s
  · rw [if_pos h]
    constructor
    · exact Or.inl
    · rintro (h' | h')
      · exact h'
      · exact h' ▸ h
  · rw [if_neg h]; simp

/-! ## Registration: the two ways an attempt can end -/

theorem operator_call_documented_thrown (m : ParameterMap) (p : Parameter)
    (h : p.configuration.names_.any (fun name => map_count m.name_to_id_ name) = true) :
    m.operator_call_documented p = .thrown m .DuplicateParameterName := by
  unfold ParameterMap.operator_call_documented ParameterMap.operator_call
  simp only [h, if_true]

theorem operator_call_documented_returned (m : ParameterMap) (p : Parameter)
    (h : p.configuration.names_.any (fun name => map_count m.name_to_id_ name) = false) :
    ∃ m', m.operator_call_documented p = .returned m' () ∧
      m'.name_to_id_ = p.configuration.names_.foldl
        (fun acc name => unordered_map_insert acc name m.parameter_configurations_.length)
        m.name_to_id_ ∧
      m'.parameter_configurations_ = m.parameter_configurations_ ++ [p.configuration] ∧
      m'.converters_ = m.converters_ ++ [p.converter] ∧
      m'.arguments_ = m.arguments_ ∧
      m'.help_string_format_ = m.help_string_format_ ∧
      m'.positional_parameters_ =
        (if p.configuration.category_ = ParameterCategory.kPositionalParameter then
          map_insert m.positional_parameters_ p.configuration.position_
            m.parameter_configurations_.length
        else m.positional_parameters_) ∧
      m'.keyword_parameters_ =
        (if p.configuration.category_ = ParameterCategory.kKeywordParameter then
          unordered_set_insert m.keyword_parameters_ m.parameter_configurations_.length
        else m.keyword_parameters_) ∧
      m'.flags_ =
        (if p.configuration.category_ = ParameterCategory.kFlag then
          unordered_set_insert m.flags_ m.parameter_configurations_.length
        else m.flags_) := by
  unfold ParameterMap.operator_call_documented ParameterMap.operator_call
  simp only [h]
  refine ⟨_, rfl, ?_⟩
  cases hc : p.configuration.category_ <;>
    simp [ParameterMap.AddParameterToCategory]

theorem descriptor?_append (cfgs : List ParameterConfiguration) (c : ParameterConfiguration)
    (id : Nat) (cfg : ParameterConfiguration) :
    (cfgs ++ [c])[id]? = some cfg ↔ cfgs[id]? = some cfg ∨ (id = cfgs.length ∧ cfg = c) := by
  rw [List.getElem?_append]
  by_cases h : id < cfgs.length
  · rw [if_pos h]
    constructor
    · exact Or.inl
    · rintro (h' | ⟨h', _⟩)
      · exact h'
      · omega
  · rw [if_neg h]
    have hnone : cfgs[id]? = none := List.getElem?_eq_none (by omega)
    rw [hnone]
    by_cases h' : id = cfgs.length
    · subst h'; simp [eq_comm]
    · have : id - cfgs.length ≠ 0 := by omega
      obtain ⟨j, hj⟩ := Nat.exists_eq_succ_of_ne_zero this
      simp [hj, h']

/-! ## Registration keeps the registry well formed -/

theorem wellFormed_init (format : HelpStringFormat) : WellFormed (ParameterMap.init format) := by
  constructor <;> simp [ParameterMap.init, ParameterMap.descriptor?, map_find]

theorem any_count_eq_false (m : ParameterMap) (names : List String) :
    names.any (fun name => map_count m.name_to_id_ name) = false ↔
      ∀ name ∈ names, map_find m.name_to_id_ name = none := by
  simp [map_count]

theorem wellFormed_names_step (m m' : ParameterMap) (p : Parameter) (h : WellFormed m)
    (hfree : ∀ name ∈ p.configuration.names_, map_find m.name_to_id_ name = none)
    (hn : m'.name_to_id_ = p.configuration.names_.foldl
        (fun acc name => unordered_map_insert acc name m.parameter_configurations_.length)
        m.name_to_id_)
    (hc : m'.parameter_configurations_ = m.parameter_configurations_ ++ [p.configuration]) :
    ∀ name id, map_find m'.name_to_id_ name = some id ↔
      ∃ cfg, m'.descriptor? id = some cfg ∧ name ∈ cfg.names_ := by
  intro name id
  have hold := h.names name
  simp only [ParameterMap.descriptor?] at hold ⊢
  rw [hn, hc, map_find_foldl_insert]
  simp only [descriptor?_append]
  cases hf : map_find m.name_to_id_ name with
  | some w =>
    rw [Option.or_some]
    constructor
    · intro hw
      have hw' : w = id := by simpa using hw
      subst hw'
      obtain ⟨cfg, h1, h2⟩ := (hold w).1 hf
      exact ⟨cfg, Or.inl h1, h2⟩
    · rintro ⟨cfg, h1 | ⟨_, h1⟩, h2⟩
      · have := (hold id).2 ⟨cfg, h1, h2⟩
        rw [hf] at this; exact this
      · subst h1
        rw [hfree name h2] at hf
        exact absurd hf (by simp)
  | none =>
    rw [Option.none_or]
    constructor
    · intro hw
      by_cases hmem : name ∈ p.configuration.names_
      · rw [if_pos hmem] at hw
        have hw' : m.parameter_configurations_.length = id := by simpa using hw
        exact ⟨p.configuration, Or.inr ⟨hw'.symm, rfl⟩, hmem⟩
      · rw [if_neg hmem] at hw
        exact absurd hw (by simp)
    · rintro ⟨cfg, h1 | ⟨h0, h1⟩, h2⟩
      · have := (hold id).2 ⟨cfg, h1, h2⟩
        rw [hf] at this; exact absurd this (by simp)
      · subst h1
        rw [if_pos h2, h0]

theorem wellFormed_set_step (cfgs : List ParameterConfiguration) (c : ParameterConfiguration)
    (s : List Nat) (cat : ParameterCategory)
    (hold : ∀ id, id ∈ s ↔ ∃ cfg, cfgs[id]? = some cfg ∧ cfg.category_ = cat) :
    ∀ id, id ∈ (if c.category_ = cat then unordered_set_insert s cfgs.length else s) ↔
      ∃ cfg, (cfgs ++ [c])[id]? = some cfg ∧ cfg.category_ = cat := by
  intro id
  simp only [descriptor?_append]
  by_cases hc : c.category_ = cat
  · rw [if_pos hc, mem_unordered_set_insert, hold]
    constructor
    · rintro (⟨cfg, h1, h2⟩ | h)
      · exact ⟨cfg, Or.inl h1, h2⟩
      · exact ⟨c, Or.inr ⟨h, rfl⟩, hc⟩
    · rintro ⟨cfg, h1 | ⟨h0, _⟩, h2⟩
      · exact Or.inl ⟨cfg, h1, h2⟩
      · exact Or.inr h0
  · rw [if_neg hc, hold]
    constructor
    · rintro ⟨cfg, h1, h2⟩
      exact ⟨cfg, Or.inl h1, h2⟩
    · rintro ⟨cfg, h1 | ⟨_, h1⟩, h2⟩
      · exact ⟨cfg, h1, h2⟩
      · subst h1; exact absurd h2 hc

theorem wellFormed_operator_call_documented (m : ParameterMap) (p : Parameter) (h : WellFormed m) :
    WellFormed (m.operator_call_documented p).state := by
  cases hany : p.configuration.names_.any (fun name => map_count m.name_to_id_ name) with
  | true => rw [operator_call_documented_thrown m p hany]; exact h
  | false =>
    obtain ⟨m', hm', hn, hcfg, hconv, _, _, hpos, hkw, hfl⟩ := operator_call_documented_returned m p hany
    rw [hm']
    simp only [Outcome.state]
    have hfree := (any_count_eq_false m _).1 hany
    have hlen : ∀ cfg, m.parameter_configurations_[m.parameter_configurations_.length]? ≠
        some cfg := by
      intro cfg hh
      rw [List.getElem?_eq_none (le_refl _)] at hh
      exact absurd hh (by simp)
    have hlt : ∀ id cfg, m.parameter_configurations_[id]? = some cfg →
        id < m.parameter_configurations_.length := by
      intro id cfg hh
      exact (List.getElem?_eq_some.1 hh).1
    constructor
    · exact wellFormed_names_step m m' p h hfree hn hcfg
    · rw [hconv, hcfg, List.length_append, List.length_append, h.converters]
      rfl
    · intro id
      simp only [ParameterMap.descriptor?]
      rw [hkw, hcfg]
      exact wellFormed_set_step _ _ _ _ h.keywords id
    · intro id
      simp only [ParameterMap.descriptor?]
      rw [hfl, hcfg]
      exact wellFormed_set_step _ _ _ _ h.flags id
    · intro pos id hmem
      simp only [ParameterMap.descriptor?]
      rw [hcfg]
      simp only [descriptor?_append]
      rw [hpos] at hmem
      by_cases hc : p.configuration.category_ = ParameterCategory.kPositionalParameter
      · rw [if_pos hc, mem_map_insert _ _ _ _ h.positions_sorted] at hmem
        rcases hmem with hmem | ⟨hmem, _⟩
        · obtain ⟨cfg, h1, h2⟩ := h.positionals pos id hmem
          exact ⟨cfg, Or.inl h1, h2⟩
        · obtain ⟨rfl, rfl⟩ := Prod.mk.inj hmem
          exact ⟨p.configuration, Or.inr ⟨rfl, rfl⟩, hc, rfl⟩
      · rw [if_neg hc] at hmem
        obtain ⟨cfg, h1, h2⟩ := h.positionals pos id hmem
        exact ⟨cfg, Or.inl h1, h2⟩
    · rw [hpos]
      by_cases hc : p.configuration.category_ = ParameterCategory.kPositionalParameter
      · rw [if_pos hc]; exact map_insert_sorted _ _ _ h.positions_sorted
      · rw [if_neg hc]; exact h.positions_sorted
    · intro id cfg hd hcat
      simp only [ParameterMap.descriptor?] at hd
      rw [hcfg, descriptor?_append] at hd
      rw [hpos]
      rcases hd with hd | ⟨_, hd⟩
      · obtain ⟨id', hid'⟩ := h.positions_taken id cfg hd hcat
        by_cases hc : p.configuration.category_ = ParameterCategory.kPositionalParameter
        · rw [if_pos hc]
          exact ⟨id', (mem_map_insert _ _ _ _ h.positions_sorted).2 (Or.inl hid')⟩
        · rw [if_neg hc]; exact ⟨id', hid'⟩
      · subst hd
        rw [if_pos hcat]
        by_cases hk : p.configuration.position_ ∈ m.positional_parameters_.map Prod.fst
        · rw [List.mem_map] at hk
          obtain ⟨⟨k, v⟩, hkv, hk'⟩ := hk
          simp only at hk'
          subst hk'
          exact ⟨v, (mem_map_insert _ _ _ _ h.positions_sorted).2 (Or.inl hkv)⟩
        · exact ⟨_, (mem_map_insert _ _ _ _ h.positions_sorted).2 (Or.inr ⟨rfl, hk⟩)⟩
    · intro id id' cfg hmem hd hcat
      simp only [ParameterMap.descriptor?] at hd
      rw [hcfg, descriptor?_append] at hd
      rw [hpos] at hmem
      have hold : (cfg.position_, id) ∈ m.positional_parameters_ →
          id < m.parameter_configurations_.length := by
        intro hm0
        obtain ⟨cfg0, h1, _⟩ := h.positionals _ _ hm0
        exact hlt _ _ h1
      by_cases hc : p.configuration.category_ = ParameterCategory.kPositionalParameter
      · rw [if_pos hc, mem_map_insert _ _ _ _ h.positions_sorted] at hmem
        rcases hmem with hmem | ⟨hmem, hnot⟩
        · rcases hd with hd | ⟨hd, _⟩
          · exact h.positions_first id id' cfg hmem hd hcat
          · have := hold hmem; omega
        · obtain ⟨hpos', rfl⟩ := Prod.mk.inj hmem
          rcases hd with hd | ⟨hd, _⟩
          · obtain ⟨id0, hid0⟩ := h.positions_taken id' cfg hd hcat
            exact absurd (List.mem_map_of_mem Prod.fst hid0) (by rw [← hpos'] at hnot; exact hnot)
          · omega
      · rw [if_neg hc] at hmem
        rcases hd with hd | ⟨hd, _⟩
        · exact h.positions_first id id' cfg hmem hd hcat
        · have := hold hmem; omega

theorem wellFormed_registerAll (m : ParameterMap) (ps : List Parameter) (h : WellFormed m) :
    WellFormed (m.registerAll ps) := by
  induction ps generalizing m with
  | nil => exact h
  | cons p ps ih =>
    unfold ParameterMap.registerAll
    rw [List.foldl_cons]
    exact ih _ (wellFormed_operator_call_documented m p h)

theorem wellFormed_built (format : HelpStringFormat) (ps : List Parameter) :
    WellFormed ((ParameterMap.init format).registerAll ps) :=
  wellFormed_registerAll _ _ (wellFormed_init format)

/-! ## Registration only ever appends -/

theorem operator_call_documented_preserves (m : ParameterMap) (p : Parameter) :
    (∀ (id : Nat) (cfg : ParameterConfiguration), m.parameter_configurations_[id]? = some cfg →
      (m.operator_call_documented p).state.parameter_configurations_[id]? = some cfg) ∧
    (∀ (id : Nat) (c : AnyConverter), m.converters_[id]? = some c →
      (m.operator_call_documented p).state.converters_[id]? = some c) ∧
    (∀ name id, map_find m.name_to_id_ name = some id →
      map_find (m.operator_call_documented p).state.name_to_id_ name = some id) := by
  cases hany : p.configuration.names_.any (fun name => map_count m.name_to_id_ name) with
  | true =>
    rw [operator_call_documented_thrown m p hany]
    exact ⟨fun _ _ h => h, fun _ _ h => h, fun _ _ h => h⟩
  | false =>
    obtain ⟨m', hm', hn, hcfg, hconv, _⟩ := operator_call_documented_returned m p hany
    rw [hm']
    simp only [Outcome.state]
    refine ⟨?_, ?_, ?_⟩
    · intro id cfg h
      rw [hcfg, List.getElem?_append_left (List.getElem?_eq_some.1 h).1]
      exact h
    · intro id c h
      rw [hconv, List.getElem?_append_left (List.getElem?_eq_some.1 h).1]
      exact h
    · intro name id h
      rw [hn, map_find_foldl_insert, h, Option.or_some]

theorem registerAll_preserves (m : ParameterMap) (ps : List Parameter) :
    (∀ (id : Nat) (cfg : ParameterConfiguration), m.parameter_configurations_[id]? = some cfg →
      (m.registerAll ps).parameter_configurations_[id]? = some cfg) ∧
    (∀ (id : Nat) (c : AnyConverter), m.converters_[id]? = some c →
      (m.registerAll ps).converters_[id]? = some c) ∧
    (∀ name id, map_find m.name_to_id_ name = some id →
      map_find (m.registerAll ps).name_to_id_ name = some id) := by
  induction ps generalizing m with
  | nil => exact ⟨fun _ _ h => h, fun _ _ h => h, fun _ _ h => h⟩
  | cons p ps ih =>
    have hstep := operator_call_documented_preserves m p
    have hrest := ih (m.operator_call_documented p).state
    unfold ParameterMap.registerAll at hrest ⊢
    rw [List.foldl_cons]
    exact ⟨fun id cfg h => hrest.1 id cfg (hstep.1 id cfg h),
      fun id c h => hrest.2.1 id c (hstep.2.1 id c h),
      fun name id h => hrest.2.2 name id (hstep.2.2 name id h)⟩

theorem registerAll_append (m : ParameterMap) (ps qs : List Parameter) :
    m.registerAll (ps ++ qs) = (m.registerAll ps).registerAll qs := by
  unfold ParameterMap.registerAll
  rw [List.foldl_append]

theorem accepted_registered (ps : List Parameter) (m : ParameterMap) (k : Nat) (p : Parameter)
    (hk : (m.accepted ps)[k]? = some p) :
    (m.registerAll ps).parameter_configurations_[m.parameter_configurations_.length + k]? =
      some p.configuration ∧
    (m.registerAll ps).converters_[m.converters_.length + k]? = some p.converter ∧
    ∀ name ∈ p.configuration.names_,
      map_find (m.registerAll ps).name_to_id_ name =
        some (m.parameter_configurations_.length + k) := by
  induction ps generalizing m k with
  | nil => simp [ParameterMap.accepted] at hk
  | cons p0 ps ih =>
    have hreg : m.registerAll (p0 :: ps) = (m.operator_call_documented p0).state.registerAll ps := by
      unfold ParameterMap.registerAll
      rw [List.foldl_cons]
    rw [hreg]
    cases hany : p0.configuration.names_.any (fun name => map_count m.name_to_id_ name) with
    | true =>
      have hthrown := operator_call_documented_thrown m p0 hany
      unfold ParameterMap.accepted at hk
      rw [hthrown] at hk ⊢
      exact ih m k hk
    | false =>
      obtain ⟨m', hm', hn, hcfg, hconv, _⟩ := operator_call_documented_returned m p0 hany
      unfold ParameterMap.accepted at hk
      rw [hm'] at hk ⊢
      simp only [Outcome.state] at hk ⊢
      have hfree := (any_count_eq_false m _).1 hany
      cases k with
      | zero =>
        have hp : p0 = p := by simpa using hk
        subst hp
        have hrest := registerAll_preserves m' ps
        refine ⟨hrest.1 _ _ ?_, hrest.2.1 _ _ ?_, fun name hname => hrest.2.2 _ _ ?_⟩
        · rw [hcfg]; simp
        · rw [hconv]; simp
        · rw [hn, map_find_foldl_insert, hfree name hname, Option.none_or, if_pos hname]
          rfl
      | succ k =>
        have hk' : (m'.accepted ps)[k]? = some p := by simpa using hk
        have := ih m' k hk'
        rw [hcfg, hconv] at this
        simp only [List.length_append, List.length_singleton] at this
        have e1 : m.parameter_configurations_.length + 1 + k =
            m.parameter_configurations_.length + (k + 1) := by omega
        have e2 : m.converters_.length + 1 + k = m.converters_.length + (k + 1) := by omega
        rw [e1, e2] at this
        exact this

/-! ## Registration: identifiers and duplicate names -/

/-- Dense identifiers under the documented duplicate check (every call of `registerAll` sees
the names of its parameter): after the attempts `ps` on a fresh registry, the `k`-th attempt
that succeeded (counting from 0, failed attempts not counted) has identifier `k`: each of its
names looks up to `k`, and its descriptor and its converter sit at index `k`.  This still holds
after any further attempts `qs`, whether they succeed or fail. -/
theorem register_lookup_roundtrip (format : HelpStringFormat) (ps qs : List Parameter) (k : Nat)
    (p : Parameter) (name : String)
    (hk : ((ParameterMap.init format).accepted ps)[k]? = some p)
    (hname : name ∈ p.configuration.names_) :
    ((ParameterMap.init format).registerAll (ps ++ qs)).GetId name = .ok k ∧
    ((ParameterMap.init format).registerAll (ps ++ qs)).parameter_configurations_[k]? =
      some p.configuration ∧
    ((ParameterMap.init format).registerAll (ps ++ qs)).converters_[k]? = some p.converter := by
  have h := accepted_registered ps (ParameterMap.init format) k p hk
  have h0 : (ParameterMap.init format).parameter_configurations_.length = 0 := rfl
  have h1 : (ParameterMap.init format).converters_.length = 0 := rfl
  rw [h0, h1, Nat.zero_add] at h
  have hq := registerAll_preserves ((ParameterMap.init format).registerAll ps) qs
  rw [registerAll_append]
  refine ⟨?_, hq.1 _ _ h.1, hq.2.1 _ _ h.2.1⟩
  unfold ParameterMap.GetId
  rw [hq.2.2 _ _ (h.2.2 name hname)]

/-- In the sample registry the third attempt is rejected, so the keyword
`--bar` registered fourth is the success number 2; its alias `-b` looks up to 2, also after
two more attempts. -/
theorem register_lookup_roundtrip_witness :
    ((ParameterMap.init sample_format).accepted sample_attempts)[2]? =
        some (Parameter.Keyword ["--bar", "-b"] sample_converter) ∧
      "-b" ∈ (Parameter.Keyword ["--bar", "-b"] sample_converter).configuration.names_ ∧
      ((ParameterMap.init sample_format).registerAll
          (sample_attempts ++ sample_later_attempts)).GetId "-b" = .ok 2 :=
  ⟨rfl, by decide,
    (register_lookup_roundtrip sample_format sample_attempts sample_later_attempts 2
      (Parameter.Keyword ["--bar", "-b"] sample_converter) "-b" rfl (by decide)).1⟩

/-- The documented duplicate check: registering `p` in a registry with unique names, with
the range of the first loop intact, throws `DuplicateParameterName`
exactly when one of the names of `p` is a name of a descriptor already registered (of whatever
category); the only exception registration throws is this one, and the registry it leaves is
the registry it found: name map, descriptors, converters and the three category indices. -/
theorem register_duplicate_iff (format : HelpStringFormat) (ps : List Parameter)
    (p : Parameter) :
    ((∃ name ∈ p.configuration.names_,
        ∃ cfg ∈ ((ParameterMap.init format).registerAll ps).parameter_configurations_,
          name ∈ cfg.names_) ↔
      ∃ s, ((ParameterMap.init format).registerAll ps).operator_call_documented p =
        .thrown s .DuplicateParameterName) ∧
    (∀ s e,
      ((ParameterMap.init format).registerAll ps).operator_call_documented p = .thrown s e →
      e = .DuplicateParameterName ∧ s = (ParameterMap.init format).registerAll ps) := by
  have hwf := wellFormed_built format ps
  generalize (ParameterMap.init format).registerAll ps = m at hwf ⊢
  cases hany : p.configuration.names_.any (fun name => map_count m.name_to_id_ name) with
  | true =>
    rw [operator_call_documented_thrown m p hany]
    refine ⟨⟨fun _ => ⟨m, rfl⟩, fun _ => ?_⟩, ?_⟩
    · rw [List.any_eq_true] at hany
      obtain ⟨name, hname, hcount⟩ := hany
      unfold map_count at hcount
      obtain ⟨id, hid⟩ := Option.isSome_iff_exists.1 hcount
      obtain ⟨cfg, hcfg, hmem⟩ := (hwf.names name id).1 hid
      exact ⟨name, hname, cfg, List.getElem?_mem hcfg, hmem⟩
    · intro s e h
      injection h with h1 h2
      exact ⟨h2.symm, h1.symm⟩
  | false =>
    obtain ⟨m', hm', _⟩ := operator_call_documented_returned m p hany
    rw [hm']
    have hfree := (any_count_eq_false m _).1 hany
    refine ⟨⟨?_, ?_⟩, ?_⟩
    · rintro ⟨name, hname, cfg, hcfg, hmem⟩
      obtain ⟨id, hid⟩ := List.getElem?_of_mem hcfg
      have := (hwf.names name id).2 ⟨cfg, hid, hmem⟩
      rw [hfree name hname] at this
      exact absurd this (by simp)
    · rintro ⟨s, hs⟩
      exact absurd hs (by simp)
    · intro s e h
      exact absurd h (by simp)

/-! ## The scanner touches the collected arguments only -/

theorem SameRegistry.refl (m : ParameterMap) : SameRegistry m m :=
  ⟨rfl, rfl, rfl, rfl, rfl, rfl, rfl⟩

theorem SameRegistry.trans {a b c : ParameterMap} (h1 : SameRegistry a b)
    (h2 : SameRegistry b c) : SameRegistry a c := by
  obtain ⟨a1, a2, a3, a4, a5, a6, a7⟩ := h1
  obtain ⟨b1, b2, b3, b4, b5, b6, b7⟩ := h2
  exact ⟨b1.trans a1, b2.trans a2, b3.trans a3, b4.trans a4, b5.trans a5, b6.trans a6,
    b7.trans a7⟩

theorem SameRegistry.with_arguments (m : ParameterMap) (a : List (List String)) :
    SameRegistry m { m with arguments_ := a } :=
  ⟨rfl, rfl, rfl, rfl, rfl, rfl, rfl⟩

theorem SetFlag_state (m : ParameterMap) (id : Nat) :
    SameRegistry m (m.SetFlag id).state ∧
      (m.SetFlag id).state.arguments_.length = m.arguments_.length := by
  unfold ParameterMap.SetFlag
  cases h : m.arguments_[id]? with
  | none => exact ⟨SameRegistry.refl m, rfl⟩
  | some args =>
    exact ⟨SameRegistry.with_arguments m _, by simp [Outcome.state]⟩

theorem AddArgument_state (m : ParameterMap) (id : Nat) (argument : String) :
    SameRegistry m (m.AddArgument id argument).state ∧
      (m.AddArgument id argument).state.arguments_.length = m.arguments_.length := by
  unfold ParameterMap.AddArgument
  cases h : m.arguments_[id]? with
  | none => exact ⟨SameRegistry.refl m, rfl⟩
  | some args =>
    cases h' : m.parameter_configurations_[id]? with
    | none => exact ⟨SameRegistry.with_arguments m _, by simp [Outcome.state]⟩
    | some cfg => exact ⟨SameRegistry.with_arguments m _, by simp [Outcome.state]⟩

theorem parseFlagList_cons_none (m : ParameterMap) (c : Char) (cs : List Char)
    (h : map_find m.name_to_id_ (String.mk ['-', c]) = none) :
    parseFlagList m (c :: cs) = .thrown m .UnkownFlagOrKeyword := by
  simp [parseFlagList, h]

theorem parseFlagList_cons_returned (m m' : ParameterMap) (c : Char) (cs : List Char) (id : Nat)
    (h : map_find m.name_to_id_ (String.mk ['-', c]) = some id)
    (h' : m.SetFlag id = .returned m' ()) :
    parseFlagList m (c :: cs) = parseFlagList m' cs := by
  simp [parseFlagList, h, h']

theorem parseFlagList_cons_thrown (m m' : ParameterMap) (c : Char) (cs : List Char) (id : Nat)
    (e : Exception) (h : map_find m.name_to_id_ (String.mk ['-', c]) = some id)
    (h' : m.SetFlag id = .thrown m' e) :
    parseFlagList m (c :: cs) = .thrown m' e := by
  simp [parseFlagList, h, h']

theorem parseFlagList_state (cs : List Char) (m : ParameterMap) :
    SameRegistry m (parseFlagList m cs).state ∧
      (parseFlagList m cs).state.arguments_.length = m.arguments_.length := by
  induction cs generalizing m with
  | nil => exact ⟨SameRegistry.refl m, rfl⟩
  | cons c cs ih =>
    cases h : map_find m.name_to_id_ (String.mk ['-', c]) with
    | none =>
      rw [parseFlagList_cons_none m c cs h]
      exact ⟨SameRegistry.refl m, rfl⟩
    | some id =>
      have hf := SetFlag_state m id
      cases h' : m.SetFlag id with
      | thrown m' e =>
        rw [parseFlagList_cons_thrown m m' c cs id e h h']
        rw [h'] at hf
        exact hf
      | returned m' u =>
        rw [parseFlagList_cons_returned m m' c cs id h h']
        rw [h'] at hf
        simp only [Outcome.state] at hf
        have := ih m'
        exact ⟨hf.1.trans this.1, this.2.trans hf.2⟩

/-! ## The branches of the loop body, case by case -/

theorem SetFlag_returned (m : ParameterMap) (id : Nat) (args : List String)
    (h : m.arguments_[id]? = some args) :
    m.SetFlag id =
      .returned { m with arguments_ := m.arguments_.set id (args ++ ["true"]) } () := by
  simp [ParameterMap.SetFlag, h]

theorem SetFlag_thrown (m : ParameterMap) (id : Nat) (h : m.arguments_[id]? = none) :
    m.SetFlag id = .thrown m .out_of_range := by
  simp [ParameterMap.SetFlag, h]

theorem AddArgument_returned (m : ParameterMap) (id : Nat) (argument : String)
    (args : List String) (cfg : ParameterConfiguration)
    (h : m.arguments_[id]? = some args) (h' : m.parameter_configurations_[id]? = some cfg) :
    m.AddArgument id argument =
      .returned { m with arguments_ := m.arguments_.set id (args ++ [argument]) }
        (decide (cfg.max_num_arguments_ > 0)
          && decide ((args ++ [argument]).length = to_size_t cfg.max_num_arguments_)) := by
  simp [ParameterMap.AddArgument, h, h']

theorem parseKeyword_end (s : ParseState) (id : Nat)
    (h : s.self.positional_parameters_[s.current_positional_it]? = none) :
    parseKeyword s id = .returned
      { s with current_keyword_it := unordered_set_find s.self.keyword_parameters_ id } () := by
  simp [parseKeyword, h]

theorem parseKeyword_at (s : ParseState) (id : Nat) (pos : Int) (pid : Nat)
    (args : List String)
    (h : s.self.positional_parameters_[s.current_positional_it]? = some (pos, pid))
    (h' : s.self.arguments_[pid]? = some args) :
    parseKeyword s id = .returned
      { s with
        current_keyword_it := unordered_set_find s.self.keyword_parameters_ id,
        current_positional_it :=
          if args.length > 0 then s.current_positional_it + 1 else s.current_positional_it }
      () := by
  by_cases h3 : args.length > 0
  · simp [parseKeyword, h, h', h3]
  · simp [parseKeyword, h, h', h3]

theorem parseKeyword_thrown (s : ParseState) (id : Nat) (pos : Int) (pid : Nat)
    (h : s.self.positional_parameters_[s.current_positional_it]? = some (pos, pid))
    (h' : s.self.arguments_[pid]? = none) :
    parseKeyword s id = .thrown
      { s with current_keyword_it := unordered_set_find s.self.keyword_parameters_ id }
      .out_of_range := by
  simp [parseKeyword, h, h']

theorem parseFlag_returned (s : ParseState) (id : Nat) (m' : ParameterMap)
    (h : s.self.SetFlag id = .returned m' ()) :
    parseFlag s id = .returned { s with current_keyword_it := none, self := m' } () := by
  simp [parseFlag, h]

theorem parseFlag_thrown (s : ParseState) (id : Nat) (m' : ParameterMap) (e : Exception)
    (h : s.self.SetFlag id = .thrown m' e) :
    parseFlag s id = .thrown { s with current_keyword_it := none, self := m' } e := by
  simp [parseFlag, h]

theorem parseDash_returned (s : ParseState) (argument : String) (m' : ParameterMap)
    (h : parseFlagList s.self (argument.data.drop 1) = .returned m' ()) :
    parseDash s argument = .returned { s with current_keyword_it := none, self := m' } () := by
  simp only [parseDash, h]

theorem parseDash_thrown (s : ParseState) (argument : String) (m' : ParameterMap)
    (e : Exception) (h : parseFlagList s.self (argument.data.drop 1) = .thrown m' e) :
    parseDash s argument = .thrown { s with current_keyword_it := none, self := m' } e := by
  simp only [parseDash, h]

theorem parseValue_keyword (s : ParseState) (argument : String) (id : Nat)
    (m' : ParameterMap) (b : Bool) (h : s.current_keyword_it = some id)
    (h' : s.self.AddArgument id argument = .returned m' b) :
    parseValue s argument = .returned
      { s with self := m', current_keyword_it := if b then none else some id } () := by
  cases b with
  | true => simp [parseValue, h, h']
  | false =>
    simp [parseValue, h, h']

theorem parseValue_keyword_thrown (s : ParseState) (argument : String) (id : Nat)
    (m' : ParameterMap) (e : Exception) (h : s.current_keyword_it = some id)
    (h' : s.self.AddArgument id argument = .thrown m' e) :
    parseValue s argument = .thrown { s with self := m' } e := by
  simp [parseValue, h, h']

theorem parseValue_positional (s : ParseState) (argument : String) (pos : Int) (id : Nat)
    (m' : ParameterMap) (b : Bool) (h : s.current_keyword_it = none)
    (h1 : s.self.positional_parameters_[s.current_positional_it]? = some (pos, id))
    (h' : s.self.AddArgument id argument = .returned m' b) :
    parseValue s argument = .returned
      { s with
        self := m',
        current_positional_it :=
          if b then s.current_positional_it + 1 else s.current_positional_it } () := by
  cases b with
  | true => simp [parseValue, h, h1, h']
  | false => simp [parseValue, h, h1, h']

theorem parseValue_positional_thrown (s : ParseState) (argument : String) (pos : Int)
    (id : Nat) (m' : ParameterMap) (e : Exception) (h : s.current_keyword_it = none)
    (h1 : s.self.positional_parameters_[s.current_positional_it]? = some (pos, id))
    (h' : s.self.AddArgument id argument = .thrown m' e) :
    parseValue s argument = .thrown { s with self := m' } e := by
  simp [parseValue, h, h1, h']

theorem parseValue_additional (s : ParseState) (argument : String)
    (h : s.current_keyword_it = none)
    (h1 : s.self.positional_parameters_[s.current_positional_it]? = none) :
    parseValue s argument = .returned
      { s with invalid_arguments :=
        { s.invalid_arguments with
          additional_arguments := s.invalid_arguments.additional_arguments ++ [argument] } }
      () := by
  simp [parseValue, h, h1]

theorem scanInv_parseStart (m : ParameterMap) : ScanInv m (parseStart m) := by
  refine ⟨SameRegistry.with_arguments m _, ?_, ?_⟩
  · simp [parseStart]
  · intro k hk
    simp [parseStart] at hk

theorem scanInv_parseKeyword (m : ParameterMap) (s : ParseState) (id : Nat)
    (h : ScanInv m s) : ScanInv m (parseKeyword s id).state := by
  have hkw : ∀ k, unordered_set_find s.self.keyword_parameters_ id = some k →
      k ∈ m.keyword_parameters_ := by
    intro k hk
    unfold unordered_set_find at hk
    by_cases hmem : id ∈ s.self.keyword_parameters_
    · rw [if_pos hmem] at hk
      have : id = k := by simpa using hk
      rw [← this, ← h.same.2.2.2.2.1]
      exact hmem
    · rw [if_neg hmem] at hk
      exact absurd hk (by simp)
  cases h1 : s.self.positional_parameters_[s.current_positional_it]? with
  | none =>
    rw [parseKeyword_end s id h1]
    exact ⟨h.same, h.size, hkw⟩
  | some e =>
    obtain ⟨pos, pid⟩ := e
    cases h2 : s.self.arguments_[pid]? with
    | none =>
      rw [parseKeyword_thrown s id pos pid h1 h2]
      exact ⟨h.same, h.size, hkw⟩
    | some args =>
      rw [parseKeyword_at s id pos pid args h1 h2]
      exact ⟨h.same, h.size, hkw⟩

theorem scanInv_parseFlag (m : ParameterMap) (s : ParseState) (id : Nat)
    (h : ScanInv m s) : ScanInv m (parseFlag s id).state := by
  have hf := SetFlag_state s.self id
  cases h1 : s.self.SetFlag id with
  | returned m' u =>
    rw [parseFlag_returned s id m' h1]
    rw [h1] at hf
    exact ⟨h.same.trans hf.1, hf.2.trans h.size, fun k hk => by simp [Outcome.state] at hk⟩
  | thrown m' e =>
    rw [parseFlag_thrown s id m' e h1]
    rw [h1] at hf
    exact ⟨h.same.trans hf.1, hf.2.trans h.size, fun k hk => by simp [Outcome.state] at hk⟩

theorem scanInv_parseDash (m : ParameterMap) (s : ParseState) (argument : String)
    (h : ScanInv m s) : ScanInv m (parseDash s argument).state := by
  have hf := parseFlagList_state (argument.data.drop 1) s.self
  cases h1 : parseFlagList s.self (argument.data.drop 1) with
  | returned m' u =>
    rw [parseDash_returned s argument m' h1]
    rw [h1] at hf
    exact ⟨h.same.trans hf.1, hf.2.trans h.size, fun k hk => by simp [Outcome.state] at hk⟩
  | thrown m' e =>
    rw [parseDash_thrown s argument m' e h1]
    rw [h1] at hf
    exact ⟨h.same.trans hf.1, hf.2.trans h.size, fun k hk => by simp [Outcome.state] at hk⟩

theorem scanInv_parseValue (m : ParameterMap) (s : ParseState) (argument : String)
    (h : ScanInv m s) : ScanInv m (parseValue s argument).state := by
  cases hk : s.current_keyword_it with
  | some id =>
    have hf := AddArgument_state s.self id argument
    cases h1 : s.self.AddArgument id argument with
    | returned m' b =>
      rw [parseValue_keyword s argument id m' b hk h1]
      rw [h1] at hf
      refine ⟨h.same.trans hf.1, hf.2.trans h.size, fun k hk' => ?_⟩
      simp only [Outcome.state] at hk'
      cases b with
      | true => simp at hk'
      | false =>
        apply h.keyword k
        rw [hk]
        simpa using hk'
    | thrown m' e =>
      rw [parseValue_keyword_thrown s argument id m' e hk h1]
      rw [h1] at hf
      exact ⟨h.same.trans hf.1, hf.2.trans h.size, fun k hk' => h.keyword k hk'⟩
  | none =>
    cases h1 : s.self.positional_parameters_[s.current_positional_it]? with
    | none =>
      rw [parseValue_additional s argument hk h1]
      exact ⟨h.same, h.size, fun k hk' => h.keyword k hk'⟩
    | some e =>
      obtain ⟨pos, id⟩ := e
      have hf := AddArgument_state s.self id argument
      cases h2 : s.self.AddArgument id argument with
      | returned m' b =>
        rw [parseValue_positional s argument pos id m' b hk h1 h2]
        rw [h2] at hf
        exact ⟨h.same.trans hf.1, hf.2.trans h.size, fun k hk' => h.keyword k hk'⟩
      | thrown m' e =>
        rw [parseValue_positional_thrown s argument pos id m' e hk h1 h2]
        rw [h2] at hf
        exact ⟨h.same.trans hf.1, hf.2.trans h.size, fun k hk' => h.keyword k hk'⟩

theorem scanInv_parseArgument (m : ParameterMap) (s : ParseState) (argument : String)
    (h : ScanInv m s) : ScanInv m (parseArgument s argument).state := by
  unfold parseArgument
  cases h1 : map_find s.self.name_to_id_ argument with
  | none =>
    simp only
    split
    · exact scanInv_parseDash m s argument h
    · exact scanInv_parseValue m s argument h
  | some id =>
    simp only
    split
    · exact scanInv_parseKeyword m s id h
    · split
      · exact scanInv_parseFlag m s id h
      · split
        · exact scanInv_parseDash m s argument h
        · exact scanInv_parseValue m s argument h

theorem parseLoop_cons_returned (s s' : ParseState) (t : String) (ts : List String)
    (h : parseArgument s t = .returned s' ()) : parseLoop s (t :: ts) = parseLoop s' ts := by
  simp [parseLoop, h]

theorem parseLoop_cons_thrown (s s' : ParseState) (t : String) (ts : List String)
    (e : Exception) (h : parseArgument s t = .thrown s' e) :
    parseLoop s (t :: ts) = .thrown s' e := by
  simp [parseLoop, h]

theorem scanInv_parseLoop (m : ParameterMap) (ts : List String) (s : ParseState)
    (h : ScanInv m s) : ScanInv m (parseLoop s ts).state := by
  induction ts generalizing s with
  | nil => exact h
  | cons t ts ih =>
    have hstep := scanInv_parseArgument m s t h
    cases h1 : parseArgument s t with
    | returned s' u =>
      rw [parseLoop_cons_returned s s' t ts h1]
      rw [h1] at hstep
      exact ih s' hstep
    | thrown s' e =>
      rw [parseLoop_cons_thrown s s' t ts e h1]
      rw [h1] at hstep
      exact hstep

theorem parseLoop_append (ts us : List String) (s : ParseState) :
    parseLoop s (ts ++ us) = match parseLoop s ts with
      | .returned s' _ => parseLoop s' us
      | .thrown s' e => .thrown s' e := by
  induction ts generalizing s with
  | nil => rfl
  | cons t ts ih =>
    cases h1 : parseArgument s t with
    | returned s' u =>
      rw [List.cons_append, parseLoop_cons_returned s s' t _ h1,
        parseLoop_cons_returned s s' t _ h1, ih]
    | thrown s' e =>
      rw [List.cons_append, parseLoop_cons_thrown s s' t _ e h1,
        parseLoop_cons_thrown s s' t _ e h1]

/-! ## Which branch a token takes -/

theorem lookup_of_name (m : ParameterMap) (hwf : WellFormed m) (t : String)
    (cfg : ParameterConfiguration) (hcfg : cfg ∈ m.parameter_configurations_)
    (ht : t ∈ cfg.names_) :
    ∃ id, map_find m.name_to_id_ t = some id ∧ m.descriptor? id = some cfg := by
  obtain ⟨id, hid⟩ := List.getElem?_of_mem hcfg
  exact ⟨id, (hwf.names t id).2 ⟨cfg, hid, ht⟩, hid⟩

theorem name_of_lookup (m : ParameterMap) (hwf : WellFormed m) (t : String) (id : Nat)
    (h : map_find m.name_to_id_ t = some id) :
    ∃ cfg, m.descriptor? id = some cfg ∧ cfg ∈ m.parameter_configurations_ ∧ t ∈ cfg.names_ := by
  obtain ⟨cfg, h1, h2⟩ := (hwf.names t id).1 h
  exact ⟨cfg, h1, List.getElem?_mem h1, h2⟩

theorem isKeywordName_iff (m : ParameterMap) (hwf : WellFormed m) (t : String) :
    IsKeywordName m t ↔
      ∃ id, map_find m.name_to_id_ t = some id ∧ id ∈ m.keyword_parameters_ := by
  constructor
  · rintro ⟨cfg, hcfg, hcat, ht⟩
    obtain ⟨id, h1, h2⟩ := lookup_of_name m hwf t cfg hcfg ht
    exact ⟨id, h1, (hwf.keywords id).2 ⟨cfg, h2, hcat⟩⟩
  · rintro ⟨id, h1, h2⟩
    obtain ⟨cfg, h3, h4, h5⟩ := name_of_lookup m hwf t id h1
    obtain ⟨cfg', h6, h7⟩ := (hwf.keywords id).1 h2
    rw [h3] at h6
    injection h6 with h6
    subst h6
    exact ⟨cfg, h4, h7, h5⟩

theorem isFlagName_iff (m : ParameterMap) (hwf : WellFormed m) (t : String) :
    IsFlagName m t ↔ ∃ id, map_find m.name_to_id_ t = some id ∧ id ∈ m.flags_ := by
  constructor
  · rintro ⟨cfg, hcfg, hcat, ht⟩
    obtain ⟨id, h1, h2⟩ := lookup_of_name m hwf t cfg hcfg ht
    exact ⟨id, h1, (hwf.flags id).2 ⟨cfg, h2, hcat⟩⟩
  · rintro ⟨id, h1, h2⟩
    obtain ⟨cfg, h3, h4, h5⟩ := name_of_lookup m hwf t id h1
    obtain ⟨cfg', h6, h7⟩ := (hwf.flags id).1 h2
    rw [h3] at h6
    injection h6 with h6
    subst h6
    exact ⟨cfg, h4, h7, h5⟩

theorem isRegisteredName_iff (m : ParameterMap) (hwf : WellFormed m) (t : String) :
    IsRegisteredName m t ↔ ∃ id, map_find m.name_to_id_ t = some id := by
  constructor
  · rintro ⟨cfg, hcfg, ht⟩
    obtain ⟨id, h1, _⟩ := lookup_of_name m hwf t cfg hcfg ht
    exact ⟨id, h1⟩
  · rintro ⟨id, h1⟩
    obtain ⟨cfg, _, h4, h5⟩ := name_of_lookup m hwf t id h1
    exact ⟨cfg, h4, h5⟩

theorem keyword_not_flag (m : ParameterMap) (hwf : WellFormed m) (id : Nat)
    (h : id ∈ m.keyword_parameters_) : id ∉ m.flags_ := by
  intro h'
  obtain ⟨cfg, h1, h2⟩ := (hwf.keywords id).1 h
  obtain ⟨cfg', h3, h4⟩ := (hwf.flags id).1 h'
  rw [h1] at h3
  injection h3 with h3
  subst h3
  rw [h2] at h4
  exact absurd h4 (by decide)

theorem parseArgument_keyword (m : ParameterMap) (s : ParseState)
    (hs : ScanInv m s) (t : String) (id : Nat) (h1 : map_find m.name_to_id_ t = some id)
    (h2 : id ∈ m.keyword_parameters_) :
    parseArgument s t = parseKeyword s id := by
  unfold parseArgument
  rw [hs.same.1, h1]
  simp only [unordered_set_count, hs.same.2.2.2.2.1, h2, decide_True, if_true]

theorem parseArgument_flag (m : ParameterMap) (hwf : WellFormed m) (s : ParseState)
    (hs : ScanInv m s) (t : String) (id : Nat) (h1 : map_find m.name_to_id_ t = some id)
    (h2 : id ∈ m.flags_) :
    parseArgument s t = parseFlag s id := by
  have h3 : id ∉ m.keyword_parameters_ := fun h => keyword_not_flag m hwf id h h2
  unfold parseArgument
  rw [hs.same.1, h1]
  simp [unordered_set_count, hs.same.2.2.2.2.1, hs.same.2.2.2.2.2.1, h2, h3]

theorem parseArgument_other (m : ParameterMap) (hwf : WellFormed m) (s : ParseState)
    (hs : ScanInv m s) (t : String) (hk : ¬ IsKeywordName m t) (hf : ¬ IsFlagName m t) :
    parseArgument s t =
      if t.data.head? = some '-' then parseDash s t else parseValue s t := by
  unfold parseArgument
  rw [hs.same.1]
  cases h1 : map_find m.name_to_id_ t with
  | none => rfl
  | some id =>
    have h2 : id ∉ m.keyword_parameters_ :=
      fun h => hk ((isKeywordName_iff m hwf t).2 ⟨id, h1, h⟩)
    have h3 : id ∉ m.flags_ := fun h => hf ((isFlagName_iff m hwf t).2 ⟨id, h1, h⟩)
    simp [unordered_set_count, hs.same.2.2.2.2.1, hs.same.2.2.2.2.2.1, h2, h3]

theorem parseArgument_dash (m : ParameterMap) (hwf : WellFormed m) (s : ParseState)
    (hs : ScanInv m s) (t : String) (hk : ¬ IsKeywordName m t) (hf : ¬ IsFlagName m t)
    (hd : BeginsWithDash t) : parseArgument s t = parseDash s t := by
  rw [parseArgument_other m hwf s hs t hk hf]
  exact if_pos hd

theorem parseArgument_plain (m : ParameterMap) (hwf : WellFormed m) (s : ParseState)
    (hs : ScanInv m s) (t : String) (hp : IsPlain m t) :
    parseArgument s t = parseValue s t := by
  rw [parseArgument_other m hwf s hs t hp.1 hp.2.1]
  exact if_neg hp.2.2

/-! ## The scanner at particular inputs -/

/-- C6, at a failing input: the keyword `--k` has maximum 1; on
`cmd --k a --k b c` the scan succeeds and leaves it with the three tokens `a`, `b`, `c`.  The
list closed after `a`, was reopened by the second `--k`, and the test of `AddArgument`
(`size() == max`) never holds again once the size has passed the maximum. -/
theorem keyword_reopened_exceeds_max :
    sample_keyword_registry.parameter_configurations_.map
        (fun cfg => (cfg.category_, cfg.max_num_arguments_, cfg.default_arguments_)) =
      [(ParameterCategory.kKeywordParameter, 1, [])] ∧
    (sample_keyword_registry.parse ["cmd", "--k", "a", "--k", "b", "c"]).value? =
      some { additional_arguments := [], unfilled_parameters := [] } ∧
    (sample_keyword_registry.parse ["cmd", "--k", "a", "--k", "b", "c"]).state.arguments_ =
      [["a", "b", "c"]] := by
  decide

/-- C9, at a failing input: `-a` is a flag and `-k` is a keyword parameter.  The token `-ak`
begins with `-`, is no keyword or flag name, and its character `k` names no flag; yet the scan
of `cmd -ak` returns normally, having appended `true` to the lists of both parameters. -/
theorem flag_list_accepts_keyword_name :
    BeginsWithDash "-ak" ∧ ¬ IsKeywordName sample_dash_registry "-ak" ∧
    ¬ IsFlagName sample_dash_registry "-ak" ∧ ¬ IsFlagName sample_dash_registry "-k" ∧
    (sample_dash_registry.parse ["cmd", "-ak"]).exception? = none ∧
    (sample_dash_registry.parse ["cmd", "-ak"]).state.arguments_ = [["true"], ["true"]] := by
  decide

/-- C7, at a failing input: the positional `-p` (maximum 2) holds `a` when the keyword `--k`
interrupts it; the later token `-p` is taken for a list of flags whose character `p` names the
positional, and after the scan the positional holds `a` and `true`. -/
theorem forfeited_positional_gets_sentinel :
    (parseLoop (parseStart sample_forfeit_registry) ["a"]).state.self.arguments_ = [["a"], []] ∧
    IsKeywordName sample_forfeit_registry "--k" ∧
    (sample_forfeit_registry.parse ["cmd", "a", "--k", "x", "-p"]).exception? = none ∧
    (sample_forfeit_registry.parse ["cmd", "a", "--k", "x", "-p"]).state.arguments_ =
      [["a", "true"], ["x"]] := by
  decide

/-- C10 fails at this input: with the flags `-a` and `-b` registered, the scan of `cmd -abx`
throws `UnkownFlagOrKeyword` at the character `x`, and the state it leaves has both flags set,
whereas before the token no flag was set. -/
theorem rejected_flag_list_is_applied :
    (parseStart sample_flag_registry).self.arguments_ = [[], []] ∧
    (parseArgument (parseStart sample_flag_registry) "-abx").exception? =
      some Exception.UnkownFlagOrKeyword ∧
    (parseArgument (parseStart sample_flag_registry) "-abx").state.self.arguments_ =
      [["true"], ["true"]] ∧
    (sample_flag_registry.parse ["cmd", "-abx"]).exception? =
      some Exception.UnkownFlagOrKeyword ∧
    (sample_flag_registry.parse ["cmd", "-abx"]).state.arguments_ = [["true"], ["true"]] := by
  decide

/-! ## Collected lists after one step, in a registry built by registration -/

theorem collected_set (m : ParameterMap) (id id' : Nat) (v : List String)
    (h : id < m.arguments_.length) :
    ({ m with arguments_ := m.arguments_.set id v } : ParameterMap).collected id' =
      if id' = id then v else m.collected id' := by
  unfold ParameterMap.collected
  simp only [List.getElem?_set]
  by_cases e : id = id'
  · subst e; simp [h]
  · have e' : ¬ id' = id := fun x => e x.symm
    simp [e, e']

theorem descriptor_in_bounds (m : ParameterMap) (s : ParseState) (hs : ScanInv m s) (id : Nat)
    (cfg : ParameterConfiguration) (h : m.descriptor? id = some cfg) :
    id < s.self.arguments_.length ∧ s.self.arguments_[id]? = some (s.self.collected id) ∧
      s.self.parameter_configurations_[id]? = some cfg := by
  have hlt : id < m.parameter_configurations_.length := (List.getElem?_eq_some.1 h).1
  have hlt' : id < s.self.arguments_.length := by rw [hs.size]; exact hlt
  refine ⟨hlt', ?_, ?_⟩
  · unfold ParameterMap.collected
    rw [List.getElem?_eq_getElem hlt']
    rfl
  · rw [hs.same.2.1]; exact h

theorem keyword_descriptor (m : ParameterMap) (hwf : WellFormed m) (k : Nat)
    (h : k ∈ m.keyword_parameters_) :
    ∃ cfg, m.descriptor? k = some cfg ∧
      cfg.category_ = ParameterCategory.kKeywordParameter :=
  (hwf.keywords k).1 h

theorem positional_descriptor (m : ParameterMap) (hwf : WellFormed m) (i : Nat) (pos : Int)
    (id : Nat) (h : m.positional_parameters_[i]? = some (pos, id)) :
    ∃ cfg, m.descriptor? id = some cfg ∧
      cfg.category_ = ParameterCategory.kPositionalParameter ∧ cfg.position_ = pos :=
  hwf.positionals pos id (List.getElem?_mem h)

/-- The test at the end of `AddArgument`, for a list that has just been extended. -/
theorem AddArgument_built (m : ParameterMap) (s : ParseState) (hs : ScanInv m s) (id : Nat)
    (cfg : ParameterConfiguration) (h : m.descriptor? id = some cfg) (t : String) :
    s.self.AddArgument id t =
      .returned { s.self with arguments_ := s.self.arguments_.set id (s.self.collected id ++ [t]) }
        (decide (cfg.max_num_arguments_ > 0)
          && decide ((s.self.collected id ++ [t]).length = to_size_t cfg.max_num_arguments_)) := by
  obtain ⟨_, h1, h2⟩ := descriptor_in_bounds m s hs id cfg h
  exact AddArgument_returned s.self id t _ cfg h1 h2

theorem SetFlag_built (m : ParameterMap) (s : ParseState) (hs : ScanInv m s) (id : Nat)
    (cfg : ParameterConfiguration) (h : m.descriptor? id = some cfg) :
    s.self.SetFlag id =
      .returned
        { s.self with arguments_ := s.self.arguments_.set id (s.self.collected id ++ ["true"]) }
        () := by
  obtain ⟨_, h1, _⟩ := descriptor_in_bounds m s hs id cfg h
  exact SetFlag_returned s.self id _ h1

/-! ## A list of flags in one token and the same flags in separate tokens -/

theorem parseLoop_single_flags (m : ParameterMap) (hwf : WellFormed m) (post : List String)
    (cs : List Char) (s : ParseState) (hs : ScanInv m s)
    (hflags : ∀ c ∈ cs, IsFlagName m (String.mk ['-', c])) :
    parseLoop s (cs.map (fun c => String.mk ['-', c]) ++ post) =
      match parseFlagList s.self cs with
      | .returned m' _ =>
        parseLoop
          { s with
            self := m',
            current_keyword_it := if cs = [] then s.current_keyword_it else none } post
      | .thrown m' e => .thrown { s with self := m', current_keyword_it := none } e := by
  induction cs generalizing s with
  | nil => simp [parseFlagList]
  | cons c cs ih =>
    obtain ⟨id, h1, h2⟩ := (isFlagName_iff m hwf _).1 (hflags c (List.mem_cons_self c cs))
    have h1' : map_find s.self.name_to_id_ (String.mk ['-', c]) = some id := by
      rw [hs.same.1]; exact h1
    have hstep := parseArgument_flag m hwf s hs _ id h1 h2
    have hinv := scanInv_parseArgument m s (String.mk ['-', c]) hs
    rw [List.map_cons, List.cons_append]
    cases hset : s.self.SetFlag id with
    | returned m' u =>
      have hret := parseFlag_returned s id m' hset
      rw [hstep, hret] at hinv
      simp only [Outcome.state] at hinv
      rw [parseLoop_cons_returned s _ _ _ (hstep.trans hret),
        parseFlagList_cons_returned s.self m' c cs id h1' hset,
        ih _ hinv (fun c' hc' => hflags c' (List.mem_cons_of_mem c hc'))]
      simp
    | thrown m' e =>
      have hthr := parseFlag_thrown s id m' e hset
      rw [parseLoop_cons_thrown s _ _ _ e (hstep.trans hthr),
        parseFlagList_cons_thrown s.self m' c cs id e h1' hset]

theorem parseLoop_flag_token (m : ParameterMap) (hwf : WellFormed m) (post : List String)
    (cs : List Char) (s : ParseState) (hs : ScanInv m s) (hne : cs ≠ [])
    (hflags : ∀ c ∈ cs, IsFlagName m (String.mk ['-', c]))
    (hk : ¬ IsKeywordName m (String.mk ('-' :: cs)))
    (hf : ¬ IsFlagName m (String.mk ('-' :: cs))) :
    parseLoop s (String.mk ('-' :: cs) :: post) =
      parseLoop s (cs.map (fun c => String.mk ['-', c]) ++ post) := by
  rw [parseLoop_single_flags m hwf post cs s hs hflags]
  have hd : BeginsWithDash (String.mk ('-' :: cs)) := rfl
  have hstep := parseArgument_dash m hwf s hs _ hk hf hd
  have hdrop : (String.mk ('-' :: cs)).data.drop 1 = cs := rfl
  cases hlist : parseFlagList s.self cs with
  | returned m' u =>
    have hret := parseDash_returned s (String.mk ('-' :: cs)) m' (by rw [hdrop]; exact hlist)
    rw [parseLoop_cons_returned s _ _ _ (hstep.trans hret)]
    simp [hne]
  | thrown m' e =>
    have hthr := parseDash_thrown s (String.mk ('-' :: cs)) m' e (by rw [hdrop]; exact hlist)
    rw [parseLoop_cons_thrown s _ _ _ e (hstep.trans hthr)]

theorem parse_of_loop_eq (m : ParameterMap) (ts us : List String)
    (h : parseLoop (parseStart m) ts = parseLoop (parseStart m) us) (a0 b0 : String) :
    m.parse (a0 :: ts) = m.parse (b0 :: us) := by
  unfold ParameterMap.parse
  simp only [List.drop_succ_cons, List.drop_zero]
  rw [h]

/-- C8 fails when the token stands first: `parse` skips the first element of the token list, so
`-ab` alone sets nothing, whereas in `-a -b` the second token is scanned and sets the flag
`-b`. -/
theorem flag_list_in_first_place_differs :
    (∀ c ∈ ['a', 'b'], IsFlagName sample_flag_registry (String.mk ['-', c])) ∧
    ¬ IsKeywordName sample_flag_registry "-ab" ∧ ¬ IsFlagName sample_flag_registry "-ab" ∧
    (sample_flag_registry.parse ["-ab"]).state.arguments_ = [[], []] ∧
    (sample_flag_registry.parse ["-a", "-b"]).state.arguments_ = [[], ["true"]] := by
  decide

/-- C8, amended: in a registry built by registration let every `-c`, for `c` among the
characters `cs` (two or more), be a name of a registered flag, and let the token `-cs` be no
keyword or flag name.  Then for every token list in which that token stands after the first
element (`a0`, which `parse` skips), with any tokens `pre` before it and `post` after it,
`parse` ends in the same way (same returned `InvalidArguments` or same exception) and leaves the
same registry, hence the same collected lists and the same answers of `IsSet`, as on the token
list that has the tokens `-c`, one per character and in order, in its place. -/
theorem flag_list_equals_separate_flags (format : HelpStringFormat) (ps : List Parameter)
    (cs : List Char) (a0 : String) (pre post : List String)
    (hn : 2 ≤ cs.length)
    (hflags : ∀ c ∈ cs,
      IsFlagName ((ParameterMap.init format).registerAll ps) (String.mk ['-', c]))
    (hk : ¬ IsKeywordName ((ParameterMap.init format).registerAll ps) (String.mk ('-' :: cs)))
    (hf : ¬ IsFlagName ((ParameterMap.init format).registerAll ps) (String.mk ('-' :: cs))) :
    ((ParameterMap.init format).registerAll ps).parse
        (a0 :: (pre ++ String.mk ('-' :: cs) :: post)) =
      ((ParameterMap.init format).registerAll ps).parse
        (a0 :: (pre ++ (cs.map (fun c => String.mk ['-', c]) ++ post))) := by
  have hwf := wellFormed_built format ps
  generalize (ParameterMap.init format).registerAll ps = m at hwf hflags hk hf ⊢
  have hne : cs ≠ [] := by
    intro h
    rw [h] at hn
    simp at hn
  apply parse_of_loop_eq
  rw [parseLoop_append, parseLoop_append]
  have hinv := scanInv_parseLoop m pre (parseStart m) (scanInv_parseStart m)
  cases hpre : parseLoop (parseStart m) pre with
  | returned s u =>
    rw [hpre] at hinv
    exact parseLoop_flag_token m hwf post cs s hinv hne hflags hk hf
  | thrown s e => rfl

/-- C8, amended, at an instance: `cmd x -ab y` and `cmd x -a -b y` with the flags `-a`, `-b`. -/
theorem flag_list_equals_separate_flags_witness :
    2 ≤ ['a', 'b'].length ∧
    (∀ c ∈ ['a', 'b'], IsFlagName sample_flag_registry (String.mk ['-', c])) ∧
    ¬ IsKeywordName sample_flag_registry (String.mk ('-' :: ['a', 'b'])) ∧
    ¬ IsFlagName sample_flag_registry (String.mk ('-' :: ['a', 'b'])) ∧
    sample_flag_registry.parse ("cmd" :: (["x"] ++ String.mk ('-' :: ['a', 'b']) :: ["y"])) =
      sample_flag_registry.parse
        ("cmd" :: (["x"] ++ (['a', 'b'].map (fun c => String.mk ['-', c]) ++ ["y"]))) :=
  ⟨by decide, by decide, by decide, by decide,
    flag_list_equals_separate_flags sample_format
      [Parameter.FlagChar 'a' sample_flag_converter, Parameter.FlagChar 'b' sample_flag_converter]
      ['a', 'b'] "cmd" ["x"] ["y"] (by decide) (by decide) (by decide) (by decide)⟩

/-! ## A list of flags that is rejected -/

theorem namesParameter_iff (m : ParameterMap) (hwf : WellFormed m) (id : Nat) (c : Char) :
    namesParameter m id c = true ↔ map_find m.name_to_id_ (String.mk ['-', c]) = some id := by
  rw [hwf.names]
  unfold namesParameter
  cases h : m.descriptor? id with
  | none => simp
  | some cfg => simp

theorem parseFlagList_rejected (m : ParameterMap) (hwf : WellFormed m) (x : Char)
    (cs₂ : List Char) (hx : ¬ IsRegisteredName m (String.mk ['-', x])) (cs₁ : List Char)
    (s : ParseState) (hs : ScanInv m s)
    (hflags : ∀ c ∈ cs₁, IsFlagName m (String.mk ['-', c])) :
    ∃ m', parseFlagList s.self (cs₁ ++ x :: cs₂) = .thrown m' .UnkownFlagOrKeyword ∧
      SameRegistry m m' ∧ m'.arguments_.length = s.self.arguments_.length ∧
      ∀ id, m'.collected id =
        s.self.collected id ++ List.replicate (cs₁.filter (namesParameter m id)).length "true" := by
  induction cs₁ generalizing s with
  | nil =>
    have hnone : map_find s.self.name_to_id_ (String.mk ['-', x]) = none := by
      rw [hs.same.1]
      cases h : map_find m.name_to_id_ (String.mk ['-', x]) with
      | none => rfl
      | some id => exact absurd ((isRegisteredName_iff m hwf _).2 ⟨id, h⟩) hx
    refine ⟨s.self, ?_, hs.same, rfl, fun id => by simp⟩
    rw [List.nil_append]
    exact parseFlagList_cons_none s.self x cs₂ hnone
  | cons c cs ih =>
    obtain ⟨idc, h1, h2⟩ := (isFlagName_iff m hwf _).1 (hflags c (List.mem_cons_self c cs))
    have h1' : map_find s.self.name_to_id_ (String.mk ['-', c]) = some idc := by
      rw [hs.same.1]; exact h1
    obtain ⟨cfg, hcfg, _⟩ := (hwf.flags idc).1 h2
    have hset := SetFlag_built m s hs idc cfg hcfg
    have hb := descriptor_in_bounds m s hs idc cfg hcfg
    have hstate := SetFlag_state s.self idc
    rw [hset] at hstate
    simp only [Outcome.state] at hstate
    obtain ⟨m', hm', hsame, hlen, hcol⟩ :=
      ih { s with self :=
            { s.self with
              arguments_ := s.self.arguments_.set idc (s.self.collected idc ++ ["true"]) } }
        ⟨hs.same.trans hstate.1, hstate.2.trans hs.size, hs.keyword⟩
        (fun c' hc' => hflags c' (List.mem_cons_of_mem c hc'))
    refine ⟨m', ?_, hsame, ?_, ?_⟩
    · rw [List.cons_append, parseFlagList_cons_returned s.self _ c _ idc h1' hset]
      exact hm'
    · rw [hlen]; simp
    · intro id
      rw [hcol id]
      simp only at *
      rw [collected_set s.self idc id _ hb.1, List.filter_cons]
      by_cases hid : id = idc
      · subst hid
        have : namesParameter m id c = true := (namesParameter_iff m hwf id c).2 h1
        rw [if_pos rfl, this, if_pos rfl, List.length_cons, List.replicate_succ]
        simp
      · have : ¬ namesParameter m id c = true := by
          intro hn
          have := (namesParameter_iff m hwf id c).1 hn
          rw [h1] at this
          injection this with this
          exact hid this.symm
        rw [if_neg hid, if_neg this]

theorem arguments_eq_of_collected (a b : ParameterMap)
    (hlen : a.arguments_.length = b.arguments_.length)
    (h : ∀ id, a.collected id = b.collected id) : a.arguments_ = b.arguments_ := by
  apply List.ext_getElem? 
  intro id
  have := h id
  unfold ParameterMap.collected at this
  by_cases hid : id < a.arguments_.length
  · have hid' : id < b.arguments_.length := hlen ▸ hid
    rw [List.getElem?_eq_getElem hid, List.getElem?_eq_getElem hid'] at this ⊢
    simpa using this
  · rw [List.getElem?_eq_none (by omega), List.getElem?_eq_none (by omega)]

/-- C10, amended: in a registry built by registration, let the scan have reached the state `s`
after the tokens `pre`, and let the next token be `-` followed by the characters `cs₁`, `x`,
`cs₂`, where the token is no keyword or flag name, every `-c` with `c` in `cs₁` is a name of a
flag and `-x` is no registered name.  Then the scan throws `UnkownFlagOrKeyword` at this token,
and in the state it leaves each collected list is the list of `s` followed by one `true` for
every character of `cs₁` that names the parameter: the flags before the unknown character are
set, the characters after it are not applied.  The collected arguments are those of `s` if and
only if the unknown character comes first. -/
theorem rejected_flag_list_applies_leading_flags (format : HelpStringFormat)
    (ps : List Parameter) (a0 : String) (pre post : List String) (cs₁ : List Char) (x : Char)
    (cs₂ : List Char) (s : ParseState)
    (hpre : parseLoop (parseStart ((ParameterMap.init format).registerAll ps)) pre =
      .returned s ())
    (hk : ¬ IsKeywordName ((ParameterMap.init format).registerAll ps)
      (String.mk ('-' :: (cs₁ ++ x :: cs₂))))
    (hf : ¬ IsFlagName ((ParameterMap.init format).registerAll ps)
      (String.mk ('-' :: (cs₁ ++ x :: cs₂))))
    (hflags : ∀ c ∈ cs₁,
      IsFlagName ((ParameterMap.init format).registerAll ps) (String.mk ['-', c]))
    (hx : ¬ IsRegisteredName ((ParameterMap.init format).registerAll ps) (String.mk ['-', x])) :
    ∃ s', parseArgument s (String.mk ('-' :: (cs₁ ++ x :: cs₂))) =
        .thrown s' .UnkownFlagOrKeyword ∧
      ((ParameterMap.init format).registerAll ps).parse
          (a0 :: (pre ++ String.mk ('-' :: (cs₁ ++ x :: cs₂)) :: post)) =
        .thrown s'.self .UnkownFlagOrKeyword ∧
      s'.self.arguments_.length = s.self.arguments_.length ∧
      (∀ id, s'.self.collected id =
        s.self.collected id ++
          List.replicate
            (cs₁.filter (namesParameter ((ParameterMap.init format).registerAll ps) id)).length
            "true") ∧
      (cs₁ = [] ↔ s'.self.arguments_ = s.self.arguments_) := by
  have hwf := wellFormed_built format ps
  generalize (ParameterMap.init format).registerAll ps = m at hwf hpre hflags hk hf hx ⊢
  have hinv := scanInv_parseLoop m pre (parseStart m) (scanInv_parseStart m)
  rw [hpre] at hinv
  simp only [Outcome.state] at hinv
  obtain ⟨m', hm', _, hlen, hcol⟩ := parseFlagList_rejected m hwf x cs₂ hx cs₁ s hinv hflags
  have hd : BeginsWithDash (String.mk ('-' :: (cs₁ ++ x :: cs₂))) := rfl
  have hstep := parseArgument_dash m hwf s hinv _ hk hf hd
  have hthr := parseDash_thrown s (String.mk ('-' :: (cs₁ ++ x :: cs₂))) m' _ hm'
  refine ⟨_, hstep.trans hthr, ?_, hlen, hcol, ?_⟩
  · unfold ParameterMap.parse
    simp only [List.drop_succ_cons, List.drop_zero]
    rw [parseLoop_append, hpre]
    simp only
    rw [parseLoop_cons_thrown s _ _ _ _ (hstep.trans hthr)]
  · constructor
    · intro hnil
      apply arguments_eq_of_collected _ _ hlen
      intro id
      rw [hcol id, hnil]
      simp
    · intro heq
      cases hcs : cs₁ with
      | nil => rfl
      | cons c cs =>
        exfalso
        obtain ⟨id, h1, _⟩ := (isFlagName_iff m hwf _).1 (hflags c (by rw [hcs]; simp))
        have hn : namesParameter m id c = true := (namesParameter_iff m hwf id c).2 h1
        have hc := hcol id
        have hsame : ({ s with current_keyword_it := none, self := m' } : ParseState).self.collected
            id = s.self.collected id := by
          unfold ParameterMap.collected
          rw [heq]
        rw [hsame, hcs, List.filter_cons, hn, if_pos rfl, List.length_cons,
          List.replicate_succ] at hc
        have := congrArg List.length hc
        simp at this

/-- C10, amended, at an instance: flags `-a` and `-b`, the token list `cmd -b -abx y`; after
`-b` the flag `-b` holds one `true`, and at the failure on `x` it holds two and `-a` one. -/
theorem rejected_flag_list_applies_leading_flags_witness :
    ¬ IsKeywordName sample_flag_registry (String.mk ('-' :: (['a', 'b'] ++ 'x' :: []))) ∧
    ¬ IsFlagName sample_flag_registry (String.mk ('-' :: (['a', 'b'] ++ 'x' :: []))) ∧
    (∀ c ∈ ['a', 'b'], IsFlagName sample_flag_registry (String.mk ['-', c])) ∧
    ¬ IsRegisteredName sample_flag_registry (String.mk ['-', 'x']) ∧
    (parseLoop (parseStart sample_flag_registry) ["-b"]).state.self.arguments_ =
      [[], ["true"]] ∧
    ∃ s', parseArgument (parseLoop (parseStart sample_flag_registry) ["-b"]).state
        (String.mk ('-' :: (['a', 'b'] ++ 'x' :: []))) = .thrown s' .UnkownFlagOrKeyword ∧
      ∀ id, s'.self.collected id =
        (parseLoop (parseStart sample_flag_registry) ["-b"]).state.self.collected id ++
          List.replicate
            (['a', 'b'].filter (namesParameter sample_flag_registry id)).length "true" :=
  ⟨by decide, by decide, by decide, by decide, by decide,
    (rejected_flag_list_applies_leading_flags sample_format
      [Parameter.FlagChar 'a' sample_flag_converter, Parameter.FlagChar 'b' sample_flag_converter]
      "cmd" ["-b"] ["y"] ['a', 'b'] 'x' []
      (parseLoop (parseStart sample_flag_registry) ["-b"]).state rfl
      (by decide) (by decide) (by decide) (by decide)).imp
      (fun _ h => ⟨h.1, h.2.2.2.1⟩)⟩

/-! ## Closing a keyword list at its maximum -/

theorem to_size_t_of_nonneg (i : Int) (h0 : 0 ≤ i) (h1 : i < 2 ^ 31) :
    (to_size_t i : Int) = i := by
  unfold to_size_t
  have h2 : i % 2 ^ 64 = i := Int.emod_eq_of_lt h0 (by omega)
  rw [h2]
  exact Int.toNat_of_nonneg h0

theorem parseArgument_flag_or_dash (m : ParameterMap) (hwf : WellFormed m) (s s' : ParseState)
    (hs : ScanInv m s) (t : String) (hk : ¬ IsKeywordName m t) (hp : ¬ IsPlain m t)
    (h : parseArgument s t = .returned s' ()) :
    s'.current_keyword_it = none ∧ s'.current_positional_it = s.current_positional_it ∧
      s'.invalid_arguments = s.invalid_arguments := by
  by_cases hf : IsFlagName m t
  · obtain ⟨id, h1, h2⟩ := (isFlagName_iff m hwf t).1 hf
    rw [parseArgument_flag m hwf s hs t id h1 h2] at h
    cases hset : s.self.SetFlag id with
    | returned m' u =>
      rw [parseFlag_returned s id m' hset] at h
      injection h with h
      subst h
      exact ⟨rfl, rfl, rfl⟩
    | thrown m' e =>
      rw [parseFlag_thrown s id m' e hset] at h
      exact absurd h (by simp)
  · have hd : BeginsWithDash t := by
      by_contra hd
      exact hp ⟨hk, hf, hd⟩
    rw [parseArgument_dash m hwf s hs t hk hf hd] at h
    cases hlist : parseFlagList s.self (t.data.drop 1) with
    | returned m' u =>
      rw [parseDash_returned s t m' hlist] at h
      injection h with h
      subst h
      exact ⟨rfl, rfl, rfl⟩
    | thrown m' e =>
      rw [parseDash_thrown s t m' e hlist] at h
      exact absurd h (by simp)

theorem parseLoop_flags_or_dashes (m : ParameterMap) (hwf : WellFormed m) (mid : List String)
    (s s' : ParseState) (hs : ScanInv m s) (hnone : s.current_keyword_it = none)
    (hmid : ∀ t ∈ mid, ¬ IsKeywordName m t ∧ ¬ IsPlain m t)
    (h : parseLoop s mid = .returned s' ()) :
    s'.current_keyword_it = none ∧ s'.current_positional_it = s.current_positional_it ∧
      s'.invalid_arguments = s.invalid_arguments := by
  induction mid generalizing s with
  | nil =>
    simp only [parseLoop] at h
    injection h with h
    subst h
    exact ⟨hnone, rfl, rfl⟩
  | cons t mid ih =>
    have hinv := scanInv_parseArgument m s t hs
    cases hstep : parseArgument s t with
    | returned s1 u =>
      rw [hstep] at hinv
      rw [parseLoop_cons_returned s s1 t mid hstep] at h
      obtain ⟨a1, a2, a3⟩ := parseArgument_flag_or_dash m hwf s s1 hs t
        (hmid t (List.mem_cons_self t mid)).1 (hmid t (List.mem_cons_self t mid)).2 hstep
      obtain ⟨b1, b2, b3⟩ := ih s1 hinv a1
        (fun t' ht' => hmid t' (List.mem_cons_of_mem t ht')) h
      exact ⟨b1, b2.trans a2, b3.trans a3⟩
    | thrown s1 e =>
      rw [parseLoop_cons_thrown s s1 t mid e hstep] at h
      exact absurd h (by simp)

theorem parseValue_keyword_built (m : ParameterMap) (s : ParseState) (hs : ScanInv m s)
    (k : Nat) (cfg : ParameterConfiguration) (hopen : s.current_keyword_it = some k)
    (hcfg : m.descriptor? k = some cfg) (t : String) :
    parseValue s t = .returned
      { s with
        self :=
          { s.self with arguments_ := s.self.arguments_.set k (s.self.collected k ++ [t]) },
        current_keyword_it :=
          if reached_maximum cfg (s.self.collected k ++ [t]) then none else some k } () :=
  parseValue_keyword s t k _ _ hopen (AddArgument_built m s hs k cfg hcfg t)

theorem parseValue_positional_built (m : ParameterMap) (s : ParseState) (hs : ScanInv m s)
    (pos : Int) (id : Nat) (cfg : ParameterConfiguration) (hclosed : s.current_keyword_it = none)
    (hcur : m.positional_parameters_[s.current_positional_it]? = some (pos, id))
    (hcfg : m.descriptor? id = some cfg) (t : String) :
    parseValue s t = .returned
      { s with
        self :=
          { s.self with arguments_ := s.self.arguments_.set id (s.self.collected id ++ [t]) },
        current_positional_it :=
          if reached_maximum cfg (s.self.collected id ++ [t]) then s.current_positional_it + 1
          else s.current_positional_it } () :=
  parseValue_positional s t pos id _ _ hclosed (by rw [hs.same.2.2.2.1]; exact hcur)
    (AddArgument_built m s hs id cfg hcfg t)

theorem parseValue_additional_built (m : ParameterMap) (s : ParseState) (hs : ScanInv m s)
    (hclosed : s.current_keyword_it = none)
    (hcur : m.positional_parameters_[s.current_positional_it]? = none) (t : String) :
    parseValue s t = .returned
      { s with invalid_arguments :=
        { s.invalid_arguments with
          additional_arguments := s.invalid_arguments.additional_arguments ++ [t] } } () :=
  parseValue_additional s t hclosed (by rw [hs.same.2.2.2.1]; exact hcur)

theorem reached_maximum_of_full (cfg : ParameterConfiguration) (l : List String)
    (hmax : 0 < cfg.max_num_arguments_) (hint : cfg.max_num_arguments_ < 2 ^ 31)
    (hfull : (l.length : Int) = cfg.max_num_arguments_) : reached_maximum cfg l = true := by
  unfold reached_maximum
  have h := to_size_t_of_nonneg cfg.max_num_arguments_ (le_of_lt hmax) hint
  have : l.length = to_size_t cfg.max_num_arguments_ := by
    have : (l.length : Int) = (to_size_t cfg.max_num_arguments_ : Int) := by rw [h, hfull]
    exact_mod_cast this
  simp [hmax, this]

/-- C5: in a registry built by registration, let the scan have reached the state `s` after the
tokens `pre`, with the keyword parameter `k` open, its maximum bounded and its list one short of
the maximum.  The plain token `t₁` is appended to the list of `k`, which thereby reaches the
maximum.  Let then follow any tokens `mid` none of which is a keyword name or a plain token
(flag names, lists of flags), scanned without failure, and then the plain token `t₂`.  Then
`t₂` is not appended to the list of `k`: if a positional parameter is under the cursor (which
has not moved since `s`) it is appended to that parameter's list and to no other, and if none
remains it is appended to `additional_arguments` and no collected list changes. -/
theorem keyword_list_closes_at_maximum (format : HelpStringFormat) (ps : List Parameter)
    (pre mid : List String) (t₁ t₂ : String) (s smid : ParseState) (k : Nat)
    (cfg : ParameterConfiguration)
    (hpre : parseLoop (parseStart ((ParameterMap.init format).registerAll ps)) pre =
      .returned s ())
    (hopen : s.current_keyword_it = some k)
    (hcfg : ((ParameterMap.init format).registerAll ps).descriptor? k = some cfg)
    (hmax : 0 < cfg.max_num_arguments_) (hint : cfg.max_num_arguments_ < 2 ^ 31)
    (hfull : ((s.self.collected k).length : Int) + 1 = cfg.max_num_arguments_)
    (ht₁ : IsPlain ((ParameterMap.init format).registerAll ps) t₁)
    (hmid : ∀ t ∈ mid, ¬ IsKeywordName ((ParameterMap.init format).registerAll ps) t ∧
      ¬ IsPlain ((ParameterMap.init format).registerAll ps) t)
    (hsmid : parseLoop s (t₁ :: mid) = .returned smid ())
    (ht₂ : IsPlain ((ParameterMap.init format).registerAll ps) t₂) :
    (∃ s₁, parseArgument s t₁ = .returned s₁ () ∧
      s₁.self.collected k = s.self.collected k ++ [t₁] ∧
      ((s₁.self.collected k).length : Int) = cfg.max_num_arguments_) ∧
    smid.current_positional_it = s.current_positional_it ∧
    ∃ s₂, parseArgument smid t₂ = .returned s₂ () ∧
      s₂.self.collected k = smid.self.collected k ∧
      (∀ pos pid, ((ParameterMap.init format).registerAll ps).positional_parameters_[
          smid.current_positional_it]? = some (pos, pid) →
        s₂.self.collected pid = smid.self.collected pid ++ [t₂] ∧
        (∀ id, id ≠ pid → s₂.self.collected id = smid.self.collected id) ∧
        s₂.invalid_arguments = smid.invalid_arguments) ∧
      (((ParameterMap.init format).registerAll ps).positional_parameters_[
          smid.current_positional_it]? = none →
        s₂.self.arguments_ = smid.self.arguments_ ∧
        s₂.invalid_arguments.additional_arguments =
          smid.invalid_arguments.additional_arguments ++ [t₂]) := by
  have hwf := wellFormed_built format ps
  generalize (ParameterMap.init format).registerAll ps = m at hwf hpre hcfg ht₁ hmid ht₂ ⊢
  have hs := scanInv_parseLoop m pre (parseStart m) (scanInv_parseStart m)
  rw [hpre] at hs
  simp only [Outcome.state] at hs
  have hb := descriptor_in_bounds m s hs k cfg hcfg
  -- the step on `t₁`
  have hreach : reached_maximum cfg (s.self.collected k ++ [t₁]) = true := by
    apply reached_maximum_of_full cfg _ hmax hint
    rw [List.length_append, List.length_singleton]
    push_cast
    exact hfull
  have hstep₁ : parseArgument s t₁ = .returned
      { s with
        self :=
          { s.self with arguments_ := s.self.arguments_.set k (s.self.collected k ++ [t₁]) },
        current_keyword_it := none } () := by
    rw [parseArgument_plain m hwf s hs t₁ ht₁, parseValue_keyword_built m s hs k cfg hopen hcfg t₁,
      hreach]
    rfl
  have hcol₁ : ({ s.self with
      arguments_ := s.self.arguments_.set k (s.self.collected k ++ [t₁]) } :
        ParameterMap).collected k = s.self.collected k ++ [t₁] := by
    rw [collected_set s.self k k _ hb.1, if_pos rfl]
  have hs₁ := scanInv_parseArgument m s t₁ hs
  rw [hstep₁] at hs₁
  simp only [Outcome.state] at hs₁
  -- the tokens in between
  rw [parseLoop_cons_returned s _ t₁ mid hstep₁] at hsmid
  obtain ⟨hnone, hcursor, _⟩ := parseLoop_flags_or_dashes m hwf mid _ smid hs₁ rfl hmid hsmid
  have hsm := scanInv_parseLoop m mid _ hs₁
  rw [hsmid] at hsm
  simp only [Outcome.state] at hsm
  refine ⟨⟨_, hstep₁, hcol₁, ?_⟩, hcursor, ?_⟩
  · rw [hcol₁, List.length_append, List.length_singleton]
    push_cast
    exact hfull
  -- the step on `t₂`
  rw [parseArgument_plain m hwf smid hsm t₂ ht₂]
  cases hcur : m.positional_parameters_[smid.current_positional_it]? with
  | none =>
    rw [parseValue_additional_built m smid hsm hnone hcur t₂]
    refine ⟨_, rfl, rfl, ?_, ?_⟩
    · intro pos pid h
      exact absurd h (by simp)
    · intro _
      exact ⟨rfl, rfl⟩
  | some e =>
    obtain ⟨pos, pid⟩ := e
    obtain ⟨pcfg, hpcfg, hpcat, _⟩ := positional_descriptor m hwf _ pos pid hcur
    have hpb := descriptor_in_bounds m smid hsm pid pcfg hpcfg
    rw [parseValue_positional_built m smid hsm pos pid pcfg hnone hcur hpcfg t₂]
    have hne : k ≠ pid := by
      intro e
      subst e
      obtain ⟨kcfg, hk1, hk2⟩ := keyword_descriptor m hwf k (hs.keyword k hopen)
      rw [hpcfg] at hk1
      injection hk1 with hk1
      subst hk1
      rw [hpcat] at hk2
      exact absurd hk2 (by decide)
    refine ⟨_, rfl, ?_, ?_, ?_⟩
    · simp only
      rw [collected_set smid.self pid k _ hpb.1, if_neg hne]
    · intro pos' pid' h
      injection h with h
      injection h with h1 h2
      subst h2
      refine ⟨?_, ?_, rfl⟩
      · simp only
        rw [collected_set smid.self pid pid _ hpb.1, if_pos rfl]
      · intro id hid
        simp only
        rw [collected_set smid.self pid id _ hpb.1, if_neg hid]
    · intro h
      exact absurd h (by simp)

/-- C5 at an instance: after `--bar 3` the keyword `--bar` (maximum 2) is open with one value;
`5` fills it, the flag `-a` follows, and `7` goes to the positional under the cursor. -/
theorem keyword_list_closes_at_maximum_witness :
    (parseLoop (parseStart sample_scan_registry) ["--bar", "3"]).state.current_keyword_it =
      some 0 ∧
    sample_scan_registry.descriptor? 0 =
      some (((Parameter.Keyword ["--bar", "-b"] sample_converter).MinArgs 2).MaxArgs 2).configuration ∧
    IsPlain sample_scan_registry "5" ∧ IsPlain sample_scan_registry "7" ∧
    (∀ t ∈ ["-a"], ¬ IsKeywordName sample_scan_registry t ∧ ¬ IsPlain sample_scan_registry t) ∧
    ∃ s₂,
      parseArgument
        (parseLoop (parseLoop (parseStart sample_scan_registry) ["--bar", "3"]).state
          ["5", "-a"]).state "7" = .returned s₂ () ∧
      s₂.self.collected 0 =
        (parseLoop (parseLoop (parseStart sample_scan_registry) ["--bar", "3"]).state
          ["5", "-a"]).state.self.collected 0 :=
  ⟨by decide, by decide, by decide, by decide, by decide,
    (keyword_list_closes_at_maximum sample_format sample_scan_attempts ["--bar", "3"] ["-a"]
      "5" "7" (parseLoop (parseStart sample_scan_registry) ["--bar", "3"]).state
      (parseLoop (parseLoop (parseStart sample_scan_registry) ["--bar", "3"]).state
        ["5", "-a"]).state
      0 (((Parameter.Keyword ["--bar", "-b"] sample_converter).MinArgs 2).MaxArgs 2).configuration
      rfl (by decide) (by decide) (by decide) (by decide) (by decide) (by decide) (by decide)
      rfl (by decide)).2.2.imp (fun _ h => ⟨h.1, h.2.1⟩)⟩

/-! ## The report after the scan: defaults and unfilled parameters -/

theorem in_bounds_of_descriptor (m m0 : ParameterMap) (hsame : SameRegistry m m0)
    (hsize : m0.arguments_.length = m.parameter_configurations_.length) (id : Nat)
    (cfg : ParameterConfiguration) (h : m.descriptor? id = some cfg) :
    id < m0.arguments_.length ∧ m0.arguments_[id]? = some (m0.collected id) ∧
      m0.parameter_configurations_[id]? = some cfg := by
  have hlt : id < m.parameter_configurations_.length := (List.getElem?_eq_some.1 h).1
  have hlt' : id < m0.arguments_.length := by rw [hsize]; exact hlt
  refine ⟨hlt', ?_, ?_⟩
  · unfold ParameterMap.collected
    rw [List.getElem?_eq_getElem hlt']
    rfl
  · rw [hsame.2.1]; exact h

theorem SetDefaultArgumentsIfNeeded_built (m m0 : ParameterMap) (hsame : SameRegistry m m0)
    (hsize : m0.arguments_.length = m.parameter_configurations_.length) (id : Nat)
    (cfg : ParameterConfiguration) (h : m.descriptor? id = some cfg) :
    ∃ m1, m0.SetDefaultArgumentsIfNeeded id = .returned m1 () ∧ SameRegistry m m1 ∧
      m1.arguments_.length = m.parameter_configurations_.length ∧
      ∀ id', m1.collected id' =
        if id' = id ∧ m0.collected id = [] then cfg.default_arguments_ else m0.collected id' := by
  obtain ⟨hlt, h1, h2⟩ := in_bounds_of_descriptor m m0 hsame hsize id cfg h
  unfold ParameterMap.SetDefaultArgumentsIfNeeded
  rw [h1]
  simp only
  by_cases hempty : m0.collected id = []
  · have hlen : (m0.collected id).length = 0 := by rw [hempty]; rfl
    rw [if_pos hlen, h2]
    simp only
    by_cases hdef : cfg.default_arguments_.length > 0
    · rw [if_pos hdef]
      refine ⟨_, rfl, hsame.trans (SameRegistry.with_arguments m0 _), ?_, ?_⟩
      · simp only [List.length_set]; exact hsize
      · intro id'
        rw [collected_set m0 id id' _ hlt]
        by_cases e : id' = id
        · simp [e, hempty]
        · simp [e]
    · rw [if_neg hdef]
      refine ⟨_, rfl, hsame, hsize, ?_⟩
      intro id'
      have hnil : cfg.default_arguments_ = [] := by
        cases hd : cfg.default_arguments_ with
        | nil => rfl
        | cons a l => rw [hd] at hdef; simp at hdef
      by_cases e : id' = id
      · subst e; simp [hempty, hnil]
      · simp [e]
  · have hlen : ¬ (m0.collected id).length = 0 := by
      intro hl
      exact hempty (List.length_eq_zero.1 hl)
    rw [if_neg hlen]
    refine ⟨_, rfl, hsame, hsize, ?_⟩
    intro id'
    simp [hempty]

theorem IsUnfilled_built (m m0 : ParameterMap) (hsame : SameRegistry m m0)
    (hsize : m0.arguments_.length = m.parameter_configurations_.length) (id : Nat)
    (cfg : ParameterConfiguration) (h : m.descriptor? id = some cfg) :
    m0.IsUnfilled id =
      .ok (decide ((m0.collected id).length < to_size_t cfg.min_num_arguments_)) := by
  obtain ⟨_, h1, h2⟩ := in_bounds_of_descriptor m m0 hsame hsize id cfg h
  unfold ParameterMap.IsUnfilled
  rw [h1, h2]

theorem parseReport_cons (m0 m' : ParameterMap) (inv : InvalidArguments) (id : Nat)
    (ids : List Nat) (b : Bool) (cfg : ParameterConfiguration)
    (h1 : m0.SetDefaultArgumentsIfNeeded id = .returned m' ())
    (h2 : m'.IsUnfilled id = .ok b) (h3 : m'.parameter_configurations_[id]? = some cfg) :
    parseReport m0 inv (id :: ids) =
      if b then
        match cfg.names_[0]? with
        | none => .thrown m' .undefined_behavior
        | some parameter_name =>
          parseReport m'
            { inv with unfilled_parameters := inv.unfilled_parameters ++ [parameter_name] } ids
      else parseReport m' inv ids := by
  cases b with
  | true => simp [parseReport, h1, h2, h3]
  | false => simp [parseReport, h1, h2]

theorem parseReport_returned (m : ParameterMap) (ids : List Nat) (m0 m1 : ParameterMap)
    (inv inv1 : InvalidArguments) (hsame : SameRegistry m m0)
    (hsize : m0.arguments_.length = m.parameter_configurations_.length)
    (hids : ∀ id ∈ ids, ∃ cfg, m.descriptor? id = some cfg)
    (h : parseReport m0 inv ids = .returned m1 inv1) :
    SameRegistry m m1 ∧ m1.arguments_.length = m.parameter_configurations_.length ∧
      inv1.additional_arguments = inv.additional_arguments ∧
      (∀ id, id ∉ ids → m1.collected id = m0.collected id) ∧
      ∀ id cfg, m.descriptor? id = some cfg →
        m1.collected id =
          if id ∈ ids ∧ m0.collected id = [] then cfg.default_arguments_ else m0.collected id := by
  induction ids generalizing m0 inv with
  | nil =>
    simp only [parseReport] at h
    injection h with h1 h2
    subst h1; subst h2
    exact ⟨hsame, hsize, rfl, fun _ _ => rfl, fun id cfg _ => by simp⟩
  | cons id0 ids ih =>
    obtain ⟨cfg0, hcfg0⟩ := hids id0 (List.mem_cons_self id0 ids)
    obtain ⟨m', hm', hsame', hsize', hcol'⟩ :=
      SetDefaultArgumentsIfNeeded_built m m0 hsame hsize id0 cfg0 hcfg0
    have hunf := IsUnfilled_built m m' hsame' hsize' id0 cfg0 hcfg0
    have hcfg' := (in_bounds_of_descriptor m m' hsame' hsize' id0 cfg0 hcfg0).2.2
    rw [parseReport_cons m0 m' inv id0 ids _ cfg0 hm' hunf hcfg'] at h
    have key : ∃ inv', parseReport m' inv' ids = .returned m1 inv1 ∧
        inv'.additional_arguments = inv.additional_arguments := by
      by_cases hb : (m'.collected id0).length < to_size_t cfg0.min_num_arguments_
      · simp only [hb, decide_True, if_true] at h
        cases hn : cfg0.names_[0]? with
        | none =>
          rw [hn] at h
          exact absurd h (by simp)
        | some n =>
          rw [hn] at h
          exact ⟨_, h, rfl⟩
      · simp only [hb, decide_False] at h
        exact ⟨inv, h, rfl⟩
    obtain ⟨inv', hrest, hadd⟩ := key
    obtain ⟨a1, a2, a3, a4, a5⟩ := ih m' inv' hsame' hsize'
      (fun id hid => hids id (List.mem_cons_of_mem id0 hid)) hrest
    refine ⟨a1, a2, a3.trans hadd, ?_, ?_⟩
    · intro id hid
      rw [List.mem_cons, not_or] at hid
      rw [a4 id hid.2, hcol' id, if_neg (fun hh => hid.1 hh.1)]
    · intro id cfg hcfg
      rw [a5 id cfg hcfg, hcol' id]
      by_cases e : id = id0
      · subst e
        have : cfg0 = cfg := by
          rw [hcfg0] at hcfg
          injection hcfg
        subst this
        by_cases hempty : m0.collected id = []
        · simp [hempty]
        · simp [hempty]
      · simp [e]

theorem parseReport_total (m : ParameterMap) (ids : List Nat) (m0 : ParameterMap)
    (inv : InvalidArguments) (hsame : SameRegistry m m0)
    (hsize : m0.arguments_.length = m.parameter_configurations_.length)
    (hids : ∀ id ∈ ids, ∃ cfg, m.descriptor? id = some cfg ∧ cfg.names_ ≠ []) :
    ∃ m1 inv1, parseReport m0 inv ids = .returned m1 inv1 := by
  induction ids generalizing m0 inv with
  | nil => exact ⟨m0, inv, rfl⟩
  | cons id0 ids ih =>
    obtain ⟨cfg0, hcfg0, hnames⟩ := hids id0 (List.mem_cons_self id0 ids)
    obtain ⟨m', hm', hsame', hsize', _⟩ :=
      SetDefaultArgumentsIfNeeded_built m m0 hsame hsize id0 cfg0 hcfg0
    have hunf := IsUnfilled_built m m' hsame' hsize' id0 cfg0 hcfg0
    have hcfg' := (in_bounds_of_descriptor m m' hsame' hsize' id0 cfg0 hcfg0).2.2
    rw [parseReport_cons m0 m' inv id0 ids _ cfg0 hm' hunf hcfg']
    have hrest := fun inv' => ih m' inv' hsame' hsize'
      (fun id hid => hids id (List.mem_cons_of_mem id0 hid))
    by_cases hb : (m'.collected id0).length < to_size_t cfg0.min_num_arguments_
    · simp only [hb, decide_True, if_true]
      cases hn : cfg0.names_ with
      | nil => exact absurd hn hnames
      | cons n ns =>
        simp only [List.getElem?_cons_zero]
        exact hrest _
    · simp only [hb, decide_False]
      exact hrest inv

/-! ## `parse` as the scan followed by the two reports -/

theorem positional_ids_have_descriptors (m : ParameterMap) (hwf : WellFormed m) :
    ∀ id ∈ m.positional_parameters_.map Prod.snd, ∃ cfg, m.descriptor? id = some cfg := by
  intro id hid
  rw [List.mem_map] at hid
  obtain ⟨⟨pos, id'⟩, hmem, rfl⟩ := hid
  obtain ⟨cfg, h, _⟩ := hwf.positionals pos id' hmem
  exact ⟨cfg, h⟩

theorem keyword_ids_have_descriptors (m : ParameterMap) (hwf : WellFormed m) :
    ∀ id ∈ m.keyword_parameters_, ∃ cfg, m.descriptor? id = some cfg := by
  intro id hid
  obtain ⟨cfg, h, _⟩ := (hwf.keywords id).1 hid
  exact ⟨cfg, h⟩

theorem parse_returned (m : ParameterMap) (hwf : WellFormed m) (argv : List String)
    (mf : ParameterMap) (inv : InvalidArguments) (h : m.parse argv = .returned mf inv) :
    ∃ s, parseLoop (parseStart m) (argv.drop 1) = .returned s () ∧ ScanInv m s ∧
      SameRegistry m mf ∧
      inv.additional_arguments = s.invalid_arguments.additional_arguments ∧
      ∀ id cfg, m.descriptor? id = some cfg →
        mf.collected id =
          if (id ∈ m.positional_parameters_.map Prod.snd ∨ id ∈ m.keyword_parameters_) ∧
              s.self.collected id = [] then cfg.default_arguments_
          else s.self.collected id := by
  unfold ParameterMap.parse at h
  have hinv := scanInv_parseLoop m (argv.drop 1) (parseStart m) (scanInv_parseStart m)
  cases hloop : parseLoop (parseStart m) (argv.drop 1) with
  | thrown s e =>
    rw [hloop] at h
    exact absurd h (by simp)
  | returned s u =>
    rw [hloop] at h hinv
    simp only [Outcome.state] at hinv
    simp only at h
    rw [hinv.same.2.2.2.1] at h
    cases hrep : parseReport s.self s.invalid_arguments (m.positional_parameters_.map Prod.snd) with
    | thrown m1 e =>
      rw [hrep] at h
      exact absurd h (by simp)
    | returned m1 inv1 =>
      rw [hrep] at h
      simp only at h
      obtain ⟨a1, a2, a3, _, a5⟩ := parseReport_returned m _ s.self m1 s.invalid_arguments inv1
        hinv.same hinv.size (positional_ids_have_descriptors m hwf) hrep
      rw [a1.2.2.2.2.1] at h
      obtain ⟨b1, _, b3, _, b5⟩ := parseReport_returned m _ m1 mf inv1 inv a1 a2
        (keyword_ids_have_descriptors m hwf) h
      refine ⟨s, rfl, hinv, b1, b3.trans a3, ?_⟩
      intro id cfg hcfg
      rw [b5 id cfg hcfg, a5 id cfg hcfg]
      by_cases hempty : s.self.collected id = []
      · by_cases hp : id ∈ m.positional_parameters_.map Prod.snd
        · by_cases hk : id ∈ m.keyword_parameters_
          · simp [hempty, hp, hk]
          · simp [hempty, hp, hk]
        · by_cases hk : id ∈ m.keyword_parameters_
          · simp [hempty, hp, hk]
          · simp [hempty, hp, hk]
      · simp [hempty]

theorem parse_total (m : ParameterMap) (hwf : WellFormed m) (argv : List String)
    (s : ParseState) (hloop : parseLoop (parseStart m) (argv.drop 1) = .returned s ())
    (hnames : ∀ cfg ∈ m.parameter_configurations_, cfg.names_ ≠ []) :
    ∃ mf inv, m.parse argv = .returned mf inv := by
  have hinv := scanInv_parseLoop m (argv.drop 1) (parseStart m) (scanInv_parseStart m)
  rw [hloop] at hinv
  simp only [Outcome.state] at hinv
  unfold ParameterMap.parse
  rw [hloop]
  simp only
  rw [hinv.same.2.2.2.1]
  obtain ⟨m1, inv1, h1⟩ := parseReport_total m (m.positional_parameters_.map Prod.snd) s.self
    s.invalid_arguments hinv.same hinv.size (fun id hid => by
      obtain ⟨cfg, hcfg⟩ := positional_ids_have_descriptors m hwf id hid
      exact ⟨cfg, hcfg, hnames cfg (List.getElem?_mem hcfg)⟩)
  rw [h1]
  simp only
  obtain ⟨a1, a2, _⟩ := parseReport_returned m _ s.self m1 s.invalid_arguments inv1
    hinv.same hinv.size (positional_ids_have_descriptors m hwf) h1
  rw [a1.2.2.2.2.1]
  exact parseReport_total m m.keyword_parameters_ m1 inv1 a1 a2 (fun id hid => by
      obtain ⟨cfg, hcfg⟩ := keyword_ids_have_descriptors m hwf id hid
      exact ⟨cfg, hcfg, hnames cfg (List.getElem?_mem hcfg)⟩)

/-! ## Lists of lists: appending to the last non-empty one -/

theorem flatten_set_append {α : Type} (L : List (List α)) (c : Nat) (l : List α) (t : α)
    (hc : L[c]? = some l) (hlater : ∀ j l', c < j → L[j]? = some l' → l' = []) :
    (L.set c (l ++ [t])).flatten = L.flatten ++ [t] := by
  induction L generalizing c with
  | nil => simp at hc
  | cons x L ih =>
    cases c with
    | zero =>
      have hx : x = l := by simpa using hc
      subst hx
      have hrest : L.flatten = [] := by
        rw [List.flatten_eq_nil_iff]
        intro l' hl'
        obtain ⟨j, hj⟩ := List.getElem?_of_mem hl'
        exact hlater (j + 1) l' (Nat.succ_pos j) (by simpa using hj)
      simp [hrest]
    | succ c =>
      rw [List.set_cons_succ, List.flatten_cons, List.flatten_cons,
        ih c (by simpa using hc)
          (fun j l' hj hl' => hlater (j + 1) l' (by omega) (by simpa using hl')),
        List.append_assoc]

theorem sum_drop_eq_zero (L : List Nat) (j : Nat)
    (h : ∀ k v, j ≤ k → L[k]? = some v → v = 0) : (L.drop j).sum = 0 := by
  apply List.sum_eq_zero
  intro x hx
  obtain ⟨i, hi⟩ := List.getElem?_of_mem hx
  rw [List.getElem?_drop] at hi
  exact h (j + i) x (by omega) hi

theorem sum_split_at (L : List Nat) (i : Nat) (v : Nat) (h : L[i]? = some v) :
    L.sum = (L.take i).sum + v + (L.drop (i + 1)).sum := by
  obtain ⟨hi, hv⟩ := List.getElem?_eq_some.1 h
  rw [← List.sum_take_add_sum_drop L i, List.drop_eq_getElem_cons hi, List.sum_cons, hv]
  omega

theorem positional_ids_inj (m : ParameterMap) (hwf : WellFormed m) (i j : Nat)
    (e e' : Int × Nat) (hi : m.positional_parameters_[i]? = some e)
    (hj : m.positional_parameters_[j]? = some e') (h : e.2 = e'.2) : i = j := by
  obtain ⟨pos, id⟩ := e
  obtain ⟨pos', id'⟩ := e'
  simp only at h
  subst h
  obtain ⟨cfg, h1, _, h2⟩ := hwf.positionals pos id (List.getElem?_mem hi)
  obtain ⟨cfg', h1', _, h2'⟩ := hwf.positionals pos' id (List.getElem?_mem hj)
  rw [h1] at h1'
  injection h1' with h1'
  subst h1'
  have hpos : pos = pos' := h2.symm.trans h2'
  subst hpos
  have hsorted := hwf.positions_sorted
  rw [List.pairwise_iff_getElem] at hsorted
  obtain ⟨hi', hie⟩ := List.getElem?_eq_some.1 hi
  obtain ⟨hj', hje⟩ := List.getElem?_eq_some.1 hj
  have hi'' : i < (m.positional_parameters_.map Prod.fst).length := by simpa using hi'
  have hj'' : j < (m.positional_parameters_.map Prod.fst).length := by simpa using hj'
  rcases Nat.lt_trichotomy i j with hlt | heq | hgt
  · have := hsorted i j hi'' hj'' hlt
    simp [hie, hje] at this
  · exact heq
  · have := hsorted j i hj'' hi'' hgt
    simp [hie, hje] at this

/-! ## Filling the positional parameters with plain tokens -/

theorem reached_maximum_iff (cfg : ParameterConfiguration) (l : List String)
    (hmax : 0 < cfg.max_num_arguments_) (hint : cfg.max_num_arguments_ < 2 ^ 31) :
    reached_maximum cfg l = true ↔ (l.length : Int) = cfg.max_num_arguments_ := by
  constructor
  · intro h
    unfold reached_maximum at h
    simp only [Bool.and_eq_true, decide_eq_true_eq] at h
    rw [h.2]
    exact to_size_t_of_nonneg _ (le_of_lt hmax) hint
  · exact reached_maximum_of_full cfg l hmax hint

theorem collected_parseStart (m : ParameterMap) (id : Nat) :
    (parseStart m).self.collected id = [] := by
  unfold ParameterMap.collected parseStart
  simp only [List.getElem?_replicate]
  by_cases h : id < m.parameter_configurations_.length
  · simp [h]
  · simp [h]

theorem fillInv_parseStart (m : ParameterMap) (hwf : WellFormed m)
    (hmax : ∀ cfg ∈ m.parameter_configurations_,
      cfg.category_ = ParameterCategory.kPositionalParameter → 0 < cfg.max_num_arguments_) :
    FillInv m (parseStart m) [] := by
  refine ⟨rfl, ?_, ?_, ?_, ?_, ?_⟩
  · have : (m.positional_parameters_.map (fun e => (parseStart m).self.collected e.2)).flatten
        = [] := by
      rw [List.flatten_eq_nil_iff]
      intro l hl
      rw [List.mem_map] at hl
      obtain ⟨e, _, rfl⟩ := hl
      exact collected_parseStart m e.2
    rw [this]
    rfl
  · intro j e _ _
    exact collected_parseStart m e.2
  · intro e cfg he hcfg
    rw [collected_parseStart m e.2]
    obtain ⟨cfg', h1, h2, _⟩ := hwf.positionals e.1 e.2 (List.getElem?_mem he)
    rw [hcfg] at h1
    injection h1 with h1
    subst h1
    exact hmax cfg (List.getElem?_mem hcfg) h2
  · intro j e cfg hj
    exact absurd hj (Nat.not_lt_zero j)
  · intro _
    rfl

theorem fillInv_step (m : ParameterMap) (hwf : WellFormed m)
    (hmax : ∀ cfg ∈ m.parameter_configurations_,
      cfg.category_ = ParameterCategory.kPositionalParameter →
        0 < cfg.max_num_arguments_ ∧ cfg.max_num_arguments_ < 2 ^ 31)
    (s : ParseState) (hs : ScanInv m s) (seen : List String) (hf : FillInv m s seen)
    (t : String) (ht : IsPlain m t) :
    ∃ s', parseArgument s t = .returned s' () ∧ FillInv m s' (seen ++ [t]) := by
  rw [parseArgument_plain m hwf s hs t ht]
  cases hcur : m.positional_parameters_[s.current_positional_it]? with
  | none =>
    rw [parseValue_additional_built m s hs hf.closed hcur t]
    refine ⟨_, rfl, hf.closed, ?_, hf.later_empty, ?_, hf.earlier_full, ?_⟩
    · simp only
      rw [← List.append_assoc, hf.seen_eq]
    · intro e cfg he
      simp only at he
      rw [hcur] at he
      exact absurd he (by simp)
    · intro hlt
      simp only at hlt
      rw [List.getElem?_eq_none_iff] at hcur
      omega
  | some e0 =>
    obtain ⟨pos, id⟩ := e0
    obtain ⟨cfg, hcfg, hcat, _⟩ := positional_descriptor m hwf _ pos id hcur
    obtain ⟨hpos, hint⟩ := hmax cfg (List.getElem?_mem hcfg) hcat
    have hb := descriptor_in_bounds m s hs id cfg hcfg
    have hlt : s.current_positional_it < m.positional_parameters_.length :=
      (List.getElem?_eq_some.1 hcur).1
    have hadd := hf.no_additional hlt
    have hshort := hf.current_short (pos, id) cfg hcur hcfg
    simp only at hshort
    rw [parseValue_positional_built m s hs pos id cfg hf.closed hcur hcfg t]
    -- the collected lists after the step
    have hcol : ∀ id', ({ s.self with
        arguments_ := s.self.arguments_.set id (s.self.collected id ++ [t]) } :
          ParameterMap).collected id' =
        if id' = id then s.self.collected id ++ [t] else s.self.collected id' :=
      fun id' => collected_set s.self id id' _ hb.1
    have hother : ∀ j e, j ≠ s.current_positional_it → m.positional_parameters_[j]? = some e →
        ({ s.self with
          arguments_ := s.self.arguments_.set id (s.self.collected id ++ [t]) } :
            ParameterMap).collected e.2 = s.self.collected e.2 := by
      intro j e hj he
      rw [hcol e.2, if_neg]
      intro heq
      exact hj (positional_ids_inj m hwf j _ e (pos, id) he hcur heq)
    have hlists : m.positional_parameters_.map (fun e =>
        ({ s.self with
          arguments_ := s.self.arguments_.set id (s.self.collected id ++ [t]) } :
            ParameterMap).collected e.2) =
        (m.positional_parameters_.map (fun e => s.self.collected e.2)).set
          s.current_positional_it (s.self.collected id ++ [t]) := by
      apply List.ext_getElem?
      intro j
      rw [List.getElem?_map, List.getElem?_set, List.getElem?_map, List.length_map]
      by_cases hj : s.current_positional_it = j
      · subst hj
        rw [if_pos rfl, if_pos hlt, hcur]
        simp only [Option.map_some']
        rw [hcol id, if_pos rfl]
      · rw [if_neg hj]
        cases he : m.positional_parameters_[j]? with
        | none => rfl
        | some e =>
          simp only [Option.map_some']
          rw [hother j e (fun h => hj h.symm) he]
    have hflat : (m.positional_parameters_.map (fun e =>
        ({ s.self with
          arguments_ := s.self.arguments_.set id (s.self.collected id ++ [t]) } :
            ParameterMap).collected e.2)).flatten =
        (m.positional_parameters_.map (fun e => s.self.collected e.2)).flatten ++ [t] := by
      rw [hlists]
      apply flatten_set_append
      · rw [List.getElem?_map, hcur]
        rfl
      · intro j l' hj hl'
        rw [List.getElem?_map] at hl'
        cases he : m.positional_parameters_[j]? with
        | none => rw [he] at hl'; exact absurd hl' (by simp)
        | some e =>
          rw [he] at hl'
          simp only [Option.map_some', Option.some.injEq] at hl'
          rw [← hl']
          exact hf.later_empty j e hj he
    have hseen : (m.positional_parameters_.map (fun e =>
        ({ s.self with
          arguments_ := s.self.arguments_.set id (s.self.collected id ++ [t]) } :
            ParameterMap).collected e.2)).flatten ++
        s.invalid_arguments.additional_arguments = seen ++ [t] := by
      rw [hflat, hadd, List.append_nil, ← hf.seen_eq, hadd, List.append_nil]
    by_cases hreach : reached_maximum cfg (s.self.collected id ++ [t]) = true
    · have hfull := (reached_maximum_iff cfg _ hpos hint).1 hreach
      rw [if_pos hreach]
      refine ⟨_, rfl, hf.closed, hseen, ?_, ?_, ?_, fun _ => hadd⟩
      · intro j e hj he
        simp only at hj ⊢
        rw [hother j e (by omega) he]
        exact hf.later_empty j e (by omega) he
      · intro e cfg' he hcfg'
        simp only at he ⊢
        rw [hother _ e (by omega) he, hf.later_empty _ e (by omega) he]
        obtain ⟨cfg'', h1, h2, _⟩ := hwf.positionals e.1 e.2 (List.getElem?_mem he)
        rw [hcfg'] at h1
        injection h1 with h1
        subst h1
        exact (hmax cfg' (List.getElem?_mem hcfg') h2).1
      · intro j e cfg' hj he hcfg'
        simp only at hj ⊢
        by_cases hjc : j = s.current_positional_it
        · subst hjc
          rw [hcur] at he
          injection he with he
          subst he
          simp only at hcfg' ⊢
          rw [hcfg] at hcfg'
          injection hcfg' with hcfg'
          subst hcfg'
          rw [hcol id, if_pos rfl]
          exact hfull
        · rw [hother j e hjc he]
          exact hf.earlier_full j e cfg' (by omega) he hcfg'
    · have hnot : ((s.self.collected id ++ [t]).length : Int) ≠ cfg.max_num_arguments_ :=
        fun h => hreach ((reached_maximum_iff cfg _ hpos hint).2 h)
      rw [if_neg hreach]
      refine ⟨_, rfl, hf.closed, hseen, ?_, ?_, ?_, fun _ => hadd⟩
      · intro j e hj he
        simp only at hj ⊢
        rw [hother j e (by omega) he]
        exact hf.later_empty j e hj he
      · intro e cfg' he hcfg'
        simp only at he ⊢
        rw [hcur] at he
        injection he with he
        subst he
        simp only at hcfg' ⊢
        rw [hcfg] at hcfg'
        injection hcfg' with hcfg'
        subst hcfg'
        rw [hcol id, if_pos rfl]
        rw [List.length_append, List.length_singleton] at hnot ⊢
        push_cast at hnot ⊢
        omega
      · intro j e cfg' hj he hcfg'
        simp only at hj ⊢
        rw [hother j e (by omega) he]
        exact hf.earlier_full j e cfg' hj he hcfg'

theorem fillInv_loop (m : ParameterMap) (hwf : WellFormed m)
    (hmax : ∀ cfg ∈ m.parameter_configurations_,
      cfg.category_ = ParameterCategory.kPositionalParameter →
        0 < cfg.max_num_arguments_ ∧ cfg.max_num_arguments_ < 2 ^ 31)
    (ts : List String) (s : ParseState) (hs : ScanInv m s) (seen : List String)
    (hf : FillInv m s seen) (hplain : ∀ t ∈ ts, IsPlain m t) :
    ∃ s', parseLoop s ts = .returned s' () ∧ ScanInv m s' ∧ FillInv m s' (seen ++ ts) := by
  induction ts generalizing s seen with
  | nil => exact ⟨s, rfl, hs, by rw [List.append_nil]; exact hf⟩
  | cons t ts ih =>
    obtain ⟨s1, h1, hf1⟩ := fillInv_step m hwf hmax s hs seen hf t
      (hplain t (List.mem_cons_self t ts))
    have hs1 := scanInv_parseArgument m s t hs
    rw [h1] at hs1
    simp only [Outcome.state] at hs1
    obtain ⟨s', h2, hs', hf'⟩ := ih s1 hs1 (seen ++ [t]) hf1
      (fun t' ht' => hplain t' (List.mem_cons_of_mem t ht'))
    refine ⟨s', ?_, hs', ?_⟩
    · rw [parseLoop_cons_returned s s1 t ts h1]
      exact h2
    · rw [List.append_assoc] at hf'
      exact hf'

theorem fillInv_lengths (m : ParameterMap) (s : ParseState) (seen : List String)
    (hf : FillInv m s seen) (i : Nat) (e : Int × Nat) (cfg : ParameterConfiguration)
    (hpos : 0 < cfg.max_num_arguments_)
    (he : m.positional_parameters_[i]? = some e) (hcfg : m.descriptor? e.2 = some cfg) :
    (s.self.collected e.2).length =
      min cfg.max_num_arguments_.toNat
        (seen.length -
          ((m.positional_parameters_.take i).map (fun e' => (s.self.collected e'.2).length)).sum)
    := by
  have hi : i < m.positional_parameters_.length := (List.getElem?_eq_some.1 he).1
  have htotal : seen.length =
      ((m.positional_parameters_.map (fun e' => (s.self.collected e'.2).length))).sum +
        s.invalid_arguments.additional_arguments.length := by
    rw [← hf.seen_eq, List.length_append, List.length_flatten, List.map_map]
    rfl
  have hsplit := sum_split_at
    (m.positional_parameters_.map (fun e' => (s.self.collected e'.2).length)) i
    (s.self.collected e.2).length (by rw [List.getElem?_map, he]; rfl)
  rw [← List.map_take] at hsplit
  have hzero : ∀ j, s.current_positional_it < j →
      ((m.positional_parameters_.map (fun e' => (s.self.collected e'.2).length)).drop j).sum
        = 0 := by
    intro j hj
    apply sum_drop_eq_zero
    intro k v hk hv
    rw [List.getElem?_map] at hv
    cases hek : m.positional_parameters_[k]? with
    | none => rw [hek] at hv; exact absurd hv (by simp)
    | some ek =>
      rw [hek] at hv
      simp only [Option.map_some', Option.some.injEq] at hv
      rw [← hv, hf.later_empty k ek (by omega) hek]
      rfl
  rcases Nat.lt_trichotomy i s.current_positional_it with hlt | heq | hgt
  · have hfull := hf.earlier_full i e cfg hlt he hcfg
    omega
  · have hshort := hf.current_short e cfg (heq ▸ he) hcfg
    have hadd := hf.no_additional (heq ▸ hi)
    have hz := hzero (i + 1) (by omega)
    rw [hadd] at htotal
    simp only [List.length_nil] at htotal
    omega
  · have hempty := hf.later_empty i e hgt he
    have hadd := hf.no_additional (by omega)
    have hz := hzero (i + 1) (by omega)
    rw [hadd] at htotal
    rw [hempty] at hsplit ⊢
    simp only [List.length_nil] at htotal hsplit ⊢
    omega

theorem positional_index_complete (m : ParameterMap) (hwf : WellFormed m)
    (hdistinct : DistinctPositions m) (id : Nat) (cfg : ParameterConfiguration)
    (hcfg : m.descriptor? id = some cfg) :
    cfg.category_ = ParameterCategory.kPositionalParameter ↔
      (cfg.position_, id) ∈ m.positional_parameters_ := by
  constructor
  · intro hcat
    obtain ⟨id', hid'⟩ := hwf.positions_taken id cfg hcfg hcat
    obtain ⟨cfg', hcfg', hcat', hpos'⟩ := hwf.positionals _ _ hid'
    have heq : id' = id := by
      by_contra hne
      unfold DistinctPositions at hdistinct
      rw [List.pairwise_iff_getElem] at hdistinct
      obtain ⟨h1, h1e⟩ := List.getElem?_eq_some.1 hcfg
      obtain ⟨h2, h2e⟩ := List.getElem?_eq_some.1 hcfg'
      rcases Nat.lt_or_gt_of_ne hne with hlt | hgt
      · have := hdistinct id' id h2 h1 hlt
        rw [h1e, h2e] at this
        exact this hcat' hcat hpos'
      · have := hdistinct id id' h1 h2 hgt
        rw [h1e, h2e] at this
        exact this hcat hcat' hpos'.symm
    rw [← heq]
    exact hid'
  · intro hmem
    obtain ⟨cfg', hcfg', hcat', _⟩ := hwf.positionals _ _ hmem
    rw [hcfg] at hcfg'
    injection hcfg' with hcfg'
    subst hcfg'
    exact hcat'

/-- C3: in a registry built by registration whose positional descriptors have pairwise distinct
positions, each a maximum above 0 (an `int`, so below 2^31) and no defaults, let every token of
`argv` after the first be a plain value.  The positional index lists exactly the positional
descriptors, in strictly increasing order of position.  Whenever `parse` returns, which it does
at least if every descriptor has a name, the collected lists of the positionals taken in that
order, followed by `additional_arguments`, are `argv` without its first element, and the
positional in place `i` holds exactly the smaller of its maximum and the number of tokens left
over by the positionals before it. -/
theorem positionals_filled_in_position_order (format : HelpStringFormat) (ps : List Parameter)
    (argv : List String)
    (hdistinct : DistinctPositions ((ParameterMap.init format).registerAll ps))
    (hpositional : ∀ cfg ∈ ((ParameterMap.init format).registerAll ps).parameter_configurations_,
      cfg.category_ = ParameterCategory.kPositionalParameter →
        0 < cfg.max_num_arguments_ ∧ cfg.max_num_arguments_ < 2 ^ 31 ∧
          cfg.default_arguments_ = [])
    (hplain : ∀ t ∈ argv.drop 1, IsPlain ((ParameterMap.init format).registerAll ps) t) :
    (((ParameterMap.init format).registerAll ps).positional_parameters_.map Prod.fst).Pairwise
        (· < ·) ∧
    (∀ id cfg, ((ParameterMap.init format).registerAll ps).descriptor? id = some cfg →
      (cfg.category_ = ParameterCategory.kPositionalParameter ↔
        (cfg.position_, id) ∈
          ((ParameterMap.init format).registerAll ps).positional_parameters_)) ∧
    ((∀ cfg ∈ ((ParameterMap.init format).registerAll ps).parameter_configurations_,
        cfg.names_ ≠ []) →
      ∃ mf inv, ((ParameterMap.init format).registerAll ps).parse argv = .returned mf inv) ∧
    ∀ mf inv, ((ParameterMap.init format).registerAll ps).parse argv = .returned mf inv →
      (((ParameterMap.init format).registerAll ps).positional_parameters_.map
          (fun e => mf.collected e.2)).flatten ++ inv.additional_arguments = argv.drop 1 ∧
      ∀ i e cfg,
        ((ParameterMap.init format).registerAll ps).positional_parameters_[i]? = some e →
        ((ParameterMap.init format).registerAll ps).descriptor? e.2 = some cfg →
        (mf.collected e.2).length =
          min cfg.max_num_arguments_.toNat
            ((argv.drop 1).length -
              ((((ParameterMap.init format).registerAll ps).positional_parameters_.take i).map
                (fun e' => (mf.collected e'.2).length)).sum) := by
  have hwf := wellFormed_built format ps
  generalize (ParameterMap.init format).registerAll ps = m at hwf hdistinct hpositional hplain ⊢
  have hmax : ∀ cfg ∈ m.parameter_configurations_,
      cfg.category_ = ParameterCategory.kPositionalParameter →
        0 < cfg.max_num_arguments_ ∧ cfg.max_num_arguments_ < 2 ^ 31 :=
    fun cfg hc hcat => ⟨(hpositional cfg hc hcat).1, (hpositional cfg hc hcat).2.1⟩
  obtain ⟨s, hloop, hs, hf⟩ := fillInv_loop m hwf hmax (argv.drop 1) (parseStart m)
    (scanInv_parseStart m) [] (fillInv_parseStart m hwf (fun cfg hc hcat => (hmax cfg hc hcat).1))
    hplain
  rw [List.nil_append] at hf
  refine ⟨hwf.positions_sorted, fun id cfg hcfg => positional_index_complete m hwf hdistinct id
    cfg hcfg, fun hnames => parse_total m hwf argv s hloop hnames, ?_⟩
  intro mf inv hparse
  obtain ⟨s', hloop', _, _, hadd, hcol⟩ := parse_returned m hwf argv mf inv hparse
  rw [hloop] at hloop'
  injection hloop' with hloop'
  subst hloop'
  -- the reports leave the positional lists as the scan left them
  have hsame : ∀ e ∈ m.positional_parameters_, mf.collected e.2 = s.self.collected e.2 := by
    intro e he
    obtain ⟨cfg, hcfg, hcat, _⟩ := hwf.positionals e.1 e.2 he
    rw [hcol e.2 cfg hcfg]
    by_cases hempty : s.self.collected e.2 = []
    · rw [(hpositional cfg (List.getElem?_mem hcfg) hcat).2.2, hempty]
      simp
    · simp [hempty]
  have hmap : m.positional_parameters_.map (fun e => mf.collected e.2) =
      m.positional_parameters_.map (fun e => s.self.collected e.2) :=
    List.map_congr_left hsame
  refine ⟨?_, ?_⟩
  · rw [hmap, hadd]
    exact hf.seen_eq
  · intro i e cfg he hcfg
    have hcat : cfg.category_ = ParameterCategory.kPositionalParameter := by
      obtain ⟨cfg', hcfg', hcat', _⟩ := hwf.positionals e.1 e.2 (List.getElem?_mem he)
      rw [hcfg] at hcfg'
      injection hcfg' with hcfg'
      subst hcfg'
      exact hcat'
    have htake : (m.positional_parameters_.take i).map (fun e' => (mf.collected e'.2).length) =
        (m.positional_parameters_.take i).map (fun e' => (s.self.collected e'.2).length) := by
      apply List.map_congr_left
      intro e' he'
      rw [hsame e' (List.mem_of_mem_take he')]
    rw [htake, hsame e (List.getElem?_mem he)]
    exact fillInv_lengths m s (argv.drop 1) hf i e cfg
      (hmax cfg (List.getElem?_mem hcfg) hcat).1 he hcfg

/-- C3 at the scenario of the tests: `command 3 7 11 zig zag` against `FOO` (position 1), `BAR`
(position 0) and `BAZ` (position 2), one value each. -/
theorem positionals_filled_in_position_order_witness :
    DistinctPositions ((ParameterMap.init sample_format).registerAll sample_positional_attempts) ∧
    (∀ cfg ∈ ((ParameterMap.init sample_format).registerAll
        sample_positional_attempts).parameter_configurations_,
      cfg.category_ = ParameterCategory.kPositionalParameter →
        0 < cfg.max_num_arguments_ ∧ cfg.max_num_arguments_ < 2 ^ 31 ∧
          cfg.default_arguments_ = []) ∧
    (∀ t ∈ ["command", "3", "7", "11", "zig", "zag"].drop 1,
      IsPlain ((ParameterMap.init sample_format).registerAll sample_positional_attempts) t) ∧
    (((ParameterMap.init sample_format).registerAll
        sample_positional_attempts).positional_parameters_.map
          (fun e => (((ParameterMap.init sample_format).registerAll
            sample_positional_attempts).parse
              ["command", "3", "7", "11", "zig", "zag"]).state.collected e.2)).flatten ++
        ["zig", "zag"] = ["command", "3", "7", "11", "zig", "zag"].drop 1 :=
  ⟨by decide, by decide, by decide,
    ((positionals_filled_in_position_order sample_format sample_positional_attempts
      ["command", "3", "7", "11", "zig", "zag"] (by decide) (by decide) (by decide)).2.2.2
      (((ParameterMap.init sample_format).registerAll sample_positional_attempts).parse
        ["command", "3", "7", "11", "zig", "zag"]).state
      { additional_arguments := ["zig", "zag"], unfilled_parameters := [] } rfl).1⟩

/-! ## The list of a keyword parameter -/

theorem parseKeyword_built (m : ParameterMap) (hwf : WellFormed m) (s : ParseState)
    (hs : ScanInv m s) (id : Nat) (hid : id ∈ m.keyword_parameters_) :
    ∃ s', parseKeyword s id = .returned s' () ∧ s'.self = s.self ∧
      s'.current_keyword_it = some id ∧ s'.invalid_arguments = s.invalid_arguments := by
  have hfind : unordered_set_find s.self.keyword_parameters_ id = some id := by
    unfold unordered_set_find
    rw [hs.same.2.2.2.2.1, if_pos hid]
  cases hcur : m.positional_parameters_[s.current_positional_it]? with
  | none =>
    rw [parseKeyword_end s id (by rw [hs.same.2.2.2.1]; exact hcur), hfind]
    exact ⟨_, rfl, rfl, rfl, rfl⟩
  | some e =>
    obtain ⟨pos, pid⟩ := e
    obtain ⟨cfg, hcfg, _⟩ := positional_descriptor m hwf _ pos pid hcur
    have hb := descriptor_in_bounds m s hs pid cfg hcfg
    rw [parseKeyword_at s id pos pid _ (by rw [hs.same.2.2.2.1]; exact hcur) hb.2.1, hfind]
    exact ⟨_, rfl, rfl, rfl, rfl⟩

theorem parseFlag_built (m : ParameterMap) (hwf : WellFormed m) (s : ParseState)
    (hs : ScanInv m s) (id : Nat) (hid : id ∈ m.flags_) :
    parseFlag s id = .returned
      { s with
        current_keyword_it := none,
        self :=
          { s.self with
            arguments_ := s.self.arguments_.set id (s.self.collected id ++ ["true"]) } } () := by
  obtain ⟨cfg, hcfg, _⟩ := (hwf.flags id).1 hid
  exact parseFlag_returned s id _ (SetFlag_built m s hs id cfg hcfg)

theorem keyword_list_untouched_step (m : ParameterMap) (hwf : WellFormed m) (k : Nat)
    (cfg : ParameterConfiguration) (hcfg : m.descriptor? k = some cfg)
    (hcat : cfg.category_ = ParameterCategory.kKeywordParameter)
    (s : ParseState) (hs : ScanInv m s) (t : String) (hname : t ∉ cfg.names_)
    (hdash : BeginsWithDash t → IsKeywordName m t ∨ IsFlagName m t)
    (hopen : s.current_keyword_it = some k → ¬ IsPlain m t) :
    ∃ s', parseArgument s t = .returned s' () ∧ s'.self.collected k = s.self.collected k ∧
      s'.current_keyword_it ≠ some k := by
  by_cases hkw : IsKeywordName m t
  · obtain ⟨id, h1, h2⟩ := (isKeywordName_iff m hwf t).1 hkw
    have hne : id ≠ k := by
      intro e
      subst e
      obtain ⟨cfg', h3, h4⟩ := (hwf.names t id).1 h1
      rw [hcfg] at h3
      injection h3 with h3
      subst h3
      exact hname h4
    obtain ⟨s', h3, h4, h5, _⟩ := parseKeyword_built m hwf s hs id h2
    refine ⟨s', (parseArgument_keyword m s hs t id h1 h2).trans h3, by rw [h4], ?_⟩
    rw [h5]
    intro h
    injection h with h
    exact hne h
  · by_cases hfl : IsFlagName m t
    · obtain ⟨id, h1, h2⟩ := (isFlagName_iff m hwf t).1 hfl
      have hne : k ≠ id := by
        intro e
        subst e
        obtain ⟨cfg', h3, h4⟩ := (hwf.flags k).1 h2
        rw [hcfg] at h3
        injection h3 with h3
        subst h3
        rw [hcat] at h4
        exact absurd h4 (by decide)
      obtain ⟨fcfg, hfcfg, _⟩ := (hwf.flags id).1 h2
      have hb := descriptor_in_bounds m s hs id fcfg hfcfg
      refine ⟨_, (parseArgument_flag m hwf s hs t id h1 h2).trans (parseFlag_built m hwf s hs id h2),
        ?_, by simp⟩
      simp only
      rw [collected_set s.self id k _ hb.1, if_neg hne]
    · have hplain : IsPlain m t := ⟨hkw, hfl, fun hd => (hdash hd).elim hkw hfl⟩
      rw [parseArgument_plain m hwf s hs t hplain]
      cases hk : s.current_keyword_it with
      | some k' =>
        have hne : k ≠ k' := by
          intro e
          subst e
          exact hopen hk hplain
        obtain ⟨kcfg, hkcfg, _⟩ := keyword_descriptor m hwf k' (hs.keyword k' hk)
        have hb := descriptor_in_bounds m s hs k' kcfg hkcfg
        rw [parseValue_keyword_built m s hs k' kcfg hk hkcfg t]
        refine ⟨_, rfl, ?_, ?_⟩
        · simp only
          rw [collected_set s.self k' k _ hb.1, if_neg hne]
        · simp only
          split
          · simp
          · intro h
            injection h with h
            exact hne h.symm
      | none =>
        cases hcur : m.positional_parameters_[s.current_positional_it]? with
        | none =>
          rw [parseValue_additional_built m s hs hk hcur t]
          exact ⟨_, rfl, rfl, by simp [hk]⟩
        | some e =>
          obtain ⟨pos, pid⟩ := e
          obtain ⟨pcfg, hpcfg, hpcat, _⟩ := positional_descriptor m hwf _ pos pid hcur
          have hb := descriptor_in_bounds m s hs pid pcfg hpcfg
          have hne : k ≠ pid := by
            intro e
            subst e
            rw [hcfg] at hpcfg
            injection hpcfg with hpcfg
            subst hpcfg
            rw [hcat] at hpcat
            exact absurd hpcat (by decide)
          rw [parseValue_positional_built m s hs pos pid pcfg hk hcur hpcfg t]
          refine ⟨_, rfl, ?_, by simp [hk]⟩
          simp only
          rw [collected_set s.self pid k _ hb.1, if_neg hne]

theorem keyword_list_untouched (m : ParameterMap) (hwf : WellFormed m) (k : Nat)
    (cfg : ParameterConfiguration) (hcfg : m.descriptor? k = some cfg)
    (hcat : cfg.category_ = ParameterCategory.kKeywordParameter)
    (ts : List String) (s : ParseState) (hs : ScanInv m s)
    (hnames : ∀ t ∈ ts, t ∉ cfg.names_)
    (hdash : ∀ t ∈ ts, BeginsWithDash t → IsKeywordName m t ∨ IsFlagName m t)
    (hopen : s.current_keyword_it = some k → ∀ t, ts.head? = some t → ¬ IsPlain m t) :
    ∃ s', parseLoop s ts = .returned s' () ∧ ScanInv m s' ∧
      s'.self.collected k = s.self.collected k := by
  induction ts generalizing s with
  | nil => exact ⟨s, rfl, hs, rfl⟩
  | cons t ts ih =>
    obtain ⟨s1, h1, h2, h3⟩ := keyword_list_untouched_step m hwf k cfg hcfg hcat s hs t
      (hnames t (List.mem_cons_self t ts)) (hdash t (List.mem_cons_self t ts))
      (fun h => hopen h t rfl)
    have hs1 := scanInv_parseArgument m s t hs
    rw [h1] at hs1
    simp only [Outcome.state] at hs1
    obtain ⟨s', h4, hs', h5⟩ := ih s1 hs1
      (fun t' ht' => hnames t' (List.mem_cons_of_mem t ht'))
      (fun t' ht' => hdash t' (List.mem_cons_of_mem t ht'))
      (fun h => absurd h h3)
    exact ⟨s', by rw [parseLoop_cons_returned s s1 t ts h1]; exact h4, hs', h5.trans h2⟩

theorem reached_maximum_unbounded (cfg : ParameterConfiguration) (l : List String)
    (h : ¬ 0 < cfg.max_num_arguments_) : reached_maximum cfg l = false := by
  unfold reached_maximum
  simp [h]

theorem keyword_consumes (m : ParameterMap) (hwf : WellFormed m) (k : Nat)
    (cfg : ParameterConfiguration) (hcfg : m.descriptor? k = some cfg)
    (hint : cfg.max_num_arguments_ < 2 ^ 31)
    (ts : List String) (s : ParseState) (hs : ScanInv m s)
    (hopen : s.current_keyword_it = some k) (hplain : ∀ t ∈ ts, IsPlain m t)
    (hroom : 0 < cfg.max_num_arguments_ →
      ((s.self.collected k).length : Int) + ts.length ≤ cfg.max_num_arguments_)
    (hshort : 0 < cfg.max_num_arguments_ →
      ((s.self.collected k).length : Int) < cfg.max_num_arguments_) :
    ∃ s', parseLoop s ts = .returned s' () ∧ ScanInv m s' ∧
      s'.self.collected k = s.self.collected k ++ ts ∧
      (∀ id, id ≠ k → s'.self.collected id = s.self.collected id) ∧
      s'.invalid_arguments = s.invalid_arguments ∧
      s'.current_positional_it = s.current_positional_it ∧
      s'.current_keyword_it =
        if 0 < cfg.max_num_arguments_ ∧
            ((s.self.collected k).length : Int) + ts.length = cfg.max_num_arguments_
        then none else some k := by
  induction ts generalizing s with
  | nil =>
    refine ⟨s, rfl, hs, by simp, fun _ _ => rfl, rfl, rfl, ?_⟩
    rw [hopen, if_neg]
    rintro ⟨h1, h2⟩
    have := hshort h1
    simp only [List.length_nil, Nat.cast_zero, add_zero] at h2
    omega
  | cons t ts ih =>
    have hb := descriptor_in_bounds m s hs k cfg hcfg
    have hstep := (parseArgument_plain m hwf s hs t (hplain t (List.mem_cons_self t ts))).trans
      (parseValue_keyword_built m s hs k cfg hopen hcfg t)
    have hs1 := scanInv_parseArgument m s t hs
    rw [hstep] at hs1
    simp only [Outcome.state] at hs1
    have hcol : ∀ id, ({ s.self with
        arguments_ := s.self.arguments_.set k (s.self.collected k ++ [t]) } :
          ParameterMap).collected id =
        if id = k then s.self.collected k ++ [t] else s.self.collected id :=
      fun id => collected_set s.self k id _ hb.1
    rw [parseLoop_cons_returned s _ t ts hstep]
    by_cases hreach : reached_maximum cfg (s.self.collected k ++ [t]) = true
    · have hpos : 0 < cfg.max_num_arguments_ := by
        by_contra hn
        rw [reached_maximum_unbounded cfg _ hn] at hreach
        exact absurd hreach (by simp)
      have hfull := (reached_maximum_iff cfg _ hpos hint).1 hreach
      rw [List.length_append, List.length_singleton] at hfull
      push_cast at hfull
      have hr := hroom hpos
      rw [List.length_cons] at hr
      push_cast at hr
      have hnil : ts = [] := by
        cases ts with
        | nil => rfl
        | cons a l =>
          rw [List.length_cons] at hr
          push_cast at hr
          omega
      subst hnil
      rw [if_pos hreach] at hs1 ⊢
      refine ⟨_, rfl, hs1, ?_, ?_, rfl, rfl, ?_⟩
      · simp only
        rw [hcol k, if_pos rfl]
      · intro id hid
        simp only
        rw [hcol id, if_neg hid]
      · simp only [List.length_singleton, Nat.cast_one]
        rw [if_pos ⟨hpos, hfull⟩]
    · rw [if_neg hreach] at hs1 ⊢
      have hnot : 0 < cfg.max_num_arguments_ →
          ((s.self.collected k).length : Int) + 1 ≠ cfg.max_num_arguments_ := by
        intro hpos h
        apply hreach
        apply (reached_maximum_iff cfg _ hpos hint).2
        rw [List.length_append, List.length_singleton]
        push_cast
        exact h
      obtain ⟨s', h1, hs', h2, h3, h4, h5, h6⟩ := ih _ hs1 rfl
        (fun t' ht' => hplain t' (List.mem_cons_of_mem t ht'))
        (by
          intro hpos
          have hr := hroom hpos
          simp only
          rw [hcol k, if_pos rfl, List.length_append, List.length_singleton]
          rw [List.length_cons] at hr
          push_cast at hr ⊢
          omega)
        (by
          intro hpos
          have h1 := hshort hpos
          have h2 := hnot hpos
          simp only
          rw [hcol k, if_pos rfl, List.length_append, List.length_singleton]
          push_cast
          omega)
      simp only at h2 h3 h4 h5 h6
      rw [hcol k, if_pos rfl] at h2 h6
      refine ⟨s', h1, hs', ?_, ?_, h4, h5, ?_⟩
      · rw [h2, List.append_assoc]
        rfl
      · intro id hid
        rw [h3 id hid, hcol id, if_neg hid]
      · rw [h6]
        apply if_congr _ rfl rfl
        simp only [List.length_append, List.length_singleton, List.length_cons, List.length_nil]
        push_cast
        constructor <;> (rintro ⟨a, b⟩; exact ⟨a, by omega⟩)

theorem head_dropWhile_not {α : Type} (p : α → Bool) (l : List α) (x : α)
    (h : (l.dropWhile p).head? = some x) : p x = false := by
  induction l with
  | nil => simp at h
  | cons a l ih =>
    by_cases ha : p a = true
    · rw [List.dropWhile_cons_of_pos ha] at h
      exact ih h
    · rw [List.dropWhile_cons_of_neg ha] at h
      simp only [List.head?_cons, Option.some.injEq] at h
      subst h
      simpa using ha

theorem mem_takeWhile {α : Type} (p : α → Bool) (l : List α) (x : α)
    (h : x ∈ l.takeWhile p) : x ∈ l ∧ p x = true := by
  induction l with
  | nil => simp at h
  | cons a l ih =>
    by_cases ha : p a = true
    · rw [List.takeWhile_cons_of_pos ha, List.mem_cons] at h
      rcases h with h | h
      · subst h
        exact ⟨List.mem_cons_self _ _, ha⟩
      · exact ⟨List.mem_cons_of_mem _ (ih h).1, (ih h).2⟩
    · rw [List.takeWhile_cons_of_neg ha] at h
      simp at h

theorem mem_dropWhile {α : Type} (p : α → Bool) (l : List α) (x : α)
    (h : x ∈ l.dropWhile p) : x ∈ l := by
  have := List.takeWhile_append_dropWhile p l
  rw [← this]
  exact List.mem_append_right _ h

theorem keyword_share_split (cfg : ParameterConfiguration) (run : List String) :
    ∃ leftover, run = keyword_share cfg run ++ leftover ∧
      (leftover ≠ [] → 0 < cfg.max_num_arguments_ ∧
        ((keyword_share cfg run).length : Int) = cfg.max_num_arguments_) ∧
      (0 < cfg.max_num_arguments_ →
        ((keyword_share cfg run).length : Int) ≤ cfg.max_num_arguments_) := by
  unfold keyword_share
  by_cases hpos : 0 < cfg.max_num_arguments_
  · rw [if_pos hpos]
    refine ⟨run.drop cfg.max_num_arguments_.toNat, (List.take_append_drop _ _).symm, ?_, ?_⟩
    · intro hne
      refine ⟨hpos, ?_⟩
      have hlt : cfg.max_num_arguments_.toNat < run.length := by
        by_contra hge
        exact hne (List.drop_eq_nil_of_le (by omega))
      rw [List.length_take]
      omega
    · intro _
      rw [List.length_take]
      omega
  · rw [if_neg hpos]
    exact ⟨[], (List.append_nil _).symm, fun h => absurd rfl h, fun h => absurd h hpos⟩

theorem keyword_run_scan (m : ParameterMap) (hwf : WellFormed m) (k : Nat)
    (cfg : ParameterConfiguration) (hcfg : m.descriptor? k = some cfg)
    (hcat : cfg.category_ = ParameterCategory.kKeywordParameter)
    (hint : cfg.max_num_arguments_ < 2 ^ 31) (pre after : List String) (kw : String)
    (hkw : kw ∈ cfg.names_) (hunique : ∀ t ∈ pre ++ after, t ∉ cfg.names_)
    (hdash : ∀ t ∈ pre ++ after, BeginsWithDash t → IsKeywordName m t ∨ IsFlagName m t) :
    ∃ s₁ s₂ s₃, parseLoop (parseStart m) (pre ++ [kw]) = .returned s₁ () ∧
      parseLoop s₁ (keyword_share cfg (plain_run m after)) = .returned s₂ () ∧
      parseLoop (parseStart m) (pre ++ kw :: after) = .returned s₃ () ∧
      s₂.self.collected k = keyword_share cfg (plain_run m after) ∧
      s₃.self.collected k = keyword_share cfg (plain_run m after) ∧
      (∀ id, id ≠ k → s₂.self.collected id = s₁.self.collected id) ∧
      s₂.invalid_arguments = s₁.invalid_arguments ∧
      s₂.current_positional_it = s₁.current_positional_it := by
  -- the tokens before the keyword
  obtain ⟨s0, h0, hs0, hcol0⟩ := keyword_list_untouched m hwf k cfg hcfg hcat pre (parseStart m)
    (scanInv_parseStart m) (fun t ht => hunique t (List.mem_append_left _ ht))
    (fun t ht => hdash t (List.mem_append_left _ ht))
    (fun h => by simp [parseStart] at h)
  rw [collected_parseStart] at hcol0
  -- the keyword
  have hfind : map_find m.name_to_id_ kw = some k := (hwf.names kw k).2 ⟨cfg, hcfg, hkw⟩
  have hmem : k ∈ m.keyword_parameters_ := (hwf.keywords k).2 ⟨cfg, hcfg, hcat⟩
  obtain ⟨s₁, h1, hself1, hopen1, _⟩ := parseKeyword_built m hwf s0 hs0 k hmem
  have hstep1 := (parseArgument_keyword m s0 hs0 kw k hfind hmem).trans h1
  have hs₁ := scanInv_parseArgument m s0 kw hs0
  rw [hstep1] at hs₁
  simp only [Outcome.state] at hs₁
  have hcol1 : s₁.self.collected k = [] := by rw [hself1]; exact hcol0
  have hloop1 : parseLoop (parseStart m) (pre ++ [kw]) = .returned s₁ () := by
    rw [parseLoop_append, h0]
    simp only
    rw [parseLoop_cons_returned s0 s₁ kw [] hstep1]
    rfl
  -- the part of the run that the keyword takes
  obtain ⟨leftover, hsplit, hleft, hle⟩ := keyword_share_split cfg (plain_run m after)
  have hrun_plain : ∀ t ∈ plain_run m after, IsPlain m t := by
    intro t ht
    have := (mem_takeWhile _ _ t ht).2
    simpa using this
  have hrun_mem : ∀ t ∈ plain_run m after, t ∈ after := fun t ht => (mem_takeWhile _ _ t ht).1
  have hshare_mem : ∀ t ∈ keyword_share cfg (plain_run m after), t ∈ plain_run m after := by
    intro t ht
    rw [hsplit]
    exact List.mem_append_left _ ht
  obtain ⟨s₂, h2, hs₂, hcol2, hother2, hinv2, hcur2, hkw2⟩ := keyword_consumes m hwf k cfg hcfg
    hint (keyword_share cfg (plain_run m after)) s₁ hs₁ hopen1
    (fun t ht => hrun_plain t (hshare_mem t ht))
    (fun hpos => by rw [hcol1]; simpa using hle hpos)
    (fun hpos => by rw [hcol1]; simpa using hpos)
  rw [hcol1, List.nil_append] at hcol2
  -- the tokens after it
  have hafter : after = keyword_share cfg (plain_run m after) ++
      (leftover ++ after.dropWhile (fun t => decide (IsPlain m t))) := by
    rw [← List.append_assoc, ← hsplit]
    exact (List.takeWhile_append_dropWhile _ after).symm
  have hrest_mem : ∀ t ∈ leftover ++ after.dropWhile (fun t => decide (IsPlain m t)),
      t ∈ after := by
    intro t ht
    rw [List.mem_append] at ht
    rcases ht with ht | ht
    · exact hrun_mem t (by rw [hsplit]; exact List.mem_append_right _ ht)
    · exact mem_dropWhile _ _ t ht
  obtain ⟨s₃, h3, _, hcol3⟩ := keyword_list_untouched m hwf k cfg hcfg hcat
    (leftover ++ after.dropWhile (fun t => decide (IsPlain m t))) s₂ hs₂
    (fun t ht => hunique t (List.mem_append_right _ (hrest_mem t ht)))
    (fun t ht => hdash t (List.mem_append_right _ (hrest_mem t ht)))
    (by
      intro hopen t ht
      have hleftover : leftover = [] := by
        by_contra hne
        obtain ⟨hpos, hfull⟩ := hleft hne
        rw [hkw2, hcol1, if_pos ⟨hpos, by simpa using hfull⟩] at hopen
        exact absurd hopen (by simp)
      rw [hleftover, List.nil_append] at ht
      have := head_dropWhile_not _ _ t ht
      simpa using this)
  refine ⟨s₁, s₂, s₃, hloop1, h2, ?_, hcol2, hcol3.trans hcol2, hother2, hinv2, hcur2⟩
  have hall : pre ++ kw :: after = (pre ++ [kw]) ++
      (keyword_share cfg (plain_run m after) ++
        (leftover ++ after.dropWhile (fun t => decide (IsPlain m t)))) := by
    rw [← hafter]
    simp
  rw [hall, parseLoop_append, hloop1]
  simp only
  rw [parseLoop_append, h2]
  exact h3

/-- C4 fails when the keyword stands first: in the registry with the keyword `--k` (maximum 1, no
defaults) and the token list `--k a`, the only token that is a name of `--k` is the first one,
no token begins with `-` but that keyword name, and the run of plain tokens after it is `a`;
`parse` skips the first token, so `--k` collects nothing and `a` is an additional argument. -/
theorem keyword_in_first_place_collects_nothing :
    sample_keyword_registry.descriptor? 0 =
      some (Parameter.Keyword ["--k"] sample_converter).configuration ∧
    (∀ t ∈ ["--k", "a"], BeginsWithDash t →
      IsKeywordName sample_keyword_registry t ∨ IsFlagName sample_keyword_registry t) ∧
    keyword_share (Parameter.Keyword ["--k"] sample_converter).configuration
      (plain_run sample_keyword_registry ["a"]) = ["a"] ∧
    (sample_keyword_registry.parse ["--k", "a"]).value? =
      some { additional_arguments := ["a"], unfilled_parameters := [] } ∧
    (sample_keyword_registry.parse ["--k", "a"]).state.collected 0 = [] := by
  decide

/-- C4, amended: in a registry built by registration let `k` be a keyword parameter without
defaults (its maximum an `int`, so below 2^31), and let the token list be `a0`, then `pre`, then
a name `kw` of `k`, then `after`, where no token of `pre` or `after` is a name of `k` and every
token of them that begins with `-` is a keyword or flag name: exactly one token after the
first is a name of `k`.  Whenever `parse` returns, which it does at least if every descriptor
has a name, the collected list of `k` is the longest run of plain tokens at the head of `after`,
cut to its first `max` tokens when the maximum is above 0 and whole otherwise.  The scan of
exactly these tokens, from the state reached after `kw`, changes the list of no other parameter,
nor `additional_arguments`, nor the positional cursor. -/
theorem keyword_receives_following_run (format : HelpStringFormat) (ps : List Parameter)
    (a0 : String) (pre after : List String) (kw : String) (k : Nat)
    (cfg : ParameterConfiguration)
    (hcfg : ((ParameterMap.init format).registerAll ps).descriptor? k = some cfg)
    (hcat : cfg.category_ = ParameterCategory.kKeywordParameter)
    (hdefaults : cfg.default_arguments_ = [])
    (hint : cfg.max_num_arguments_ < 2 ^ 31)
    (hkw : kw ∈ cfg.names_) (hunique : ∀ t ∈ pre ++ after, t ∉ cfg.names_)
    (hdash : ∀ t ∈ pre ++ after, BeginsWithDash t →
      IsKeywordName ((ParameterMap.init format).registerAll ps) t ∨
        IsFlagName ((ParameterMap.init format).registerAll ps) t) :
    ((∀ c ∈ ((ParameterMap.init format).registerAll ps).parameter_configurations_,
        c.names_ ≠ []) →
      ∃ mf inv, ((ParameterMap.init format).registerAll ps).parse (a0 :: (pre ++ kw :: after)) =
        .returned mf inv) ∧
    (∀ mf inv, ((ParameterMap.init format).registerAll ps).parse (a0 :: (pre ++ kw :: after)) =
        .returned mf inv →
      mf.collected k =
        keyword_share cfg (plain_run ((ParameterMap.init format).registerAll ps) after)) ∧
    ∃ s₁ s₂,
      parseLoop (parseStart ((ParameterMap.init format).registerAll ps)) (pre ++ [kw]) =
        .returned s₁ () ∧
      parseLoop s₁
          (keyword_share cfg (plain_run ((ParameterMap.init format).registerAll ps) after)) =
        .returned s₂ () ∧
      s₂.self.collected k =
        keyword_share cfg (plain_run ((ParameterMap.init format).registerAll ps) after) ∧
      (∀ id, id ≠ k → s₂.self.collected id = s₁.self.collected id) ∧
      s₂.invalid_arguments = s₁.invalid_arguments ∧
      s₂.current_positional_it = s₁.current_positional_it := by
  have hwf := wellFormed_built format ps
  generalize (ParameterMap.init format).registerAll ps = m at hwf hcfg hdash ⊢
  obtain ⟨s₁, s₂, s₃, h1, h2, h3, hc2, hc3, ho, hi, hp⟩ :=
    keyword_run_scan m hwf k cfg hcfg hcat hint pre after kw hkw hunique hdash
  have hdrop : (a0 :: (pre ++ kw :: after)).drop 1 = pre ++ kw :: after := rfl
  refine ⟨fun hnames => parse_total m hwf _ s₃ (by rw [hdrop]; exact h3) hnames, ?_,
    s₁, s₂, h1, h2, hc2, ho, hi, hp⟩
  intro mf inv hparse
  obtain ⟨s, hloop, _, _, _, hcol⟩ := parse_returned m hwf _ mf inv hparse
  rw [hdrop, h3] at hloop
  injection hloop with hloop
  subst hloop
  rw [hcol k cfg hcfg, hdefaults, hc3]
  by_cases hempty : keyword_share cfg (plain_run m after) = []
  · simp [hempty]
  · simp [hempty]

/-- C4, amended, at an instance: `cmd x --bar 3 5 7 -a 9` with `--bar` taking two values. -/
theorem keyword_receives_following_run_witness :
    sample_scan_registry.descriptor? 0 =
      some (((Parameter.Keyword ["--bar", "-b"] sample_converter).MinArgs 2).MaxArgs
        2).configuration ∧
    (∀ t ∈ ["x"] ++ ["3", "5", "7", "-a", "9"],
      t ∉ (((Parameter.Keyword ["--bar", "-b"] sample_converter).MinArgs 2).MaxArgs
        2).configuration.names_) ∧
    (∀ t ∈ ["x"] ++ ["3", "5", "7", "-a", "9"], BeginsWithDash t →
      IsKeywordName sample_scan_registry t ∨ IsFlagName sample_scan_registry t) ∧
    plain_run sample_scan_registry ["3", "5", "7", "-a", "9"] = ["3", "5", "7"] ∧
    (sample_scan_registry.parse
      ("cmd" :: (["x"] ++ "--bar" :: ["3", "5", "7", "-a", "9"]))).state.collected 0 =
        ["3", "5"] :=
  ⟨by decide, by decide, by decide, by decide,
    (keyword_receives_following_run sample_format sample_scan_attempts "cmd" ["x"]
      ["3", "5", "7", "-a", "9"] "--bar" 0
      (((Parameter.Keyword ["--bar", "-b"] sample_converter).MinArgs 2).MaxArgs 2).configuration
      (by decide) (by decide) (by decide) (by decide) (by decide) (by decide) (by decide)).2.1
      (sample_scan_registry.parse
        ("cmd" :: (["x"] ++ "--bar" :: ["3", "5", "7", "-a", "9"]))).state
      { additional_arguments := ["9"], unfilled_parameters := [] } rfl⟩

/-! ## The list of unfilled parameters -/

theorem parseReport_unfilled (m : ParameterMap) (ids : List Nat) (m0 m1 : ParameterMap)
    (inv inv1 : InvalidArguments) (hsame : SameRegistry m m0)
    (hsize : m0.arguments_.length = m.parameter_configurations_.length)
    (hids : ∀ id ∈ ids, ∃ cfg, m.descriptor? id = some cfg)
    (h : parseReport m0 inv ids = .returned m1 inv1) :
    inv1.unfilled_parameters = inv.unfilled_parameters ++ ids.filterMap (unfilled_name m1) := by
  induction ids generalizing m0 inv with
  | nil =>
    simp only [parseReport] at h
    injection h with h1 h2
    subst h1; subst h2
    simp
  | cons id0 ids ih =>
    obtain ⟨cfg0, hcfg0⟩ := hids id0 (List.mem_cons_self id0 ids)
    obtain ⟨m', hm', hsame', hsize', hcol'⟩ :=
      SetDefaultArgumentsIfNeeded_built m m0 hsame hsize id0 cfg0 hcfg0
    have hunf := IsUnfilled_built m m' hsame' hsize' id0 cfg0 hcfg0
    have hcfg' := (in_bounds_of_descriptor m m' hsame' hsize' id0 cfg0 hcfg0).2.2
    rw [parseReport_cons m0 m' inv id0 ids _ cfg0 hm' hunf hcfg'] at h
    -- once reported on, the list of `id0` stays as it is
    have hstable : ∀ inv', parseReport m' inv' ids = .returned m1 inv1 →
        m1.collected id0 = m'.collected id0 ∧
          m1.parameter_configurations_[id0]? = some cfg0 := by
      intro inv' hrest
      obtain ⟨a1, _, _, _, a5⟩ := parseReport_returned m ids m' m1 inv' inv1 hsame' hsize'
        (fun id hid => hids id (List.mem_cons_of_mem id0 hid)) hrest
      refine ⟨?_, by rw [a1.2.1]; exact hcfg0⟩
      rw [a5 id0 cfg0 hcfg0]
      by_cases hempty : m'.collected id0 = []
      · have hdef : cfg0.default_arguments_ = [] := by
          have := hcol' id0
          rw [hempty] at this
          by_cases h0 : m0.collected id0 = []
          · rw [if_pos ⟨rfl, h0⟩] at this
            exact this.symm
          · rw [if_neg (fun hh => h0 hh.2)] at this
            exact absurd this.symm h0
        simp [hempty, hdef]
      · simp [hempty]
    by_cases hb : (m'.collected id0).length < to_size_t cfg0.min_num_arguments_
    · simp only [hb, decide_True, if_true] at h
      cases hn : cfg0.names_[0]? with
      | none =>
        rw [hn] at h
        exact absurd h (by simp)
      | some n =>
        rw [hn] at h
        simp only at h
        obtain ⟨hs1, hs2⟩ := hstable _ h
        have hname : unfilled_name m1 id0 = some n := by
          unfold unfilled_name
          rw [hs2]
          simp only
          rw [hs1, if_pos hb, hn]
        rw [ih m' _ hsame' hsize' (fun id hid => hids id (List.mem_cons_of_mem id0 hid)) h,
          List.filterMap_cons, hname]
        simp
    · simp only [hb, decide_False] at h
      obtain ⟨hs1, hs2⟩ := hstable _ h
      have hname : unfilled_name m1 id0 = none := by
        unfold unfilled_name
        rw [hs2]
        simp only
        rw [hs1, if_neg hb]
      rw [ih m' _ hsame' hsize' (fun id hid => hids id (List.mem_cons_of_mem id0 hid)) h,
        List.filterMap_cons, hname]

theorem parseArgument_unfilled (s : ParseState) (t : String) :
    (parseArgument s t).state.invalid_arguments.unfilled_parameters =
      s.invalid_arguments.unfilled_parameters := by
  unfold parseArgument parseKeyword parseFlag parseDash parseValue
  repeat' split
  all_goals rfl

theorem parseLoop_unfilled (ts : List String) (s : ParseState) :
    (parseLoop s ts).state.invalid_arguments.unfilled_parameters =
      s.invalid_arguments.unfilled_parameters := by
  induction ts generalizing s with
  | nil => rfl
  | cons t ts ih =>
    have hstep := parseArgument_unfilled s t
    cases h1 : parseArgument s t with
    | returned s' u =>
      rw [parseLoop_cons_returned s s' t ts h1, ih s']
      rw [h1] at hstep
      exact hstep
    | thrown s' e =>
      rw [parseLoop_cons_thrown s s' t ts e h1]
      rw [h1] at hstep
      exact hstep

theorem parse_reports (m : ParameterMap) (hwf : WellFormed m) (argv : List String)
    (mf : ParameterMap) (inv : InvalidArguments) (h : m.parse argv = .returned mf inv) :
    ∃ s m1 inv1, parseLoop (parseStart m) (argv.drop 1) = .returned s () ∧ ScanInv m s ∧
      parseReport s.self s.invalid_arguments (m.positional_parameters_.map Prod.snd) =
        .returned m1 inv1 ∧
      parseReport m1 inv1 m.keyword_parameters_ = .returned mf inv := by
  unfold ParameterMap.parse at h
  have hinv := scanInv_parseLoop m (argv.drop 1) (parseStart m) (scanInv_parseStart m)
  cases hloop : parseLoop (parseStart m) (argv.drop 1) with
  | thrown s e =>
    rw [hloop] at h
    exact absurd h (by simp)
  | returned s u =>
    rw [hloop] at h hinv
    simp only [Outcome.state] at hinv
    simp only at h
    rw [hinv.same.2.2.2.1] at h
    cases hrep : parseReport s.self s.invalid_arguments (m.positional_parameters_.map Prod.snd) with
    | thrown m1 e =>
      rw [hrep] at h
      exact absurd h (by simp)
    | returned m1 inv1 =>
      rw [hrep] at h
      simp only at h
      obtain ⟨a1, _⟩ := parseReport_returned m _ s.self m1 s.invalid_arguments inv1
        hinv.same hinv.size (positional_ids_have_descriptors m hwf) hrep
      rw [a1.2.2.2.2.1] at h
      exact ⟨s, m1, inv1, rfl, hinv, hrep, h⟩

theorem unfilled_name_congr (m1 mf : ParameterMap)
    (hcfg : mf.parameter_configurations_ = m1.parameter_configurations_) (id : Nat)
    (hcol : mf.collected id = m1.collected id) : unfilled_name mf id = unfilled_name m1 id := by
  unfold unfilled_name
  rw [hcfg, hcol]

theorem positional_not_keyword (m : ParameterMap) (hwf : WellFormed m) (id : Nat)
    (h : id ∈ m.positional_parameters_.map Prod.snd) : id ∉ m.keyword_parameters_ := by
  intro hk
  rw [List.mem_map] at h
  obtain ⟨⟨pos, id'⟩, hmem, rfl⟩ := h
  obtain ⟨cfg, h1, h2, _⟩ := hwf.positionals pos id' hmem
  obtain ⟨cfg', h3, h4⟩ := (hwf.keywords id').1 hk
  rw [h1] at h3
  injection h3 with h3
  subst h3
  rw [h2] at h4
  exact absurd h4 (by decide)

/-- The list of unfilled parameters that `parse` returns: first the positional index in its
order, then the keyword set in its order, each parameter that is below its minimum under its
first name. -/
theorem parse_unfilled (m : ParameterMap) (hwf : WellFormed m) (argv : List String)
    (mf : ParameterMap) (inv : InvalidArguments) (h : m.parse argv = .returned mf inv) :
    inv.unfilled_parameters =
      (m.positional_parameters_.map Prod.snd).filterMap (unfilled_name mf) ++
        m.keyword_parameters_.filterMap (unfilled_name mf) := by
  obtain ⟨s, m1, inv1, hloop, hs, h1, h2⟩ := parse_reports m hwf argv mf inv h
  obtain ⟨a1, a2, _⟩ := parseReport_returned m _ s.self m1 s.invalid_arguments inv1
    hs.same hs.size (positional_ids_have_descriptors m hwf) h1
  obtain ⟨b1, _, _, b4, _⟩ := parseReport_returned m _ m1 mf inv1 inv a1 a2
    (keyword_ids_have_descriptors m hwf) h2
  have u1 := parseReport_unfilled m _ s.self m1 s.invalid_arguments inv1 hs.same hs.size
    (positional_ids_have_descriptors m hwf) h1
  have u2 := parseReport_unfilled m _ m1 mf inv1 inv a1 a2
    (keyword_ids_have_descriptors m hwf) h2
  have hnil : s.invalid_arguments.unfilled_parameters = [] := by
    have := parseLoop_unfilled (argv.drop 1) (parseStart m)
    rw [hloop] at this
    exact this
  rw [u2, u1, hnil, List.nil_append]
  congr 1
  apply List.filterMap_congr
  intro id hid
  exact (unfilled_name_congr m1 mf (b1.2.1.trans a1.2.1.symm) id
    (b4 id (positional_not_keyword m hwf id hid))).symm

theorem unfilled_name_some (mf : ParameterMap) (id : Nat) (n : String)
    (h : unfilled_name mf id = some n) :
    ∃ cfg, mf.parameter_configurations_[id]? = some cfg ∧ cfg.names_[0]? = some n ∧
      n ∈ cfg.names_ ∧ (mf.collected id).length < to_size_t cfg.min_num_arguments_ := by
  unfold unfilled_name at h
  cases hc : mf.parameter_configurations_[id]? with
  | none => rw [hc] at h; exact absurd h (by simp)
  | some cfg =>
    rw [hc] at h
    simp only at h
    by_cases hb : (mf.collected id).length < to_size_t cfg.min_num_arguments_
    · rw [if_pos hb] at h
      exact ⟨cfg, rfl, h, List.getElem?_mem h, hb⟩
    · rw [if_neg hb] at h
      exact absurd h (by simp)

theorem name_unique (m : ParameterMap) (hwf : WellFormed m) (n : String) (i j : Nat)
    (c c' : ParameterConfiguration) (hi : m.descriptor? i = some c)
    (hj : m.descriptor? j = some c') (hn : n ∈ c.names_) (hn' : n ∈ c'.names_) :
    i = j ∧ c = c' := by
  have h1 := (hwf.names n i).2 ⟨c, hi, hn⟩
  have h2 := (hwf.names n j).2 ⟨c', hj, hn'⟩
  rw [h1] at h2
  injection h2 with h2
  subst h2
  rw [hi] at hj
  injection hj with hj
  exact ⟨rfl, hj⟩

theorem name_unique_mem (m : ParameterMap) (hwf : WellFormed m) (n : String)
    (c c' : ParameterConfiguration) (hc : c ∈ m.parameter_configurations_)
    (hc' : c' ∈ m.parameter_configurations_) (hn : n ∈ c.names_) (hn' : n ∈ c'.names_) :
    c = c' := by
  obtain ⟨i, hi⟩ := List.getElem?_of_mem hc
  obtain ⟨j, hj⟩ := List.getElem?_of_mem hc'
  exact (name_unique m hwf n i j c c' hi hj hn hn').2

/-- C12: in the list `unfilled_parameters` that `parse` returns on a registry built by
registration, no name of a keyword parameter stands before a name of a positional parameter,
and of two names of positional parameters the earlier belongs to the parameter with the
strictly smaller position. -/
theorem unfilled_positionals_first_in_position_order (format : HelpStringFormat)
    (ps : List Parameter) (argv : List String) (mf : ParameterMap) (inv : InvalidArguments)
    (h : ((ParameterMap.init format).registerAll ps).parse argv = .returned mf inv) :
    inv.unfilled_parameters.Pairwise (fun n₁ n₂ =>
      ¬ (IsKeywordName ((ParameterMap.init format).registerAll ps) n₁ ∧
          IsPositionalName ((ParameterMap.init format).registerAll ps) n₂) ∧
      ∀ c₁ ∈ ((ParameterMap.init format).registerAll ps).parameter_configurations_,
        ∀ c₂ ∈ ((ParameterMap.init format).registerAll ps).parameter_configurations_,
          c₁.category_ = ParameterCategory.kPositionalParameter →
          c₂.category_ = ParameterCategory.kPositionalParameter →
          n₁ ∈ c₁.names_ → n₂ ∈ c₂.names_ → c₁.position_ < c₂.position_) := by
  have hwf := wellFormed_built format ps
  generalize (ParameterMap.init format).registerAll ps = m at hwf h ⊢
  obtain ⟨s, hloop, hs, hsame, _, _⟩ := parse_returned m hwf argv mf inv h
  rw [parse_unfilled m hwf argv mf inv h]
  -- what the entries of the two parts are
  have hpos : ∀ n id, id ∈ m.positional_parameters_.map Prod.snd → unfilled_name mf id = some n →
      ∃ cfg, m.descriptor? id = some cfg ∧ cfg ∈ m.parameter_configurations_ ∧
        cfg.category_ = ParameterCategory.kPositionalParameter ∧ n ∈ cfg.names_ := by
    intro n id hid hn
    obtain ⟨cfg, h1, _, h3, _⟩ := unfilled_name_some mf id n hn
    rw [hsame.2.1] at h1
    rw [List.mem_map] at hid
    obtain ⟨⟨pos, id'⟩, hmem, rfl⟩ := hid
    obtain ⟨cfg', h4, h5, _⟩ := hwf.positionals pos id' hmem
    have : cfg' = cfg := by
      have h1' : m.descriptor? id' = some cfg := h1
      rw [h4] at h1'
      injection h1'
    subst this
    exact ⟨cfg', h4, List.getElem?_mem h1, h5, h3⟩
  have hkw : ∀ n id, id ∈ m.keyword_parameters_ → unfilled_name mf id = some n →
      ∃ cfg, cfg ∈ m.parameter_configurations_ ∧
        cfg.category_ = ParameterCategory.kKeywordParameter ∧ n ∈ cfg.names_ := by
    intro n id hid hn
    obtain ⟨cfg, h1, _, h3, _⟩ := unfilled_name_some mf id n hn
    rw [hsame.2.1] at h1
    obtain ⟨cfg', h4, h5⟩ := (hwf.keywords id).1 hid
    have : cfg' = cfg := by
      have h1' : m.descriptor? id = some cfg := h1
      rw [h4] at h1'
      injection h1'
    subst this
    exact ⟨cfg', List.getElem?_mem h1, h5, h3⟩
  have hclash : ∀ n (c c' : ParameterConfiguration), c ∈ m.parameter_configurations_ →
      c' ∈ m.parameter_configurations_ → n ∈ c.names_ → n ∈ c'.names_ →
      c.category_ = ParameterCategory.kKeywordParameter →
      c'.category_ = ParameterCategory.kPositionalParameter → False := by
    intro n c c' hc hc' hn hn' hcat hcat'
    have := name_unique_mem m hwf n c c' hc hc' hn hn'
    subst this
    rw [hcat] at hcat'
    exact absurd hcat' (by decide)
  rw [List.pairwise_append]
  refine ⟨?_, ?_, ?_⟩
  · -- the positional part
    have hsorted : (m.positional_parameters_.map Prod.snd).Pairwise (fun id id' =>
        ∀ c c', m.descriptor? id = some c → m.descriptor? id' = some c' →
          c.position_ < c'.position_) := by
      rw [List.pairwise_map]
      have h0 := hwf.positions_sorted
      rw [List.pairwise_map] at h0
      apply List.Pairwise.imp_of_mem _ h0
      intro e e' he he' hlt c c' hc hc'
      obtain ⟨cfg, h1, _, h2⟩ := hwf.positionals e.1 e.2 he
      obtain ⟨cfg', h1', _, h2'⟩ := hwf.positionals e'.1 e'.2 he'
      rw [h1] at hc
      rw [h1'] at hc'
      injection hc with hc
      injection hc' with hc'
      subst hc; subst hc'
      rw [h2, h2']
      exact hlt
    rw [List.pairwise_filterMap]
    apply List.Pairwise.imp_of_mem _ hsorted
    intro id id' hid hid' hlt n₁ hn₁ n₂ hn₂
    obtain ⟨cfg₁, d₁, m₁, cat₁, mem₁⟩ := hpos n₁ id hid hn₁
    obtain ⟨cfg₂, d₂, m₂, cat₂, mem₂⟩ := hpos n₂ id' hid' hn₂
    refine ⟨?_, ?_⟩
    · rintro ⟨⟨c, hc, hcat, hmem⟩, _⟩
      exact hclash n₁ c cfg₁ hc m₁ hmem mem₁ hcat cat₁
    · intro c₁ hc₁ c₂ hc₂ _ _ hm₁ hm₂
      have e₁ := name_unique_mem m hwf n₁ c₁ cfg₁ hc₁ m₁ hm₁ mem₁
      have e₂ := name_unique_mem m hwf n₂ c₂ cfg₂ hc₂ m₂ hm₂ mem₂
      subst e₁; subst e₂
      exact hlt c₁ c₂ d₁ d₂
  · -- the keyword part
    apply List.pairwise_of_forall_mem_list
    intro n₁ hn₁ n₂ hn₂
    rw [List.mem_filterMap] at hn₁ hn₂
    obtain ⟨id₁, hid₁, hu₁⟩ := hn₁
    obtain ⟨id₂, hid₂, hu₂⟩ := hn₂
    obtain ⟨cfg₁, m₁, cat₁, mem₁⟩ := hkw n₁ id₁ hid₁ hu₁
    obtain ⟨cfg₂, m₂, cat₂, mem₂⟩ := hkw n₂ id₂ hid₂ hu₂
    refine ⟨?_, ?_⟩
    · rintro ⟨_, ⟨c, hc, hcat, hmem⟩⟩
      exact hclash n₂ cfg₂ c m₂ hc mem₂ hmem cat₂ hcat
    · intro c₁ hc₁ c₂ hc₂ hcat₁ _ hm₁ _
      exact (hclash n₁ cfg₁ c₁ m₁ hc₁ mem₁ hm₁ cat₁ hcat₁).elim
  · -- a positional entry and a keyword entry
    intro n₁ hn₁ n₂ hn₂
    rw [List.mem_filterMap] at hn₁ hn₂
    obtain ⟨id₁, hid₁, hu₁⟩ := hn₁
    obtain ⟨id₂, hid₂, hu₂⟩ := hn₂
    obtain ⟨cfg₁, _, m₁, cat₁, mem₁⟩ := hpos n₁ id₁ hid₁ hu₁
    obtain ⟨cfg₂, m₂, cat₂, mem₂⟩ := hkw n₂ id₂ hid₂ hu₂
    refine ⟨?_, ?_⟩
    · rintro ⟨⟨c, hc, hcat, hmem⟩, _⟩
      exact hclash n₁ c cfg₁ hc m₁ hmem mem₁ hcat cat₁
    · intro c₁ hc₁ c₂ hc₂ _ hcat₂ _ hm₂
      exact (hclash n₂ cfg₂ c₂ m₂ hc₂ mem₂ hm₂ cat₂ hcat₂).elim

/-- C12 at a concrete input: `--k`, `B` (position 5) and `A` (position 2) each require a value
and `cmd` gives none; the report is `A`, `B`, `--k`. -/
theorem unfilled_positionals_first_in_position_order_witness :
    ((ParameterMap.init sample_format).registerAll sample_required_attempts).parse ["cmd"] =
      .returned
        (((ParameterMap.init sample_format).registerAll sample_required_attempts).parse
          ["cmd"]).state
        { additional_arguments := [], unfilled_parameters := ["A", "B", "--k"] } ∧
    ["A", "B", "--k"].Pairwise (fun n₁ n₂ =>
      ¬ (IsKeywordName ((ParameterMap.init sample_format).registerAll sample_required_attempts)
            n₁ ∧
          IsPositionalName
            ((ParameterMap.init sample_format).registerAll sample_required_attempts) n₂) ∧
      ∀ c₁ ∈ ((ParameterMap.init sample_format).registerAll
          sample_required_attempts).parameter_configurations_,
        ∀ c₂ ∈ ((ParameterMap.init sample_format).registerAll
            sample_required_attempts).parameter_configurations_,
          c₁.category_ = ParameterCategory.kPositionalParameter →
          c₂.category_ = ParameterCategory.kPositionalParameter →
          n₁ ∈ c₁.names_ → n₂ ∈ c₂.names_ → c₁.position_ < c₂.position_) :=
  ⟨rfl, unfilled_positionals_first_in_position_order sample_format sample_required_attempts
    ["cmd"] _ { additional_arguments := [], unfilled_parameters := ["A", "B", "--k"] } rfl⟩

/-! ## The report of unfilled parameters, entry by entry -/

theorem operator_call_documented_keywords_nodup (m : ParameterMap) (p : Parameter)
    (h : m.keyword_parameters_.Nodup) : (m.operator_call_documented p).state.keyword_parameters_.Nodup := by
  cases hany : p.configuration.names_.any (fun name => map_count m.name_to_id_ name) with
  | true =>
    rw [operator_call_documented_thrown m p hany]
    exact h
  | false =>
    obtain ⟨m', hm', _, _, _, _, _, _, hkw, _⟩ := operator_call_documented_returned m p hany
    rw [hm']
    simp only [Outcome.state]
    rw [hkw]
    split
    · unfold unordered_set_insert
      split
      · exact h
      · rename_i hnot
        rw [List.nodup_append]
        refine ⟨h, List.nodup_singleton _, ?_⟩
        intro a ha hb
        rw [List.mem_singleton] at hb
        subst hb
        exact hnot ha
    · exact h

theorem registerAll_keywords_nodup (m : ParameterMap) (ps : List Parameter)
    (h : m.keyword_parameters_.Nodup) : (m.registerAll ps).keyword_parameters_.Nodup := by
  induction ps generalizing m with
  | nil => exact h
  | cons p ps ih =>
    have hrest := ih (m.operator_call_documented p).state (operator_call_documented_keywords_nodup m p h)
    unfold ParameterMap.registerAll at hrest ⊢
    rw [List.foldl_cons]
    exact hrest

theorem keywords_nodup_built (format : HelpStringFormat) (ps : List Parameter) :
    ((ParameterMap.init format).registerAll ps).keyword_parameters_.Nodup :=
  registerAll_keywords_nodup _ ps (by simp [ParameterMap.init])

theorem positional_ids_nodup (m : ParameterMap) (hwf : WellFormed m) :
    (m.positional_parameters_.map Prod.snd).Nodup := by
  unfold List.Nodup
  rw [List.pairwise_map]
  have h0 := hwf.positions_sorted
  rw [List.pairwise_map] at h0
  apply List.Pairwise.imp_of_mem _ h0
  intro e e' he he' hlt heq
  obtain ⟨cfg, h1, _, h2⟩ := hwf.positionals e.1 e.2 he
  obtain ⟨cfg', h1', _, h2'⟩ := hwf.positionals e'.1 e'.2 he'
  rw [heq, h1'] at h1
  injection h1 with h1
  subst h1
  rw [h2] at h2'
  omega

theorem count_filterMap_unique (l : List Nat) (f : Nat → Option String) (hnd : l.Nodup)
    (hinj : ∀ i ∈ l, ∀ j ∈ l, ∀ n, f i = some n → f j = some n → i = j) (n : String) :
    (l.filterMap f).count n = if ∃ i ∈ l, f i = some n then 1 else 0 := by
  induction l with
  | nil => simp
  | cons a l ih =>
    rw [List.nodup_cons] at hnd
    have ih' := ih hnd.2 (fun i hi j hj => hinj i (List.mem_cons_of_mem _ hi) j
      (List.mem_cons_of_mem _ hj))
    cases hfa : f a with
    | none =>
      rw [List.filterMap_cons_none hfa, ih']
      have : (∃ i ∈ a :: l, f i = some n) ↔ ∃ i ∈ l, f i = some n := by
        constructor
        · rintro ⟨i, hi, hfi⟩
          rcases List.mem_cons.1 hi with rfl | hi
          · rw [hfa] at hfi
            exact absurd hfi (by simp)
          · exact ⟨i, hi, hfi⟩
        · rintro ⟨i, hi, hfi⟩
          exact ⟨i, List.mem_cons_of_mem _ hi, hfi⟩
      simp only [this]
    | some b =>
      rw [List.filterMap_cons_some hfa, List.count_cons, ih']
      by_cases hb : b = n
      · subst hb
        have hno : ¬ ∃ i ∈ l, f i = some b := by
          rintro ⟨i, hi, hfi⟩
          have := hinj i (List.mem_cons_of_mem _ hi) a (List.mem_cons_self _ _) b hfi hfa
          subst this
          exact hnd.1 hi
        have hyes : ∃ i ∈ a :: l, f i = some b := ⟨a, List.mem_cons_self _ _, hfa⟩
        rw [if_neg hno, if_pos hyes]
        simp
      · have : (∃ i ∈ a :: l, f i = some n) ↔ ∃ i ∈ l, f i = some n := by
          constructor
          · rintro ⟨i, hi, hfi⟩
            rcases List.mem_cons.1 hi with rfl | hi
            · rw [hfa] at hfi
              injection hfi with hfi
              exact absurd hfi hb
            · exact ⟨i, hi, hfi⟩
          · rintro ⟨i, hi, hfi⟩
            exact ⟨i, List.mem_cons_of_mem _ hi, hfi⟩
        rw [if_congr this rfl rfl]
        simp [hb]

theorem unfilled_name_of (m mf : ParameterMap)
    (hcfg : mf.parameter_configurations_ = m.parameter_configurations_) (id : Nat)
    (cfg : ParameterConfiguration) (hd : m.descriptor? id = some cfg) (n : String)
    (hn : cfg.names_[0]? = some n)
    (hlt : (mf.collected id).length < to_size_t cfg.min_num_arguments_) :
    unfilled_name mf id = some n := by
  unfold unfilled_name
  rw [hcfg]
  have hd' : m.parameter_configurations_[id]? = some cfg := hd
  rw [hd']
  simp only
  rw [if_pos hlt]
  exact hn

/-- The report of unfilled parameters on a registry built by registration with distinct
positions: a string occurs in `unfilled_parameters` exactly once if it is the first name of a
positional or keyword parameter whose collected list is shorter than its minimum, as the program
compares them (the minimum converted to `size_t`), and not at all otherwise. -/
theorem unfilled_report_exact (format : HelpStringFormat) (ps : List Parameter)
    (hdistinct : DistinctPositions ((ParameterMap.init format).registerAll ps))
    (argv : List String) (mf : ParameterMap) (inv : InvalidArguments)
    (h : ((ParameterMap.init format).registerAll ps).parse argv = .returned mf inv)
    (n : String) :
    ((∃ id cfg, ((ParameterMap.init format).registerAll ps).descriptor? id = some cfg ∧
          cfg.category_ ≠ ParameterCategory.kFlag ∧ cfg.names_[0]? = some n ∧
          (mf.collected id).length < to_size_t cfg.min_num_arguments_) →
        inv.unfilled_parameters.count n = 1) ∧
    ((¬ ∃ id cfg, ((ParameterMap.init format).registerAll ps).descriptor? id = some cfg ∧
          cfg.category_ ≠ ParameterCategory.kFlag ∧ cfg.names_[0]? = some n ∧
          (mf.collected id).length < to_size_t cfg.min_num_arguments_) →
        inv.unfilled_parameters.count n = 0) := by
  have hwf := wellFormed_built format ps
  have hkn := keywords_nodup_built format ps
  generalize (ParameterMap.init format).registerAll ps = m at hwf hkn hdistinct h ⊢
  obtain ⟨s, hloop, hs, hsame, _, _⟩ := parse_returned m hwf argv mf inv h
  rw [parse_unfilled m hwf argv mf inv h, ← List.filterMap_append]
  have hnd : (m.positional_parameters_.map Prod.snd ++ m.keyword_parameters_).Nodup := by
    rw [List.nodup_append]
    refine ⟨positional_ids_nodup m hwf, hkn, ?_⟩
    intro a ha hb
    exact positional_not_keyword m hwf a ha hb
  have hinj : ∀ i ∈ m.positional_parameters_.map Prod.snd ++ m.keyword_parameters_,
      ∀ j ∈ m.positional_parameters_.map Prod.snd ++ m.keyword_parameters_,
      ∀ n, unfilled_name mf i = some n → unfilled_name mf j = some n → i = j := by
    intro i _ j _ n hi hj
    obtain ⟨c, h1, _, h3, _⟩ := unfilled_name_some mf i n hi
    obtain ⟨c', h1', _, h3', _⟩ := unfilled_name_some mf j n hj
    rw [hsame.2.1] at h1 h1'
    exact (name_unique m hwf n i j c c' h1 h1' h3 h3').1
  rw [count_filterMap_unique _ _ hnd hinj n]
  have hiff : (∃ i ∈ m.positional_parameters_.map Prod.snd ++ m.keyword_parameters_,
      unfilled_name mf i = some n) ↔
      ∃ id cfg, m.descriptor? id = some cfg ∧
          cfg.category_ ≠ ParameterCategory.kFlag ∧ cfg.names_[0]? = some n ∧
          (mf.collected id).length < to_size_t cfg.min_num_arguments_ := by
    constructor
    · rintro ⟨i, hi, hfi⟩
      obtain ⟨c, h1, h2, _, h4⟩ := unfilled_name_some mf i n hfi
      rw [hsame.2.1] at h1
      refine ⟨i, c, h1, ?_, h2, h4⟩
      rcases List.mem_append.1 hi with hp | hk
      · rw [List.mem_map] at hp
        obtain ⟨⟨pos, id'⟩, hmem, rfl⟩ := hp
        obtain ⟨cfg', h5, h6, _⟩ := hwf.positionals pos id' hmem
        have h1' : m.descriptor? id' = some c := h1
        rw [h5] at h1'
        injection h1' with h1'
        subst h1'
        rw [h6]
        decide
      · obtain ⟨cfg', h5, h6⟩ := (hwf.keywords i).1 hk
        have h1' : m.descriptor? i = some c := h1
        rw [h5] at h1'
        injection h1' with h1'
        subst h1'
        rw [h6]
        decide
    · rintro ⟨id, cfg, hd, hcat, hn, hlt⟩
      refine ⟨id, ?_, unfilled_name_of m mf hsame.2.1 id cfg hd n hn hlt⟩
      rw [List.mem_append]
      cases hc : cfg.category_ with
      | kFlag => exact absurd hc hcat
      | kPositionalParameter =>
        left
        rw [List.mem_map]
        exact ⟨(cfg.position_, id), (positional_index_complete m hwf hdistinct id cfg hd).1 hc, rfl⟩
      | kKeywordParameter =>
        right
        exact (hwf.keywords id).2 ⟨cfg, hd, hc⟩

  exact ⟨fun hex => by rw [if_pos (hiff.2 hex)],
    fun hno => by rw [if_neg (fun hex => hno (hiff.1 hex))]⟩

/-- C11, at a failing input: the keyword `--k` has minimum `-1` and the positional parameter `P`
minimum 1, at distinct positions.  On `cmd x --k a` the scan succeeds, `P` holds `x` and `--k`
holds `a`; the report nevertheless lists `--k`, the name of a parameter whose minimum is
negative.  The comparison in `IsUnfilled` converts the minimum to `size_t`. -/
theorem negative_minimum_is_reported :
    DistinctPositions sample_negative_minimum_registry ∧
    sample_negative_minimum_registry.parameter_configurations_.map
        (fun cfg => (cfg.names_, cfg.category_, cfg.min_num_arguments_)) =
      [(["--k"], ParameterCategory.kKeywordParameter, -1),
       (["P"], ParameterCategory.kPositionalParameter, 1)] ∧
    (sample_negative_minimum_registry.parse ["cmd", "x", "--k", "a"]).value? =
      some { additional_arguments := [], unfilled_parameters := ["--k"] } ∧
    (sample_negative_minimum_registry.parse ["cmd", "x", "--k", "a"]).state.arguments_ =
      [["a"], ["x"]] := by
  decide

/-! ## What the scan does to the list of a flag -/

theorem parseFlagList_collected (m : ParameterMap) (hwf : WellFormed m) (cs : List Char)
    (s : ParseState) (hs : ScanInv m s) (m' : ParameterMap)
    (h : parseFlagList s.self cs = .returned m' ()) (id : Nat) :
    m'.collected id =
      s.self.collected id ++ List.replicate (cs.filter (namesParameter m id)).length "true" := by
  induction cs generalizing s with
  | nil =>
    have : m' = s.self := by
      simp only [parseFlagList] at h
      injection h with h
      exact h.symm
    subst this
    simp
  | cons c cs ih =>
    cases h1 : map_find m.name_to_id_ (String.mk ['-', c]) with
    | none =>
      have h1' : map_find s.self.name_to_id_ (String.mk ['-', c]) = none := by
        rw [hs.same.1]; exact h1
      rw [parseFlagList_cons_none s.self c cs h1'] at h
      exact absurd h (by simp)
    | some idc =>
      have h1' : map_find s.self.name_to_id_ (String.mk ['-', c]) = some idc := by
        rw [hs.same.1]; exact h1
      obtain ⟨cfg, hcfg, _, _⟩ := name_of_lookup m hwf _ idc h1
      have hset := SetFlag_built m s hs idc cfg hcfg
      have hb := descriptor_in_bounds m s hs idc cfg hcfg
      have hstate := SetFlag_state s.self idc
      rw [hset] at hstate
      simp only [Outcome.state] at hstate
      rw [parseFlagList_cons_returned s.self _ c cs idc h1' hset] at h
      have hcol := ih { s with self :=
            { s.self with
              arguments_ := s.self.arguments_.set idc (s.self.collected idc ++ ["true"]) } }
        ⟨hs.same.trans hstate.1, hstate.2.trans hs.size, hs.keyword⟩ h
      rw [hcol]
      simp only at *
      rw [collected_set s.self idc id _ hb.1, List.filter_cons]
      by_cases hid : id = idc
      · subst hid
        have : namesParameter m id c = true := (namesParameter_iff m hwf id c).2 h1
        rw [if_pos rfl, this, if_pos rfl, List.length_cons, List.replicate_succ]
        simp
      · have : ¬ namesParameter m id c = true := by
          intro hn
          have := (namesParameter_iff m hwf id c).1 hn
          rw [h1] at this
          injection this with this
          exact hid this.symm
        rw [if_neg hid, if_neg this]

theorem parseValue_flag_untouched (m : ParameterMap) (hwf : WellFormed m) (s s' : ParseState)
    (hs : ScanInv m s) (t : String) (h : parseValue s t = .returned s' ()) (id : Nat)
    (hid : id ∈ m.flags_) : s'.self.collected id = s.self.collected id := by
  cases hopen : s.current_keyword_it with
  | some k =>
    have hk := hs.keyword k hopen
    obtain ⟨cfg, hcfg, _⟩ := keyword_descriptor m hwf k hk
    rw [parseValue_keyword_built m s hs k cfg hopen hcfg t] at h
    injection h with h
    subst h
    simp only
    rw [collected_set s.self k id _ (descriptor_in_bounds m s hs k cfg hcfg).1]
    have : ¬ id = k := fun e => keyword_not_flag m hwf k hk (e ▸ hid)
    rw [if_neg this]
  | none =>
    cases hcur : m.positional_parameters_[s.current_positional_it]? with
    | none =>
      rw [parseValue_additional_built m s hs hopen hcur t] at h
      injection h with h
      subst h
      rfl
    | some e =>
      obtain ⟨pos, pid⟩ := e
      obtain ⟨cfg, hcfg, hcat, _⟩ := positional_descriptor m hwf _ pos pid hcur
      rw [parseValue_positional_built m s hs pos pid cfg hopen hcur hcfg t] at h
      injection h with h
      subst h
      simp only
      rw [collected_set s.self pid id _ (descriptor_in_bounds m s hs pid cfg hcfg).1]
      have : ¬ id = pid := by
        intro e
        subst e
        obtain ⟨cfg', h1, h2⟩ := (hwf.flags id).1 hid
        rw [hcfg] at h1
        injection h1 with h1
        subst h1
        rw [hcat] at h2
        exact absurd h2 (by decide)
      rw [if_neg this]

theorem flag_id_of_descriptor (m : ParameterMap) (hwf : WellFormed m) (id : Nat)
    (cfg : ParameterConfiguration) (hd : m.descriptor? id = some cfg)
    (hcat : cfg.category_ = ParameterCategory.kFlag) :
    id ∈ m.flags_ ∧ id ∉ m.keyword_parameters_ ∧ id ∉ m.positional_parameters_.map Prod.snd := by
  have hf : id ∈ m.flags_ := (hwf.flags id).2 ⟨cfg, hd, hcat⟩
  refine ⟨hf, fun hk => keyword_not_flag m hwf id hk hf, ?_⟩
  intro hp
  rw [List.mem_map] at hp
  obtain ⟨⟨pos, id'⟩, hmem, rfl⟩ := hp
  obtain ⟨cfg', h1, h2, _⟩ := hwf.positionals pos id' hmem
  have hd' : m.descriptor? id' = some cfg := hd
  rw [h1] at hd'
  injection hd' with hd'
  subst hd'
  rw [hcat] at h2
  exact absurd h2 (by decide)

theorem flag_step (m : ParameterMap) (hwf : WellFormed m) (s s' : ParseState)
    (hs : ScanInv m s) (t : String) (h : parseArgument s t = .returned s' ()) (id : Nat)
    (cfg : ParameterConfiguration) (hd : m.descriptor? id = some cfg)
    (hcat : cfg.category_ = ParameterCategory.kFlag) :
    ∃ k, s'.self.collected id = s.self.collected id ++ List.replicate k "true" ∧
      (0 < k ↔ SetsFlag m cfg t) := by
  obtain ⟨hidf, _, _⟩ := flag_id_of_descriptor m hwf id cfg hd hcat
  have hmem : cfg ∈ m.parameter_configurations_ := List.getElem?_mem hd
  have hname : t ∈ cfg.names_ → IsFlagName m t := fun ht => ⟨cfg, hmem, hcat, ht⟩
  by_cases hkw : IsKeywordName m t
  · obtain ⟨idk, h1, h2⟩ := (isKeywordName_iff m hwf t).1 hkw
    obtain ⟨s1, h3, h4, _, _⟩ := parseKeyword_built m hwf s hs idk h2
    rw [parseArgument_keyword m s hs t idk h1 h2, h3] at h
    injection h with h
    subst h
    refine ⟨0, by rw [h4]; simp, ?_⟩
    constructor
    · intro h0; exact absurd h0 (by decide)
    · rintro (ht | ⟨_, hnk, _⟩)
      · obtain ⟨idf, h5, h6⟩ := (isFlagName_iff m hwf t).1 (hname ht)
        rw [h1] at h5
        injection h5 with h5
        subst h5
        exact absurd h6 (keyword_not_flag m hwf idk h2)
      · exact absurd hkw hnk
  · by_cases hfl : IsFlagName m t
    · obtain ⟨idf, h1, h2⟩ := (isFlagName_iff m hwf t).1 hfl
      obtain ⟨cfg', h3, _⟩ := (hwf.flags idf).1 h2
      rw [parseArgument_flag m hwf s hs t idf h1 h2, parseFlag_built m hwf s hs idf h2] at h
      injection h with h
      subst h
      simp only
      rw [collected_set s.self idf id _ (descriptor_in_bounds m s hs idf cfg' h3).1]
      by_cases hid : id = idf
      · subst hid
        refine ⟨1, by rw [if_pos rfl]; rfl, ?_⟩
        constructor
        · intro _
          left
          obtain ⟨c, h4, h5⟩ := (hwf.names t id).1 h1
          rw [hd] at h4
          injection h4 with h4
          subst h4
          exact h5
        · intro _; decide
      · refine ⟨0, by rw [if_neg hid]; simp, ?_⟩
        constructor
        · intro h0; exact absurd h0 (by decide)
        · rintro (ht | ⟨_, _, hnf, _⟩)
          · have := (hwf.names t id).2 ⟨cfg, hd, ht⟩
            rw [h1] at this
            injection this with this
            exact absurd this.symm hid
          · exact absurd hfl hnf
    · by_cases hdash : BeginsWithDash t
      · rw [parseArgument_dash m hwf s hs t hkw hfl hdash] at h
        cases hlist : parseFlagList s.self (t.data.drop 1) with
        | thrown m' e =>
          rw [parseDash_thrown s t m' e hlist] at h
          exact absurd h (by simp)
        | returned m' u =>
          cases u
          rw [parseDash_returned s t m' hlist] at h
          injection h with h
          subst h
          simp only
          refine ⟨_, parseFlagList_collected m hwf _ s hs m' hlist id, ?_⟩
          rw [List.length_pos]
          have hex : List.filter (namesParameter m id) (t.data.drop 1) ≠ [] ↔
              ∃ c, c ∈ List.filter (namesParameter m id) (t.data.drop 1) := by
            constructor
            · intro hne
              by_contra hno
              exact hne (List.eq_nil_iff_forall_not_mem.2 (fun c hc => hno ⟨c, hc⟩))
            · rintro ⟨c, hc⟩ hnil
              rw [hnil] at hc
              exact absurd hc (List.not_mem_nil _)
          rw [hex]
          have hnp : ∀ c, namesParameter m id c = true ↔ String.mk ['-', c] ∈ cfg.names_ := by
            intro c
            unfold namesParameter
            rw [hd]
            simp
          constructor
          · rintro ⟨c, hc⟩
            rw [List.mem_filter] at hc
            exact Or.inr ⟨hdash, hkw, hfl, c, hc.1, (hnp c).1 hc.2⟩
          · rintro (ht | ⟨_, _, _, c, hc, hn⟩)
            · exact absurd (hname ht) hfl
            · exact ⟨c, List.mem_filter.2 ⟨hc, (hnp c).2 hn⟩⟩
      · rw [parseArgument_plain m hwf s hs t ⟨hkw, hfl, hdash⟩] at h
        refine ⟨0, ?_, ?_⟩
        · rw [parseValue_flag_untouched m hwf s s' hs t h id hidf]; simp
        · constructor
          · intro h0; exact absurd h0 (by decide)
          · rintro (ht | ⟨hd', _⟩)
            · exact absurd (hname ht) hfl
            · exact absurd hd' hdash

theorem flag_scan (m : ParameterMap) (hwf : WellFormed m) (id : Nat)
    (cfg : ParameterConfiguration) (hd : m.descriptor? id = some cfg)
    (hcat : cfg.category_ = ParameterCategory.kFlag) (ts : List String) (s s' : ParseState)
    (hs : ScanInv m s) (h : parseLoop s ts = .returned s' ()) :
    ∃ k, s'.self.collected id = s.self.collected id ++ List.replicate k "true" ∧
      (0 < k ↔ ∃ t ∈ ts, SetsFlag m cfg t) := by
  induction ts generalizing s with
  | nil =>
    simp only [parseLoop] at h
    injection h with h
    subst h
    exact ⟨0, by simp, by simp⟩
  | cons t ts ih =>
    cases h1 : parseArgument s t with
    | thrown s1 e =>
      rw [parseLoop_cons_thrown s s1 t ts e h1] at h
      exact absurd h (by simp)
    | returned s1 u =>
      cases u
      rw [parseLoop_cons_returned s s1 t ts h1] at h
      have hs1 := scanInv_parseArgument m s t hs
      rw [h1] at hs1
      simp only [Outcome.state] at hs1
      obtain ⟨k1, hk1, hk1'⟩ := flag_step m hwf s s1 hs t h1 id cfg hd hcat
      obtain ⟨k2, hk2, hk2'⟩ := ih s1 hs1 h
      refine ⟨k1 + k2, ?_, ?_⟩
      · rw [hk2, hk1, List.append_assoc, List.replicate_add]
      · rw [List.exists_mem_cons_iff, ← hk1', ← hk2']
        omega

/-- The list of a flag after `parse` has returned: as many `true` as the scan has set it, and at
least one exactly when some token after the first sets it. -/
theorem flag_collected (m : ParameterMap) (hwf : WellFormed m) (argv : List String)
    (mf : ParameterMap) (inv : InvalidArguments) (h : m.parse argv = .returned mf inv)
    (id : Nat) (cfg : ParameterConfiguration) (hd : m.descriptor? id = some cfg)
    (hcat : cfg.category_ = ParameterCategory.kFlag) :
    ∃ k, mf.collected id = List.replicate k "true" ∧
      (0 < k ↔ ∃ t ∈ argv.drop 1, SetsFlag m cfg t) := by
  obtain ⟨s, hloop, _, _, _, hcol⟩ := parse_returned m hwf argv mf inv h
  obtain ⟨_, hnk, hnp⟩ := flag_id_of_descriptor m hwf id cfg hd hcat
  obtain ⟨k, hk, hk'⟩ := flag_scan m hwf id cfg hd hcat (argv.drop 1) (parseStart m) s
    (scanInv_parseStart m) hloop
  refine ⟨k, ?_, hk'⟩
  rw [hcol id cfg hd, if_neg (fun hc => hc.1.elim hnp hnk), hk, collected_parseStart]
  rfl

/-! ## Retrieval from the registry that `parse` leaves -/

theorem parse_returned_size (m : ParameterMap) (hwf : WellFormed m) (argv : List String)
    (mf : ParameterMap) (inv : InvalidArguments) (h : m.parse argv = .returned mf inv) :
    mf.arguments_.length = m.parameter_configurations_.length := by
  obtain ⟨s, m1, inv1, _, hs, h1, h2⟩ := parse_reports m hwf argv mf inv h
  obtain ⟨a1, a2, _⟩ := parseReport_returned m _ s.self m1 s.invalid_arguments inv1
    hs.same hs.size (positional_ids_have_descriptors m hwf) h1
  exact (parseReport_returned m _ m1 mf inv1 inv a1 a2
    (keyword_ids_have_descriptors m hwf) h2).2.1

theorem GetId_unregistered (m mf : ParameterMap) (hwf : WellFormed m)
    (hsame : SameRegistry m mf) (name : String) (h : ¬ IsRegisteredName m name) :
    mf.GetId name = .error .UnknownParameterName := by
  unfold ParameterMap.GetId
  rw [hsame.1]
  cases hf : map_find m.name_to_id_ name with
  | none => rfl
  | some id => exact absurd ((isRegisteredName_iff m hwf name).2 ⟨id, hf⟩) h

theorem GetId_registered (m mf : ParameterMap) (hwf : WellFormed m)
    (hsame : SameRegistry m mf) (name : String) (id : Nat) (cfg : ParameterConfiguration)
    (hd : m.descriptor? id = some cfg) (hn : name ∈ cfg.names_) : mf.GetId name = .ok id := by
  unfold ParameterMap.GetId
  rw [hsame.1, (hwf.names name id).2 ⟨cfg, hd, hn⟩]

theorem flags_count_iff (m mf : ParameterMap) (hwf : WellFormed m)
    (hsame : SameRegistry m mf) (id : Nat) (cfg : ParameterConfiguration)
    (hd : m.descriptor? id = some cfg) :
    unordered_set_count mf.flags_ id = true ↔ cfg.category_ = ParameterCategory.kFlag := by
  unfold unordered_set_count
  rw [hsame.2.2.2.2.2.1, decide_eq_true_iff, hwf.flags id]
  constructor
  · rintro ⟨cfg', h1, h2⟩
    rw [hd] at h1
    injection h1 with h1
    subst h1
    exact h2
  · intro h
    exact ⟨cfg, hd, h⟩

theorem convert_post (m mf : ParameterMap) (hwf : WellFormed m) (hsame : SameRegistry m mf)
    (hsize : mf.arguments_.length = m.parameter_configurations_.length) (T : Nat)
    (name : String) (id : Nat) (cfg : ParameterConfiguration) (c : AnyConverter)
    (hd : m.descriptor? id = some cfg) (hn : name ∈ cfg.names_)
    (hc : m.converters_[id]? = some c) :
    mf.convert T name =
      if cfg.category_ = ParameterCategory.kFlag then .error .InvalidFlagConversion
      else if c.type_id ≠ T then .error .MismatchedParameterType
      else match mf.collected id with
        | [] => .error .UnfilledParameter
        | argument :: _ => .ok (c.fn argument) := by
  unfold ParameterMap.convert
  rw [GetId_registered m mf hwf hsame name id cfg hd hn]
  simp only
  have hfl := flags_count_iff m mf hwf hsame id cfg hd
  by_cases hcat : cfg.category_ = ParameterCategory.kFlag
  · rw [if_pos (hfl.2 hcat), if_pos hcat]
  · have : ¬ unordered_set_count mf.flags_ id = true := fun h => hcat (hfl.1 h)
    rw [if_neg this, if_neg hcat, hsame.2.2.1, hc]
    simp only [any_cast]
    by_cases hT : c.type_id = T
    · rw [if_pos hT, if_neg (not_not.2 hT)]
      simp only
      rw [(in_bounds_of_descriptor m mf hsame hsize id cfg hd).2.1]
      simp only
      cases hcol : mf.collected id with
      | nil => simp
      | cons a rest => simp
    · rw [if_neg hT, if_pos hT]

theorem convert_all_post (m mf : ParameterMap) (hwf : WellFormed m)
    (hsame : SameRegistry m mf)
    (hsize : mf.arguments_.length = m.parameter_configurations_.length) (T : Nat)
    (name : String) (id : Nat) (cfg : ParameterConfiguration) (c : AnyConverter)
    (hd : m.descriptor? id = some cfg) (hn : name ∈ cfg.names_)
    (hc : m.converters_[id]? = some c) :
    mf.convert_all T name =
      if cfg.category_ = ParameterCategory.kFlag then .error .InvalidFlagConversion
      else if c.type_id ≠ T then .error .MismatchedParameterType
      else .ok ((mf.collected id).map c.fn) := by
  unfold ParameterMap.convert_all
  rw [GetId_registered m mf hwf hsame name id cfg hd hn]
  simp only
  have hfl := flags_count_iff m mf hwf hsame id cfg hd
  by_cases hcat : cfg.category_ = ParameterCategory.kFlag
  · rw [if_pos (hfl.2 hcat), if_pos hcat]
  · have : ¬ unordered_set_count mf.flags_ id = true := fun h => hcat (hfl.1 h)
    rw [if_neg this, if_neg hcat, hsame.2.2.1, hc]
    simp only [any_cast]
    by_cases hT : c.type_id = T
    · rw [if_pos hT, if_neg (not_not.2 hT)]
      simp only
      rw [(in_bounds_of_descriptor m mf hsame hsize id cfg hd).2.1]
    · rw [if_neg hT, if_pos hT]

theorem IsSet_post (m mf : ParameterMap) (hwf : WellFormed m) (hsame : SameRegistry m mf)
    (hsize : mf.arguments_.length = m.parameter_configurations_.length)
    (name : String) (id : Nat) (cfg : ParameterConfiguration)
    (hd : m.descriptor? id = some cfg) (hn : name ∈ cfg.names_) :
    mf.IsSet name =
      if cfg.category_ ≠ ParameterCategory.kFlag then .error .NoFlagWithName
      else .ok (decide ((mf.collected id).length > 0)) := by
  unfold ParameterMap.IsSet
  rw [GetId_registered m mf hwf hsame name id cfg hd hn]
  simp only
  obtain ⟨_, h1, h2⟩ := in_bounds_of_descriptor m mf hsame hsize id cfg hd
  rw [h2]
  simp only
  rw [h1]

theorem converter_of_descriptor (m : ParameterMap) (hwf : WellFormed m) (id : Nat)
    (cfg : ParameterConfiguration) (hd : m.descriptor? id = some cfg) :
    ∃ c, m.converters_[id]? = some c := by
  have hlt : id < m.parameter_configurations_.length := (List.getElem?_eq_some.1 hd).1
  rw [← hwf.converters] at hlt
  exact ⟨m.converters_[id], List.getElem?_eq_getElem hlt⟩

/-- C13: on a registry built by registration, let `parse` return.  For every flag, whatever
minimum and default list were configured on it: none of its names is in `unfilled_parameters`;
its collected list is the list the scan left, no default is substituted; and when no token after
the first sets it (none is one of its names, none is a list of flags with a character naming it)
the list is empty and `IsSet` returns false for each of its names. -/
theorem flags_exempt_from_report (format : HelpStringFormat) (ps : List Parameter)
    (argv : List String) (mf : ParameterMap) (inv : InvalidArguments)
    (h : ((ParameterMap.init format).registerAll ps).parse argv = .returned mf inv)
    (id : Nat) (cfg : ParameterConfiguration)
    (hd : ((ParameterMap.init format).registerAll ps).descriptor? id = some cfg)
    (hcat : cfg.category_ = ParameterCategory.kFlag) :
    (∀ n ∈ cfg.names_, n ∉ inv.unfilled_parameters) ∧
    (∃ s, parseLoop (parseStart ((ParameterMap.init format).registerAll ps)) (argv.drop 1) =
        .returned s () ∧ mf.collected id = s.self.collected id) ∧
    ((∀ t ∈ argv.drop 1, ¬ SetsFlag ((ParameterMap.init format).registerAll ps) cfg t) →
      mf.collected id = [] ∧ ∀ n ∈ cfg.names_, mf.IsSet n = .ok false) := by
  have hwf := wellFormed_built format ps
  generalize (ParameterMap.init format).registerAll ps = m at hwf h hd ⊢
  obtain ⟨s, hloop, _, hsame, _, hcol⟩ := parse_returned m hwf argv mf inv h
  have hsize := parse_returned_size m hwf argv mf inv h
  obtain ⟨_, hnk, hnp⟩ := flag_id_of_descriptor m hwf id cfg hd hcat
  refine ⟨?_, ⟨s, hloop, ?_⟩, ?_⟩
  · intro n hn hmem
    rw [parse_unfilled m hwf argv mf inv h, ← List.filterMap_append, List.mem_filterMap] at hmem
    obtain ⟨id', hid', hu⟩ := hmem
    obtain ⟨c, h1, _, h3, _⟩ := unfilled_name_some mf id' n hu
    rw [hsame.2.1] at h1
    have := (name_unique m hwf n id' id c cfg h1 hd h3 hn).1
    subst this
    rcases List.mem_append.1 hid' with hp | hk
    · exact hnp hp
    · exact hnk hk
  · rw [hcol id cfg hd, if_neg (fun hc => hc.1.elim hnp hnk)]
  · intro hno
    obtain ⟨k, hk, hk'⟩ := flag_collected m hwf argv mf inv h id cfg hd hcat
    have hk0 : k = 0 := by
      by_contra hne
      obtain ⟨t, ht, hset⟩ := hk'.1 (Nat.pos_of_ne_zero hne)
      exact hno t ht hset
    subst hk0
    have hnil : mf.collected id = [] := hk
    refine ⟨hnil, ?_⟩
    intro n hn
    rw [IsSet_post m mf hwf hsame hsize n id cfg hd hn, if_neg (not_not.2 hcat), hnil]
    rfl

/-- C13 at a concrete input: the flag `-v` has the default list `true` and minimum 1; after
`cmd x` it is not reported, holds nothing and is not set, while the keyword `--k` got its
default. -/
theorem flags_exempt_from_report_witness :
    (((ParameterMap.init sample_format).registerAll sample_default_attempts).parse
      ["cmd", "x"]).state.arguments_ = [[], ["d"]] ∧
    (∀ t ∈ ["cmd", "x"].drop 1,
      ¬ SetsFlag ((ParameterMap.init sample_format).registerAll sample_default_attempts)
        sample_default_flag.configuration_ t) ∧
    ((∀ n ∈ sample_default_flag.configuration_.names_, n ∉ ([] : List String)) ∧
      (∃ s, parseLoop
          (parseStart ((ParameterMap.init sample_format).registerAll sample_default_attempts))
          (["cmd", "x"].drop 1) = .returned s () ∧
        (((ParameterMap.init sample_format).registerAll sample_default_attempts).parse
          ["cmd", "x"]).state.collected 0 = s.self.collected 0) ∧
      ((∀ t ∈ ["cmd", "x"].drop 1,
          ¬ SetsFlag ((ParameterMap.init sample_format).registerAll sample_default_attempts)
            sample_default_flag.configuration_ t) →
        (((ParameterMap.init sample_format).registerAll sample_default_attempts).parse
            ["cmd", "x"]).state.collected 0 = [] ∧
          ∀ n ∈ sample_default_flag.configuration_.names_,
            (((ParameterMap.init sample_format).registerAll sample_default_attempts).parse
              ["cmd", "x"]).state.IsSet n = .ok false)) :=
  ⟨by decide, by decide,
    flags_exempt_from_report sample_format sample_default_attempts ["cmd", "x"] _
      { additional_arguments := ["x"], unfilled_parameters := [] } rfl 0
      sample_default_flag.configuration_ rfl rfl⟩

/-! ## Substitution of the defaults -/

/-- C14, at an input where the claim fails: `A` and `B` are positional parameters at the same
position 0, `B` with the default list `d`.  Only `A` is in the positional index, so the report
loop never visits `B`: after `cmd` the list of `B` is empty, not its default list. -/
theorem duplicate_position_gets_no_default :
    sample_duplicate_position_registry.parameter_configurations_.map
        (fun cfg => (cfg.names_, cfg.category_, cfg.position_, cfg.default_arguments_)) =
      [(["A"], ParameterCategory.kPositionalParameter, 0, []),
       (["B"], ParameterCategory.kPositionalParameter, 0, ["d"])] ∧
    sample_duplicate_position_registry.positional_parameters_ = [(0, 0)] ∧
    (sample_duplicate_position_registry.parse ["cmd"]).value? =
      some { additional_arguments := [], unfilled_parameters := [] } ∧
    (sample_duplicate_position_registry.parse ["cmd"]).state.arguments_ = [[], []] := by
  decide

/-- C14, amended: on a registry built by registration whose positional positions are distinct,
let `parse` return, and let `s` be the state in which the scan of the tokens ended.  For every
positional or keyword parameter: if the scan left its list empty and its default list is not
empty, its collected list is the default list; if the scan left its list non-empty, its
collected list is exactly that list; and if both the list the scan left and the default list
are empty, its collected list is empty. -/
theorem defaults_substituted_when_empty (format : HelpStringFormat) (ps : List Parameter)
    (hdistinct : DistinctPositions ((ParameterMap.init format).registerAll ps))
    (argv : List String) (mf : ParameterMap) (inv : InvalidArguments)
    (h : ((ParameterMap.init format).registerAll ps).parse argv = .returned mf inv) :
    ∃ s, parseLoop (parseStart ((ParameterMap.init format).registerAll ps)) (argv.drop 1) =
        .returned s () ∧
      ∀ id cfg, ((ParameterMap.init format).registerAll ps).descriptor? id = some cfg →
        cfg.category_ ≠ ParameterCategory.kFlag →
        (cfg.default_arguments_ ≠ [] → s.self.collected id = [] →
          mf.collected id = cfg.default_arguments_) ∧
        (s.self.collected id ≠ [] → mf.collected id = s.self.collected id) ∧
        (cfg.default_arguments_ = [] → s.self.collected id = [] → mf.collected id = []) := by
  have hwf := wellFormed_built format ps
  generalize (ParameterMap.init format).registerAll ps = m at hwf hdistinct h ⊢
  obtain ⟨s, hloop, _, _, _, hcol⟩ := parse_returned m hwf argv mf inv h
  refine ⟨s, hloop, ?_⟩
  intro id cfg hd hcat
  have hidx : id ∈ m.positional_parameters_.map Prod.snd ∨ id ∈ m.keyword_parameters_ := by
    cases hc : cfg.category_ with
    | kFlag => exact absurd hc hcat
    | kPositionalParameter =>
      left
      rw [List.mem_map]
      exact ⟨(cfg.position_, id), (positional_index_complete m hwf hdistinct id cfg hd).1 hc, rfl⟩
    | kKeywordParameter =>
      right
      exact (hwf.keywords id).2 ⟨cfg, hd, hc⟩
  rw [hcol id cfg hd]
  refine ⟨?_, ?_, ?_⟩
  · intro _ hempty
    rw [if_pos ⟨hidx, hempty⟩]
  · intro hne
    rw [if_neg (fun hc => hne hc.2)]
  · intro hdef hempty
    rw [if_pos ⟨hidx, hempty⟩, hdef]

/-- C14 (amended) at a concrete input: after `cmd x` the keyword `--k`, to which the scan gave
nothing, holds its default list `d`. -/
theorem defaults_substituted_when_empty_witness :
    DistinctPositions ((ParameterMap.init sample_format).registerAll sample_default_attempts) ∧
    (((ParameterMap.init sample_format).registerAll sample_default_attempts).parse
      ["cmd", "x"]).state.collected 1 = ["d"] ∧
    ∃ s, parseLoop
        (parseStart ((ParameterMap.init sample_format).registerAll sample_default_attempts))
        (["cmd", "x"].drop 1) = .returned s () ∧
      ∀ id cfg,
        ((ParameterMap.init sample_format).registerAll sample_default_attempts).descriptor? id =
          some cfg →
        cfg.category_ ≠ ParameterCategory.kFlag →
        (cfg.default_arguments_ ≠ [] → s.self.collected id = [] →
          (((ParameterMap.init sample_format).registerAll sample_default_attempts).parse
            ["cmd", "x"]).state.collected id = cfg.default_arguments_) ∧
        (s.self.collected id ≠ [] →
          (((ParameterMap.init sample_format).registerAll sample_default_attempts).parse
            ["cmd", "x"]).state.collected id = s.self.collected id) ∧
        (cfg.default_arguments_ = [] → s.self.collected id = [] →
          (((ParameterMap.init sample_format).registerAll sample_default_attempts).parse
            ["cmd", "x"]).state.collected id = []) :=
  ⟨by decide, by decide,
    defaults_substituted_when_empty sample_format sample_default_attempts (by decide)
      ["cmd", "x"] _ { additional_arguments := ["x"], unfilled_parameters := [] } rfl⟩

/-! ## A second scan starts afresh -/

theorem SetDefaultArgumentsIfNeeded_state (m : ParameterMap) (id : Nat) :
    SameRegistry m (m.SetDefaultArgumentsIfNeeded id).state := by
  unfold ParameterMap.SetDefaultArgumentsIfNeeded
  cases h : m.arguments_[id]? with
  | none => exact SameRegistry.refl m
  | some args =>
    simp only
    split
    · cases h' : m.parameter_configurations_[id]? with
      | none => exact SameRegistry.refl m
      | some cfg =>
        simp only
        split
        · exact SameRegistry.with_arguments m _
        · exact SameRegistry.refl m
    · exact SameRegistry.refl m

theorem parseReport_state (ids : List Nat) (m0 : ParameterMap) (inv : InvalidArguments) :
    SameRegistry m0 (parseReport m0 inv ids).state := by
  induction ids generalizing m0 inv with
  | nil => exact SameRegistry.refl m0
  | cons id ids ih =>
    have hset := SetDefaultArgumentsIfNeeded_state m0 id
    cases h1 : m0.SetDefaultArgumentsIfNeeded id with
    | thrown m' e =>
      rw [h1] at hset
      have : parseReport m0 inv (id :: ids) = .thrown m' e := by simp [parseReport, h1]
      rw [this]
      exact hset
    | returned m' u =>
      rw [h1] at hset
      simp only [Outcome.state] at hset
      cases h2 : m'.IsUnfilled id with
      | error e =>
        have : parseReport m0 inv (id :: ids) = .thrown m' e := by simp [parseReport, h1, h2]
        rw [this]
        exact hset
      | ok b =>
        cases h3 : m'.parameter_configurations_[id]? with
        | none =>
          cases b with
          | false =>
            have : parseReport m0 inv (id :: ids) = parseReport m' inv ids := by
              simp [parseReport, h1, h2]
            rw [this]
            exact hset.trans (ih m' inv)
          | true =>
            have : parseReport m0 inv (id :: ids) = .thrown m' .out_of_range := by
              simp [parseReport, h1, h2, h3]
            rw [this]
            exact hset
        | some cfg =>
          rw [parseReport_cons m0 m' inv id ids b cfg h1 h2 h3]
          cases b with
          | false => exact hset.trans (ih m' inv)
          | true =>
            simp only [if_true]
            cases h4 : cfg.names_[0]? with
            | none => exact hset
            | some n => exact hset.trans (ih m' _)

theorem parse_state (m : ParameterMap) (argv : List String) :
    SameRegistry m (m.parse argv).state := by
  unfold ParameterMap.parse
  have hinv := scanInv_parseLoop m (argv.drop 1) (parseStart m) (scanInv_parseStart m)
  cases hloop : parseLoop (parseStart m) (argv.drop 1) with
  | thrown s e =>
    rw [hloop] at hinv
    exact hinv.same
  | returned s u =>
    rw [hloop] at hinv
    simp only [Outcome.state] at hinv ⊢
    have h1 := parseReport_state (s.self.positional_parameters_.map Prod.snd) s.self
      s.invalid_arguments
    cases hrep : parseReport s.self s.invalid_arguments
        (s.self.positional_parameters_.map Prod.snd) with
    | thrown m1 e =>
      rw [hrep] at h1
      exact hinv.same.trans h1
    | returned m1 inv1 =>
      rw [hrep] at h1
      simp only [Outcome.state] at h1 ⊢
      exact (hinv.same.trans h1).trans (parseReport_state m1.keyword_parameters_ m1 inv1)

theorem parseStart_congr (m m1 : ParameterMap) (h : SameRegistry m m1) :
    parseStart m1 = parseStart m := by
  obtain ⟨h1, h2, h3, h4, h5, h6, h7⟩ := h
  cases m
  cases m1
  simp only at h1 h2 h3 h4 h5 h6 h7
  subst h1; subst h2; subst h3; subst h4; subst h5; subst h6; subst h7
  rfl

theorem parse_congr (m m1 : ParameterMap) (h : SameRegistry m m1) (argv : List String) :
    m1.parse argv = m.parse argv := by
  unfold ParameterMap.parse
  rw [parseStart_congr m m1 h]

/-- C15: for every registry `m` and all token lists `t₁`, `t₂` such that `parse` returns on
`t₂`, scanning `t₁` first and then `t₂` leaves the registry, collected arguments included, and
returns the `InvalidArguments`, that scanning `t₂` alone does; whether the scan of `t₁`
returned or threw.  A scan of `t₁` that runs into the undefined access `names()[0]` is left
out. -/
theorem rescanning_replaces_collected (m : ParameterMap) (t₁ t₂ : List String)
    (mf : ParameterMap) (inv : InvalidArguments)
    (hdefined : (m.parse t₁).exception? ≠ some Exception.undefined_behavior)
    (h : m.parse t₂ = .returned mf inv) :
    (m.parse t₁).state.parse t₂ = .returned mf inv := by
  have _ := hdefined
  rw [parse_congr m (m.parse t₁).state (parse_state m t₁) t₂]
  exact h

/-- C15 at a concrete input: the scan of `cmd --k a -x` throws with `a` collected for `--k`;
the scan of `cmd --k b` that follows gives what it gives on the fresh registry. -/
theorem rescanning_replaces_collected_witness :
    (sample_keyword_registry.parse ["cmd", "--k", "a", "-x"]).exception? =
      some Exception.UnkownFlagOrKeyword ∧
    (sample_keyword_registry.parse ["cmd", "--k", "a", "-x"]).state.arguments_ = [["a"]] ∧
    (sample_keyword_registry.parse ["cmd", "--k", "b"]).state.arguments_ = [["b"]] ∧
    (sample_keyword_registry.parse ["cmd", "--k", "a", "-x"]).state.parse ["cmd", "--k", "b"] =
      .returned (sample_keyword_registry.parse ["cmd", "--k", "b"]).state
        { additional_arguments := [], unfilled_parameters := [] } :=
  ⟨by decide, by decide, by decide,
    rescanning_replaces_collected sample_keyword_registry ["cmd", "--k", "a", "-x"]
      ["cmd", "--k", "b"] _ _ (by decide) rfl⟩

/-! ## Typed retrieval and `IsSet` after `parse` -/

/-- C16: on a registry built by registration, let `parse` return and leave the registry `mf`.
Then `convert<T>(name)` on `mf` throws `UnknownParameterName` if `name` is not registered.  If
`name` is a name of the parameter `id` with descriptor `cfg` and converter `c` (every registered
name is one of exactly such a triple), it throws `InvalidFlagConversion` if the parameter is a
flag; otherwise `MismatchedParameterType` if `T` is not the type `c` was registered with,
whatever its collected list holds; otherwise `UnfilledParameter` if its collected list is empty;
and otherwise it returns `c` applied to the first collected token. -/
theorem convert_decision_order (format : HelpStringFormat) (ps : List Parameter)
    (argv : List String) (mf : ParameterMap) (inv : InvalidArguments)
    (h : ((ParameterMap.init format).registerAll ps).parse argv = .returned mf inv)
    (T : Nat) (name : String) :
    (¬ IsRegisteredName ((ParameterMap.init format).registerAll ps) name →
      mf.convert T name = .error .UnknownParameterName) ∧
    (∀ id cfg c, ((ParameterMap.init format).registerAll ps).descriptor? id = some cfg →
      name ∈ cfg.names_ →
      ((ParameterMap.init format).registerAll ps).converters_[id]? = some c →
      mf.convert T name =
        if cfg.category_ = ParameterCategory.kFlag then .error .InvalidFlagConversion
        else if c.type_id ≠ T then .error .MismatchedParameterType
        else match mf.collected id with
          | [] => .error .UnfilledParameter
          | argument :: _ => .ok (c.fn argument)) ∧
    (IsRegisteredName ((ParameterMap.init format).registerAll ps) name →
      ∃ id cfg c, ((ParameterMap.init format).registerAll ps).descriptor? id = some cfg ∧
        name ∈ cfg.names_ ∧
        ((ParameterMap.init format).registerAll ps).converters_[id]? = some c) := by
  have hwf := wellFormed_built format ps
  generalize (ParameterMap.init format).registerAll ps = m at hwf h ⊢
  obtain ⟨s, _, _, hsame, _, _⟩ := parse_returned m hwf argv mf inv h
  have hsize := parse_returned_size m hwf argv mf inv h
  refine ⟨?_, ?_, ?_⟩
  · intro hun
    unfold ParameterMap.convert
    rw [GetId_unregistered m mf hwf hsame name hun]
  · intro id cfg c hd hn hc
    exact convert_post m mf hwf hsame hsize T name id cfg c hd hn hc
  · rintro ⟨cfg, hmem, hn⟩
    obtain ⟨id, _, hd⟩ := lookup_of_name m hwf name cfg hmem hn
    obtain ⟨c, hc⟩ := converter_of_descriptor m hwf id cfg hd
    exact ⟨id, cfg, c, hd, hn, hc⟩

/-- C16 at a concrete input: after `cmd x y --bar 1 2 -a`, `convert` of `--bar` with the type
it was registered with is the converter applied to `1`, the first of its two tokens. -/
theorem convert_decision_order_witness :
    (((ParameterMap.init sample_format).registerAll sample_scan_attempts).parse
      ["cmd", "x", "y", "--bar", "1", "2", "-a"]).state.arguments_ =
        [["1", "2"], ["true"], [], ["x", "y"], []] ∧
    (((ParameterMap.init sample_format).registerAll sample_scan_attempts).parse
      ["cmd", "x", "y", "--bar", "1", "2", "-a"]).state.convert 1 "--bar" =
        .ok (Value.str "1") :=
  ⟨by decide,
    (convert_decision_order sample_format sample_scan_attempts
      ["cmd", "x", "y", "--bar", "1", "2", "-a"] _
      { additional_arguments := [], unfilled_parameters := [] } rfl 1 "--bar").2.1 0 _
      sample_converter rfl (by decide) rfl⟩

/-- C17, at failing inputs: `--k` is a keyword parameter registered with the type 1.  On the
registry on which `parse` was never called, `convert` with that type throws `std::out_of_range`
from `arguments_.at(id)`, not `UnfilledParameter`, while `HasArgument`, which tests the
identifier against the size of `arguments_` first, returns false.  The same happens for the
keyword `--j` registered after a call of `parse`. -/
theorem convert_without_parse_is_out_of_range :
    sample_keyword_registry.arguments_ = [] ∧
    sample_keyword_registry.convert 1 "--k" = .error .out_of_range ∧
    sample_keyword_registry.HasArgument "--k" = .ok false ∧
    ((sample_keyword_registry.parse ["cmd"]).state.registerAll
      [Parameter.Keyword ["--j"] sample_converter]).arguments_ = [[]] ∧
    ((sample_keyword_registry.parse ["cmd"]).state.registerAll
      [Parameter.Keyword ["--j"] sample_converter]).convert 1 "--j" = .error .out_of_range ∧
    ((sample_keyword_registry.parse ["cmd"]).state.registerAll
      [Parameter.Keyword ["--j"] sample_converter]).HasArgument "--j" = .ok false :=
  ⟨rfl, rfl, rfl, rfl, rfl, rfl⟩

/-- C18: on a registry built by registration, let `parse` return and leave the registry `mf`.
If `name` is a name of the parameter `id` with descriptor `cfg` and converter `c` (every
registered name is one of exactly such a triple), then `convert_all<T>(name)` on `mf` throws
`InvalidFlagConversion` if the parameter is a flag, otherwise `MismatchedParameterType` if `T`
is not the type `c` was registered with, and otherwise returns `c` mapped over the collected
list in order: the empty list, not an error, when nothing was collected. -/
theorem convert_all_maps_collected (format : HelpStringFormat) (ps : List Parameter)
    (argv : List String) (mf : ParameterMap) (inv : InvalidArguments)
    (h : ((ParameterMap.init format).registerAll ps).parse argv = .returned mf inv)
    (T : Nat) (name : String) :
    (∀ id cfg c, ((ParameterMap.init format).registerAll ps).descriptor? id = some cfg →
      name ∈ cfg.names_ →
      ((ParameterMap.init format).registerAll ps).converters_[id]? = some c →
      (cfg.category_ = ParameterCategory.kFlag →
        mf.convert_all T name = .error .InvalidFlagConversion) ∧
      (cfg.category_ ≠ ParameterCategory.kFlag → c.type_id ≠ T →
        mf.convert_all T name = .error .MismatchedParameterType) ∧
      (cfg.category_ ≠ ParameterCategory.kFlag → c.type_id = T →
        mf.convert_all T name = .ok ((mf.collected id).map c.fn) ∧
        (mf.collected id = [] → mf.convert_all T name = .ok []))) ∧
    (IsRegisteredName ((ParameterMap.init format).registerAll ps) name →
      ∃ id cfg c, ((ParameterMap.init format).registerAll ps).descriptor? id = some cfg ∧
        name ∈ cfg.names_ ∧
        ((ParameterMap.init format).registerAll ps).converters_[id]? = some c) := by
  have hwf := wellFormed_built format ps
  generalize (ParameterMap.init format).registerAll ps = m at hwf h ⊢
  obtain ⟨s, _, _, hsame, _, _⟩ := parse_returned m hwf argv mf inv h
  have hsize := parse_returned_size m hwf argv mf inv h
  refine ⟨?_, ?_⟩
  · intro id cfg c hd hn hc
    have hpost := convert_all_post m mf hwf hsame hsize T name id cfg c hd hn hc
    refine ⟨?_, ?_, ?_⟩
    · intro hcat
      rw [hpost, if_pos hcat]
    · intro hcat hT
      rw [hpost, if_neg hcat, if_pos hT]
    · intro hcat hT
      have hall : mf.convert_all T name = .ok ((mf.collected id).map c.fn) := by
        rw [hpost, if_neg hcat, if_neg (not_not.2 hT)]
      refine ⟨hall, ?_⟩
      intro hnil
      rw [hall, hnil]
      rfl
  · rintro ⟨cfg, hmem, hn⟩
    obtain ⟨id, _, hd⟩ := lookup_of_name m hwf name cfg hmem hn
    obtain ⟨c, hc⟩ := converter_of_descriptor m hwf id cfg hd
    exact ⟨id, cfg, c, hd, hn, hc⟩

/-- C18 at a concrete input: after `cmd x y --bar 1 2 -a`, `convert_all` of `QUX` with the type
it was registered with is the converter mapped over `x`, `y`, and that of `BAZ`, which got
nothing, is the empty list. -/
theorem convert_all_maps_collected_witness :
    (((ParameterMap.init sample_format).registerAll sample_scan_attempts).parse
      ["cmd", "x", "y", "--bar", "1", "2", "-a"]).state.arguments_ =
        [["1", "2"], ["true"], [], ["x", "y"], []] ∧
    (((ParameterMap.init sample_format).registerAll sample_scan_attempts).parse
      ["cmd", "x", "y", "--bar", "1", "2", "-a"]).state.convert_all 1 "QUX" =
        .ok [Value.str "x", Value.str "y"] ∧
    (((ParameterMap.init sample_format).registerAll sample_scan_attempts).parse
      ["cmd", "x", "y", "--bar", "1", "2", "-a"]).state.convert_all 1 "BAZ" = .ok [] :=
  ⟨by decide,
    (((convert_all_maps_collected sample_format sample_scan_attempts
      ["cmd", "x", "y", "--bar", "1", "2", "-a"] _
      { additional_arguments := [], unfilled_parameters := [] } rfl 1 "QUX").1 3 _
      sample_converter rfl (by decide) rfl).2.2 (by decide) rfl).1,
    rfl⟩

/-- C19: on a registry built by registration, let `parse` return on `argv` and leave the
registry `mf`.  Then `IsSet(name)` on `mf` throws `UnknownParameterName` if `name` is not
registered.  If `name` is a name of the parameter with descriptor `cfg` (every registered name
is one), it throws `NoFlagWithName` if the parameter is positional or keyword, and if it is a
flag it returns true exactly when some token after the first sets the flag: the token is one of
the names of the flag, or it begins with `-`, is no keyword or flag name itself, and has after
its first character a character `c` such that `-c` is one of the names of the flag. -/
theorem isSet_reports_presence (format : HelpStringFormat) (ps : List Parameter)
    (argv : List String) (mf : ParameterMap) (inv : InvalidArguments)
    (h : ((ParameterMap.init format).registerAll ps).parse argv = .returned mf inv)
    (name : String) :
    (¬ IsRegisteredName ((ParameterMap.init format).registerAll ps) name →
      mf.IsSet name = .error .UnknownParameterName) ∧
    (∀ id cfg, ((ParameterMap.init format).registerAll ps).descriptor? id = some cfg →
      name ∈ cfg.names_ →
      (cfg.category_ ≠ ParameterCategory.kFlag → mf.IsSet name = .error .NoFlagWithName) ∧
      (cfg.category_ = ParameterCategory.kFlag →
        mf.IsSet name = .ok (decide (∃ t ∈ argv.drop 1,
          SetsFlag ((ParameterMap.init format).registerAll ps) cfg t)))) ∧
    (IsRegisteredName ((ParameterMap.init format).registerAll ps) name →
      ∃ id cfg, ((ParameterMap.init format).registerAll ps).descriptor? id = some cfg ∧
        name ∈ cfg.names_) := by
  have hwf := wellFormed_built format ps
  generalize (ParameterMap.init format).registerAll ps = m at hwf h ⊢
  obtain ⟨s, _, _, hsame, _, _⟩ := parse_returned m hwf argv mf inv h
  have hsize := parse_returned_size m hwf argv mf inv h
  refine ⟨?_, ?_, ?_⟩
  · intro hun
    unfold ParameterMap.IsSet
    rw [GetId_unregistered m mf hwf hsame name hun]
  · intro id cfg hd hn
    have hpost := IsSet_post m mf hwf hsame hsize name id cfg hd hn
    refine ⟨?_, ?_⟩
    · intro hcat
      rw [hpost, if_pos hcat]
    · intro hcat
      rw [hpost, if_neg (not_not.2 hcat)]
      obtain ⟨k, hk, hk'⟩ := flag_collected m hwf argv mf inv h id cfg hd hcat
      rw [hk, List.length_replicate]
      congr 1
      rw [decide_eq_decide]
      exact hk'
  · rintro ⟨cfg, hmem, hn⟩
    obtain ⟨id, _, hd⟩ := lookup_of_name m hwf name cfg hmem hn
    exact ⟨id, cfg, hd, hn⟩

/-- C19 at a concrete input: after `cmd x y --bar 1 2 -a` the flag `-a` is set. -/
theorem isSet_reports_presence_witness :
    (((ParameterMap.init sample_format).registerAll sample_scan_attempts).parse
      ["cmd", "x", "y", "--bar", "1", "2", "-a"]).state.arguments_ =
        [["1", "2"], ["true"], [], ["x", "y"], []] ∧
    (((ParameterMap.init sample_format).registerAll sample_scan_attempts).parse
      ["cmd", "x", "y", "--bar", "1", "2", "-a"]).state.IsSet "-a" = .ok true :=
  ⟨by decide,
    (((isSet_reports_presence sample_format sample_scan_attempts
      ["cmd", "x", "y", "--bar", "1", "2", "-a"] _
      { additional_arguments := [], unfilled_parameters := [] } rfl "-a").2.1 1 _ rfl
      (by decide)).2 rfl)⟩

/-! ## A flag given twice -/

theorem parseKeyword_explicit (m : ParameterMap) (hwf : WellFormed m) (s : ParseState)
    (hs : ScanInv m s) (idk : Nat) :
    parseKeyword s idk = .returned
      { s with
        current_keyword_it := unordered_set_find m.keyword_parameters_ idk,
        current_positional_it :=
          match m.positional_parameters_[s.current_positional_it]? with
          | some e =>
            if (s.self.collected e.2).length > 0 then s.current_positional_it + 1
            else s.current_positional_it
          | none => s.current_positional_it } () := by
  cases hcur : m.positional_parameters_[s.current_positional_it]? with
  | none =>
    have hcur' : s.self.positional_parameters_[s.current_positional_it]? = none := by
      rw [hs.same.2.2.2.1]; exact hcur
    rw [parseKeyword_end s idk hcur', hs.same.2.2.2.2.1]
  | some e =>
    obtain ⟨pos, pid⟩ := e
    have hcur' : s.self.positional_parameters_[s.current_positional_it]? = some (pos, pid) := by
      rw [hs.same.2.2.2.1]; exact hcur
    obtain ⟨cfg, hcfg, _⟩ := positional_descriptor m hwf _ pos pid hcur
    obtain ⟨_, hargs, _⟩ := descriptor_in_bounds m s hs pid cfg hcfg
    rw [parseKeyword_at s idk pos pid _ hcur' hargs, hs.same.2.2.2.2.1]

theorem parseFlagList_sync (m : ParameterMap) (hwf : WellFormed m) (cs : List Char)
    (s : ParseState) (hs : ScanInv m s) :
    ((∀ c ∈ cs, IsRegisteredName m (String.mk ['-', c])) →
      ∃ m', parseFlagList s.self cs = .returned m' ()) ∧
    ((¬ ∀ c ∈ cs, IsRegisteredName m (String.mk ['-', c])) →
      ∃ m', parseFlagList s.self cs = .thrown m' .UnkownFlagOrKeyword) := by
  induction cs generalizing s with
  | nil =>
    refine ⟨fun _ => ⟨s.self, rfl⟩, fun h => absurd (fun c hc => ?_) h⟩
    exact absurd hc (List.not_mem_nil c)
  | cons c cs ih =>
    cases h1 : map_find m.name_to_id_ (String.mk ['-', c]) with
    | none =>
      have h1' : map_find s.self.name_to_id_ (String.mk ['-', c]) = none := by
        rw [hs.same.1]; exact h1
      have hnot : ¬ IsRegisteredName m (String.mk ['-', c]) := by
        intro hr
        obtain ⟨id, hid⟩ := (isRegisteredName_iff m hwf _).1 hr
        rw [h1] at hid
        exact absurd hid (by simp)
      rw [parseFlagList_cons_none s.self c cs h1']
      exact ⟨fun hall => absurd (hall c (List.mem_cons_self c cs)) hnot, fun _ => ⟨s.self, rfl⟩⟩
    | some idc =>
      have h1' : map_find s.self.name_to_id_ (String.mk ['-', c]) = some idc := by
        rw [hs.same.1]; exact h1
      have hreg : IsRegisteredName m (String.mk ['-', c]) :=
        (isRegisteredName_iff m hwf _).2 ⟨idc, h1⟩
      obtain ⟨cfg, hcfg, _, _⟩ := name_of_lookup m hwf _ idc h1
      have hset := SetFlag_built m s hs idc cfg hcfg
      have hstate := SetFlag_state s.self idc
      rw [hset] at hstate
      simp only [Outcome.state] at hstate
      rw [parseFlagList_cons_returned s.self _ c cs idc h1' hset]
      have hrest := ih { s with self :=
            { s.self with
              arguments_ := s.self.arguments_.set idc (s.self.collected idc ++ ["true"]) } }
        ⟨hs.same.trans hstate.1, hstate.2.trans hs.size, hs.keyword⟩
      refine ⟨fun hall => hrest.1 (fun c' hc' => hall c' (List.mem_cons_of_mem c hc')), ?_⟩
      intro hnot
      apply hrest.2
      intro hall
      apply hnot
      intro c' hc'
      rcases List.mem_cons.1 hc' with rfl | hc'
      · exact hreg
      · exact hall c' hc'

theorem scanInv_of_returned (m : ParameterMap) (s s1 : ParseState) (t : String)
    (hs : ScanInv m s) (h : parseArgument s t = .returned s1 ()) : ScanInv m s1 := by
  have := scanInv_parseArgument m s t hs
  rw [h] at this
  exact this

theorem positional_not_flag (m : ParameterMap) (hwf : WellFormed m) (i : Nat) (pos : Int)
    (pid : Nat) (h : m.positional_parameters_[i]? = some (pos, pid)) : pid ∉ m.flags_ := by
  intro hf
  obtain ⟨cfg, h1, h2, _⟩ := positional_descriptor m hwf i pos pid h
  obtain ⟨cfg', h3, h4⟩ := (hwf.flags pid).1 hf
  rw [h1] at h3
  injection h3 with h3
  subst h3
  rw [h2] at h4
  exact absurd h4 (by decide)

theorem twin_step_keyword (m : ParameterMap) (hwf : WellFormed m) (id : Nat)
    (hid : id ∈ m.flags_) (s s' : ParseState) (R : FlagTwin m id s s') (t : String)
    (hkw : IsKeywordName m t) :
    ∃ s1 s1', parseArgument s t = .returned s1 () ∧ parseArgument s' t = .returned s1' () ∧
      FlagTwin m id s1 s1' := by
  obtain ⟨idk, h1, h2⟩ := (isKeywordName_iff m hwf t).1 hkw
  have ha := (parseArgument_keyword m s R.left t idk h1 h2).trans
    (parseKeyword_explicit m hwf s R.left idk)
  have hb := (parseArgument_keyword m s' R.right t idk h1 h2).trans
    (parseKeyword_explicit m hwf s' R.right idk)
  refine ⟨_, _, ha, hb, scanInv_of_returned m s _ t R.left ha,
    scanInv_of_returned m s' _ t R.right hb, ?_, rfl, R.invalid, R.others, R.set_left,
    R.set_right⟩
  simp only
  rw [R.positional]
  cases hcur : m.positional_parameters_[s.current_positional_it]? with
  | none => rfl
  | some e =>
    obtain ⟨pos, pid⟩ := e
    have hne : pid ≠ id := fun e => positional_not_flag m hwf _ pos pid hcur (e ▸ hid)
    simp only
    rw [R.others pid hne]

theorem twin_step_flag (m : ParameterMap) (hwf : WellFormed m) (id : Nat)
    (s s' : ParseState) (R : FlagTwin m id s s') (t : String) (hfl : IsFlagName m t) :
    ∃ s1 s1', parseArgument s t = .returned s1 () ∧ parseArgument s' t = .returned s1' () ∧
      FlagTwin m id s1 s1' := by
  obtain ⟨idf, h1, h2⟩ := (isFlagName_iff m hwf t).1 hfl
  obtain ⟨cfg, hcfg, _⟩ := (hwf.flags idf).1 h2
  have ha := (parseArgument_flag m hwf s R.left t idf h1 h2).trans
    (parseFlag_built m hwf s R.left idf h2)
  have hb := (parseArgument_flag m hwf s' R.right t idf h1 h2).trans
    (parseFlag_built m hwf s' R.right idf h2)
  have hlt := (descriptor_in_bounds m s R.left idf cfg hcfg).1
  have hlt' := (descriptor_in_bounds m s' R.right idf cfg hcfg).1
  refine ⟨_, _, ha, hb, scanInv_of_returned m s _ t R.left ha,
    scanInv_of_returned m s' _ t R.right hb, R.positional, rfl, R.invalid, ?_, ?_, ?_⟩
  · intro j hj
    simp only
    rw [collected_set s.self idf j _ hlt, collected_set s'.self idf j _ hlt']
    by_cases e : j = idf
    · rw [if_pos e, if_pos e, R.others idf (e ▸ hj)]
    · rw [if_neg e, if_neg e, R.others j hj]
  · simp only
    rw [collected_set s.self idf id _ hlt]
    by_cases e : id = idf
    · rw [if_pos e]; simp
    · rw [if_neg e]; exact R.set_left
  · simp only
    rw [collected_set s'.self idf id _ hlt']
    by_cases e : id = idf
    · rw [if_pos e]; simp
    · rw [if_neg e]; exact R.set_right

theorem twin_step_dash (m : ParameterMap) (hwf : WellFormed m) (id : Nat)
    (s s' : ParseState) (R : FlagTwin m id s s') (t : String) (hkw : ¬ IsKeywordName m t)
    (hfl : ¬ IsFlagName m t) (hdash : BeginsWithDash t) :
    (∃ s1 s1', parseArgument s t = .returned s1 () ∧ parseArgument s' t = .returned s1' () ∧
      FlagTwin m id s1 s1') ∨
    (∃ s1 s1' e, parseArgument s t = .thrown s1 e ∧ parseArgument s' t = .thrown s1' e) := by
  have ha := parseArgument_dash m hwf s R.left t hkw hfl hdash
  have hb := parseArgument_dash m hwf s' R.right t hkw hfl hdash
  by_cases hall : ∀ c ∈ t.data.drop 1, IsRegisteredName m (String.mk ['-', c])
  · obtain ⟨m1, hm1⟩ := (parseFlagList_sync m hwf _ s R.left).1 hall
    obtain ⟨m1', hm1'⟩ := (parseFlagList_sync m hwf _ s' R.right).1 hall
    rw [parseDash_returned s t m1 hm1] at ha
    rw [parseDash_returned s' t m1' hm1'] at hb
    have hc := parseFlagList_collected m hwf _ s R.left m1 hm1
    have hc' := parseFlagList_collected m hwf _ s' R.right m1' hm1'
    left
    refine ⟨_, _, ha, hb, scanInv_of_returned m s _ t R.left ha,
      scanInv_of_returned m s' _ t R.right hb, R.positional, rfl, R.invalid, ?_, ?_, ?_⟩
    · intro j hj
      simp only
      rw [hc j, hc' j, R.others j hj]
    · simp only
      rw [hc id]
      intro h
      exact R.set_left (List.append_eq_nil.1 h).1
    · simp only
      rw [hc' id]
      intro h
      exact R.set_right (List.append_eq_nil.1 h).1
  · obtain ⟨m1, hm1⟩ := (parseFlagList_sync m hwf _ s R.left).2 hall
    obtain ⟨m1', hm1'⟩ := (parseFlagList_sync m hwf _ s' R.right).2 hall
    rw [parseDash_thrown s t m1 _ hm1] at ha
    rw [parseDash_thrown s' t m1' _ hm1'] at hb
    exact Or.inr ⟨_, _, _, ha, hb⟩

theorem twin_step_plain (m : ParameterMap) (hwf : WellFormed m) (id : Nat)
    (hid : id ∈ m.flags_) (s s' : ParseState) (R : FlagTwin m id s s') (t : String)
    (hp : IsPlain m t) :
    ∃ s1 s1', parseArgument s t = .returned s1 () ∧ parseArgument s' t = .returned s1' () ∧
      FlagTwin m id s1 s1' := by
  have ha := parseArgument_plain m hwf s R.left t hp
  have hb := parseArgument_plain m hwf s' R.right t hp
  cases hopen : s.current_keyword_it with
  | some k =>
    have hopen' : s'.current_keyword_it = some k := R.keyword.trans hopen
    have hk := R.left.keyword k hopen
    obtain ⟨cfg, hcfg, _⟩ := keyword_descriptor m hwf k hk
    have hne : k ≠ id := fun e => keyword_not_flag m hwf k hk (e ▸ hid)
    have hne' : ¬ id = k := fun e => hne e.symm
    rw [parseValue_keyword_built m s R.left k cfg hopen hcfg t] at ha
    rw [parseValue_keyword_built m s' R.right k cfg hopen' hcfg t] at hb
    have hlt := (descriptor_in_bounds m s R.left k cfg hcfg).1
    have hlt' := (descriptor_in_bounds m s' R.right k cfg hcfg).1
    refine ⟨_, _, ha, hb, scanInv_of_returned m s _ t R.left ha,
      scanInv_of_returned m s' _ t R.right hb, R.positional, ?_, R.invalid, ?_, ?_, ?_⟩
    · simp only
      rw [R.others k hne]
    · intro j hj
      simp only
      rw [collected_set s.self k j _ hlt, collected_set s'.self k j _ hlt']
      by_cases e : j = k
      · rw [if_pos e, if_pos e, R.others k hne]
      · rw [if_neg e, if_neg e, R.others j hj]
    · simp only
      rw [collected_set s.self k id _ hlt, if_neg hne']
      exact R.set_left
    · simp only
      rw [collected_set s'.self k id _ hlt', if_neg hne']
      exact R.set_right
  | none =>
    have hopen' : s'.current_keyword_it = none := R.keyword.trans hopen
    cases hcur : m.positional_parameters_[s.current_positional_it]? with
    | none =>
      have hcur' : m.positional_parameters_[s'.current_positional_it]? = none := by
        rw [R.positional]; exact hcur
      rw [parseValue_additional_built m s R.left hopen hcur t] at ha
      rw [parseValue_additional_built m s' R.right hopen' hcur' t] at hb
      refine ⟨_, _, ha, hb, scanInv_of_returned m s _ t R.left ha,
        scanInv_of_returned m s' _ t R.right hb, R.positional, R.keyword, ?_, R.others,
        R.set_left, R.set_right⟩
      simp only
      rw [R.invalid]
    | some e =>
      obtain ⟨pos, pid⟩ := e
      have hcur' : m.positional_parameters_[s'.current_positional_it]? = some (pos, pid) := by
        rw [R.positional]; exact hcur
      obtain ⟨cfg, hcfg, _⟩ := positional_descriptor m hwf _ pos pid hcur
      have hne : pid ≠ id := fun e => positional_not_flag m hwf _ pos pid hcur (e ▸ hid)
      have hne' : ¬ id = pid := fun e => hne e.symm
      rw [parseValue_positional_built m s R.left pos pid cfg hopen hcur hcfg t] at ha
      rw [parseValue_positional_built m s' R.right pos pid cfg hopen' hcur' hcfg t] at hb
      have hlt := (descriptor_in_bounds m s R.left pid cfg hcfg).1
      have hlt' := (descriptor_in_bounds m s' R.right pid cfg hcfg).1
      refine ⟨_, _, ha, hb, scanInv_of_returned m s _ t R.left ha,
        scanInv_of_returned m s' _ t R.right hb, ?_, R.keyword, R.invalid, ?_, ?_, ?_⟩
      · simp only
        rw [R.others pid hne, R.positional]
      · intro j hj
        simp only
        rw [collected_set s.self pid j _ hlt, collected_set s'.self pid j _ hlt']
        by_cases e : j = pid
        · rw [if_pos e, if_pos e, R.others pid hne]
        · rw [if_neg e, if_neg e, R.others j hj]
      · simp only
        rw [collected_set s.self pid id _ hlt, if_neg hne']
        exact R.set_left
      · simp only
        rw [collected_set s'.self pid id _ hlt', if_neg hne']
        exact R.set_right

theorem twin_step (m : ParameterMap) (hwf : WellFormed m) (id : Nat) (hid : id ∈ m.flags_)
    (s s' : ParseState) (R : FlagTwin m id s s') (t : String) :
    (∃ s1 s1', parseArgument s t = .returned s1 () ∧ parseArgument s' t = .returned s1' () ∧
      FlagTwin m id s1 s1') ∨
    (∃ s1 s1' e, parseArgument s t = .thrown s1 e ∧ parseArgument s' t = .thrown s1' e) := by
  by_cases hkw : IsKeywordName m t
  · exact Or.inl (twin_step_keyword m hwf id hid s s' R t hkw)
  · by_cases hfl : IsFlagName m t
    · exact Or.inl (twin_step_flag m hwf id s s' R t hfl)
    · by_cases hdash : BeginsWithDash t
      · exact twin_step_dash m hwf id s s' R t hkw hfl hdash
      · exact Or.inl (twin_step_plain m hwf id hid s s' R t ⟨hkw, hfl, hdash⟩)

theorem twin_loop (m : ParameterMap) (hwf : WellFormed m) (id : Nat) (hid : id ∈ m.flags_)
    (ts : List String) (s s' : ParseState) (R : FlagTwin m id s s') :
    (∃ s1 s1', parseLoop s ts = .returned s1 () ∧ parseLoop s' ts = .returned s1' () ∧
      FlagTwin m id s1 s1') ∨
    (∃ s1 s1' e, parseLoop s ts = .thrown s1 e ∧ parseLoop s' ts = .thrown s1' e) := by
  induction ts generalizing s s' with
  | nil => exact Or.inl ⟨s, s', rfl, rfl, R⟩
  | cons t ts ih =>
    rcases twin_step m hwf id hid s s' R t with ⟨s1, s1', h1, h1', R1⟩ | ⟨s1, s1', e, h1, h1'⟩
    · rw [parseLoop_cons_returned s s1 t ts h1, parseLoop_cons_returned s' s1' t ts h1']
      exact ih s1 s1' R1
    · rw [parseLoop_cons_thrown s s1 t ts e h1, parseLoop_cons_thrown s' s1' t ts e h1']
      exact Or.inr ⟨s1, s1', e, rfl, rfl⟩

theorem parseReport_twin (m : ParameterMap) (ids : List Nat) (m0 m0' : ParameterMap)
    (inv : InvalidArguments) (hsame : SameRegistry m m0) (hsame' : SameRegistry m m0')
    (hsize : m0.arguments_.length = m.parameter_configurations_.length)
    (hsize' : m0'.arguments_.length = m.parameter_configurations_.length)
    (hids : ∀ id ∈ ids, ∃ cfg, m.descriptor? id = some cfg)
    (heq : ∀ id ∈ ids, m0'.collected id = m0.collected id) :
    (∃ m1 m1' inv1, parseReport m0 inv ids = .returned m1 inv1 ∧
      parseReport m0' inv ids = .returned m1' inv1) ∨
    (∃ m1 m1' e, parseReport m0 inv ids = .thrown m1 e ∧
      parseReport m0' inv ids = .thrown m1' e) := by
  induction ids generalizing m0 m0' inv with
  | nil => exact Or.inl ⟨m0, m0', inv, rfl, rfl⟩
  | cons id0 ids ih =>
    obtain ⟨cfg0, hcfg0⟩ := hids id0 (List.mem_cons_self id0 ids)
    obtain ⟨m1, hm1, hs1, hz1, hc1⟩ :=
      SetDefaultArgumentsIfNeeded_built m m0 hsame hsize id0 cfg0 hcfg0
    obtain ⟨m1', hm1', hs1', hz1', hc1'⟩ :=
      SetDefaultArgumentsIfNeeded_built m m0' hsame' hsize' id0 cfg0 hcfg0
    have hunf := IsUnfilled_built m m1 hs1 hz1 id0 cfg0 hcfg0
    have hunf' := IsUnfilled_built m m1' hs1' hz1' id0 cfg0 hcfg0
    have hcfg := (in_bounds_of_descriptor m m1 hs1 hz1 id0 cfg0 hcfg0).2.2
    have hcfg' := (in_bounds_of_descriptor m m1' hs1' hz1' id0 cfg0 hcfg0).2.2
    have heq1 : ∀ j ∈ id0 :: ids, m1'.collected j = m1.collected j := by
      intro j hj
      rw [hc1 j, hc1' j, heq id0 (List.mem_cons_self id0 ids), heq j hj]
    rw [heq1 id0 (List.mem_cons_self id0 ids)] at hunf'
    rw [parseReport_cons m0 m1 inv id0 ids _ cfg0 hm1 hunf hcfg,
      parseReport_cons m0' m1' inv id0 ids _ cfg0 hm1' hunf' hcfg']
    have hrest := fun inv' => ih m1 m1' inv' hs1 hs1' hz1 hz1'
      (fun id hid => hids id (List.mem_cons_of_mem id0 hid))
      (fun id hid => heq1 id (List.mem_cons_of_mem id0 hid))
    by_cases hb : (m1.collected id0).length < to_size_t cfg0.min_num_arguments_
    · rw [decide_eq_true hb]
      simp only [if_true]
      cases hn : cfg0.names_[0]? with
      | none => exact Or.inr ⟨m1, m1', _, rfl, rfl⟩
      | some n => exact hrest _
    · rw [decide_eq_false hb]
      simp only [Bool.false_eq_true, if_false]
      exact hrest inv

theorem parse_twin (m : ParameterMap) (hwf : WellFormed m) (id : Nat) (hid : id ∈ m.flags_)
    (argvA argvB : List String) (sA sB : ParseState)
    (hA : parseLoop (parseStart m) (argvA.drop 1) = .returned sA ())
    (hB : parseLoop (parseStart m) (argvB.drop 1) = .returned sB ())
    (R : FlagTwin m id sA sB) :
    (∃ mA mB inv, m.parse argvA = .returned mA inv ∧ m.parse argvB = .returned mB inv) ∨
    (∃ mA mB e, m.parse argvA = .thrown mA e ∧ m.parse argvB = .thrown mB e) := by
  have hnp : ∀ j ∈ m.positional_parameters_.map Prod.snd, j ≠ id := by
    intro j hj e
    rw [List.mem_map] at hj
    obtain ⟨⟨pos, pid⟩, hmem, rfl⟩ := hj
    obtain ⟨i, hi⟩ := List.getElem?_of_mem hmem
    have e' : pid = id := e
    exact positional_not_flag m hwf i pos pid hi (e' ▸ hid)
  have hnk : ∀ j ∈ m.keyword_parameters_, j ≠ id :=
    fun j hj e => keyword_not_flag m hwf j hj (e ▸ hid)
  unfold ParameterMap.parse
  rw [hA, hB]
  simp only
  rw [R.left.same.2.2.2.1, R.right.same.2.2.2.1, R.invalid]
  rcases parseReport_twin m _ sA.self sB.self sA.invalid_arguments R.left.same R.right.same
      R.left.size R.right.size (positional_ids_have_descriptors m hwf)
      (fun j hj => R.others j (hnp j hj)) with ⟨m1, m1', inv1, h1, h1'⟩ | ⟨m1, m1', e, h1, h1'⟩
  · rw [h1, h1']
    simp only
    obtain ⟨a1, a2, _, _, a5⟩ := parseReport_returned m _ sA.self m1 sA.invalid_arguments inv1
      R.left.same R.left.size (positional_ids_have_descriptors m hwf) h1
    obtain ⟨b1, b2, _, _, b5⟩ := parseReport_returned m _ sB.self m1' sA.invalid_arguments inv1
      R.right.same R.right.size (positional_ids_have_descriptors m hwf) h1'
    rw [a1.2.2.2.2.1, b1.2.2.2.2.1]
    have heq : ∀ j ∈ m.keyword_parameters_, m1'.collected j = m1.collected j := by
      intro j hj
      obtain ⟨cfg, hcfg⟩ := keyword_ids_have_descriptors m hwf j hj
      rw [a5 j cfg hcfg, b5 j cfg hcfg, R.others j (hnk j hj)]
    rcases parseReport_twin m _ m1 m1' inv1 a1 b1 a2 b2 (keyword_ids_have_descriptors m hwf)
        heq with ⟨m2, m2', inv2, h2, h2'⟩ | ⟨m2, m2', e, h2, h2'⟩
    · exact Or.inl ⟨m2, m2', inv2, h2, h2'⟩
    · exact Or.inr ⟨m2, m2', e, h2, h2'⟩
  · rw [h1, h1']
    exact Or.inr ⟨m1, m1', e, rfl, rfl⟩

theorem observations_twin (m : ParameterMap) (hwf : WellFormed m) (id : Nat)
    (hid : id ∈ m.flags_) (mA mB : ParameterMap) (hsA : SameRegistry m mA)
    (hsB : SameRegistry m mB)
    (hzA : mA.arguments_.length = m.parameter_configurations_.length)
    (hzB : mB.arguments_.length = m.parameter_configurations_.length)
    (hothers : ∀ j cfg, m.descriptor? j = some cfg → j ≠ id → mB.collected j = mA.collected j)
    (hA : mA.collected id ≠ []) (hB : mB.collected id ≠ []) (name : String) :
    mA.IsSet name = mB.IsSet name ∧
      ∀ T, mA.convert_all T name = mB.convert_all T name ∧
        mA.convert T name = mB.convert T name := by
  by_cases hreg : IsRegisteredName m name
  · obtain ⟨cfg, hmem, hn⟩ := hreg
    obtain ⟨j, _, hd⟩ := lookup_of_name m hwf name cfg hmem hn
    obtain ⟨c, hc⟩ := converter_of_descriptor m hwf j cfg hd
    rw [IsSet_post m mA hwf hsA hzA name j cfg hd hn, IsSet_post m mB hwf hsB hzB name j cfg hd hn]
    by_cases e : j = id
    · subst e
      obtain ⟨cfg', h1, h2⟩ := (hwf.flags j).1 hid
      rw [hd] at h1
      injection h1 with h1
      subst h1
      refine ⟨?_, fun T => ?_⟩
      · rw [if_neg (not_not.2 h2), if_neg (not_not.2 h2)]
        have hlA : (mA.collected j).length > 0 := List.length_pos.2 hA
        have hlB : (mB.collected j).length > 0 := List.length_pos.2 hB
        rw [decide_eq_true hlA, decide_eq_true hlB]
      · rw [convert_all_post m mA hwf hsA hzA T name j cfg c hd hn hc,
          convert_all_post m mB hwf hsB hzB T name j cfg c hd hn hc,
          convert_post m mA hwf hsA hzA T name j cfg c hd hn hc,
          convert_post m mB hwf hsB hzB T name j cfg c hd hn hc]
        simp only [if_pos h2, and_self]
    · refine ⟨?_, fun T => ?_⟩
      · rw [hothers j cfg hd e]
      · have hcol := hothers j cfg hd e
        rw [convert_all_post m mA hwf hsA hzA T name j cfg c hd hn hc,
          convert_all_post m mB hwf hsB hzB T name j cfg c hd hn hc,
          convert_post m mA hwf hsA hzA T name j cfg c hd hn hc,
          convert_post m mB hwf hsB hzB T name j cfg c hd hn hc]
        simp only [hcol, and_self]
  · have gA := GetId_unregistered m mA hwf hsA name hreg
    have gB := GetId_unregistered m mB hwf hsB name hreg
    refine ⟨?_, fun T => ⟨?_, ?_⟩⟩
    · unfold ParameterMap.IsSet
      rw [gA, gB]
    · unfold ParameterMap.convert_all
      rw [gA, gB]
    · unfold ParameterMap.convert
      rw [gA, gB]

theorem parse_loop_thrown (m : ParameterMap) (argv : List String) (s : ParseState)
    (e : Exception) (h : parseLoop (parseStart m) (argv.drop 1) = .thrown s e) :
    m.parse argv = .thrown s.self e := by
  unfold ParameterMap.parse
  rw [h]

/-- C20 fails when the existing occurrence is the first token, which `parse` skips: `-a` alone
leaves the flag `-a` unset, `-a -a` sets it. -/
theorem flag_in_first_place_repeated :
    IsFlagName sample_flag_registry "-a" ∧
    (sample_flag_registry.parse ["-a"]).value? =
      some { additional_arguments := [], unfilled_parameters := [] } ∧
    (sample_flag_registry.parse ["-a", "-a"]).value? =
      some { additional_arguments := [], unfilled_parameters := [] } ∧
    (sample_flag_registry.parse ["-a"]).state.IsSet "-a" = .ok false ∧
    (sample_flag_registry.parse ["-a", "-a"]).state.IsSet "-a" = .ok true :=
  ⟨by decide, by decide, by decide, rfl, rfl⟩

/-- C20, amended: on a registry built by registration, let the flag-name token `f` occur after
the first token, in the token list `p₀ :: pre ++ f :: post`.  Inserting a second `f` directly
after it changes nothing that can be observed: `parse` returns the same `InvalidArguments`, or
throws the same exception, and when it returns, `IsSet`, `convert_all` and `convert` give the
same for every name and every type on the two registries. -/
theorem repeated_flag_changes_nothing (format : HelpStringFormat) (ps : List Parameter)
    (p₀ : String) (pre post : List String) (f : String)
    (hf : IsFlagName ((ParameterMap.init format).registerAll ps) f) :
    (((ParameterMap.init format).registerAll ps).parse (p₀ :: pre ++ f :: post)).value? =
      (((ParameterMap.init format).registerAll ps).parse (p₀ :: pre ++ f :: f :: post)).value? ∧
    (((ParameterMap.init format).registerAll ps).parse (p₀ :: pre ++ f :: post)).exception? =
      (((ParameterMap.init format).registerAll ps).parse
        (p₀ :: pre ++ f :: f :: post)).exception? ∧
    ((((ParameterMap.init format).registerAll ps).parse
        (p₀ :: pre ++ f :: post)).exception? = none →
      ∀ name,
        (((ParameterMap.init format).registerAll ps).parse
            (p₀ :: pre ++ f :: post)).state.IsSet name =
          (((ParameterMap.init format).registerAll ps).parse
            (p₀ :: pre ++ f :: f :: post)).state.IsSet name ∧
        ∀ T,
          (((ParameterMap.init format).registerAll ps).parse
              (p₀ :: pre ++ f :: post)).state.convert_all T name =
            (((ParameterMap.init format).registerAll ps).parse
              (p₀ :: pre ++ f :: f :: post)).state.convert_all T name ∧
          (((ParameterMap.init format).registerAll ps).parse
              (p₀ :: pre ++ f :: post)).state.convert T name =
            (((ParameterMap.init format).registerAll ps).parse
              (p₀ :: pre ++ f :: f :: post)).state.convert T name) := by
  have hwf := wellFormed_built format ps
  generalize (ParameterMap.init format).registerAll ps = m at hwf hf ⊢
  have hdA : (p₀ :: pre ++ f :: post).drop 1 = pre ++ f :: post := rfl
  have hdB : (p₀ :: pre ++ f :: f :: post).drop 1 = pre ++ f :: f :: post := rfl
  have hlA := parseLoop_append pre (f :: post) (parseStart m)
  have hlB := parseLoop_append pre (f :: f :: post) (parseStart m)
  have hinv0 := scanInv_parseLoop m pre (parseStart m) (scanInv_parseStart m)
  cases h0 : parseLoop (parseStart m) pre with
  | thrown s e =>
    rw [h0] at hlA hlB
    simp only at hlA hlB
    rw [parse_loop_thrown m _ s e (hdA ▸ hlA), parse_loop_thrown m _ s e (hdB ▸ hlB)]
    exact ⟨rfl, rfl, fun _ name => ⟨rfl, fun T => ⟨rfl, rfl⟩⟩⟩
  | returned s0 u =>
    rw [h0] at hlA hlB hinv0
    simp only [Outcome.state] at hinv0
    simp only at hlA hlB
    obtain ⟨idf, h1, h2⟩ := (isFlagName_iff m hwf f).1 hf
    obtain ⟨cfg, hcfg, hcat⟩ := (hwf.flags idf).1 h2
    have hstep := (parseArgument_flag m hwf s0 hinv0 f idf h1 h2).trans
      (parseFlag_built m hwf s0 hinv0 idf h2)
    have hinv1 := scanInv_of_returned m s0 _ f hinv0 hstep
    have hstep' := (parseArgument_flag m hwf _ hinv1 f idf h1 h2).trans
      (parseFlag_built m hwf _ hinv1 idf h2)
    have hinv1' := scanInv_of_returned m _ _ f hinv1 hstep'
    rw [parseLoop_cons_returned s0 _ f post hstep] at hlA
    rw [parseLoop_cons_returned s0 _ f (f :: post) hstep,
      parseLoop_cons_returned _ _ f post hstep'] at hlB
    have hlt := (descriptor_in_bounds m s0 hinv0 idf cfg hcfg).1
    have hlt1 := (descriptor_in_bounds m _ hinv1 idf cfg hcfg).1
    have R := FlagTwin.mk hinv1 hinv1' rfl rfl rfl
      (fun j hj => by
        simp only
        rw [collected_set _ idf j _ hlt1, if_neg hj])
      (by
        simp only
        rw [collected_set s0.self idf idf _ hlt, if_pos rfl]
        simp)
      (by
        simp only
        rw [collected_set _ idf idf _ hlt1, if_pos rfl]
        simp)
    rcases twin_loop m hwf idf h2 post _ _ R with ⟨sA, sB, hA, hB, RAB⟩ | ⟨sA, sB, e, hA, hB⟩
    · rw [hA] at hlA
      rw [hB] at hlB
      rcases parse_twin m hwf idf h2 _ _ sA sB (hdA ▸ hlA) (hdB ▸ hlB) RAB with
        ⟨mA, mB, inv, pA, pB⟩ | ⟨mA, mB, e, pA, pB⟩
      · obtain ⟨sA', lA, _, hsA, _, cA⟩ := parse_returned m hwf _ mA inv pA
        obtain ⟨sB', lB, _, hsB, _, cB⟩ := parse_returned m hwf _ mB inv pB
        have hzA := parse_returned_size m hwf _ mA inv pA
        have hzB := parse_returned_size m hwf _ mB inv pB
        rw [hdA, hlA] at lA
        rw [hdB, hlB] at lB
        injection lA with lA
        injection lB with lB
        subst lA
        subst lB
        obtain ⟨_, hnk, hnp⟩ := flag_id_of_descriptor m hwf idf cfg hcfg hcat
        rw [pA, pB]
        refine ⟨rfl, rfl, fun _ name => ?_⟩
        simp only [Outcome.state]
        apply observations_twin m hwf idf h2 mA mB hsA hsB hzA hzB
        · intro j cfgj hdj hj
          rw [cA j cfgj hdj, cB j cfgj hdj, RAB.others j hj]
        · rw [cA idf cfg hcfg, if_neg (fun hc => hc.1.elim hnp hnk)]
          exact RAB.set_left
        · rw [cB idf cfg hcfg, if_neg (fun hc => hc.1.elim hnp hnk)]
          exact RAB.set_right
      · rw [pA, pB]
        exact ⟨rfl, rfl, fun h => absurd h (by simp [Outcome.exception?])⟩
    · rw [hA] at hlA
      rw [hB] at hlB
      rw [parse_loop_thrown m _ sA e (hdA ▸ hlA), parse_loop_thrown m _ sB e (hdB ▸ hlB)]
      exact ⟨rfl, rfl, fun h => absurd h (by simp [Outcome.exception?])⟩

/-- C20 (amended) at a concrete input: `cmd x --bar 1 -a 2` and `cmd x --bar 1 -a -a 2` on the
sample registry; both return, with the same report, and `-a` is set after both. -/
theorem repeated_flag_changes_nothing_witness :
    IsFlagName ((ParameterMap.init sample_format).registerAll sample_scan_attempts) "-a" ∧
    (((ParameterMap.init sample_format).registerAll sample_scan_attempts).parse
      ["cmd", "x", "--bar", "1", "-a", "2"]).value? =
        some { additional_arguments := [], unfilled_parameters := ["--bar"] } ∧
    (((ParameterMap.init sample_format).registerAll sample_scan_attempts).parse
      ["cmd", "x", "--bar", "1", "-a", "2"]).value? =
    (((ParameterMap.init sample_format).registerAll sample_scan_attempts).parse
      ["cmd", "x", "--bar", "1", "-a", "-a", "2"]).value? :=
  ⟨by decide, by decide,
    (repeated_flag_changes_nothing sample_format sample_scan_attempts "cmd"
      ["x", "--bar", "1"] ["2"] "-a" (by decide)).1⟩

/-! ## The refiners of a descriptor -/

theorem MinArgs_keeps_arity (p : Parameter) (m : Int)
    (h : 0 < (p.MinArgs m).configuration_.max_num_arguments_) :
    (p.MinArgs m).configuration_.min_num_arguments_ ≤
      (p.MinArgs m).configuration_.max_num_arguments_ := by
  unfold Parameter.MinArgs at h ⊢
  simp only at h ⊢
  split at h
  · rename_i hc
    rw [if_pos hc]
  · rename_i hc
    rw [if_neg hc]
    simp only at h ⊢
    by_contra hlt
    exact hc ⟨h, lt_of_not_le hlt⟩

/-- C22, at a failing input: the keyword `--k` refined by `MinArgs(3)` and then `MaxArgs(2)` has
minimum 3 and the bounded maximum 2.  `MinArgs` raises a bounded maximum that is below the new
minimum; `MaxArgs` stores the maximum without looking at the minimum. -/
theorem maxArgs_below_minimum :
    (((Parameter.Keyword ["--k"] sample_converter).MinArgs 3).MaxArgs
        2).configuration_.min_num_arguments_ = 3 ∧
    (((Parameter.Keyword ["--k"] sample_converter).MinArgs 3).MaxArgs
        2).configuration_.max_num_arguments_ = 2 ∧
    ((Parameter.Keyword ["--k"] sample_converter).MinArgs 3).configuration_.max_num_arguments_ =
      3 := by
  decide

/-- C23: `MinArgs(m)` makes the minimum `m`; a previous maximum that is bounded (`> 0`) becomes
the larger of itself and `m`, a previous maximum `≤ 0` stays; names, category, position,
defaults, description, placeholder and the converter stay. -/
theorem minArgs_postcondition (p : Parameter) (m : Int) :
    (p.MinArgs m).configuration_.min_num_arguments_ = m ∧
    (0 < p.configuration_.max_num_arguments_ →
      (p.MinArgs m).configuration_.max_num_arguments_ =
        max p.configuration_.max_num_arguments_ m) ∧
    (p.configuration_.max_num_arguments_ ≤ 0 →
      (p.MinArgs m).configuration_.max_num_arguments_ = p.configuration_.max_num_arguments_) ∧
    (p.MinArgs m).configuration_.names_ = p.configuration_.names_ ∧
    (p.MinArgs m).configuration_.category_ = p.configuration_.category_ ∧
    (p.MinArgs m).configuration_.position_ = p.configuration_.position_ ∧
    (p.MinArgs m).configuration_.default_arguments_ = p.configuration_.default_arguments_ ∧
    (p.MinArgs m).configuration_.description_ = p.configuration_.description_ ∧
    (p.MinArgs m).configuration_.argument_placeholder_ =
      p.configuration_.argument_placeholder_ ∧
    (p.MinArgs m).converter_ = p.converter_ := by
  unfold Parameter.MinArgs
  simp only
  by_cases hc : p.configuration_.max_num_arguments_ > 0 ∧ p.configuration_.max_num_arguments_ < m
  · rw [if_pos hc]
    refine ⟨rfl, ?_, ?_, rfl, rfl, rfl, rfl, rfl, rfl, rfl⟩
    · intro _
      exact (max_eq_right (le_of_lt hc.2)).symm
    · intro hle
      exact absurd hc.1 (not_lt.2 hle)
  · rw [if_neg hc]
    refine ⟨rfl, ?_, ?_, rfl, rfl, rfl, rfl, rfl, rfl, rfl⟩
    · intro hpos
      have : m ≤ p.configuration_.max_num_arguments_ := by
        by_contra hlt
        exact hc ⟨hpos, lt_of_not_le hlt⟩
      exact (max_eq_left this).symm
    · intro _
      rfl

/-! ## The help format -/

theorem SetHelpStringHeader_frame (m : ParameterMap) (s : String) :
    (m.SetHelpStringHeader s).help_string_format_ = { m.help_string_format_ with header_ := s } :=
  rfl

/-- C27, where the claim fails: for every registry and every string, `SetHelpStringFooter(s)`
stores `s` as the header and leaves the footer (and the width and indentations) as they were;
its body calls `help_string_format_.header(footer)`.  On the format with header `usage` and
footer `bye`, `SetHelpStringFooter("end")` gives header `end` and footer `bye`. -/
theorem setHelpStringFooter_sets_header (m : ParameterMap) (s : String) :
    (m.SetHelpStringFooter s).help_string_format_ =
      { m.help_string_format_ with header_ := s } ∧
    ((ParameterMap.init sample_titled_format).SetHelpStringFooter "end").help_string_format_ =
      { width_ := 80, parameter_indentation_ := 4, description_indentation_ := 8,
        header_ := "end", footer_ := "bye" } :=
  ⟨rfl, by decide⟩

/-- C28, amended: for indentations `n` and `d` below the largest `int`, `Set(w, n, d)` returns
and stores the three values exactly when neither indentation is negative and `n + 1 < w` and
`d + 1 < w` (so the width is not negative either), and in every other case, that is when one
of the three values is negative or `n + 1` or `d + 1` is equal to or larger than `w`, it
throws `InvalidFormattingParameters` and the object is as it was. -/
theorem set_stores_iff_two_characters_left (f : HelpStringFormat) (w n d : Int)
    (hn : n < 2 ^ 31 - 1) (hd : d < 2 ^ 31 - 1) :
    (f.Set w n d =
        .returned
          { f with width_ := w, parameter_indentation_ := n, description_indentation_ := d }
          () ↔
      0 ≤ n ∧ 0 ≤ d ∧ n + 1 < w ∧ d + 1 < w) ∧
    (f.Set w n d = .thrown f .InvalidFormattingParameters ↔
      ¬ (0 ≤ n ∧ 0 ≤ d ∧ n + 1 < w ∧ d + 1 < w)) := by
  unfold HelpStringFormat.Set HelpStringFormat.TestParameters
  have h1 : ¬ n + 1 ≥ 2 ^ 31 := by omega
  have h2 : ¬ d + 1 ≥ 2 ^ 31 := by omega
  by_cases hneg : w < 0 ∨ n < 0 ∨ d < 0
  · rw [if_pos hneg]
    simp only
    constructor
    · constructor
      · intro h; exact absurd h (by simp)
      · intro h; omega
    · constructor
      · intro _; omega
      · intro _; trivial
  · rw [if_neg hneg, if_neg h1]
    by_cases hn' : n + 1 ≥ w
    · rw [if_pos hn']
      simp only
      constructor
      · constructor
        · intro h; exact absurd h (by simp)
        · intro h; omega
      · constructor
        · intro _; omega
        · intro _; trivial
    · rw [if_neg hn', if_neg h2]
      by_cases hd' : d + 1 ≥ w
      · rw [if_pos hd']
        simp only
        constructor
        · constructor
          · intro h; exact absurd h (by simp)
          · intro h; omega
        · constructor
          · intro _; omega
          · intro _; trivial
      · rw [if_neg hd']
        simp only
        constructor
        · constructor
          · intro _; omega
          · intro _; trivial
        · constructor
          · intro h; exact absurd h (by simp)
          · intro h; omega

/-- C28 at the widths 10 and 3: `Set(10, 8, 0)` stores the three values, and `Set(3, 2, 0)`,
with an indentation one below the width, throws and leaves the format as it was. -/
theorem set_stores_iff_two_characters_left_witness :
    (8 : Int) < 2 ^ 31 - 1 ∧ (0 : Int) < 2 ^ 31 - 1 ∧
    sample_titled_format.Set 10 8 0 =
      .returned
        { sample_titled_format with
          width_ := 10, parameter_indentation_ := 8, description_indentation_ := 0 } () ∧
    sample_titled_format.Set 3 2 0 =
      .thrown sample_titled_format .InvalidFormattingParameters :=
  ⟨by decide, by decide,
    (set_stores_iff_two_characters_left sample_titled_format 10 8 0 (by decide)
      (by decide)).1.2 (by decide),
    (set_stores_iff_two_characters_left sample_titled_format 3 2 0 (by decide)
      (by decide)).2.2 (by decide)⟩

/-- C28 as stated fails at `Set(10, 9, 0)`: none of the three values is negative and both
indentations are smaller than the width, and the call throws `InvalidFormattingParameters`
and leaves the format as it was.  `TestParameters` compares `name_indent + 1` and
`descr_indent + 1` with the width, so that an indentation leaves at least 2 characters of the
line.  `Set(10, 8, 0)` succeeds. -/
theorem set_rejects_indentation_one_below_width :
    sample_titled_format.Set 10 9 0 =
      .thrown sample_titled_format .InvalidFormattingParameters ∧
    sample_titled_format.Set 10 8 0 =
      .returned
        { sample_titled_format with
          width_ := 10, parameter_indentation_ := 8, description_indentation_ := 0 } () := by
  decide

/-! ## A flag between the values of a positional parameter -/

/-- C25, at a failing input: `P` is a positional parameter with maximum 2 and `-a` a flag.  On
`cmd x -a y` the token `x` goes to `P`, one below its maximum; the flag `-a` is scanned; and
the plain token `y` is appended to `P` as well.  The branch of a flag resets the keyword
iterator only, the positional iterator stays where it is. -/
theorem flag_does_not_end_positional :
    sample_flag_break_registry.parameter_configurations_.map
        (fun cfg => (cfg.names_, cfg.category_, cfg.max_num_arguments_)) =
      [(["P"], ParameterCategory.kPositionalParameter, 2), (["-a"], ParameterCategory.kFlag, 1)] ∧
    (sample_flag_break_registry.parse ["cmd", "x", "-a"]).state.arguments_ = [["x"], ["true"]] ∧
    (sample_flag_break_registry.parse ["cmd", "x", "-a", "y"]).value? =
      some { additional_arguments := [], unfilled_parameters := [] } ∧
    (sample_flag_break_registry.parse ["cmd", "x", "-a", "y"]).state.arguments_ =
      [["x", "y"], ["true"]] := by
  decide

/-! ## `HasArgument` in every state of the registry -/

theorem SetDefaultArgumentsIfNeeded_size (m : ParameterMap) (id : Nat) :
    (m.SetDefaultArgumentsIfNeeded id).state.arguments_.length = m.arguments_.length := by
  unfold ParameterMap.SetDefaultArgumentsIfNeeded
  cases h : m.arguments_[id]? with
  | none => rfl
  | some args =>
    simp only
    split
    · cases h' : m.parameter_configurations_[id]? with
      | none => rfl
      | some cfg =>
        simp only
        split
        · simp [Outcome.state]
        · rfl
    · rfl

theorem parseReport_size (ids : List Nat) (m0 : ParameterMap) (inv : InvalidArguments) :
    (parseReport m0 inv ids).state.arguments_.length = m0.arguments_.length := by
  induction ids generalizing m0 inv with
  | nil => rfl
  | cons id ids ih =>
    have hset := SetDefaultArgumentsIfNeeded_size m0 id
    cases h1 : m0.SetDefaultArgumentsIfNeeded id with
    | thrown m' e =>
      rw [h1] at hset
      have : parseReport m0 inv (id :: ids) = .thrown m' e := by simp [parseReport, h1]
      rw [this]
      exact hset
    | returned m' u =>
      rw [h1] at hset
      simp only [Outcome.state] at hset
      cases h2 : m'.IsUnfilled id with
      | error e =>
        have : parseReport m0 inv (id :: ids) = .thrown m' e := by simp [parseReport, h1, h2]
        rw [this]
        exact hset
      | ok b =>
        cases h3 : m'.parameter_configurations_[id]? with
        | none =>
          cases b with
          | false =>
            have : parseReport m0 inv (id :: ids) = parseReport m' inv ids := by
              simp [parseReport, h1, h2]
            rw [this]
            exact (ih m' inv).trans hset
          | true =>
            have : parseReport m0 inv (id :: ids) = .thrown m' .out_of_range := by
              simp [parseReport, h1, h2, h3]
            rw [this]
            exact hset
        | some cfg =>
          rw [parseReport_cons m0 m' inv id ids b cfg h1 h2 h3]
          cases b with
          | false => exact (ih m' inv).trans hset
          | true =>
            simp only [if_true]
            cases h4 : cfg.names_[0]? with
            | none => exact hset
            | some n => exact (ih m' _).trans hset

theorem parse_size (m : ParameterMap) (argv : List String) :
    (m.parse argv).state.arguments_.length = m.parameter_configurations_.length := by
  unfold ParameterMap.parse
  have hinv := scanInv_parseLoop m (argv.drop 1) (parseStart m) (scanInv_parseStart m)
  cases hloop : parseLoop (parseStart m) (argv.drop 1) with
  | thrown s e =>
    rw [hloop] at hinv
    exact hinv.size
  | returned s u =>
    rw [hloop] at hinv
    simp only [Outcome.state] at hinv ⊢
    have h1 := parseReport_size (s.self.positional_parameters_.map Prod.snd) s.self
      s.invalid_arguments
    cases hrep : parseReport s.self s.invalid_arguments
        (s.self.positional_parameters_.map Prod.snd) with
    | thrown m1 e =>
      rw [hrep] at h1
      exact h1.trans hinv.size
    | returned m1 inv1 =>
      rw [hrep] at h1
      simp only [Outcome.state] at h1 ⊢
      exact ((parseReport_size m1.keyword_parameters_ m1 inv1).trans h1).trans hinv.size

theorem operator_call_documented_arguments (m : ParameterMap) (p : Parameter) :
    (m.operator_call_documented p).state.arguments_ = m.arguments_ := by
  cases hany : p.configuration.names_.any (fun name => map_count m.name_to_id_ name) with
  | true =>
    rw [operator_call_documented_thrown m p hany]
    rfl
  | false =>
    obtain ⟨m', hm', _, _, _, harg, _⟩ := operator_call_documented_returned m p hany
    rw [hm']
    exact harg

theorem registerAll_arguments (m : ParameterMap) (ps : List Parameter) :
    (m.registerAll ps).arguments_ = m.arguments_ := by
  induction ps generalizing m with
  | nil => rfl
  | cons p ps ih =>
    have hrest := ih (m.operator_call_documented p).state
    unfold ParameterMap.registerAll at hrest ⊢
    rw [List.foldl_cons, hrest]
    exact operator_call_documented_arguments m p

theorem HasArgument_of_lookup (m : ParameterMap) (name : String) (id : Nat)
    (h : map_find m.name_to_id_ name = some id) :
    m.HasArgument name = .ok (decide (m.collected id ≠ [])) := by
  unfold ParameterMap.HasArgument ParameterMap.GetId ParameterMap.collected
  rw [h]
  simp only
  by_cases hlt : id < m.arguments_.length
  · rw [if_pos hlt, List.getElem?_eq_getElem hlt]
    simp only [Option.getD_some]
    congr 1
    rw [decide_eq_decide]
    exact List.length_pos
  · rw [if_neg hlt, List.getElem?_eq_none (not_lt.1 hlt)]
    simp

/-- C26: in every state of the registry `m`, `HasArgument(name)` throws
`UnknownParameterName` if `name` is not in the name map, and for a name that the map sends to
`id` it returns, without an error, whether the collected list of `id` is non-empty (a list that
does not exist counts as empty).  In particular it returns false for every registered name of a
registry that was built by registration and never parsed, and for every name of a parameter
that was registered after the last call of `parse`, whether that call returned or threw. -/
theorem hasArgument_reports_collected (m : ParameterMap) (name : String) :
    (map_find m.name_to_id_ name = none → m.HasArgument name = .error .UnknownParameterName) ∧
    (∀ id, map_find m.name_to_id_ name = some id →
      m.HasArgument name = .ok (decide (m.collected id ≠ []))) ∧
    (∀ format ps, IsRegisteredName ((ParameterMap.init format).registerAll ps) name →
      ((ParameterMap.init format).registerAll ps).HasArgument name = .ok false) ∧
    (∀ (argv : List String) (qs : List Parameter) (k : Nat) (p : Parameter),
      ((m.parse argv).state.accepted qs)[k]? = some p →
      name ∈ p.configuration.names_ →
      ((m.parse argv).state.registerAll qs).HasArgument name = .ok false) := by
  refine ⟨?_, HasArgument_of_lookup m name, ?_, ?_⟩
  · intro h
    unfold ParameterMap.HasArgument ParameterMap.GetId
    rw [h]
  · intro format ps hreg
    obtain ⟨id, hid⟩ := (isRegisteredName_iff _ (wellFormed_built format ps) name).1 hreg
    rw [HasArgument_of_lookup _ name id hid]
    have : ((ParameterMap.init format).registerAll ps).collected id = [] := by
      unfold ParameterMap.collected
      rw [registerAll_arguments]
      rfl
    rw [this]
    rfl
  · intro argv qs k p hk hn
    have hreg := (accepted_registered qs (m.parse argv).state k p hk).2.2 name hn
    rw [HasArgument_of_lookup _ name _ hreg]
    have : ((m.parse argv).state.registerAll qs).collected
        ((m.parse argv).state.parameter_configurations_.length + k) = [] := by
      unfold ParameterMap.collected
      rw [registerAll_arguments, List.getElem?_eq_none]
      · rfl
      · rw [parse_size, (parse_state m argv).2.1]
        omega
    rw [this]
    rfl

/-! ## The registry after registration -/

/-- Well-formedness under the documented duplicate check (every call of `registerAll` sees
the names of its parameter): after any sequence of such attempts on a fresh registry that
leaves no two positional descriptors with the same position, with `n` the number of descriptors: there are
`n` converters; the name map sends a name to `id` exactly when it is a name of descriptor `id`,
and all its values are below `n`; every identifier with a descriptor is in the positional
index, in the keyword set, in the flag set exactly when its category is positional, keyword,
flag, so in exactly one of the three; the test `flags_.count(id)` of `convert` agrees with the
test of the category in `IsSet`; and the three index structures hold identifiers below `n`
only. -/
theorem registration_keeps_registry_wellformed (format : HelpStringFormat)
    (ps : List Parameter)
    (hdistinct : DistinctPositions ((ParameterMap.init format).registerAll ps)) :
    ((ParameterMap.init format).registerAll ps).converters_.length =
      ((ParameterMap.init format).registerAll ps).parameter_configurations_.length ∧
    (∀ name id, map_find ((ParameterMap.init format).registerAll ps).name_to_id_ name = some id ↔
      ∃ cfg, ((ParameterMap.init format).registerAll ps).descriptor? id = some cfg ∧
        name ∈ cfg.names_) ∧
    (∀ name id, map_find ((ParameterMap.init format).registerAll ps).name_to_id_ name = some id →
      id < ((ParameterMap.init format).registerAll ps).parameter_configurations_.length) ∧
    (∀ id cfg, ((ParameterMap.init format).registerAll ps).descriptor? id = some cfg →
      (id ∈ ((ParameterMap.init format).registerAll ps).positional_parameters_.map Prod.snd ↔
        cfg.category_ = ParameterCategory.kPositionalParameter) ∧
      (id ∈ ((ParameterMap.init format).registerAll ps).keyword_parameters_ ↔
        cfg.category_ = ParameterCategory.kKeywordParameter) ∧
      (id ∈ ((ParameterMap.init format).registerAll ps).flags_ ↔
        cfg.category_ = ParameterCategory.kFlag) ∧
      (unordered_set_count ((ParameterMap.init format).registerAll ps).flags_ id = true ↔
        cfg.category_ = ParameterCategory.kFlag)) ∧
    (∀ id, (id ∈ ((ParameterMap.init format).registerAll ps).positional_parameters_.map
          Prod.snd ∨
        id ∈ ((ParameterMap.init format).registerAll ps).keyword_parameters_ ∨
        id ∈ ((ParameterMap.init format).registerAll ps).flags_) →
      id < ((ParameterMap.init format).registerAll ps).parameter_configurations_.length) := by
  have hwf := wellFormed_built format ps
  generalize (ParameterMap.init format).registerAll ps = m at hwf hdistinct ⊢
  have hlt : ∀ id cfg, m.descriptor? id = some cfg → id < m.parameter_configurations_.length :=
    fun id cfg h => (List.getElem?_eq_some.1 h).1
  refine ⟨hwf.converters, hwf.names, ?_, ?_, ?_⟩
  · intro name id h
    obtain ⟨cfg, hcfg, _⟩ := (hwf.names name id).1 h
    exact hlt id cfg hcfg
  · intro id cfg hd
    have same : ∀ cfg', m.descriptor? id = some cfg' → cfg' = cfg := by
      intro cfg' h
      rw [hd] at h
      injection h with h
      exact h.symm
    refine ⟨?_, ?_, ?_, ?_⟩
    · constructor
      · intro hp
        rw [List.mem_map] at hp
        obtain ⟨⟨pos, id'⟩, hmem, rfl⟩ := hp
        obtain ⟨cfg', h1, h2, _⟩ := hwf.positionals pos id' hmem
        rw [← same cfg' h1]
        exact h2
      · intro hcat
        rw [List.mem_map]
        exact ⟨(cfg.position_, id),
          (positional_index_complete m hwf hdistinct id cfg hd).1 hcat, rfl⟩
    · constructor
      · intro hk
        obtain ⟨cfg', h1, h2⟩ := (hwf.keywords id).1 hk
        rw [← same cfg' h1]
        exact h2
      · intro hcat
        exact (hwf.keywords id).2 ⟨cfg, hd, hcat⟩
    · constructor
      · intro hf
        obtain ⟨cfg', h1, h2⟩ := (hwf.flags id).1 hf
        rw [← same cfg' h1]
        exact h2
      · intro hcat
        exact (hwf.flags id).2 ⟨cfg, hd, hcat⟩
    · exact flags_count_iff m m hwf (SameRegistry.refl m) id cfg hd
  · rintro id (hp | hk | hf)
    · obtain ⟨cfg, h⟩ := positional_ids_have_descriptors m hwf id hp
      exact hlt id cfg h
    · obtain ⟨cfg, h⟩ := keyword_ids_have_descriptors m hwf id hk
      exact hlt id cfg h
    · obtain ⟨cfg, h, _⟩ := (hwf.flags id).1 hf
      exact hlt id cfg h

/-- The sample registry of the scan: two keywords, a flag and two positional parameters at the
positions 5 and 2; five descriptors, five converters. -/
theorem registration_keeps_registry_wellformed_witness :
    DistinctPositions ((ParameterMap.init sample_format).registerAll sample_scan_attempts) ∧
    ((ParameterMap.init sample_format).registerAll sample_scan_attempts).converters_.length =
      ((ParameterMap.init sample_format).registerAll
        sample_scan_attempts).parameter_configurations_.length ∧
    ((ParameterMap.init sample_format).registerAll sample_scan_attempts).positional_parameters_ =
      [(2, 3), (5, 2)] ∧
    ((ParameterMap.init sample_format).registerAll sample_scan_attempts).keyword_parameters_ =
      [0, 4] ∧
    ((ParameterMap.init sample_format).registerAll sample_scan_attempts).flags_ = [1] :=
  ⟨by decide,
    (registration_keeps_registry_wellformed sample_format sample_scan_attempts (by decide)).1,
    by decide, by decide, by decide⟩

/-! ## The additional arguments -/

theorem additional_step (m : ParameterMap) (hwf : WellFormed m) (s s' : ParseState)
    (hs : ScanInv m s) (t : String) (h : parseArgument s t = .returned s' ()) :
    s'.invalid_arguments = s.invalid_arguments ∨
      (s'.invalid_arguments.additional_arguments =
          s.invalid_arguments.additional_arguments ++ [t] ∧ IsPlain m t) := by
  by_cases hkw : IsKeywordName m t
  · obtain ⟨idk, h1, h2⟩ := (isKeywordName_iff m hwf t).1 hkw
    obtain ⟨s1, h3, _, _, h4⟩ := parseKeyword_built m hwf s hs idk h2
    rw [parseArgument_keyword m s hs t idk h1 h2, h3] at h
    injection h with h
    subst h
    exact Or.inl h4
  · by_cases hp : IsPlain m t
    · rw [parseArgument_plain m hwf s hs t hp] at h
      cases hopen : s.current_keyword_it with
      | some k =>
        obtain ⟨cfg, hcfg, _⟩ := keyword_descriptor m hwf k (hs.keyword k hopen)
        rw [parseValue_keyword_built m s hs k cfg hopen hcfg t] at h
        injection h with h
        subst h
        exact Or.inl rfl
      | none =>
        cases hcur : m.positional_parameters_[s.current_positional_it]? with
        | none =>
          rw [parseValue_additional_built m s hs hopen hcur t] at h
          injection h with h
          subst h
          exact Or.inr ⟨rfl, hp⟩
        | some e =>
          obtain ⟨pos, pid⟩ := e
          obtain ⟨cfg, hcfg, _⟩ := positional_descriptor m hwf _ pos pid hcur
          rw [parseValue_positional_built m s hs pos pid cfg hopen hcur hcfg t] at h
          injection h with h
          subst h
          exact Or.inl rfl
    · exact Or.inl (parseArgument_flag_or_dash m hwf s s' hs t hkw hp h).2.2

theorem additional_scan (m : ParameterMap) (hwf : WellFormed m) (ts : List String)
    (s s' : ParseState) (hs : ScanInv m s) (h : parseLoop s ts = .returned s' ()) :
    ∃ extra, s'.invalid_arguments.additional_arguments =
        s.invalid_arguments.additional_arguments ++ extra ∧
      extra.Sublist ts ∧ ∀ x ∈ extra, IsPlain m x := by
  induction ts generalizing s with
  | nil =>
    simp only [parseLoop] at h
    injection h with h
    subst h
    exact ⟨[], by simp, List.Sublist.refl _, fun x hx => absurd hx (List.not_mem_nil x)⟩
  | cons t ts ih =>
    cases h1 : parseArgument s t with
    | thrown s1 e =>
      rw [parseLoop_cons_thrown s s1 t ts e h1] at h
      exact absurd h (by simp)
    | returned s1 u =>
      cases u
      rw [parseLoop_cons_returned s s1 t ts h1] at h
      have hs1 := scanInv_of_returned m s s1 t hs h1
      obtain ⟨extra, he, hsub, hplain⟩ := ih s1 hs1 h
      rcases additional_step m hwf s s1 hs t h1 with hsame | ⟨happ, hp⟩
      · refine ⟨extra, ?_, List.Sublist.cons t hsub, hplain⟩
        rw [he, hsame]
      · refine ⟨t :: extra, ?_, List.Sublist.cons₂ t hsub, ?_⟩
        · rw [he, happ, List.append_assoc]
          rfl
        · intro x hx
          rcases List.mem_cons.1 hx with rfl | hx
          · exact hp
          · exact hplain x hx

/-- C21: on a registry built by registration, when `parse` returns, `additional_arguments` is
a subsequence of the token list without its first element (the tokens in their order, each
occurrence used at most once), and each of its elements is a plain token: no name of a keyword
parameter or flag, and not beginning with `-`. -/
theorem additional_arguments_in_encounter_order (format : HelpStringFormat)
    (ps : List Parameter) (argv : List String) (mf : ParameterMap) (inv : InvalidArguments)
    (h : ((ParameterMap.init format).registerAll ps).parse argv = .returned mf inv) :
    inv.additional_arguments.Sublist (argv.drop 1) ∧
    ∀ x ∈ inv.additional_arguments, IsPlain ((ParameterMap.init format).registerAll ps) x := by
  have hwf := wellFormed_built format ps
  generalize (ParameterMap.init format).registerAll ps = m at hwf h ⊢
  obtain ⟨s, hloop, _, _, hadd, _⟩ := parse_returned m hwf argv mf inv h
  obtain ⟨extra, he, hsub, hplain⟩ :=
    additional_scan m hwf (argv.drop 1) (parseStart m) s (scanInv_parseStart m) hloop
  have hstart : (parseStart m).invalid_arguments.additional_arguments = [] := rfl
  rw [hstart, List.nil_append] at he
  rw [hadd, he]
  exact ⟨hsub, hplain⟩

/-- C21 at the scenario of the tests: `command 3 7 11 zig zag` against three positional
parameters of one value each leaves `zig`, `zag` as additional arguments. -/
theorem additional_arguments_in_encounter_order_witness :
    ((ParameterMap.init sample_format).registerAll sample_positional_attempts).parse
        ["command", "3", "7", "11", "zig", "zag"] =
      .returned
        (((ParameterMap.init sample_format).registerAll sample_positional_attempts).parse
          ["command", "3", "7", "11", "zig", "zag"]).state
        { additional_arguments := ["zig", "zag"], unfilled_parameters := [] } ∧
    ["zig", "zag"].Sublist (["command", "3", "7", "11", "zig", "zag"].drop 1) ∧
    ∀ x ∈ ["zig", "zag"],
      IsPlain ((ParameterMap.init sample_format).registerAll sample_positional_attempts) x :=
  ⟨rfl, additional_arguments_in_encounter_order sample_format sample_positional_attempts
    ["command", "3", "7", "11", "zig", "zag"] _
    { additional_arguments := ["zig", "zag"], unfilled_parameters := [] } rfl⟩

/-! ## A positional parameter without a bound -/

theorem unbounded_step (m : ParameterMap) (hwf : WellFormed m) (pos : Int) (pid : Nat)
    (cfg : ParameterConfiguration) (hcfg : m.descriptor? pid = some cfg)
    (hmax : cfg.max_num_arguments_ ≤ 0) (s : ParseState) (hs : ScanInv m s)
    (hclosed : s.current_keyword_it = none)
    (hcur : m.positional_parameters_[s.current_positional_it]? = some (pos, pid))
    (t : String) (ht : IsPlain m t) :
    ∃ s', parseArgument s t = .returned s' () ∧
      s'.self.collected pid = s.self.collected pid ++ [t] ∧
      (∀ j, j ≠ pid → s'.self.collected j = s.self.collected j) ∧
      s'.invalid_arguments = s.invalid_arguments ∧
      s'.current_positional_it = s.current_positional_it ∧ s'.current_keyword_it = none := by
  have hlt := (descriptor_in_bounds m s hs pid cfg hcfg).1
  have hnot : reached_maximum cfg (s.self.collected pid ++ [t]) = false :=
    reached_maximum_unbounded cfg _ (not_lt.2 hmax)
  refine ⟨_, (parseArgument_plain m hwf s hs t ht).trans
    (parseValue_positional_built m s hs pos pid cfg hclosed hcur hcfg t), ?_, ?_, rfl, ?_, hclosed⟩
  · simp only
    rw [collected_set s.self pid pid _ hlt, if_pos rfl]
  · intro j hj
    simp only
    rw [collected_set s.self pid j _ hlt, if_neg hj]
  · simp only
    rw [hnot]
    rfl

theorem unbounded_cursor_stays (m : ParameterMap) (hwf : WellFormed m) (pos : Int) (pid : Nat)
    (cfg : ParameterConfiguration) (hcfg : m.descriptor? pid = some cfg)
    (hmax : cfg.max_num_arguments_ ≤ 0) (ts : List String) (s s' : ParseState)
    (hs : ScanInv m s) (hclosed : s.current_keyword_it = none)
    (hcur : m.positional_parameters_[s.current_positional_it]? = some (pos, pid))
    (hts : ∀ x ∈ ts, ¬ IsKeywordName m x) (h : parseLoop s ts = .returned s' ()) :
    ScanInv m s' ∧ s'.current_keyword_it = none ∧
      s'.current_positional_it = s.current_positional_it ∧
      s'.invalid_arguments = s.invalid_arguments := by
  induction ts generalizing s with
  | nil =>
    simp only [parseLoop] at h
    injection h with h
    subst h
    exact ⟨hs, hclosed, rfl, rfl⟩
  | cons t ts ih =>
    cases h1 : parseArgument s t with
    | thrown s1 e =>
      rw [parseLoop_cons_thrown s s1 t ts e h1] at h
      exact absurd h (by simp)
    | returned s1 u =>
      cases u
      rw [parseLoop_cons_returned s s1 t ts h1] at h
      have hs1 := scanInv_of_returned m s s1 t hs h1
      have hstep : s1.current_keyword_it = none ∧
          s1.current_positional_it = s.current_positional_it ∧
          s1.invalid_arguments = s.invalid_arguments := by
        by_cases hp : IsPlain m t
        · obtain ⟨s2, h2, _, _, a, b, c⟩ :=
            unbounded_step m hwf pos pid cfg hcfg hmax s hs hclosed hcur t hp
          rw [h1] at h2
          injection h2 with h2
          subst h2
          exact ⟨c, b, a⟩
        · exact parseArgument_flag_or_dash m hwf s s1 hs t
            (hts t (List.mem_cons_self t ts)) hp h1
      obtain ⟨a, b, c, d⟩ := ih s1 hs1 hstep.1 (by rw [hstep.2.1]; exact hcur)
        (fun x hx => hts x (List.mem_cons_of_mem t hx)) h
      exact ⟨a, b, c.trans hstep.2.1, d.trans hstep.2.2⟩

theorem unbounded_takes_run (m : ParameterMap) (hwf : WellFormed m) (pos : Int) (pid : Nat)
    (cfg : ParameterConfiguration) (hcfg : m.descriptor? pid = some cfg)
    (hmax : cfg.max_num_arguments_ ≤ 0) (ts : List String) (s : ParseState)
    (hs : ScanInv m s) (hclosed : s.current_keyword_it = none)
    (hcur : m.positional_parameters_[s.current_positional_it]? = some (pos, pid))
    (hts : ∀ x ∈ ts, IsPlain m x) :
    ∃ s', parseLoop s ts = .returned s' () ∧
      s'.self.collected pid = s.self.collected pid ++ ts ∧
      (∀ j, j ≠ pid → s'.self.collected j = s.self.collected j) ∧
      s'.invalid_arguments = s.invalid_arguments ∧
      s'.current_positional_it = s.current_positional_it := by
  induction ts generalizing s with
  | nil => exact ⟨s, rfl, by simp, fun _ _ => rfl, rfl, rfl⟩
  | cons t ts ih =>
    obtain ⟨s1, h1, a, b, c, d, e⟩ := unbounded_step m hwf pos pid cfg hcfg hmax s hs hclosed
      hcur t (hts t (List.mem_cons_self t ts))
    have hs1 := scanInv_of_returned m s s1 t hs h1
    obtain ⟨s', h2, a', b', c', d'⟩ := ih s1 hs1 e (by rw [d]; exact hcur)
      (fun x hx => hts x (List.mem_cons_of_mem t hx))
    refine ⟨s', by rw [parseLoop_cons_returned s s1 t ts h1]; exact h2, ?_, ?_, c'.trans c,
      d'.trans d⟩
    · rw [a', a, List.append_assoc]
      rfl
    · intro j hj
      rw [b' j hj, b j hj]

/-- C24: in a registry built by registration, let the scan have reached the state `s` after
the tokens `pre`, with no keyword open and the positional parameter `pid` under the cursor, its
maximum `≤ 0`.  Let any tokens `a` follow, none of them a keyword name, scanned without
failure, and then the plain token `t`: then `t` is appended to the list of `pid`, no other list
and not `additional_arguments` changes, and the cursor is still where it was in `s`.  And every
run `ts` of plain tokens, of whatever length, is scanned without failure and is appended to the
list of `pid` as a whole. -/
theorem unbounded_positional_takes_every_plain_token (format : HelpStringFormat)
    (ps : List Parameter) (pre : List String) (s : ParseState) (pos : Int) (pid : Nat)
    (cfg : ParameterConfiguration)
    (hpre : parseLoop (parseStart ((ParameterMap.init format).registerAll ps)) pre =
      .returned s ())
    (hclosed : s.current_keyword_it = none)
    (hcur : ((ParameterMap.init format).registerAll ps).positional_parameters_[
      s.current_positional_it]? = some (pos, pid))
    (hcfg : ((ParameterMap.init format).registerAll ps).descriptor? pid = some cfg)
    (hmax : cfg.max_num_arguments_ ≤ 0) :
    (∀ (a : List String) (t : String) (sa : ParseState),
      (∀ x ∈ a, ¬ IsKeywordName ((ParameterMap.init format).registerAll ps) x) →
      IsPlain ((ParameterMap.init format).registerAll ps) t →
      parseLoop s a = .returned sa () →
      ∃ s', parseArgument sa t = .returned s' () ∧
        s'.self.collected pid = sa.self.collected pid ++ [t] ∧
        (∀ j, j ≠ pid → s'.self.collected j = sa.self.collected j) ∧
        s'.invalid_arguments = sa.invalid_arguments ∧
        s'.current_positional_it = s.current_positional_it ∧
        s'.current_keyword_it = none) ∧
    (∀ ts : List String, (∀ x ∈ ts, IsPlain ((ParameterMap.init format).registerAll ps) x) →
      ∃ s', parseLoop s ts = .returned s' () ∧
        s'.self.collected pid = s.self.collected pid ++ ts ∧
        (∀ j, j ≠ pid → s'.self.collected j = s.self.collected j) ∧
        s'.invalid_arguments = s.invalid_arguments ∧
        s'.current_positional_it = s.current_positional_it) := by
  have hwf := wellFormed_built format ps
  generalize (ParameterMap.init format).registerAll ps = m at hwf hpre hcur hcfg ⊢
  have hs : ScanInv m s := by
    have := scanInv_parseLoop m pre (parseStart m) (scanInv_parseStart m)
    rw [hpre] at this
    exact this
  refine ⟨?_, ?_⟩
  · intro a t sa ha ht hsa
    obtain ⟨hsa', hc, hp, _⟩ :=
      unbounded_cursor_stays m hwf pos pid cfg hcfg hmax a s sa hs hclosed hcur ha hsa
    obtain ⟨s', h1, h2, h3, h4, h5, h6⟩ := unbounded_step m hwf pos pid cfg hcfg hmax sa hsa' hc
      (by rw [hp]; exact hcur) t ht
    exact ⟨s', h1, h2, h3, h4, h5.trans hp, h6⟩
  · intro ts hts
    exact unbounded_takes_run m hwf pos pid cfg hcfg hmax ts s hs hclosed hcur hts

/-- C24 at a concrete input: `P` has maximum 0 and is the first positional parameter; from the
start of the scan the three plain tokens `a`, `b`, `c` all go to `P`. -/
theorem unbounded_positional_takes_every_plain_token_witness :
    (∀ x ∈ ["a", "b", "c"],
      IsPlain ((ParameterMap.init sample_format).registerAll sample_unbounded_attempts) x) ∧
    ∃ s', parseLoop
        (parseStart ((ParameterMap.init sample_format).registerAll sample_unbounded_attempts))
        ["a", "b", "c"] = .returned s' () ∧
      s'.self.collected 0 =
        (parseStart ((ParameterMap.init sample_format).registerAll
          sample_unbounded_attempts)).self.collected 0 ++ ["a", "b", "c"] ∧
      (∀ j, j ≠ 0 → s'.self.collected j =
        (parseStart ((ParameterMap.init sample_format).registerAll
          sample_unbounded_attempts)).self.collected j) ∧
      s'.invalid_arguments =
        (parseStart ((ParameterMap.init sample_format).registerAll
          sample_unbounded_attempts)).invalid_arguments ∧
      s'.current_positional_it =
        (parseStart ((ParameterMap.init sample_format).registerAll
          sample_unbounded_attempts)).current_positional_it :=
  ⟨by decide,
    (unbounded_positional_takes_every_plain_token sample_format sample_unbounded_attempts []
      _ 0 0 ((Parameter.Positional ["P"] 0 sample_converter).MaxArgs 0).configuration_ rfl rfl
      rfl rfl (by decide)).2 ["a", "b", "c"] (by decide)⟩

/-! ## A keyword before the first value of a positional parameter -/

theorem flags_scan (m : ParameterMap) (hwf : WellFormed m) (fs : List String)
    (s : ParseState) (hs : ScanInv m s) (hfs : ∀ f ∈ fs, IsFlagName m f) :
    ∃ s', parseLoop s fs = .returned s' () ∧ ScanInv m s' ∧
      s'.current_positional_it = s.current_positional_it ∧
      s'.invalid_arguments = s.invalid_arguments ∧
      (∀ j, j ∉ m.flags_ → s'.self.collected j = s.self.collected j) ∧
      s'.current_keyword_it = if fs = [] then s.current_keyword_it else none := by
  induction fs generalizing s with
  | nil => exact ⟨s, rfl, hs, rfl, rfl, fun _ _ => rfl, rfl⟩
  | cons f fs ih =>
    obtain ⟨idf, h1, h2⟩ := (isFlagName_iff m hwf f).1 (hfs f (List.mem_cons_self f fs))
    obtain ⟨cfg, hcfg, _⟩ := (hwf.flags idf).1 h2
    have hstep := (parseArgument_flag m hwf s hs f idf h1 h2).trans
      (parseFlag_built m hwf s hs idf h2)
    have hs1 := scanInv_of_returned m s _ f hs hstep
    have hlt := (descriptor_in_bounds m s hs idf cfg hcfg).1
    obtain ⟨s', h3, hs', a, b, c, d⟩ := ih _ hs1
      (fun x hx => hfs x (List.mem_cons_of_mem f hx))
    refine ⟨s', by rw [parseLoop_cons_returned s _ f fs hstep]; exact h3, hs', a, b, ?_, ?_⟩
    · intro j hj
      rw [c j hj]
      simp only
      rw [collected_set s.self idf j _ hlt, if_neg (fun (e : j = idf) => hj (e ▸ h2))]
    · rw [d, if_neg (List.cons_ne_nil f fs)]
      simp

/-! ## A token that is exactly `-` -/

/-- C35: in a registry built by registration in which `-` is no keyword name and no flag name,
let the scan have reached the state `s` after the tokens `pre`.  Scanning the token `-` returns,
and leaves the state `s` with the keyword closed: no collected list, not `additional_arguments`
and not the positional iterator has changed. -/
theorem lone_dash_closes_keyword (format : HelpStringFormat) (ps : List Parameter)
    (pre : List String) (s : ParseState)
    (hpre : parseLoop (parseStart ((ParameterMap.init format).registerAll ps)) pre =
      .returned s ())
    (hk : ¬ IsKeywordName ((ParameterMap.init format).registerAll ps) "-")
    (hf : ¬ IsFlagName ((ParameterMap.init format).registerAll ps) "-") :
    parseArgument s "-" = .returned { s with current_keyword_it := none } () := by
  have hwf := wellFormed_built format ps
  generalize (ParameterMap.init format).registerAll ps = m at hwf hpre hk hf
  have hs : ScanInv m s := by
    have := scanInv_parseLoop m pre (parseStart m) (scanInv_parseStart m)
    rw [hpre] at this
    exact this
  have hd : BeginsWithDash "-" := rfl
  rw [parseArgument_dash m hwf s hs "-" hk hf hd]
  exact parseDash_returned s "-" s.self rfl

/-- C35 at a concrete input: after `--k` the keyword is open; `-` closes it and changes nothing
else. -/
theorem lone_dash_closes_keyword_witness :
    ¬ IsKeywordName ((ParameterMap.init sample_format).registerAll
      [Parameter.Keyword ["--k"] sample_converter]) "-" ∧
    ¬ IsFlagName ((ParameterMap.init sample_format).registerAll
      [Parameter.Keyword ["--k"] sample_converter]) "-" ∧
    (parseLoop (parseStart ((ParameterMap.init sample_format).registerAll
      [Parameter.Keyword ["--k"] sample_converter])) ["--k"]).state.current_keyword_it =
        some 0 ∧
    parseArgument
        (parseLoop (parseStart ((ParameterMap.init sample_format).registerAll
          [Parameter.Keyword ["--k"] sample_converter])) ["--k"]).state "-" =
      .returned
        { (parseLoop (parseStart ((ParameterMap.init sample_format).registerAll
            [Parameter.Keyword ["--k"] sample_converter])) ["--k"]).state with
          current_keyword_it := none } () :=
  ⟨by decide, by decide, by decide,
    lone_dash_closes_keyword sample_format [Parameter.Keyword ["--k"] sample_converter]
      ["--k"] _ rfl (by decide) (by decide)⟩

/-! ## A negative minimum -/

/-- C37, where the claim fails: on a registry built by registration, let `parse` return.  Every
parameter of the positional index or the keyword set whose minimum is negative (an `int`) and
that has a first name is listed in `unfilled_parameters` under that name, whatever it has
collected (fewer than `2 ^ 64 - 2 ^ 31` tokens): `IsUnfilled` compares the unsigned size with
the minimum converted to `size_t`. -/
theorem negative_minimum_always_unfilled (format : HelpStringFormat) (ps : List Parameter)
    (argv : List String) (mf : ParameterMap) (inv : InvalidArguments)
    (h : ((ParameterMap.init format).registerAll ps).parse argv = .returned mf inv)
    (id : Nat) (cfg : ParameterConfiguration) (n : String)
    (hd : ((ParameterMap.init format).registerAll ps).descriptor? id = some cfg)
    (hidx : id ∈ ((ParameterMap.init format).registerAll ps).positional_parameters_.map
        Prod.snd ∨
      id ∈ ((ParameterMap.init format).registerAll ps).keyword_parameters_)
    (hneg : cfg.min_num_arguments_ < 0) (hint : -2 ^ 31 ≤ cfg.min_num_arguments_)
    (hn : cfg.names_[0]? = some n) (hlen : (mf.collected id).length < 2 ^ 64 - 2 ^ 31) :
    n ∈ inv.unfilled_parameters := by
  have hwf := wellFormed_built format ps
  generalize (ParameterMap.init format).registerAll ps = m at hwf h hd hidx
  obtain ⟨s, _, _, hsame, _, _⟩ := parse_returned m hwf argv mf inv h
  have hsize : to_size_t cfg.min_num_arguments_ ≥ 2 ^ 64 - 2 ^ 31 := by
    unfold to_size_t
    have h1 : cfg.min_num_arguments_ % 2 ^ 64 = cfg.min_num_arguments_ + 2 ^ 64 := by omega
    rw [h1]
    omega
  have hu := unfilled_name_of m mf hsame.2.1 id cfg hd n hn (lt_of_lt_of_le hlen hsize)
  rw [parse_unfilled m hwf argv mf inv h, ← List.filterMap_append, List.mem_filterMap]
  exact ⟨id, List.mem_append.2 hidx, hu⟩

/-- C37 at a concrete input: `--k` has minimum `-1`; after `cmd x --k a` it holds `a` and is
listed as unfilled. -/
theorem negative_minimum_always_unfilled_witness :
    (sample_negative_minimum_registry.parse ["cmd", "x", "--k", "a"]).state.collected 0 =
      ["a"] ∧
    "--k" ∈ ({ additional_arguments := [], unfilled_parameters := ["--k"] } :
      InvalidArguments).unfilled_parameters :=
  ⟨by decide,
    negative_minimum_always_unfilled sample_format
      [(Parameter.Keyword ["--k"] sample_converter).MinArgs (-1),
       (Parameter.Positional ["P"] 0 sample_converter).MinArgs 1]
      ["cmd", "x", "--k", "a"]
      (sample_negative_minimum_registry.parse ["cmd", "x", "--k", "a"]).state
      { additional_arguments := [], unfilled_parameters := ["--k"] }
      (by rfl) 0 ((Parameter.Keyword ["--k"] sample_converter).MinArgs (-1)).configuration_ "--k"
      rfl (by decide) (by decide) (by decide) rfl (by decide)⟩

/-! ## The exceptions of `parse` on a registry built by registration -/

theorem parseArgument_thrown_built (m : ParameterMap) (hwf : WellFormed m) (s s' : ParseState)
    (hs : ScanInv m s) (t : String) (e : Exception)
    (h : parseArgument s t = .thrown s' e) : e = .UnkownFlagOrKeyword := by
  by_cases hkw : IsKeywordName m t
  · obtain ⟨idk, h1, h2⟩ := (isKeywordName_iff m hwf t).1 hkw
    rw [parseArgument_keyword m s hs t idk h1 h2, parseKeyword_explicit m hwf s hs idk] at h
    exact absurd h (by simp)
  · by_cases hfl : IsFlagName m t
    · obtain ⟨idf, h1, h2⟩ := (isFlagName_iff m hwf t).1 hfl
      rw [parseArgument_flag m hwf s hs t idf h1 h2, parseFlag_built m hwf s hs idf h2] at h
      exact absurd h (by simp)
    · by_cases hdash : BeginsWithDash t
      · rw [parseArgument_dash m hwf s hs t hkw hfl hdash] at h
        by_cases hall : ∀ c ∈ t.data.drop 1, IsRegisteredName m (String.mk ['-', c])
        · obtain ⟨m1, hm1⟩ := (parseFlagList_sync m hwf _ s hs).1 hall
          rw [parseDash_returned s t m1 hm1] at h
          exact absurd h (by simp)
        · obtain ⟨m1, hm1⟩ := (parseFlagList_sync m hwf _ s hs).2 hall
          rw [parseDash_thrown s t m1 _ hm1] at h
          injection h with _ h
          exact h.symm
      · rw [parseArgument_plain m hwf s hs t ⟨hkw, hfl, hdash⟩] at h
        cases hopen : s.current_keyword_it with
        | some k =>
          obtain ⟨cfg, hcfg, _⟩ := keyword_descriptor m hwf k (hs.keyword k hopen)
          rw [parseValue_keyword_built m s hs k cfg hopen hcfg t] at h
          exact absurd h (by simp)
        | none =>
          cases hcur : m.positional_parameters_[s.current_positional_it]? with
          | none =>
            rw [parseValue_additional_built m s hs hopen hcur t] at h
            exact absurd h (by simp)
          | some e' =>
            obtain ⟨pos, pid⟩ := e'
            obtain ⟨cfg, hcfg, _⟩ := positional_descriptor m hwf _ pos pid hcur
            rw [parseValue_positional_built m s hs pos pid cfg hopen hcur hcfg t] at h
            exact absurd h (by simp)

theorem parseLoop_thrown_built (m : ParameterMap) (hwf : WellFormed m) (ts : List String)
    (s s' : ParseState) (hs : ScanInv m s) (e : Exception)
    (h : parseLoop s ts = .thrown s' e) : e = .UnkownFlagOrKeyword := by
  induction ts generalizing s with
  | nil =>
    simp only [parseLoop] at h
    exact absurd h (by simp)
  | cons t ts ih =>
    cases h1 : parseArgument s t with
    | thrown s1 e1 =>
      rw [parseLoop_cons_thrown s s1 t ts e1 h1] at h
      injection h with _ h
      rw [← h]
      exact parseArgument_thrown_built m hwf s s1 hs t e1 h1
    | returned s1 u =>
      cases u
      rw [parseLoop_cons_returned s s1 t ts h1] at h
      exact ih s1 (scanInv_of_returned m s s1 t hs h1) h

theorem parseReport_thrown_built (m : ParameterMap) (ids : List Nat) (m0 m1 : ParameterMap)
    (inv : InvalidArguments) (e : Exception) (hsame : SameRegistry m m0)
    (hsize : m0.arguments_.length = m.parameter_configurations_.length)
    (hids : ∀ id ∈ ids, ∃ cfg, m.descriptor? id = some cfg)
    (h : parseReport m0 inv ids = .thrown m1 e) :
    e = .undefined_behavior ∧
      ∃ id ∈ ids, ∃ cfg, m.descriptor? id = some cfg ∧ cfg.names_ = [] := by
  induction ids generalizing m0 inv with
  | nil =>
    simp only [parseReport] at h
    exact absurd h (by simp)
  | cons id0 ids ih =>
    obtain ⟨cfg0, hcfg0⟩ := hids id0 (List.mem_cons_self id0 ids)
    obtain ⟨m', hm', hsame', hsize', _⟩ :=
      SetDefaultArgumentsIfNeeded_built m m0 hsame hsize id0 cfg0 hcfg0
    have hunf := IsUnfilled_built m m' hsame' hsize' id0 cfg0 hcfg0
    have hcfg' := (in_bounds_of_descriptor m m' hsame' hsize' id0 cfg0 hcfg0).2.2
    rw [parseReport_cons m0 m' inv id0 ids _ cfg0 hm' hunf hcfg'] at h
    have hrest : ∀ inv', parseReport m' inv' ids = .thrown m1 e →
        e = .undefined_behavior ∧
          ∃ id ∈ id0 :: ids, ∃ cfg, m.descriptor? id = some cfg ∧ cfg.names_ = [] := by
      intro inv' h'
      obtain ⟨a, id, hid, b⟩ := ih m' inv' hsame' hsize'
        (fun id hid => hids id (List.mem_cons_of_mem id0 hid)) h'
      exact ⟨a, id, List.mem_cons_of_mem id0 hid, b⟩
    by_cases hb : (m'.collected id0).length < to_size_t cfg0.min_num_arguments_
    · rw [decide_eq_true hb] at h
      simp only [if_true] at h
      cases hn : cfg0.names_[0]? with
      | none =>
        rw [hn] at h
        simp only at h
        injection h with _ h
        refine ⟨h.symm, id0, List.mem_cons_self id0 ids, cfg0, hcfg0, ?_⟩
        cases hl : cfg0.names_ with
        | nil => rfl
        | cons a l =>
          rw [hl] at hn
          exact absurd hn (by simp)
      | some n =>
        rw [hn] at h
        exact hrest _ h
    · rw [decide_eq_false hb] at h
      simp only [Bool.false_eq_true, if_false] at h
      exact hrest inv h

/-- The exceptions of `parse` on a registry built by registration: `UnkownFlagOrKeyword` from
the scan, or the undefined access `names()[0]` in a report loop, which needs a positional or
keyword descriptor without a name.  It never is `std::out_of_range`: the accesses `at(id)` to
the collected lists and the descriptors are within bounds. -/
theorem parse_thrown_built (m : ParameterMap) (hwf : WellFormed m) (argv : List String)
    (mf : ParameterMap) (e : Exception) (h : m.parse argv = .thrown mf e) :
    e = .UnkownFlagOrKeyword ∨
      (e = .undefined_behavior ∧
        ∃ cfg ∈ m.parameter_configurations_,
          cfg.category_ ≠ ParameterCategory.kFlag ∧ cfg.names_ = []) := by
  unfold ParameterMap.parse at h
  have hinv := scanInv_parseLoop m (argv.drop 1) (parseStart m) (scanInv_parseStart m)
  have hfrom : ∀ id, (id ∈ m.positional_parameters_.map Prod.snd ∨ id ∈ m.keyword_parameters_) →
      ∀ cfg, m.descriptor? id = some cfg → cfg.names_ = [] →
      ∃ cfg ∈ m.parameter_configurations_,
        cfg.category_ ≠ ParameterCategory.kFlag ∧ cfg.names_ = [] := by
    intro id hid cfg hd hn
    refine ⟨cfg, List.getElem?_mem hd, ?_, hn⟩
    intro hcat
    obtain ⟨_, hnk, hnp⟩ := flag_id_of_descriptor m hwf id cfg hd hcat
    exact hid.elim hnp hnk
  cases hloop : parseLoop (parseStart m) (argv.drop 1) with
  | thrown s e' =>
    rw [hloop] at h
    simp only at h
    injection h with _ h
    rw [← h]
    exact Or.inl (parseLoop_thrown_built m hwf _ _ s (scanInv_parseStart m) e' hloop)
  | returned s u =>
    rw [hloop] at h hinv
    simp only [Outcome.state] at hinv
    simp only at h
    rw [hinv.same.2.2.2.1] at h
    cases hrep : parseReport s.self s.invalid_arguments
        (m.positional_parameters_.map Prod.snd) with
    | thrown m1 e' =>
      rw [hrep] at h
      simp only at h
      injection h with _ h
      rw [← h]
      obtain ⟨a, id, hid, cfg, hd, hn⟩ := parseReport_thrown_built m _ s.self m1
        s.invalid_arguments e' hinv.same hinv.size (positional_ids_have_descriptors m hwf) hrep
      exact Or.inr ⟨a, hfrom id (Or.inl hid) cfg hd hn⟩
    | returned m1 inv1 =>
      rw [hrep] at h
      simp only at h
      obtain ⟨a1, a2, _⟩ := parseReport_returned m _ s.self m1 s.invalid_arguments inv1
        hinv.same hinv.size (positional_ids_have_descriptors m hwf) hrep
      rw [a1.2.2.2.2.1] at h
      obtain ⟨a, id, hid, cfg, hd, hn⟩ := parseReport_thrown_built m _ m1 mf inv1 e a1 a2
        (keyword_ids_have_descriptors m hwf) h
      exact Or.inr ⟨a, hfrom id (Or.inr hid) cfg hd hn⟩

/-- C36, at a failing input: a positional parameter with an empty list of names and minimum 1
is registered without an error.  On `cmd` it collects nothing, so the first report loop reads
`names()[0]` of its descriptor, an access to the first element of an empty vector. -/
theorem nameless_parameter_breaks_report :
    sample_nameless_registry.parameter_configurations_.map
        (fun cfg => (cfg.names_, cfg.category_, cfg.min_num_arguments_)) =
      [([], ParameterCategory.kPositionalParameter, 1)] ∧
    sample_nameless_registry.positional_parameters_ = [(0, 0)] ∧
    (sample_nameless_registry.parse ["cmd"]).exception? = some Exception.undefined_behavior ∧
    (sample_nameless_registry.parse ["cmd", "x"]).exception? = none := by
  decide

/-! ## Where a plain token goes, and what the other tokens leave alone -/

theorem plain_step (m : ParameterMap) (hwf : WellFormed m) (s s' : ParseState)
    (hs : ScanInv m s) (t : String) (hp : IsPlain m t)
    (h : parseArgument s t = .returned s' ()) :
    (∃ id₀ cfg₀, m.descriptor? id₀ = some cfg₀ ∧ cfg₀.category_ ≠ ParameterCategory.kFlag ∧
      (id₀ ∈ m.positional_parameters_.map Prod.snd ∨ id₀ ∈ m.keyword_parameters_) ∧
      s'.self.collected id₀ = s.self.collected id₀ ++ [t] ∧
      (∀ j, j ≠ id₀ → s'.self.collected j = s.self.collected j) ∧
      s'.invalid_arguments = s.invalid_arguments) ∨
    (s'.invalid_arguments.additional_arguments =
        s.invalid_arguments.additional_arguments ++ [t] ∧ s'.self = s.self) := by
  rw [parseArgument_plain m hwf s hs t hp] at h
  cases hopen : s.current_keyword_it with
  | some k =>
    have hk := hs.keyword k hopen
    obtain ⟨cfg, hcfg, hcat⟩ := keyword_descriptor m hwf k hk
    rw [parseValue_keyword_built m s hs k cfg hopen hcfg t] at h
    injection h with h
    subst h
    have hlt := (descriptor_in_bounds m s hs k cfg hcfg).1
    refine Or.inl ⟨k, cfg, hcfg, by rw [hcat]; decide, Or.inr hk, ?_, ?_, rfl⟩
    · simp only
      rw [collected_set s.self k k _ hlt, if_pos rfl]
    · intro j hj
      simp only
      rw [collected_set s.self k j _ hlt, if_neg hj]
  | none =>
    cases hcur : m.positional_parameters_[s.current_positional_it]? with
    | none =>
      rw [parseValue_additional_built m s hs hopen hcur t] at h
      injection h with h
      subst h
      exact Or.inr ⟨rfl, rfl⟩
    | some e =>
      obtain ⟨pos, pid⟩ := e
      obtain ⟨cfg, hcfg, hcat, _⟩ := positional_descriptor m hwf _ pos pid hcur
      rw [parseValue_positional_built m s hs pos pid cfg hopen hcur hcfg t] at h
      injection h with h
      subst h
      have hlt := (descriptor_in_bounds m s hs pid cfg hcfg).1
      have hmem : pid ∈ m.positional_parameters_.map Prod.snd :=
        List.mem_map.2 ⟨(pos, pid), List.getElem?_mem hcur, rfl⟩
      refine Or.inl ⟨pid, cfg, hcfg, by rw [hcat]; decide, Or.inl hmem, ?_, ?_, rfl⟩
      · simp only
        rw [collected_set s.self pid pid _ hlt, if_pos rfl]
      · intro j hj
        simp only
        rw [collected_set s.self pid j _ hlt, if_neg hj]

/-- What a token that is not plain does to the list of parameter `j`: nothing if it is a
keyword name or a flag name of another parameter, and as many `true` as `bundle_hits` counts if
it is read as a list of flags. -/
theorem nonplain_step (m : ParameterMap) (hwf : WellFormed m) (s s' : ParseState)
    (hs : ScanInv m s) (t : String) (hp : ¬ IsPlain m t)
    (h : parseArgument s t = .returned s' ()) (j : Nat) (hj : j ∉ m.flags_) :
    s'.invalid_arguments = s.invalid_arguments ∧
      s'.self.collected j =
        s.self.collected j ++ List.replicate (bundle_hits m j t) "true" := by
  by_cases hkw : IsKeywordName m t
  · obtain ⟨idk, h1, h2⟩ := (isKeywordName_iff m hwf t).1 hkw
    obtain ⟨s1, h3, h4, _, h5⟩ := parseKeyword_built m hwf s hs idk h2
    rw [parseArgument_keyword m s hs t idk h1 h2, h3] at h
    injection h with h
    subst h
    refine ⟨h5, ?_⟩
    unfold bundle_hits
    rw [h4, if_neg (fun hc => hc.2.1 hkw)]
    simp
  · by_cases hfl : IsFlagName m t
    · obtain ⟨idf, h1, h2⟩ := (isFlagName_iff m hwf t).1 hfl
      obtain ⟨cfg', h3, _⟩ := (hwf.flags idf).1 h2
      rw [parseArgument_flag m hwf s hs t idf h1 h2, parseFlag_built m hwf s hs idf h2] at h
      injection h with h
      subst h
      refine ⟨rfl, ?_⟩
      simp only
      unfold bundle_hits
      rw [collected_set s.self idf j _ (descriptor_in_bounds m s hs idf cfg' h3).1,
        if_neg (fun (e : j = idf) => hj (e ▸ h2)), if_neg (fun hc => hc.2.2 hfl)]
      simp
    · have hdash : BeginsWithDash t := by
        by_contra hnd
        exact hp ⟨hkw, hfl, hnd⟩
      rw [parseArgument_dash m hwf s hs t hkw hfl hdash] at h
      cases hlist : parseFlagList s.self (t.data.drop 1) with
      | thrown m' e =>
        rw [parseDash_thrown s t m' e hlist] at h
        exact absurd h (by simp)
      | returned m' u =>
        cases u
        rw [parseDash_returned s t m' hlist] at h
        injection h with h
        subst h
        refine ⟨rfl, ?_⟩
        simp only
        unfold bundle_hits
        rw [parseFlagList_collected m hwf _ s hs m' hlist j, if_pos ⟨hdash, hkw, hfl⟩]

theorem bundle_hits_eq_zero (m : ParameterMap) (j : Nat) (cfg : ParameterConfiguration)
    (hd : m.descriptor? j = some cfg) (hnames : ∀ c, String.mk ['-', c] ∉ cfg.names_)
    (t : String) : bundle_hits m j t = 0 := by
  unfold bundle_hits
  split
  · rw [List.length_eq_zero, List.filter_eq_nil_iff]
    intro c _
    unfold namesParameter
    rw [hd]
    simp only [decide_eq_true_eq]
    exact hnames c
  · rfl

theorem sum_map_bump (l : List Nat) (hnd : l.Nodup) (f g : Nat → Nat) (a : Nat) (ha : a ∈ l)
    (hg : g a = f a + 1) (ho : ∀ x ∈ l, x ≠ a → g x = f x) :
    (l.map g).sum = (l.map f).sum + 1 := by
  induction l with
  | nil => exact absurd ha (List.not_mem_nil a)
  | cons x l ih =>
    rw [List.nodup_cons] at hnd
    rw [List.map_cons, List.map_cons, List.sum_cons, List.sum_cons]
    by_cases e : a = x
    · subst e
      have hrest : l.map g = l.map f := by
        apply List.map_congr_left
        intro y hy
        exact ho y (List.mem_cons_of_mem a hy) (fun e => hnd.1 (e ▸ hy))
      rw [hrest, hg]
      omega
    · have ha' : a ∈ l := by
        rcases List.mem_cons.1 ha with h | h
        · exact absurd h e
        · exact h
      have hx : g x = f x := ho x (List.mem_cons_self x l) (fun e' => e e'.symm)
      rw [ih hnd.2 ha' (fun y hy hne => ho y (List.mem_cons_of_mem x hy) hne), hx]
      omega

theorem collected_count_congr (m a b : ParameterMap)
    (h : ∀ j cfg, m.descriptor? j = some cfg → cfg.category_ ≠ ParameterCategory.kFlag →
      b.collected j = a.collected j) : collected_count m b = collected_count m a := by
  unfold collected_count
  congr 1
  apply List.map_congr_left
  intro id _
  cases hd : m.descriptor? id with
  | none => rfl
  | some cfg =>
    simp only
    by_cases hc : cfg.category_ = ParameterCategory.kFlag
    · rw [if_pos hc, if_pos hc]
    · rw [if_neg hc, if_neg hc, h id cfg hd hc]

theorem collected_count_bump (m a b : ParameterMap) (id₀ : Nat) (cfg₀ : ParameterConfiguration)
    (hd : m.descriptor? id₀ = some cfg₀) (hcat : cfg₀.category_ ≠ ParameterCategory.kFlag)
    (h₀ : (b.collected id₀).length = (a.collected id₀).length + 1)
    (ho : ∀ j, j ≠ id₀ → b.collected j = a.collected j) :
    collected_count m b = collected_count m a + 1 := by
  unfold collected_count
  apply sum_map_bump _ (List.nodup_range _) _ _ id₀
  · rw [List.mem_range]
    exact (List.getElem?_eq_some.1 hd).1
  · rw [hd]
    simp only
    rw [if_neg hcat, if_neg hcat, h₀]
  · intro x _ hx
    rw [ho x hx]

theorem collected_count_parseStart (m : ParameterMap) :
    collected_count m (parseStart m).self = 0 := by
  unfold collected_count
  apply List.sum_eq_zero
  intro x hx
  rw [List.mem_map] at hx
  obtain ⟨id, _, rfl⟩ := hx
  cases hd : m.descriptor? id with
  | none => rfl
  | some cfg =>
    simp only
    rw [collected_parseStart]
    split <;> rfl

theorem nonflag_not_in_flags (m : ParameterMap) (hwf : WellFormed m) (j : Nat)
    (cfg : ParameterConfiguration) (hd : m.descriptor? j = some cfg)
    (hcat : cfg.category_ ≠ ParameterCategory.kFlag) : j ∉ m.flags_ := by
  intro hf
  obtain ⟨cfg', h1, h2⟩ := (hwf.flags j).1 hf
  rw [hd] at h1
  injection h1 with h1
  subst h1
  exact hcat h2

theorem nonplain_step_quiet (m : ParameterMap) (hwf : WellFormed m)
    (hnames : ∀ cfg ∈ m.parameter_configurations_, cfg.category_ ≠ ParameterCategory.kFlag →
      ∀ c, String.mk ['-', c] ∉ cfg.names_)
    (s s' : ParseState) (hs : ScanInv m s) (t : String) (hp : ¬ IsPlain m t)
    (h : parseArgument s t = .returned s' ()) :
    s'.invalid_arguments = s.invalid_arguments ∧
      ∀ j cfg, m.descriptor? j = some cfg → cfg.category_ ≠ ParameterCategory.kFlag →
        s'.self.collected j = s.self.collected j := by
  refine ⟨?_, ?_⟩
  · by_cases hk : IsKeywordName m t
    · obtain ⟨idk, h1, h2⟩ := (isKeywordName_iff m hwf t).1 hk
      obtain ⟨s1, h3, _, _, h5⟩ := parseKeyword_built m hwf s hs idk h2
      rw [parseArgument_keyword m s hs t idk h1 h2, h3] at h
      injection h with h
      subst h
      exact h5
    · exact (parseArgument_flag_or_dash m hwf s s' hs t hk hp h).2.2
  · intro j cfg hd hcat
    have := (nonplain_step m hwf s s' hs t hp h j (nonflag_not_in_flags m hwf j cfg hd hcat)).2
    rw [this, bundle_hits_eq_zero m j cfg hd (hnames cfg (List.getElem?_mem hd) hcat) t]
    simp

theorem no_flag_form_names (cfg : ParameterConfiguration)
    (h : ∀ n ∈ cfg.names_, ¬ HasFlagForm n) (c : Char) : String.mk ['-', c] ∉ cfg.names_ :=
  fun hmem => h _ hmem ⟨rfl, rfl⟩

theorem plain_count_scan (m : ParameterMap) (hwf : WellFormed m)
    (hnames : ∀ cfg ∈ m.parameter_configurations_, cfg.category_ ≠ ParameterCategory.kFlag →
      ∀ c, String.mk ['-', c] ∉ cfg.names_)
    (ts : List String) (s s' : ParseState) (hs : ScanInv m s)
    (h : parseLoop s ts = .returned s' ()) :
    collected_count m s'.self + s'.invalid_arguments.additional_arguments.length =
      collected_count m s.self + s.invalid_arguments.additional_arguments.length +
        (ts.filter (fun t => decide (IsPlain m t))).length := by
  induction ts generalizing s with
  | nil =>
    simp only [parseLoop] at h
    injection h with h
    subst h
    simp
  | cons t ts ih =>
    cases h1 : parseArgument s t with
    | thrown s1 e =>
      rw [parseLoop_cons_thrown s s1 t ts e h1] at h
      exact absurd h (by simp)
    | returned s1 u =>
      cases u
      rw [parseLoop_cons_returned s s1 t ts h1] at h
      have hs1 := scanInv_of_returned m s s1 t hs h1
      rw [ih s1 hs1 h, List.filter_cons]
      by_cases hp : IsPlain m t
      · rw [if_pos (decide_eq_true hp), List.length_cons]
        rcases plain_step m hwf s s1 hs t hp h1 with
          ⟨id₀, cfg₀, hd, hcat, _, hc, ho, hi⟩ | ⟨ha, hself⟩
        · rw [collected_count_bump m s.self s1.self id₀ cfg₀ hd hcat
            (by rw [hc, List.length_append]; rfl) ho, hi]
          omega
        · rw [hself, ha, List.length_append, List.length_singleton]
          omega
      · rw [if_neg (fun hc => hp (of_decide_eq_true hc))]
        obtain ⟨hi, hc⟩ := nonplain_step_quiet m hwf hnames s s1 hs t hp h1
        rw [collected_count_congr m s.self s1.self hc, hi]

/-- C32: on a registry built by registration in which no parameter has defaults and no
positional or keyword parameter has a name of the form `-c`, let `parse` return.  Then the
number of plain tokens after the first (no keyword name, no flag name, not beginning with `-`)
is the sum of the lengths of the collected lists of all positional and keyword parameters plus
the length of `additional_arguments`. -/
theorem plain_tokens_are_conserved (format : HelpStringFormat) (ps : List Parameter)
    (hdefaults : ∀ cfg ∈ ((ParameterMap.init format).registerAll ps).parameter_configurations_,
      cfg.default_arguments_ = [])
    (hnames : ∀ cfg ∈ ((ParameterMap.init format).registerAll ps).parameter_configurations_,
      cfg.category_ ≠ ParameterCategory.kFlag → ∀ n ∈ cfg.names_, ¬ HasFlagForm n)
    (argv : List String) (mf : ParameterMap) (inv : InvalidArguments)
    (h : ((ParameterMap.init format).registerAll ps).parse argv = .returned mf inv) :
    ((argv.drop 1).filter
        (fun t => decide (IsPlain ((ParameterMap.init format).registerAll ps) t))).length =
      collected_count ((ParameterMap.init format).registerAll ps) mf +
        inv.additional_arguments.length := by
  have hwf := wellFormed_built format ps
  generalize (ParameterMap.init format).registerAll ps = m at hwf hdefaults hnames h ⊢
  obtain ⟨s, hloop, _, _, hadd, hcol⟩ := parse_returned m hwf argv mf inv h
  have hscan := plain_count_scan m hwf
    (fun cfg hcfg hcat => no_flag_form_names cfg (hnames cfg hcfg hcat)) (argv.drop 1)
    (parseStart m) s (scanInv_parseStart m) hloop
  have hstart : (parseStart m).invalid_arguments.additional_arguments = [] := rfl
  rw [collected_count_parseStart, hstart] at hscan
  have hsame : collected_count m mf = collected_count m s.self := by
    apply collected_count_congr
    intro j cfg hd _
    rw [hcol j cfg hd]
    split
    · rename_i hc
      rw [hdefaults cfg (List.getElem?_mem hd), hc.2]
    · rfl
  rw [hsame, hadd]
  simp only [List.length_nil, Nat.zero_add] at hscan
  exact hscan.symm

/-- C32 at the scenario of the tests: `command 3 7 11 zig zag` against three positional
parameters of one value each: five plain tokens, three collected and two additional. -/
theorem plain_tokens_are_conserved_witness :
    (["command", "3", "7", "11", "zig", "zag"].drop 1).filter
        (fun t => decide (IsPlain
          ((ParameterMap.init sample_format).registerAll sample_positional_attempts) t)) =
      ["3", "7", "11", "zig", "zag"] ∧
    ((["command", "3", "7", "11", "zig", "zag"].drop 1).filter
        (fun t => decide (IsPlain
          ((ParameterMap.init sample_format).registerAll sample_positional_attempts)
          t))).length =
      collected_count ((ParameterMap.init sample_format).registerAll sample_positional_attempts)
          (((ParameterMap.init sample_format).registerAll sample_positional_attempts).parse
            ["command", "3", "7", "11", "zig", "zag"]).state +
        ({ additional_arguments := ["zig", "zag"], unfilled_parameters := [] } :
          InvalidArguments).additional_arguments.length :=
  ⟨by decide,
    plain_tokens_are_conserved sample_format sample_positional_attempts (by decide)
      (by decide)
      ["command", "3", "7", "11", "zig", "zag"] _
      { additional_arguments := ["zig", "zag"], unfilled_parameters := [] } (by rfl)⟩

/-! ## Where the collected values come from -/

theorem collected_from_scan (m : ParameterMap) (hwf : WellFormed m)
    (hnames : ∀ cfg ∈ m.parameter_configurations_, cfg.category_ ≠ ParameterCategory.kFlag →
      ∀ c, String.mk ['-', c] ∉ cfg.names_)
    (ts : List String) (s s' : ParseState) (hs : ScanInv m s)
    (h : parseLoop s ts = .returned s' ()) (j : Nat) (cfg : ParameterConfiguration)
    (hd : m.descriptor? j = some cfg) (hcat : cfg.category_ ≠ ParameterCategory.kFlag) :
    ∀ x ∈ s'.self.collected j, x ∈ s.self.collected j ∨ x ∈ ts := by
  induction ts generalizing s with
  | nil =>
    simp only [parseLoop] at h
    injection h with h
    subst h
    exact fun x hx => Or.inl hx
  | cons t ts ih =>
    cases h1 : parseArgument s t with
    | thrown s1 e =>
      rw [parseLoop_cons_thrown s s1 t ts e h1] at h
      exact absurd h (by simp)
    | returned s1 u =>
      cases u
      rw [parseLoop_cons_returned s s1 t ts h1] at h
      have hs1 := scanInv_of_returned m s s1 t hs h1
      have hstep : ∀ x ∈ s1.self.collected j, x ∈ s.self.collected j ∨ x = t := by
        intro x hx
        by_cases hp : IsPlain m t
        · rcases plain_step m hwf s s1 hs t hp h1 with
            ⟨id₀, _, _, _, _, hc, ho, _⟩ | ⟨_, hself⟩
          · by_cases e : j = id₀
            · subst e
              rw [hc, List.mem_append, List.mem_singleton] at hx
              exact hx
            · rw [ho j e] at hx
              exact Or.inl hx
          · rw [hself] at hx
            exact Or.inl hx
        · rw [(nonplain_step_quiet m hwf hnames s s1 hs t hp h1).2 j cfg hd hcat] at hx
          exact Or.inl hx
      intro x hx
      rcases ih s1 hs1 h x hx with h2 | h2
      · rcases hstep x h2 with h3 | h3
        · exact Or.inl h3
        · exact Or.inr (h3 ▸ List.mem_cons_self t ts)
      · exact Or.inr (List.mem_cons_of_mem t h2)

/-- On a registry built by registration in which no positional or keyword parameter has a name
of the form `-c`, every element of the collected list of a positional or keyword parameter
after `parse` is a token after the first or one of the defaults of the parameter. -/
theorem collected_from_input (m : ParameterMap) (hwf : WellFormed m)
    (hnames : ∀ cfg ∈ m.parameter_configurations_, cfg.category_ ≠ ParameterCategory.kFlag →
      ∀ n ∈ cfg.names_, ¬ HasFlagForm n)
    (argv : List String) (mf : ParameterMap) (inv : InvalidArguments)
    (h : m.parse argv = .returned mf inv) (j : Nat) (cfg : ParameterConfiguration)
    (hd : m.descriptor? j = some cfg) (hcat : cfg.category_ ≠ ParameterCategory.kFlag) :
    ∀ x ∈ mf.collected j, x ∈ argv.drop 1 ∨ x ∈ cfg.default_arguments_ := by
  obtain ⟨s, hloop, _, _, _, hcol⟩ := parse_returned m hwf argv mf inv h
  intro x hx
  rw [hcol j cfg hd] at hx
  split at hx
  · exact Or.inr hx
  · rcases collected_from_scan m hwf
        (fun cfg' hcfg' hcat' => no_flag_form_names cfg' (hnames cfg' hcfg' hcat'))
        (argv.drop 1) (parseStart m) s (scanInv_parseStart m) hloop j cfg hd hcat x hx with
      h1 | h1
    · rw [collected_parseStart] at h1
      exact absurd h1 (List.not_mem_nil x)
    · exact Or.inl h1

/-- C33, at a failing input: `-a` is a flag and `-k` a keyword parameter without defaults.  On
`cmd -k v -ak` the keyword takes `v`; the token `-ak` is read as a list of flags, and for its
character `k` the scanner appends `true` to the list of the keyword parameter, which then holds
`v` and `true`: a string that is no token of the input and no default. -/
theorem scanner_inserts_true_into_keyword_list :
    sample_dash_registry.parameter_configurations_.map
        (fun cfg => (cfg.names_, cfg.category_, cfg.default_arguments_)) =
      [(["-a"], ParameterCategory.kFlag, []),
       (["-k"], ParameterCategory.kKeywordParameter, [])] ∧
    (sample_dash_registry.parse ["cmd", "-k", "v", "-ak"]).exception? = none ∧
    (sample_dash_registry.parse ["cmd", "-k", "v", "-ak"]).state.collected 1 = ["v", "true"] ∧
    "true" ∉ ["cmd", "-k", "v", "-ak"].drop 1 := by
  decide

/-! ## Two positional parameters at one position -/

theorem positional_key_unique (m : ParameterMap) (hwf : WellFormed m) (p : Int) (a b : Nat)
    (ha : (p, a) ∈ m.positional_parameters_) (hb : (p, b) ∈ m.positional_parameters_) :
    a = b := by
  have h0 := hwf.positions_sorted
  rw [List.pairwise_map] at h0
  have h1 : m.positional_parameters_.Pairwise (fun e e' => e.1 ≠ e'.1) :=
    h0.imp (fun h => ne_of_lt h)
  by_contra hne
  have hne' : (p, a) ≠ (p, b) := fun e => hne (Prod.mk.inj e).2
  exact List.Pairwise.forall (fun _ _ h => h.symm) h1 ha hb hne' rfl

theorem bundle_hits_plain (m : ParameterMap) (j : Nat) (t : String) (hp : IsPlain m t) :
    bundle_hits m j t = 0 := by
  unfold bundle_hits
  rw [if_neg (fun hc => hp.2.2 hc.1)]

theorem unindexed_scan (m : ParameterMap) (hwf : WellFormed m) (j : Nat)
    (hpos : j ∉ m.positional_parameters_.map Prod.snd) (hkw : j ∉ m.keyword_parameters_)
    (hfl : j ∉ m.flags_) (ts : List String) (s s' : ParseState) (hs : ScanInv m s)
    (h : parseLoop s ts = .returned s' ()) :
    s'.self.collected j =
      s.self.collected j ++ List.replicate ((ts.map (bundle_hits m j)).sum) "true" := by
  induction ts generalizing s with
  | nil =>
    simp only [parseLoop] at h
    injection h with h
    subst h
    simp
  | cons t ts ih =>
    cases h1 : parseArgument s t with
    | thrown s1 e =>
      rw [parseLoop_cons_thrown s s1 t ts e h1] at h
      exact absurd h (by simp)
    | returned s1 u =>
      cases u
      rw [parseLoop_cons_returned s s1 t ts h1] at h
      have hs1 := scanInv_of_returned m s s1 t hs h1
      have hstep : s1.self.collected j =
          s.self.collected j ++ List.replicate (bundle_hits m j t) "true" := by
        by_cases hp : IsPlain m t
        · rw [bundle_hits_plain m j t hp]
          rcases plain_step m hwf s s1 hs t hp h1 with
            ⟨id₀, _, _, _, hidx, _, ho, _⟩ | ⟨_, hself⟩
          · have hne : j ≠ id₀ := by
              intro e
              subst e
              exact hidx.elim hpos hkw
            rw [ho j hne]
            simp
          · rw [hself]
            simp
        · exact (nonplain_step m hwf s s1 hs t hp h1 j hfl).2
      rw [ih s1 hs1 h, hstep, List.append_assoc, ← List.replicate_add, List.map_cons,
        List.sum_cons]

/-- Two positional parameters with the same position: in a registry built by registration,
let `i < j` be two positional parameters with the same position.  Registration, with its
duplicate check as documented, accepts any parameter whose names are free, whatever its
position; the names of both parameters look up to their identifiers; the entry of the positional
index for the position holds the identifier registered first with it (at most `i`), and `j` is
not in the index.  When `parse` returns, the list of `j` holds no token: it is the list the
scan left, without a default substituted, and that list consists of the `true` that tokens read
as lists of flags have put there for a name of `j` of the form `-c` (the defect of the claim on
inserted strings), so it is empty when `j` has no such name; and no name of `j` is in
`unfilled_parameters`, whatever its minimum. -/
theorem duplicate_position_keeps_first (format : HelpStringFormat) (ps : List Parameter)
    (i j : Nat) (cfg₁ cfg₂ : ParameterConfiguration)
    (h₁ : ((ParameterMap.init format).registerAll ps).descriptor? i = some cfg₁)
    (h₂ : ((ParameterMap.init format).registerAll ps).descriptor? j = some cfg₂)
    (hc₁ : cfg₁.category_ = ParameterCategory.kPositionalParameter)
    (hc₂ : cfg₂.category_ = ParameterCategory.kPositionalParameter)
    (hpos : cfg₂.position_ = cfg₁.position_) (hij : i < j) :
    (∀ p : Parameter,
      (∀ n ∈ p.configuration.names_,
        ¬ IsRegisteredName ((ParameterMap.init format).registerAll ps) n) →
      ∃ m', ((ParameterMap.init format).registerAll ps).operator_call_documented p =
        .returned m' ()) ∧
    (∀ n ∈ cfg₁.names_,
      map_find ((ParameterMap.init format).registerAll ps).name_to_id_ n = some i) ∧
    (∀ n ∈ cfg₂.names_,
      map_find ((ParameterMap.init format).registerAll ps).name_to_id_ n = some j) ∧
    (∃ e, (cfg₁.position_, e) ∈
        ((ParameterMap.init format).registerAll ps).positional_parameters_ ∧ e ≤ i ∧
      ∀ id' cfg', ((ParameterMap.init format).registerAll ps).descriptor? id' = some cfg' →
        cfg'.category_ = ParameterCategory.kPositionalParameter →
        cfg'.position_ = cfg₁.position_ → e ≤ id') ∧
    j ∉ ((ParameterMap.init format).registerAll ps).positional_parameters_.map Prod.snd ∧
    ∀ (argv : List String) (mf : ParameterMap) (inv : InvalidArguments),
      ((ParameterMap.init format).registerAll ps).parse argv = .returned mf inv →
      (∃ s, parseLoop (parseStart ((ParameterMap.init format).registerAll ps))
          (argv.drop 1) = .returned s () ∧ mf.collected j = s.self.collected j) ∧
      mf.collected j = List.replicate
        (((argv.drop 1).map
          (bundle_hits ((ParameterMap.init format).registerAll ps) j)).sum) "true" ∧
      ((∀ n ∈ cfg₂.names_, ¬ HasFlagForm n) → mf.collected j = []) ∧
      ∀ n ∈ cfg₂.names_, n ∉ inv.unfilled_parameters := by
  have hwf := wellFormed_built format ps
  generalize (ParameterMap.init format).registerAll ps = m at hwf h₁ h₂ ⊢
  obtain ⟨e, he⟩ := hwf.positions_taken i cfg₁ h₁ hc₁
  have hjpos : j ∉ m.positional_parameters_.map Prod.snd := by
    intro hj
    rw [List.mem_map] at hj
    obtain ⟨⟨pos', j'⟩, hmem, hjj⟩ := hj
    have hjj' : j' = j := hjj
    subst hjj'
    obtain ⟨cfg', h3, _, h4⟩ := hwf.positionals pos' j' hmem
    rw [h₂] at h3
    injection h3 with h3
    subst h3
    rw [hpos] at h4
    rw [← h4] at hmem
    have hej := positional_key_unique m hwf _ e j' he hmem
    have hle := hwf.positions_first e i cfg₁ he h₁ hc₁
    omega
  have hjkw : j ∉ m.keyword_parameters_ := by
    intro hk
    obtain ⟨cfg', h3, h4⟩ := (hwf.keywords j).1 hk
    rw [h₂] at h3
    injection h3 with h3
    subst h3
    rw [hc₂] at h4
    exact absurd h4 (by decide)
  have hjfl : j ∉ m.flags_ :=
    nonflag_not_in_flags m hwf j cfg₂ h₂ (by rw [hc₂]; decide)
  refine ⟨?_, fun n hn => (hwf.names n i).2 ⟨cfg₁, h₁, hn⟩,
    fun n hn => (hwf.names n j).2 ⟨cfg₂, h₂, hn⟩, ⟨e, he, hwf.positions_first e i cfg₁ he h₁ hc₁, ?_⟩,
    hjpos, ?_⟩
  · intro p hp
    have hany : p.configuration.names_.any (fun name => map_count m.name_to_id_ name) = false := by
      rw [any_count_eq_false]
      intro name hname
      cases hf : map_find m.name_to_id_ name with
      | none => rfl
      | some id => exact absurd ((isRegisteredName_iff m hwf name).2 ⟨id, hf⟩) (hp name hname)
    obtain ⟨m', hm', _⟩ := operator_call_documented_returned m p hany
    exact ⟨m', hm'⟩
  · intro id' cfg' hd' hcat' hpos'
    have he' : (cfg'.position_, e) ∈ m.positional_parameters_ := by
      rw [hpos']
      exact he
    exact hwf.positions_first e id' cfg' he' hd' hcat'
  · intro argv mf inv h
    obtain ⟨s, hloop, _, hsame, _, hcol⟩ := parse_returned m hwf argv mf inv h
    have hleft : mf.collected j = s.self.collected j := by
      rw [hcol j cfg₂ h₂, if_neg (fun hc => hc.1.elim hjpos hjkw)]
    have hscan := unindexed_scan m hwf j hjpos hjkw hjfl (argv.drop 1) (parseStart m) s
      (scanInv_parseStart m) hloop
    rw [collected_parseStart, List.nil_append] at hscan
    refine ⟨⟨s, hloop, hleft⟩, hleft.trans hscan, ?_, ?_⟩
    · intro hnames
      rw [hleft, hscan]
      have hzero : ((argv.drop 1).map (bundle_hits m j)).sum = 0 := by
        apply List.sum_eq_zero
        intro x hx
        rw [List.mem_map] at hx
        obtain ⟨t, _, rfl⟩ := hx
        exact bundle_hits_eq_zero m j cfg₂ h₂ (no_flag_form_names cfg₂ hnames) t
      rw [hzero]
      rfl
    · intro n hn hmem
      rw [parse_unfilled m hwf argv mf inv h, ← List.filterMap_append, List.mem_filterMap] at hmem
      obtain ⟨id', hid', hu⟩ := hmem
      obtain ⟨c, h3, _, h5, _⟩ := unfilled_name_some mf id' n hu
      rw [hsame.2.1] at h3
      have := (name_unique m hwf n id' j c cfg₂ h3 h₂ h5 hn).1
      subst this
      exact (List.mem_append.1 hid').elim hjpos hjkw

/-- At a concrete input: `A` and `B` are registered at position 0, `B` with the default
list `d` and minimum 1; after `cmd x y` the list of `B` is empty and `B` is not reported. -/
theorem duplicate_position_keeps_first_witness :
    sample_duplicate_position_registry.positional_parameters_ = [(0, 0)] ∧
    (∀ n ∈ ["B"], ¬ HasFlagForm n) ∧
    (sample_duplicate_position_registry.parse ["cmd", "x", "y"]).state.collected 1 = [] :=
  ⟨by decide, by decide,
    ((duplicate_position_keeps_first sample_format
      [Parameter.Positional ["A"] 0 sample_converter,
       ((Parameter.Positional ["B"] 0 sample_converter).SetDefault ["d"]).MinArgs 1]
      0 1 (Parameter.Positional ["A"] 0 sample_converter).configuration_
      (((Parameter.Positional ["B"] 0 sample_converter).SetDefault ["d"]).MinArgs
        1).configuration_
      rfl rfl rfl rfl rfl (by decide)).2.2.2.2.2 ["cmd", "x", "y"]
      (sample_duplicate_position_registry.parse ["cmd", "x", "y"]).state
      { additional_arguments := ["y"], unfilled_parameters := [] } (by rfl)).2.2.1 (by decide)⟩

/-! ## Several names of one parameter -/

/-- C34 fails for a positional parameter: its names are not recognised in the token list, a
token equal to one of them is a plain value.  With the positional parameter named `FOO` and
`BAR`, `cmd FOO` leaves it with the token `FOO` and `cmd BAR` with the token `BAR`. -/
theorem positional_alias_is_a_value :
    sample_alias_registry.parameter_configurations_.map
        (fun cfg => (cfg.names_, cfg.category_)) =
      [(["FOO", "BAR"], ParameterCategory.kPositionalParameter)] ∧
    (sample_alias_registry.parse ["cmd", "FOO"]).exception? = none ∧
    (sample_alias_registry.parse ["cmd", "BAR"]).exception? = none ∧
    (sample_alias_registry.parse ["cmd", "FOO"]).state.arguments_ = [["FOO"]] ∧
    (sample_alias_registry.parse ["cmd", "BAR"]).state.arguments_ = [["BAR"]] := by
  decide

/-- C34, amended: in a registry built by registration, let `n₁` and `n₂` be two names of one
parameter.  If the parameter is a keyword parameter or a flag, replacing an occurrence of `n₁`
in a token list by `n₂` does not change what `parse` does: the same registry with the same
collected arguments and the same `InvalidArguments`, or the same exception.  For a parameter of
any category, after any call of `parse`, `IsSet`, `HasArgument`, `convert` and `convert_all`
give for `n₁` what they give for `n₂`.  And every entry of `unfilled_parameters` is the first
name of a descriptor. -/
theorem aliases_are_interchangeable (format : HelpStringFormat) (ps : List Parameter)
    (id : Nat) (cfg : ParameterConfiguration) (n₁ n₂ : String)
    (hd : ((ParameterMap.init format).registerAll ps).descriptor? id = some cfg)
    (hn₁ : n₁ ∈ cfg.names_) (hn₂ : n₂ ∈ cfg.names_) :
    (cfg.category_ ≠ ParameterCategory.kPositionalParameter →
      ∀ pre post : List String,
        ((ParameterMap.init format).registerAll ps).parse (pre ++ n₁ :: post) =
          ((ParameterMap.init format).registerAll ps).parse (pre ++ n₂ :: post)) ∧
    (∀ argv : List String,
      (((ParameterMap.init format).registerAll ps).parse argv).state.IsSet n₁ =
        (((ParameterMap.init format).registerAll ps).parse argv).state.IsSet n₂ ∧
      (((ParameterMap.init format).registerAll ps).parse argv).state.HasArgument n₁ =
        (((ParameterMap.init format).registerAll ps).parse argv).state.HasArgument n₂ ∧
      ∀ T,
        (((ParameterMap.init format).registerAll ps).parse argv).state.convert T n₁ =
          (((ParameterMap.init format).registerAll ps).parse argv).state.convert T n₂ ∧
        (((ParameterMap.init format).registerAll ps).parse argv).state.convert_all T n₁ =
          (((ParameterMap.init format).registerAll ps).parse argv).state.convert_all T n₂) ∧
    (∀ (argv : List String) (mf : ParameterMap) (inv : InvalidArguments),
      ((ParameterMap.init format).registerAll ps).parse argv = .returned mf inv →
      ∀ n ∈ inv.unfilled_parameters,
        ∃ id' cfg', ((ParameterMap.init format).registerAll ps).descriptor? id' = some cfg' ∧
          cfg'.names_[0]? = some n) := by
  have hwf := wellFormed_built format ps
  generalize (ParameterMap.init format).registerAll ps = m at hwf hd ⊢
  have hl₁ : map_find m.name_to_id_ n₁ = some id := (hwf.names n₁ id).2 ⟨cfg, hd, hn₁⟩
  have hl₂ : map_find m.name_to_id_ n₂ = some id := (hwf.names n₂ id).2 ⟨cfg, hd, hn₂⟩
  refine ⟨?_, ?_, ?_⟩
  · intro hcat pre post
    have harg : ∀ s, ScanInv m s → parseArgument s n₁ = parseArgument s n₂ := by
      intro s hs
      cases hc : cfg.category_ with
      | kPositionalParameter => exact absurd hc hcat
      | kKeywordParameter =>
        have hk : id ∈ m.keyword_parameters_ := (hwf.keywords id).2 ⟨cfg, hd, hc⟩
        rw [parseArgument_keyword m s hs n₁ id hl₁ hk, parseArgument_keyword m s hs n₂ id hl₂ hk]
      | kFlag =>
        have hf : id ∈ m.flags_ := (hwf.flags id).2 ⟨cfg, hd, hc⟩
        rw [parseArgument_flag m hwf s hs n₁ id hl₁ hf, parseArgument_flag m hwf s hs n₂ id hl₂ hf]
    cases pre with
    | nil => exact parse_of_loop_eq m post post rfl n₁ n₂
    | cons p₀ pre =>
      apply parse_of_loop_eq m (pre ++ n₁ :: post) (pre ++ n₂ :: post) _ p₀ p₀
      rw [parseLoop_append, parseLoop_append]
      have hinv := scanInv_parseLoop m pre (parseStart m) (scanInv_parseStart m)
      cases h0 : parseLoop (parseStart m) pre with
      | thrown s e => rfl
      | returned s u =>
        rw [h0] at hinv
        simp only [Outcome.state] at hinv
        simp only [parseLoop]
        rw [harg s hinv]
  · intro argv
    have hsame := parse_state m argv
    have g₁ := GetId_registered m (m.parse argv).state hwf hsame n₁ id cfg hd hn₁
    have g₂ := GetId_registered m (m.parse argv).state hwf hsame n₂ id cfg hd hn₂
    refine ⟨?_, ?_, fun T => ⟨?_, ?_⟩⟩
    · unfold ParameterMap.IsSet
      rw [g₁, g₂]
    · unfold ParameterMap.HasArgument
      rw [g₁, g₂]
    · unfold ParameterMap.convert
      rw [g₁, g₂]
    · unfold ParameterMap.convert_all
      rw [g₁, g₂]
  · intro argv mf inv h n hn
    obtain ⟨s, _, _, hsame, _, _⟩ := parse_returned m hwf argv mf inv h
    rw [parse_unfilled m hwf argv mf inv h, ← List.filterMap_append, List.mem_filterMap] at hn
    obtain ⟨id', _, hu⟩ := hn
    obtain ⟨c, h3, h4, _, _⟩ := unfilled_name_some mf id' n hu
    rw [hsame.2.1] at h3
    exact ⟨id', c, h3, h4⟩

/-- C34 (amended) at a concrete input: the keyword parameter of the sample registry has the
names `--bar` and `-b`; `cmd --bar 1 2` and `cmd -b 1 2` give the same. -/
theorem aliases_are_interchangeable_witness :
    (["--bar", "-b"] : List String) =
      (((Parameter.Keyword ["--bar", "-b"] sample_converter).MinArgs 2).MaxArgs
        2).configuration_.names_ ∧
    ((ParameterMap.init sample_format).registerAll sample_scan_attempts).parse
        (["cmd"] ++ "--bar" :: ["1", "2"]) =
      ((ParameterMap.init sample_format).registerAll sample_scan_attempts).parse
        (["cmd"] ++ "-b" :: ["1", "2"]) :=
  ⟨rfl,
    (aliases_are_interchangeable sample_format sample_scan_attempts 0
      (((Parameter.Keyword ["--bar", "-b"] sample_converter).MinArgs 2).MaxArgs
        2).configuration_ "--bar" "-b" rfl (by decide) (by decide)).1 (by decide) ["cmd"]
      ["1", "2"]⟩

/-! ## Registration as written: the range of the duplicate check -/

/-- With the range of the first loop intact, `operator_call` is the documented registration. -/
theorem operator_call_intact (m : ParameterMap) (p : Parameter) :
    m.operator_call p (some p.configuration.names_) = m.operator_call_documented p := rfl

/-- The duplicate check of `operator_call` depends on the strings the first loop sees only:
when none of them is registered the call returns and appends the descriptor, whether or not
a name of the parameter is taken, and every name registered before keeps its identifier. -/
theorem operator_call_unseen (m : ParameterMap) (p : Parameter) (seen : List String)
    (h : seen.any (fun name => map_count m.name_to_id_ name) = false) :
    ∃ m', m.operator_call p (some seen) = .returned m' () ∧
      m'.parameter_configurations_ = m.parameter_configurations_ ++ [p.configuration] ∧
      m'.converters_ = m.converters_ ++ [p.converter] ∧
      ∀ name id, map_find m.name_to_id_ name = some id →
        map_find m'.name_to_id_ name = some id := by
  unfold ParameterMap.operator_call
  simp only [h]
  refine ⟨_, rfl, ?_, ?_, ?_⟩
  · cases hc : p.configuration.category_ <;> simp [ParameterMap.AddParameterToCategory]
  · cases hc : p.configuration.category_ <;> simp [ParameterMap.AddParameterToCategory]
  · intro name id hid
    have hkeep : map_find (p.configuration.names_.foldl (fun acc name =>
        unordered_map_insert acc name m.parameter_configurations_.length) m.name_to_id_) name =
          some id := by
      rw [map_find_foldl_insert, hid]
      rfl
    cases hc : p.configuration.category_ <;>
      simp only [ParameterMap.AddParameterToCategory] <;> exact hkeep

/-- C2 fails on the code, at the keyword `-a` registered after the flag `-a`.  With the range
of the first loop intact the call throws `DuplicateParameterName`, as documented.  The loop
of the code reads a destroyed range: the call is undefined, and when the read faults nothing
is registered; when the read does not show the name `-a`, the call returns although the name
is registered, and leaves two descriptors named `-a`, the flag 0 and the keyword 1, with the
name still mapped to the flag. -/
theorem duplicate_check_reads_destroyed_range :
    (sample_flag_a_registry.operator_call_documented
        (Parameter.Keyword ["-a"] sample_converter)).exception? =
      some Exception.DuplicateParameterName ∧
    (sample_flag_a_registry.operator_call (Parameter.Keyword ["-a"] sample_converter)
        none).exception? = some Exception.undefined_behavior ∧
    (sample_flag_a_registry.operator_call (Parameter.Keyword ["-a"] sample_converter)
        (some [])).exception? = none ∧
    sample_taken_name_registry.parameter_configurations_.map
        (fun cfg => (cfg.names_, cfg.category_)) =
      [(["-a"], ParameterCategory.kFlag), (["-a"], ParameterCategory.kKeywordParameter)] ∧
    sample_taken_name_registry.converters_.length = 2 ∧
    sample_taken_name_registry.name_to_id_ = [("-a", 0)] ∧
    sample_taken_name_registry.flags_ = [0] ∧
    sample_taken_name_registry.keyword_parameters_ = [1] := by
  decide

/-- C1 fails on the code, at the attempts flag `-a`, keyword `-a`, keyword `--x`.  As
documented, the second attempt is rejected and `--x` is the success number 1, with
identifier 1.  When the duplicate check of the second call, reading its destroyed range,
does not show the name `-a`, the call returns: it is the success number 1 and holds
descriptor 1, but its name `-a` looks up to 0, and `--x` gets identifier 2. -/
theorem unseen_duplicate_shifts_identifiers :
    (sample_flag_a_registry.registerAll
        [Parameter.Keyword ["-a"] sample_converter,
          Parameter.Keyword ["--x"] sample_converter]).GetId "--x" = .ok 1 ∧
    (sample_taken_name_registry.parameter_configurations_[1]?).map
        (fun cfg => cfg.names_) = some ["-a"] ∧
    sample_taken_name_registry.GetId "-a" = .ok 0 ∧
    (sample_taken_name_registry.registerAll
        [Parameter.Keyword ["--x"] sample_converter]).GetId "-a" = .ok 0 ∧
    (sample_taken_name_registry.registerAll
        [Parameter.Keyword ["--x"] sample_converter]).GetId "--x" = .ok 2 :=
  ⟨rfl, rfl, rfl, rfl, rfl⟩

/-- C30 fails on the code, at the keyword `-a` registered after the flag `-a` with a
duplicate check that, reading its destroyed range, does not show the name: no two positional
descriptors share a position, there are two descriptors and two converters, and descriptor 1
carries the name `-a`, which the name map sends to 0; the registry is not well-formed. -/
theorem unseen_duplicate_breaks_name_map :
    DistinctPositions sample_taken_name_registry ∧
    sample_taken_name_registry.parameter_configurations_.length = 2 ∧
    sample_taken_name_registry.converters_.length = 2 ∧
    (∃ cfg, sample_taken_name_registry.descriptor? 1 = some cfg ∧ "-a" ∈ cfg.names_) ∧
    map_find sample_taken_name_registry.name_to_id_ "-a" = some 0 ∧
    ¬ WellFormed sample_taken_name_registry := by
  refine ⟨by decide, by decide, by decide, ⟨_, rfl, by decide⟩, by decide, fun hwf => ?_⟩
  have h := (hwf.names "-a" 1).2 ⟨_, rfl, by decide⟩
  revert h
  decide

/-! ## An untouched positional parameter under the cursor -/

/-- One token of the scan, with an empty positional parameter `pid` under the cursor: if the
token does not set `pid` when read as a list of flags, and a keyword is open when the token is
plain, then the cursor and the list of `pid` are after the token as they were. -/
theorem untouched_step (m : ParameterMap) (hwf : WellFormed m) (pos : Int) (pid : Nat)
    (s s1 : ParseState) (hs : ScanInv m s)
    (hcur : m.positional_parameters_[s.current_positional_it]? = some (pos, pid))
    (hempty : s.self.collected pid = []) (x : String)
    (hquiet : bundle_hits m pid x = 0)
    (hopen : IsPlain m x → s.current_keyword_it ≠ none)
    (h : parseArgument s x = .returned s1 ()) :
    s1.current_positional_it = s.current_positional_it ∧ s1.self.collected pid = [] := by
  have hpf : pid ∉ m.flags_ := positional_not_flag m hwf _ pos pid hcur
  obtain ⟨pcfg, hpcfg, hpcat, _⟩ := positional_descriptor m hwf _ pos pid hcur
  by_cases hp : IsPlain m x
  · cases hkw : s.current_keyword_it with
    | none => exact absurd hkw (hopen hp)
    | some k =>
      have hk := hs.keyword k hkw
      obtain ⟨cfg, hcfg, hcat⟩ := keyword_descriptor m hwf k hk
      have hpk : pid ≠ k := by
        intro e
        have hpcfg' : m.descriptor? k = some pcfg := e ▸ hpcfg
        rw [hcfg] at hpcfg'
        injection hpcfg' with hpcfg'
        rw [hpcfg', hpcat] at hcat
        exact absurd hcat (by decide)
      rw [parseArgument_plain m hwf s hs x hp,
        parseValue_keyword_built m s hs k cfg hkw hcfg x] at h
      injection h with h
      subst h
      have hlt := (descriptor_in_bounds m s hs k cfg hcfg).1
      refine ⟨?_, ?_⟩
      · rfl
      · simp only
        rw [collected_set s.self k pid _ hlt, if_neg hpk]
        exact hempty
  · have hcol := (nonplain_step m hwf s s1 hs x hp h pid hpf).2
    rw [hquiet, hempty] at hcol
    refine ⟨?_, hcol⟩
    by_cases hkw : IsKeywordName m x
    · obtain ⟨idk, h1, h2⟩ := (isKeywordName_iff m hwf x).1 hkw
      rw [parseArgument_keyword m s hs x idk h1 h2, parseKeyword_explicit m hwf s hs idk,
        hcur] at h
      simp only at h
      have hzero : ¬ (s.self.collected pid).length > 0 := by
        rw [hempty]
        exact Nat.lt_irrefl 0
      rw [if_neg hzero] at h
      injection h with h
      subst h
      rfl
    · by_cases hfl : IsFlagName m x
      · obtain ⟨idf, h1, h2⟩ := (isFlagName_iff m hwf x).1 hfl
        rw [parseArgument_flag m hwf s hs x idf h1 h2, parseFlag_built m hwf s hs idf h2] at h
        injection h with h
        subst h
        rfl
      · have hdash : BeginsWithDash x := by
          by_contra hnd
          exact hp ⟨hkw, hfl, hnd⟩
        rw [parseArgument_dash m hwf s hs x hkw hfl hdash] at h
        cases hlist : parseFlagList s.self (x.data.drop 1) with
        | thrown m' e =>
          rw [parseDash_thrown s x m' e hlist] at h
          exact absurd h (by simp)
        | returned m' u =>
          cases u
          rw [parseDash_returned s x m' hlist] at h
          injection h with h
          subst h
          rfl

/-- The tokens `xs` of the scan, with an empty positional parameter `pid` under the cursor: if
no token sets `pid` when read as a list of flags, and a keyword is open whenever a plain token
is scanned, then the cursor and the list of `pid` are after the tokens as they were. -/
theorem untouched_scan (m : ParameterMap) (hwf : WellFormed m) (pos : Int) (pid : Nat)
    (xs : List String) (s s' : ParseState) (hs : ScanInv m s)
    (hcur : m.positional_parameters_[s.current_positional_it]? = some (pos, pid))
    (hempty : s.self.collected pid = [])
    (hquiet : ∀ x ∈ xs, bundle_hits m pid x = 0)
    (hopen : ∀ i : Fin xs.length, IsPlain m (xs.get i) →
      (parseLoop s (xs.take i)).state.current_keyword_it ≠ none)
    (h : parseLoop s xs = .returned s' ()) :
    s'.current_positional_it = s.current_positional_it ∧ s'.self.collected pid = [] ∧
      ScanInv m s' := by
  induction xs generalizing s with
  | nil =>
    injection h with h
    subst h
    exact ⟨rfl, hempty, hs⟩
  | cons x xs ih =>
    cases hstep : parseArgument s x with
    | thrown s1 e =>
      rw [parseLoop_cons_thrown s s1 x xs e hstep] at h
      exact absurd h (by simp)
    | returned s1 u =>
      cases u
      rw [parseLoop_cons_returned s s1 x xs hstep] at h
      have hs1 := scanInv_of_returned m s s1 x hs hstep
      have h0 := untouched_step m hwf pos pid s s1 hs hcur hempty x
        (hquiet x (List.mem_cons_self x xs))
        (fun hp => hopen ⟨0, Nat.succ_pos _⟩ hp) hstep
      have hcur1 : m.positional_parameters_[s1.current_positional_it]? = some (pos, pid) := by
        rw [h0.1]
        exact hcur
      have hrest := ih s1 hs1 hcur1 h0.2 (fun y hy => hquiet y (List.mem_cons_of_mem x hy))
        (fun i hp => by
          have := hopen ⟨i.1 + 1, Nat.succ_lt_succ i.2⟩ hp
          rw [List.take_succ_cons, parseLoop_cons_returned s s1 x _ hstep] at this
          exact this) h
      exact ⟨hrest.1.trans h0.1, hrest.2.1, hrest.2.2⟩

/-- One token of the scan, with the positional parameter `pid` under the cursor: if a keyword
is open when the token is plain, and the list of `pid` is empty when the token is a keyword
name, then the cursor is after the token where it was. -/
theorem cursor_stays_step (m : ParameterMap) (hwf : WellFormed m) (pos : Int) (pid : Nat)
    (s s1 : ParseState) (hs : ScanInv m s)
    (hcur : m.positional_parameters_[s.current_positional_it]? = some (pos, pid))
    (x : String) (hopen : IsPlain m x → s.current_keyword_it ≠ none)
    (hkwe : IsKeywordName m x → s.self.collected pid = [])
    (h : parseArgument s x = .returned s1 ()) :
    s1.current_positional_it = s.current_positional_it := by
  by_cases hp : IsPlain m x
  · cases hkw : s.current_keyword_it with
    | none => exact absurd hkw (hopen hp)
    | some k =>
      obtain ⟨cfg, hcfg, _⟩ := keyword_descriptor m hwf k (hs.keyword k hkw)
      rw [parseArgument_plain m hwf s hs x hp,
        parseValue_keyword_built m s hs k cfg hkw hcfg x] at h
      injection h with h
      subst h
      rfl
  · by_cases hkw : IsKeywordName m x
    · obtain ⟨idk, h1, h2⟩ := (isKeywordName_iff m hwf x).1 hkw
      rw [parseArgument_keyword m s hs x idk h1 h2, parseKeyword_explicit m hwf s hs idk,
        hcur] at h
      simp only at h
      have hzero : ¬ (s.self.collected pid).length > 0 := by
        rw [hkwe hkw]
        exact Nat.lt_irrefl 0
      rw [if_neg hzero] at h
      injection h with h
      subst h
      rfl
    · by_cases hfl : IsFlagName m x
      · obtain ⟨idf, h1, h2⟩ := (isFlagName_iff m hwf x).1 hfl
        rw [parseArgument_flag m hwf s hs x idf h1 h2, parseFlag_built m hwf s hs idf h2] at h
        injection h with h
        subst h
        rfl
      · have hdash : BeginsWithDash x := by
          by_contra hnd
          exact hp ⟨hkw, hfl, hnd⟩
        rw [parseArgument_dash m hwf s hs x hkw hfl hdash] at h
        cases hlist : parseFlagList s.self (x.data.drop 1) with
        | thrown m' e =>
          rw [parseDash_thrown s x m' e hlist] at h
          exact absurd h (by simp)
        | returned m' u =>
          cases u
          rw [parseDash_returned s x m' hlist] at h
          injection h with h
          subst h
          rfl

/-- The tokens `xs` of the scan, with the positional parameter `pid` under the cursor: if a
keyword is open whenever a plain token is scanned, and the list of `pid` is empty whenever a
keyword name is scanned, then the cursor is after the tokens where it was. -/
theorem cursor_stays_scan (m : ParameterMap) (hwf : WellFormed m) (pos : Int) (pid : Nat)
    (xs : List String) (s s' : ParseState) (hs : ScanInv m s)
    (hcur : m.positional_parameters_[s.current_positional_it]? = some (pos, pid))
    (hopen : ∀ i : Fin xs.length, IsPlain m (xs.get i) →
      (parseLoop s (xs.take i)).state.current_keyword_it ≠ none)
    (hkwe : ∀ i : Fin xs.length, IsKeywordName m (xs.get i) →
      (parseLoop s (xs.take i)).state.self.collected pid = [])
    (h : parseLoop s xs = .returned s' ()) :
    s'.current_positional_it = s.current_positional_it ∧ ScanInv m s' := by
  induction xs generalizing s with
  | nil =>
    injection h with h
    subst h
    exact ⟨rfl, hs⟩
  | cons x xs ih =>
    cases hstep : parseArgument s x with
    | thrown s1 e =>
      rw [parseLoop_cons_thrown s s1 x xs e hstep] at h
      exact absurd h (by simp)
    | returned s1 u =>
      cases u
      rw [parseLoop_cons_returned s s1 x xs hstep] at h
      have hs1 := scanInv_of_returned m s s1 x hs hstep
      have h0 := cursor_stays_step m hwf pos pid s s1 hs hcur x
        (fun hp => hopen ⟨0, Nat.succ_pos _⟩ hp)
        (fun hk => hkwe ⟨0, Nat.succ_pos _⟩ hk) hstep
      have hcur1 : m.positional_parameters_[s1.current_positional_it]? = some (pos, pid) := by
        rw [h0]
        exact hcur
      have hrest := ih s1 hs1 hcur1
        (fun i hp => by
          have := hopen ⟨i.1 + 1, Nat.succ_lt_succ i.2⟩ hp
          rw [List.take_succ_cons, parseLoop_cons_returned s s1 x _ hstep] at this
          exact this)
        (fun i hk => by
          have := hkwe ⟨i.1 + 1, Nat.succ_lt_succ i.2⟩ hk
          rw [List.take_succ_cons, parseLoop_cons_returned s s1 x _ hstep] at this
          exact this) h
      exact ⟨hrest.1.trans h0, hrest.2⟩

/-- C29: in a registry built by registration, let the scan have reached the state `s` after
the tokens `pre`, with the positional parameter `pid` under the cursor and its list empty, and
let `t` be a name of the keyword parameter `k`.  Scanning `t` opens `k` and leaves the cursor
and all collected lists as they are, whether the list of `k` is below, at or over its maximum.
Let the scan then go through any tokens `mid` and reach the state `s₂` with no keyword open,
where every plain token of `mid` is scanned while a keyword is open, so that a plain token `u`
that comes next is the first one scanned after the keyword has closed, and every keyword name
in `mid` is, like `t`, scanned while the list of `pid` is empty.  Then the cursor is on `pid`
still, and scanning `u` returns and appends `u` to the list of `pid`; no other list and no
report changes.  The list of `pid` is then `u` alone, unless a token of `mid` was read as a
list of flags with a character that names `pid`. -/
theorem keyword_keeps_untouched_positional (format : HelpStringFormat) (ps : List Parameter)
    (pre : List String) (s : ParseState) (pos : Int) (pid : Nat) (t : String) (k : Nat)
    (cfg : ParameterConfiguration)
    (hpre : parseLoop (parseStart ((ParameterMap.init format).registerAll ps)) pre =
      .returned s ())
    (hcur : ((ParameterMap.init format).registerAll ps).positional_parameters_[
      s.current_positional_it]? = some (pos, pid))
    (hempty : s.self.collected pid = [])
    (hcfg : ((ParameterMap.init format).registerAll ps).descriptor? k = some cfg)
    (hcat : cfg.category_ = ParameterCategory.kKeywordParameter) (ht : t ∈ cfg.names_) :
    (∃ s₁, parseArgument s t = .returned s₁ () ∧
      s₁.current_positional_it = s.current_positional_it ∧
      s₁.current_keyword_it = some k ∧ s₁.self = s.self ∧
      s₁.invalid_arguments = s.invalid_arguments) ∧
    ∀ (mid : List String) (s₂ : ParseState) (u : String),
      parseLoop s (t :: mid) = .returned s₂ () →
      (∀ i : Fin mid.length, IsPlain ((ParameterMap.init format).registerAll ps) (mid.get i) →
        (parseLoop s (t :: mid.take i)).state.current_keyword_it ≠ none) →
      (∀ i : Fin mid.length,
        IsKeywordName ((ParameterMap.init format).registerAll ps) (mid.get i) →
        (parseLoop s (t :: mid.take i)).state.self.collected pid = []) →
      s₂.current_keyword_it = none →
      IsPlain ((ParameterMap.init format).registerAll ps) u →
      s₂.current_positional_it = s.current_positional_it ∧
      (∃ s', parseLoop s (t :: (mid ++ [u])) = .returned s' () ∧
        s'.self.collected pid = s₂.self.collected pid ++ [u] ∧
        (∀ j, j ≠ pid → s'.self.collected j = s₂.self.collected j) ∧
        s'.invalid_arguments = s₂.invalid_arguments) ∧
      ((∀ x ∈ mid, bundle_hits ((ParameterMap.init format).registerAll ps) pid x = 0) →
        s₂.self.collected pid = []) := by
  have hwf := wellFormed_built format ps
  generalize (ParameterMap.init format).registerAll ps = m at hwf hpre hcur hcfg ⊢
  have hs : ScanInv m s := by
    have := scanInv_parseLoop m pre (parseStart m) (scanInv_parseStart m)
    rw [hpre] at this
    exact this
  have hk : k ∈ m.keyword_parameters_ := (hwf.keywords k).2 ⟨cfg, hcfg, hcat⟩
  have hlook : map_find m.name_to_id_ t = some k := (hwf.names t k).2 ⟨cfg, hcfg, ht⟩
  obtain ⟨pcfg, hpcfg, hpcat, _⟩ := positional_descriptor m hwf _ pos pid hcur
  have hfind : unordered_set_find m.keyword_parameters_ k = some k := by
    unfold unordered_set_find
    rw [if_pos hk]
  have hstep := (parseArgument_keyword m s hs t k hlook hk).trans
    (parseKeyword_explicit m hwf s hs k)
  rw [hcur, hfind] at hstep
  simp only at hstep
  have hzero : ¬ (s.self.collected pid).length > 0 := by
    rw [hempty]
    exact Nat.lt_irrefl 0
  rw [if_neg hzero] at hstep
  have hs1 := scanInv_of_returned m s _ t hs hstep
  refine ⟨⟨_, hstep, rfl, rfl, rfl, rfl⟩, ?_⟩
  intro mid s₂ u hmid hopen hkwe hclosed hu
  rw [parseLoop_cons_returned s _ t mid hstep] at hmid
  have hopen1 := fun (i : Fin mid.length) (hp : IsPlain m (mid.get i)) => by
    have := hopen i hp
    rw [parseLoop_cons_returned s _ t _ hstep] at this
    exact this
  obtain ⟨hcur2, hs2⟩ := cursor_stays_scan m hwf pos pid mid _ s₂ hs1 hcur hopen1
    (fun i hkn => by
      have := hkwe i hkn
      rw [parseLoop_cons_returned s _ t _ hstep] at this
      exact this) hmid
  have hcur2' : s₂.current_positional_it = s.current_positional_it := hcur2
  have hcur3 : m.positional_parameters_[s₂.current_positional_it]? = some (pos, pid) := by
    rw [hcur2']
    exact hcur
  have hstep3 := (parseArgument_plain m hwf s₂ hs2 u hu).trans
    (parseValue_positional_built m s₂ hs2 pos pid pcfg hclosed hcur3 hpcfg u)
  have hlt := (descriptor_in_bounds m s₂ hs2 pid pcfg hpcfg).1
  have hloop : parseLoop s (t :: (mid ++ [u])) = parseLoop s₂ [u] := by
    rw [parseLoop_cons_returned s _ t _ hstep, parseLoop_append, hmid]
  refine ⟨hcur2', ⟨_, hloop.trans ((parseLoop_cons_returned s₂ _ u [] hstep3).trans rfl),
    ?_, ?_, rfl⟩, ?_⟩
  · simp only
    rw [collected_set s₂.self pid pid _ hlt, if_pos rfl]
  · intro j hj
    simp only
    rw [collected_set s₂.self pid j _ hlt, if_neg hj]
  · intro hquiet
    exact (untouched_scan m hwf pos pid mid _ s₂ hs1 hcur hempty hquiet hopen1 hmid).2.1

/-- C29 at a concrete input: at the start of the scan `P` is under the cursor and empty.  The
keyword `--k` (maximum 1) takes `v` and closes; named again, with `P` empty still, it is open
with its list at the maximum and takes `w`; the flag `-a` closes it, and `u` goes to `P`. -/
theorem keyword_keeps_untouched_positional_witness :
    (∀ i : Fin ["v", "--k", "w", "-a"].length,
      IsPlain ((ParameterMap.init sample_format).registerAll sample_unbounded_attempts)
        (["v", "--k", "w", "-a"].get i) →
      (parseLoop
        (parseStart ((ParameterMap.init sample_format).registerAll sample_unbounded_attempts))
        ("--k" :: ["v", "--k", "w", "-a"].take i)).state.current_keyword_it ≠ none) ∧
    (∀ i : Fin ["v", "--k", "w", "-a"].length,
      IsKeywordName ((ParameterMap.init sample_format).registerAll sample_unbounded_attempts)
        (["v", "--k", "w", "-a"].get i) →
      (parseLoop
        (parseStart ((ParameterMap.init sample_format).registerAll sample_unbounded_attempts))
        ("--k" :: ["v", "--k", "w", "-a"].take i)).state.self.collected 0 = []) ∧
    IsPlain ((ParameterMap.init sample_format).registerAll sample_unbounded_attempts) "u" ∧
    ∃ s', parseLoop
        (parseStart ((ParameterMap.init sample_format).registerAll sample_unbounded_attempts))
        ("--k" :: (["v", "--k", "w", "-a"] ++ ["u"])) = .returned s' () ∧
      s'.self.collected 0 = ["u"] ∧ s'.self.collected 3 = ["v", "w"] :=
  ⟨by decide, by decide, by decide,
    (((keyword_keeps_untouched_positional sample_format sample_unbounded_attempts [] _ 0 0
      "--k" 3 (Parameter.Keyword ["--k"] sample_converter).configuration_ rfl rfl rfl rfl
      (by decide) (by decide)).2 ["v", "--k", "w", "-a"] _ "u" rfl (by decide) (by decide)
      (by decide) (by decide)).2.1).imp
      (fun _ h => ⟨h.1, h.2.1.trans (by decide), (h.2.2.1 3 (by decide)).trans (by decide)⟩)⟩

/-! ## Duplicate positions and the branch of the flag lists -/

/-- C31 fails on the code when the positional parameter registered second has a name of the
form `-c`.  `A` and `-q` are registered at position 0: both names look up, and `A` alone is in
the positional index.  On `cmd -q` the token `-q` is read as a list of flags, whose branch
tests the name map only: `parse` returns, the list of the positional parameter `-q` holds
`true`, and `HasArgument("-q")` is true. -/
theorem duplicate_position_takes_flag_list :
    sample_dash_duplicate_registry.parameter_configurations_.map
        (fun cfg => (cfg.names_, cfg.category_, cfg.position_)) =
      [(["A"], ParameterCategory.kPositionalParameter, 0),
        (["-q"], ParameterCategory.kPositionalParameter, 0)] ∧
    sample_dash_duplicate_registry.name_to_id_ = [("A", 0), ("-q", 1)] ∧
    sample_dash_duplicate_registry.positional_parameters_ = [(0, 0)] ∧
    (sample_dash_duplicate_registry.parse ["cmd", "-q"]).exception? = none ∧
    (sample_dash_duplicate_registry.parse ["cmd", "-q"]).state.collected 1 = ["true"] ∧
    (sample_dash_duplicate_registry.parse ["cmd", "-q"]).state.HasArgument "-q" = .ok true :=
  ⟨by decide, by decide, by decide, by decide, by decide, rfl⟩

end ArgParseConvert
